import Mathlib

/-!
WLP4 compiler: parser, context-sensitive analysis and tree optimizer.

A shallow embedding of `src/parser/wlp4parse.cc` (the table-driven shift-reduce
parse loop), of `src/context_sensitive_analysis/wlp4type.cc` (`annotateTypes`)
and of the tree optimizer of `src/codegen/wlp4gen.cc` (`optimizeTree`).

Conventions of the embedding.

* A `std::vector` that the source uses as a stack (`push_back`, `back`,
  `pop_back`) is a `List` whose head is the back of the vector.  Every other
  vector is a `List` in index order.
* An operation the C++ standard leaves undefined (`back()` of an empty vector,
  `v[i]` with `i` out of range) is the fault `undefined`; a
  `throw std::runtime_error(m)` is the fault `runtime_error m`.
* Loops that need not terminate take a step budget; running out of it is the
  fault `out_of_fuel`.
-/

set_option autoImplicit false

namespace wlp4parse

/-- The `Token` struct of wlp4parse.cc. -/
structure Token where
  kind : String
  lexeme : String
deriving DecidableEq, Repr

/-- The `ParseTreeNode` struct of wlp4parse.cc: `value` and `children`.  The
third field is specification-only: it records the token a node was created
from by a shift (`none` for a node created by a reduce); the program never
reads it. -/
inductive ParseTreeNode where
  | mk (value : String) (children : List ParseTreeNode) (shifted : Option Token)

/-- Ways in which a run of the parse loop can fail to produce a result. -/
inductive Fault where
  | runtime_error (what : String)
  | undefined (what : String)
  | out_of_fuel
deriving DecidableEq, Repr

/-- The three tables read from `WLP4_COMBINED` (the header is not in the
repository, so the tables are a parameter).  `transitions s` and
`reductions s` are the vectors `transitions[s]` and `reductions[s]`, empty
for a state without entries. -/
structure Tables where
  productionRules : List (String × List String)
  transitions : Int → List (String × Int)
  reductions : Int → List (Int × String)

/-- The local variables of `main` that the parse loop updates. -/
structure State where
  unread_position : Nat
  stack : List String
  stateStack : List Int
  parseTreeStack : List ParseTreeNode
  accepted : Bool

def ParseTreeNode.value : ParseTreeNode → String
  | .mk v _ _ => v

def ParseTreeNode.children : ParseTreeNode → List ParseTreeNode
  | .mk _ cs _ => cs

def ParseTreeNode.shifted : ParseTreeNode → Option Token
  | .mk _ _ t => t

mutual
/-- The lines `printPreOrder` writes for a node. -/
def printPreOrder : ParseTreeNode → List String
  | .mk v cs _ => v :: printPreOrderList cs
def printPreOrderList : List ParseTreeNode → List String
  | [] => []
  | c :: cs => printPreOrder c ++ printPreOrderList cs
end

mutual
/-- The tokens wrapped by the shifted leaves of a tree, left to right. -/
def leaves : ParseTreeNode → List Token
  | .mk _ cs none => leavesList cs
  | .mk _ cs (some t) => t :: leavesList cs
def leavesList : List ParseTreeNode → List Token
  | [] => []
  | c :: cs => leaves c ++ leavesList cs
end

/-- Leaves of the whole parse-tree stack, from its bottom to its top. -/
def stackLeaves : List ParseTreeNode → List Token
  | [] => []
  | top :: below => stackLeaves below ++ leaves top

/-- The `unread` vector: BOF, the tokens read from standard input, EOF. -/
def bracket (input : List Token) : List Token :=
  Token.mk "BOF" "BOF" :: (input ++ [Token.mk "EOF" "EOF"])

/-- The scan of `reductions[currentState]` (lines 259-270): the first entry
whose tag is the lookahead kind, or is `.ACCEPT`, decides.  The result is the
rule number and whether `accepted` is set; `none` means the action stays
"shift". -/
def selectAction (lookahead : Option String) : List (Int × String) → Option (Int × Bool)
  | [] => none
  | (rule, tag) :: rest =>
    if lookahead = some tag then some (rule, false)
    else if tag = ".ACCEPT" then some (rule, true)
    else selectAction lookahead rest

/-- The scan of a `transitions[s]` vector for a symbol (lines 280-286 and
337-342): the target of the first matching entry. -/
def findTransition (symbol : String) : List (String × Int) → Option Int
  | [] => none
  | (sym, target) :: rest => if sym = symbol then some target else findTransition symbol rest

/-- The shift branch (lines 272-290). -/
def shift (g : Tables) (unread : List Token) (currentState : Int) (s : State) :
    Except Fault State :=
  match unread.get? s.unread_position with
  | none => .error (.undefined "unread[unread_position]")
  | some tok =>
    let stack := tok.kind :: s.stack
    let newNode := ParseTreeNode.mk (tok.kind ++ " " ++ tok.lexeme) [] (some tok)
    let parseTreeStack := newNode :: s.parseTreeStack
    let unread_position := s.unread_position + 1
    match findTransition tok.kind (g.transitions currentState) with
    | some target =>
      .ok { unread_position := unread_position, stack := stack,
            stateStack := target :: s.stateStack, parseTreeStack := parseTreeStack,
            accepted := s.accepted }
    | none => .error (.runtime_error ("ERROR at " ++ toString (unread_position - 1)))

/-- The pop loop of the reduce branch (lines 313-331).  Its first argument is
the part of `ruleRHS` not yet visited, last symbol first. -/
def popLoop : List String → List String → List Int → List ParseTreeNode →
    List ParseTreeNode →
    Except Fault (List String × List Int × List ParseTreeNode × List ParseTreeNode)
  | [], stack, stateStack, parseTreeStack, children =>
    .ok (stack, stateStack, parseTreeStack, children)
  | sym :: rest, stack, stateStack, parseTreeStack, children =>
    if sym = ".EMPTY" then .ok (stack, stateStack, parseTreeStack, children)
    else
      match stack with
      | [] => .error (.undefined "stack.back()")
      | top :: stack1 =>
        if sym ≠ top then .error (.runtime_error "Can't match tokens on reduce")
        else
          let (children1, parseTreeStack1) :=
            match parseTreeStack with
            | [] => (children, [])
            | node :: below => (node :: children, below)
          match stateStack with
          | [] => .error (.undefined "stateStack.pop_back()")
          | _ :: stateStack1 => popLoop rest stack1 stateStack1 parseTreeStack1 children1

/-- The string `productionRule` built at lines 306-309. -/
def productionRuleText (ruleLHS : String) (ruleRHS : List String) : String :=
  ruleRHS.foldl (fun acc rhs => acc ++ (" " ++ rhs)) ruleLHS

/-- The reduce branch (lines 298-349) for rule `ruleNumber`. -/
def reduce (g : Tables) (ruleNumber : Int) (accepted : Bool) (s : State) :
    Except Fault State :=
  if ruleNumber < 0 then .error (.undefined "productionRules[ruleNumber]")
  else
    match g.productionRules.get? ruleNumber.toNat with
    | none => .error (.undefined "productionRules[ruleNumber]")
    | some (ruleLHS, ruleRHS) =>
      match popLoop ruleRHS.reverse s.stack s.stateStack s.parseTreeStack [] with
      | .error e => .error e
      | .ok (stack1, stateStack1, parseTreeStack1, children) =>
        let newNode := ParseTreeNode.mk (productionRuleText ruleLHS ruleRHS) children none
        match stateStack1 with
        | [] => .error (.undefined "stateStack.back()")
        | below :: _ =>
          let stateStack2 :=
            match findTransition ruleLHS (g.transitions below) with
            | some target => target :: stateStack1
            | none => stateStack1
          .ok { unread_position := s.unread_position, stack := ruleLHS :: stack1,
                stateStack := stateStack2, parseTreeStack := newNode :: parseTreeStack1,
                accepted := accepted }

/-- One iteration of the `while` loop (lines 219-350). -/
def step (g : Tables) (unread : List Token) (s : State) : Except Fault State :=
  match s.stateStack with
  | [] => .error (.undefined "stateStack.back()")
  | currentState :: _ =>
    match selectAction ((unread.get? s.unread_position).map Token.kind)
        (g.reductions currentState) with
    | none => shift g unread currentState s
    | some (ruleNumber, acc) => reduce g ruleNumber (s.accepted || acc) s

/-- The loop condition `unread_position < unread.size() || !accepted`. -/
def continues (unread : List Token) (s : State) : Bool :=
  decide (s.unread_position < unread.length) || !s.accepted

/-- The `while` loop, run for at most `fuel` iterations. -/
def parseLoop (g : Tables) (unread : List Token) : Nat → State → Except Fault State
  | 0, s => if continues unread s then .error .out_of_fuel else .ok s
  | fuel + 1, s =>
    if continues unread s then
      match step g unread s with
      | .error e => .error e
      | .ok s1 => parseLoop g unread fuel s1
    else .ok s

/-- The state before the first iteration (lines 84-96). -/
def initial : State :=
  { unread_position := 0, stack := [], stateStack := [0], parseTreeStack := [],
    accepted := false }

/-- The try block of `main` on the tokens of standard input: the final state of
the loop.  Afterwards `main` prints `parseTreeStack.back()`, the root. -/
def parse (g : Tables) (input : List Token) (fuel : Nat) : Except Fault State :=
  parseLoop g (bracket input) fuel initial

/-- The node `main` prints after the loop (lines 368-371), when there is one. -/
def root (s : State) : Option ParseTreeNode := s.parseTreeStack.head?

/-- The right-hand-side symbols the pop loop visits: those after the last
`.EMPTY` of the rule (all of them when the rule has none). -/
def poppedSymbols (ruleRHS : List String) : List String :=
  (ruleRHS.reverse.takeWhile (fun sym => decide (sym ≠ ".EMPTY"))).reverse

/-- A table in which a state accepts before anything was read: rule 0 is
`S -> .EMPTY`, tagged `.ACCEPT` in state 0. -/
def earlyAccept : Tables :=
  { productionRules := [("S", [".EMPTY"])],
    transitions := fun s =>
      if s = 0 then [("S", 1)] else if s = 1 then [("BOF", 2)]
      else if s = 2 then [("EOF", 3)] else [],
    reductions := fun s => if s = 0 then [(0, ".ACCEPT")] else [] }

/-- A small table for the language `BOF ID EOF`:
rule 0 is `start -> BOF item EOF`, rule 1 is `item -> ID`. -/
def tiny : Tables :=
  { productionRules := [("start", ["BOF", "item", "EOF"]), ("item", ["ID"])],
    transitions := fun s =>
      if s = 0 then [("BOF", 1)] else if s = 1 then [("ID", 2), ("item", 3)]
      else if s = 3 then [("EOF", 4)] else [],
    reductions := fun s =>
      if s = 2 then [(1, "EOF")] else if s = 4 then [(0, ".ACCEPT")] else [] }

/-- Final state of the run of `earlyAccept` on the empty input. -/
def earlyAcceptFinal : State :=
  { unread_position := 2, stack := ["EOF", "BOF", "S"], stateStack := [3, 2, 1, 0],
    parseTreeStack :=
      [.mk "EOF EOF" [] (some ⟨"EOF", "EOF"⟩), .mk "BOF BOF" [] (some ⟨"BOF", "BOF"⟩),
       .mk "S .EMPTY" [] none],
    accepted := true }

/-- Final state of the run of `tiny` on the single token `ID x`. -/
def tinyFinal : State :=
  { unread_position := 3, stack := ["start"], stateStack := [0],
    parseTreeStack :=
      [.mk "start BOF item EOF"
        [.mk "BOF BOF" [] (some ⟨"BOF", "BOF"⟩),
         .mk "item ID" [.mk "ID x" [] (some ⟨"ID", "x"⟩)] none,
         .mk "EOF EOF" [] (some ⟨"EOF", "EOF"⟩)] none],
    accepted := true }

/-- State of the run of `tiny` on `ID x` after BOF and `ID x` were shifted. -/
def tinyShifted : State :=
  { unread_position := 2, stack := ["ID", "BOF"], stateStack := [2, 1, 0],
    parseTreeStack :=
      [.mk "ID x" [] (some ⟨"ID", "x"⟩), .mk "BOF BOF" [] (some ⟨"BOF", "BOF"⟩)],
    accepted := false }

/-- The states the loop can be in at the top of an iteration. -/
inductive Reachable (g : Tables) (unread : List Token) : State → Prop
  | start : Reachable g unread initial
  | next {s s1 : State} : Reachable g unread s → step g unread s = .ok s1 →
      Reachable g unread s1

end wlp4parse


/-! ## Context-sensitive analysis: `wlp4type.cc` -/

namespace wlp4type

/-- The `Token` struct of wlp4type.cc; the default constructor gives two empty
strings. -/
structure Token where
  kind : String
  lexeme : String
deriving DecidableEq, Repr

/-- The `ParseTreeNode` struct of wlp4type.cc. -/
inductive ParseTreeNode where
  | mk (prodRuleLHS : String) (prodRuleRHS : List String) (token : Token)
      (children : List ParseTreeNode) (type : String) (wellTyped : Bool)

namespace ParseTreeNode

def prodRuleLHS : ParseTreeNode → String
  | .mk lhs _ _ _ _ _ => lhs

def prodRuleRHS : ParseTreeNode → List String
  | .mk _ rhs _ _ _ _ => rhs

def token : ParseTreeNode → Token
  | .mk _ _ tok _ _ _ => tok

def children : ParseTreeNode → List ParseTreeNode
  | .mk _ _ _ cs _ _ => cs

def type : ParseTreeNode → String
  | .mk _ _ _ _ ty _ => ty

def wellTyped : ParseTreeNode → Bool
  | .mk _ _ _ _ _ wt => wt

/-- The constructor `ParseTreeNode(prodRuleLHS, prodRuleRHS, children)`. -/
def internal (lhs : String) (rhs : List String) (cs : List ParseTreeNode) : ParseTreeNode :=
  .mk lhs rhs ⟨"", ""⟩ cs "" false

/-- The constructor `ParseTreeNode(Token t)`. -/
def terminal (t : Token) : ParseTreeNode :=
  .mk "" [] t [] "" false

/-- The method `isTerminal`: the token kind is not the empty string. -/
def isTerminal (n : ParseTreeNode) : Bool :=
  !(n.token.kind == "")

/-- The assignment `node->type = t`. -/
def setType (t : String) : ParseTreeNode → ParseTreeNode
  | .mk lhs rhs tok cs _ wt => .mk lhs rhs tok cs t wt

/-- The assignment `node->wellTyped = true`. -/
def setWellTyped : ParseTreeNode → ParseTreeNode
  | .mk lhs rhs tok cs ty _ => .mk lhs rhs tok cs ty true

/-- The node with its `children` vector replaced. -/
def setChildren (cs : List ParseTreeNode) : ParseTreeNode → ParseTreeNode
  | .mk lhs rhs tok _ ty wt => .mk lhs rhs tok cs ty wt

end ParseTreeNode

/-- Ways in which `annotateTypes` can fail to return. -/
inductive Fault where
  | runtime_error (what : String)
  | undefined (what : String)
deriving DecidableEq, Repr

/-- The inner `unordered_map<string, string>`: variable name to type. -/
abbrev VarTable := List (String × String)

/-- The global `symbol_table`: procedure name to its parameter types and its
variable table.  An `unordered_map` is a list of key-value pairs in which only
the first pair of a key counts. -/
abbrev SymbolTable := List (String × (List String × VarTable))

/-- The value stored under a key (`find`), if any. -/
def lookup {β : Type} (k : String) : List (String × β) → Option β
  | [] => none
  | (k1, v) :: rest => if k1 = k then some v else lookup k rest

/-- The map after `m[k] = v`. -/
def assign {β : Type} (k : String) (v : β) : List (String × β) → List (String × β)
  | [] => [(k, v)]
  | (k1, v1) :: rest => if k1 = k then (k, v) :: rest else (k1, v1) :: assign k v rest

/-- The map after the expression `m[k]` was evaluated: a missing key is
inserted with the default value `d`. -/
def touch {β : Type} (d : β) (k : String) (m : List (String × β)) : List (String × β) :=
  match lookup k m with
  | some _ => m
  | none => assign k d m

/-- The value of the expression `m[k]`. -/
def valueAt {β : Type} (d : β) (k : String) (m : List (String × β)) : β :=
  (lookup k m).getD d

/-- A computation of the analysis: it reads and updates the global
`symbol_table` and either returns or fails; the table survives a failure (the
`catch` in `main` prints it). -/
def TC (α : Type) : Type := SymbolTable → Except Fault α × SymbolTable

namespace TC

def pure {α : Type} (a : α) : TC α := fun st => (.ok a, st)

def bind {α β : Type} (x : TC α) (f : α → TC β) : TC β := fun st =>
  match x st with
  | (.ok a, st1) => f a st1
  | (.error e, st1) => (.error e, st1)

/-- A `throw std::runtime_error(what)`. -/
def raise {α : Type} (what : String) : TC α := fun st => (.error (.runtime_error what), st)

/-- An operation with undefined behaviour. -/
def undefined {α : Type} (what : String) : TC α := fun st => (.error (.undefined what), st)

end TC

instance : Monad TC where
  pure := TC.pure
  bind := TC.bind

/-- The test `symbol_table.find(name) != symbol_table.end()`. -/
def findProcedure (name : String) : TC Bool := fun st =>
  (.ok (lookup name st).isSome, st)

/-- The statement `symbol_table[name] = make_pair(vector<string>(), unordered_map<string, string>())`. -/
def declareProcedure (name : String) : TC Unit := fun st =>
  (.ok (), assign name ([], []) st)

/-- The test `symbol_table[ctx].second.find(name) != symbol_table[ctx].second.end()`. -/
def findVariable (ctx name : String) : TC Bool := fun st =>
  (.ok (lookup name (valueAt ([], []) ctx st).2).isSome, touch ([], []) ctx st)

/-- The statement `symbol_table[ctx].second[name] = type`. -/
def setVariable (ctx name type : String) : TC Unit := fun st =>
  let entry := valueAt ([], []) ctx st
  (.ok (), assign ctx (entry.1, assign name type entry.2) st)

/-- The expression `symbol_table[ctx].second[name]`. -/
def getVariable (ctx name : String) : TC String := fun st =>
  let entry := valueAt ([], []) ctx st
  (.ok (valueAt "" name entry.2), assign ctx (entry.1, touch "" name entry.2) st)

/-- The statement `symbol_table[ctx].first.emplace_back(type)`. -/
def pushParameter (ctx type : String) : TC Unit := fun st =>
  let entry := valueAt ([], []) ctx st
  (.ok (), assign ctx (entry.1 ++ [type], entry.2) st)

/-- The expression `symbol_table[name].first`. -/
def signature (name : String) : TC (List String) := fun st =>
  (.ok (valueAt ([], []) name st).1, touch ([], []) name st)

/-- The expression `children[i]`. -/
def child (cs : List ParseTreeNode) (i : Nat) : TC ParseTreeNode :=
  match cs.get? i with
  | some c => pure c
  | none => TC.undefined "children[i]"

/-- A condition of the dispatch chain: `none` when evaluating it is undefined. -/
abbrev Cond := Option Bool

/-- The comparison `prodRuleRHS[i] == s`. -/
def rhsIs (rhs : List String) (i : Nat) (s : String) : Cond :=
  (rhs.get? i).map (fun r => decide (r = s))

/-- The short-circuit `a && b`. -/
def Cond.and (a : Bool) (b : Cond) : Cond :=
  if a then b else some false

/-- The branches of the `if`/`else if` chain of `annotateTypes`, in source order. -/
inductive Handler where
  | start | proceduresMain | proceduresProcedure | main | procedure | params
  | paramlist | dcl | dcls | useID | exprBinary | termBinary | addressOf
  | dereference | newArray | lvalueParen | call | arglistOne | arglistMany
  | exprTerm | termFactor | factorNum | factorNull | factorParen
  | statementsEmpty | statementsMore | assignment | ifElse | whileLoop
  | println | delete | test
deriving DecidableEq, Repr

/-- The conditions of the chain (lines 195-649), each with its branch. -/
def chain (lhs : String) (rhs : List String) : List (Cond × Handler) :=
  [ (some (lhs = "start"), .start),
    (Cond.and (lhs = "procedures") (rhsIs rhs 0 "main"), .proceduresMain),
    (Cond.and (lhs = "procedures") (rhsIs rhs 0 "procedure"), .proceduresProcedure),
    (some (lhs = "main"), .main),
    (some (lhs = "procedure"), .procedure),
    (Cond.and (lhs = "params") (rhsIs rhs 0 "paramlist"), .params),
    (some (lhs = "paramlist"), .paramlist),
    (some (lhs = "dcl"), .dcl),
    (some (lhs = "dcls" && rhs.length = 5), .dcls),
    (Cond.and ((lhs = "factor" || lhs = "lvalue") && rhs.length = 1) (rhsIs rhs 0 "ID"), .useID),
    (some (lhs = "expr" && rhs.length = 3), .exprBinary),
    (some (lhs = "term" && rhs.length = 3), .termBinary),
    (Cond.and (lhs = "factor") (rhsIs rhs 0 "AMP"), .addressOf),
    (Cond.and (lhs = "factor" || lhs = "lvalue") (rhsIs rhs 0 "STAR"), .dereference),
    (Cond.and (lhs = "factor") (rhsIs rhs 0 "NEW"), .newArray),
    (some (lhs = "lvalue" && rhs.length = 3), .lvalueParen),
    (Cond.and (lhs = "factor")
      ((rhsIs rhs 0 "ID").map (fun b => b && decide (rhs.length > 1))), .call),
    (some (lhs = "arglist" && rhs.length = 1), .arglistOne),
    (Cond.and (lhs = "arglist")
      ((rhsIs rhs 0 "expr").bind (fun b => Cond.and b (rhsIs rhs 1 "COMMA"))), .arglistMany),
    (Cond.and (lhs = "expr") (rhsIs rhs 0 "term"), .exprTerm),
    (Cond.and (lhs = "term") (rhsIs rhs 0 "factor"), .termFactor),
    (Cond.and (lhs = "factor") (rhsIs rhs 0 "NUM"), .factorNum),
    (Cond.and (lhs = "factor") (rhsIs rhs 0 "NULL"), .factorNull),
    (Cond.and (lhs = "factor") (rhsIs rhs 0 "LPAREN"), .factorParen),
    (Cond.and (lhs = "statements") (rhsIs rhs 0 ".EMPTY"), .statementsEmpty),
    (Cond.and (lhs = "statements") (rhsIs rhs 0 "statements"), .statementsMore),
    (Cond.and (lhs = "statement") (rhsIs rhs 0 "lvalue"), .assignment),
    (Cond.and (lhs = "statement") (rhsIs rhs 0 "IF"), .ifElse),
    (Cond.and (lhs = "statement") (rhsIs rhs 0 "WHILE"), .whileLoop),
    (Cond.and (lhs = "statement") (rhsIs rhs 0 "PRINTLN"), .println),
    (Cond.and (lhs = "statement") (rhsIs rhs 0 "DELETE"), .delete),
    (some (lhs = "test"), .test) ]

/-- Evaluation of the chain from its first condition: the branch of the first
condition that holds, `none` when no condition holds, a fault when a
condition that is reached is undefined. -/
def firstMatch : List (Cond × Handler) → Except Fault (Option Handler)
  | [] => .ok none
  | (none, _) :: _ => .error (.undefined "prodRuleRHS[i]")
  | (some true, h) :: _ => .ok (some h)
  | (some false, _) :: rest => firstMatch rest

/-- The branch `annotateTypes` takes for a non-terminal node. -/
def dispatch (lhs : String) (rhs : List String) : Except Fault (Option Handler) :=
  firstMatch (chain lhs rhs)

/-- A recursive call `annotateTypes(node->children[i], function_name,
variable_context)`: it returns the annotated child. -/
abbrev Rec := Nat → String → String → TC ParseTreeNode

/-- The `while` loop of the `arglist` branch continued at `argNode->children[i]`:
it returns the annotated child and the argument types collected from it on. -/
abbrev Walk := Nat → String → String → TC (ParseTreeNode × List String)

/-- The node after `node->children[i]` was replaced by its annotated version. -/
def ParseTreeNode.setChild (node : ParseTreeNode) (i : Nat) (c : ParseTreeNode) :
    ParseTreeNode :=
  node.setChildren (node.children.set i c)

/-- The type read off a `type` node (lines 288-295 and 309-316). -/
def declaredType (typeNode : ParseTreeNode) : String :=
  let rhs := typeNode.prodRuleRHS
  if rhs.length > 1 ∧ rhs.get? 0 = some "INT" ∧ rhs.get? 1 = some "STAR" then "int*"
  else if rhs.length > 0 ∧ rhs.get? 0 = some "INT" then "int"
  else ""

/-- Branch `start -> BOF procedures EOF` (lines 195-198). -/
def handleStart (rec : Rec) (node : ParseTreeNode) (function_name variable_context : String) :
    TC ParseTreeNode := do
  let procedures ← rec 1 function_name variable_context
  pure (node.setChild 1 procedures)

/-- Branch `procedures -> main` (lines 200-203). -/
def handleProceduresMain (rec : Rec) (node : ParseTreeNode)
    (function_name variable_context : String) : TC ParseTreeNode := do
  let main ← rec 0 function_name variable_context
  pure (node.setChild 0 main)

/-- Branch `procedures -> procedure procedures` (lines 205-209). -/
def handleProceduresProcedure (rec : Rec) (node : ParseTreeNode)
    (function_name variable_context : String) : TC ParseTreeNode := do
  let procedure ← rec 0 function_name variable_context
  let procedures ← rec 1 function_name variable_context
  pure ((node.setChild 0 procedure).setChild 1 procedures)

/-- Branch `main` (lines 211-244). -/
def handleMain (rec : Rec) (node : ParseTreeNode) : TC ParseTreeNode := do
  let new_function_name := "wain"
  let _ ← child node.children 3
  let _ ← child node.children 5
  let firstParam ← rec 3 new_function_name new_function_name
  let secondParam ← rec 5 new_function_name new_function_name
  let secondParamId ← child secondParam.children 1
  let secondParamType := secondParamId.type
  if secondParamType ≠ "int" then
    TC.raise "ERROR: The second parameter of wain is not int type."
  else do
    let dcls ← rec 8 new_function_name new_function_name
    let statements ← rec 9 new_function_name new_function_name
    let returnExpr ← rec 11 new_function_name new_function_name
    if returnExpr.type ≠ "int" then
      TC.raise "ERROR: The return expression of wain is not int type."
    else
      let node1 := ((((node.setChild 3 firstParam).setChild 5 secondParam).setChild 8 dcls).setChild
        9 statements).setChild 11 returnExpr
      if secondParamType = "int" ∧ dcls.wellTyped = true ∧ statements.wellTyped = true
          ∧ returnExpr.type = "int" then
        pure node1.setWellTyped
      else pure node1

/-- Branch `procedure` (lines 247-271). -/
def handleProcedure (rec : Rec) (node : ParseTreeNode) : TC ParseTreeNode := do
  let idNode ← child node.children 1
  let new_function_name := idNode.token.lexeme
  let declared ← findProcedure new_function_name
  if declared then
    TC.raise ("ERROR: Function " ++ new_function_name ++ " already declared.")
  else do
    declareProcedure new_function_name
    let params ← rec 3 new_function_name new_function_name
    let dcls ← rec 6 new_function_name new_function_name
    let statements ← rec 7 new_function_name new_function_name
    let returnExpr ← rec 9 new_function_name new_function_name
    if returnExpr.type ≠ "int" then
      TC.raise ("ERROR: The return expression of function " ++ new_function_name
        ++ " is not int type.")
    else
      let node1 := (((node.setChild 3 params).setChild 6 dcls).setChild 7 statements).setChild
        9 returnExpr
      if dcls.wellTyped = true ∧ statements.wellTyped = true ∧ returnExpr.type = "int" then
        pure node1.setWellTyped
      else pure node1

/-- Branch `params -> paramlist` (lines 274-277). -/
def handleParams (rec : Rec) (node : ParseTreeNode) (function_name variable_context : String) :
    TC ParseTreeNode := do
  let paramlist ← rec 0 function_name variable_context
  pure (node.setChild 0 paramlist)

/-- Branch `paramlist` (lines 281-301). -/
def handleParamlist (rec : Rec) (node : ParseTreeNode)
    (function_name variable_context : String) : TC ParseTreeNode := do
  let dclNode ← rec 0 function_name variable_context
  let typeNode ← child dclNode.children 0
  let dclType := declaredType typeNode
  pushParameter variable_context dclType
  if node.prodRuleRHS.length = 3 then do
    let paramlist ← rec 2 function_name variable_context
    pure ((node.setChild 0 dclNode).setChild 2 paramlist)
  else pure (node.setChild 0 dclNode)

/-- Branch `dcl -> type ID` (lines 304-325). -/
def handleDcl (node : ParseTreeNode) (function_name variable_context : String) :
    TC ParseTreeNode := do
  let idNode ← child node.children 1
  let variableName := idNode.token.lexeme
  let typeNode ← child node.children 0
  let variableType := declaredType typeNode
  let declared ← findVariable variable_context variableName
  if declared then
    TC.raise ("ERROR: Duplicate variable " ++ variableName ++ " found in function "
      ++ function_name)
  else do
    setVariable variable_context variableName variableType
    pure (node.setChild 1 (idNode.setType variableType))

/-- Branch `dcls -> dcls dcl BECOMES NUM SEMI` and
`dcls -> dcls dcl BECOMES NULL SEMI` (lines 329-353). -/
def handleDcls (rec : Rec) (node : ParseTreeNode) (function_name variable_context : String) :
    TC ParseTreeNode := do
  let dcls ← rec 0 function_name variable_context
  let dcl ← rec 1 function_name variable_context
  let node1 := (node.setChild 0 dcls).setChild 1 dcl
  let idNode ← child dcl.children 1
  let variableName := idNode.token.lexeme
  let variableType ← getVariable variable_context variableName
  match node.prodRuleRHS.get? 3 with
  | none => TC.undefined "prodRuleRHS[3]"
  | some initialiser =>
    if initialiser = "NUM" then
      if variableType ≠ "int" then
        TC.raise ("ERROR: Variable " ++ variableName
          ++ " assigned wrong type (Expected int), got: " ++ variableType)
      else do
        let literal ← child node1.children 3
        pure (node1.setChild 3 (literal.setType "int"))
    else if initialiser = "NULL" then
      if variableType ≠ "int*" then
        TC.raise ("ERROR: Variable " ++ variableName
          ++ " assigned wrong type (Expected int*), got: " ++ variableType)
      else do
        let literal ← child node1.children 3
        pure (node1.setChild 3 (literal.setType "int*"))
    else pure node1

/-- Branch `factor -> ID` and `lvalue -> ID` (lines 359-371). -/
def handleUseID (node : ParseTreeNode) (function_name variable_context : String) :
    TC ParseTreeNode := do
  let idNode ← child node.children 0
  let variableName := idNode.token.lexeme
  let declared ← findVariable variable_context variableName
  if !declared then
    TC.raise ("ERROR: Variable " ++ variableName ++ " used without declaration in function "
      ++ function_name)
  else do
    let variableType ← getVariable variable_context variableName
    pure ((node.setType variableType).setChild 0 (idNode.setType variableType))

/-- Branch `expr -> expr PLUS term` and `expr -> expr MINUS term` (lines 375-406). -/
def handleExprBinary (rec : Rec) (node : ParseTreeNode)
    (function_name variable_context : String) : TC ParseTreeNode := do
  let expr ← rec 0 function_name variable_context
  let term ← rec 2 function_name variable_context
  let exprType := expr.type
  let termType := term.type
  let node1 := (node.setChild 0 expr).setChild 2 term
  match node.prodRuleRHS.get? 1 with
  | none => TC.undefined "prodRuleRHS[1]"
  | some operator =>
    if operator = "PLUS" then
      if exprType = "int" ∧ termType = "int" then
        pure (node1.setType "int").setWellTyped
      else if exprType = "int*" ∧ termType = "int" then
        pure (node1.setType "int*").setWellTyped
      else if exprType = "int" ∧ termType = "int*" then
        pure (node1.setType "int*").setWellTyped
      else
        TC.raise ("ERROR: Failed to add " ++ exprType ++ " and " ++ termType)
    else
      if exprType = "int" ∧ termType = "int" then
        pure (node1.setType "int").setWellTyped
      else if exprType = "int*" ∧ termType = "int" then
        pure (node1.setType "int*").setWellTyped
      else if exprType = "int*" ∧ termType = "int*" then
        pure (node1.setType "int").setWellTyped
      else
        TC.raise ("ERROR: Failed to subtract" ++ termType ++ " from " ++ exprType)

/-- Branch `term -> term STAR factor`, `term -> term SLASH factor` and
`term -> term PCT factor` (lines 411-424). -/
def handleTermBinary (rec : Rec) (node : ParseTreeNode)
    (function_name variable_context : String) : TC ParseTreeNode := do
  let term ← rec 0 function_name variable_context
  let factor ← rec 2 function_name variable_context
  let termType := term.type
  let factorType := factor.type
  if termType = "int" ∧ factorType = "int" then
    pure (((node.setChild 0 term).setChild 2 factor).setType "int")
  else
    TC.raise ("ERROR: Failed to multiply, divide, or mod " ++ termType ++ " and "
      ++ factorType)

/-- Branch `factor -> AMP lvalue` (lines 427-434). -/
def handleAddressOf (rec : Rec) (node : ParseTreeNode)
    (function_name variable_context : String) : TC ParseTreeNode := do
  let lvalue ← rec 1 function_name variable_context
  let lvalueType := lvalue.type
  if lvalueType ≠ "int" then
    TC.raise "ERROR: Attempting to get an address of a non-integer"
  else pure ((node.setChild 1 lvalue).setType "int*")

/-- Branch `factor -> STAR factor` and `lvalue -> STAR factor` (lines 438-445). -/
def handleDereference (rec : Rec) (node : ParseTreeNode)
    (function_name variable_context : String) : TC ParseTreeNode := do
  let factor ← rec 1 function_name variable_context
  let factorType := factor.type
  if factorType ≠ "int*" then
    TC.raise "ERROR: Attempting to dereference a non-pointer"
  else pure ((node.setChild 1 factor).setType "int")

/-- Branch `factor -> NEW INT LBRACK expr RBRACK` (lines 448-455). -/
def handleNewArray (rec : Rec) (node : ParseTreeNode)
    (function_name variable_context : String) : TC ParseTreeNode := do
  let expr ← rec 3 function_name variable_context
  let exprType := expr.type
  if exprType ≠ "int" then
    TC.raise "ERROR: Attempting to allocate array with non-int size"
  else pure ((node.setChild 3 expr).setType "int*")

/-- Branch `lvalue -> LPAREN lvalue RPAREN` (lines 458-462). -/
def handleLvalueParen (rec : Rec) (node : ParseTreeNode)
    (function_name variable_context : String) : TC ParseTreeNode := do
  let lvalue ← rec 1 function_name variable_context
  let lvalueType := lvalue.type
  pure ((node.setChild 1 lvalue).setType lvalueType)

/-- Lines 483-491 of the call branch: the argument list, if there is one, is
annotated with the callee as `function_name`, and the call gets type `int`. -/
def handleCallArguments (rec : Rec) (node : ParseTreeNode)
    (called_function_name variable_context : String) : TC ParseTreeNode := do
  let function_name := called_function_name
  let node1 ← (if node.prodRuleRHS.length = 4 then do
      let arglist ← rec 2 function_name variable_context
      pure (node.setChild 2 arglist)
    else pure node)
  pure (node1.setType "int")

/-- Branch `factor -> ID LPAREN RPAREN` and `factor -> ID LPAREN arglist RPAREN`
(lines 466-492). -/
def handleCall (rec : Rec) (node : ParseTreeNode) (variable_context : String) :
    TC ParseTreeNode := do
  let idNode ← child node.children 0
  let called_function_name := idNode.token.lexeme
  let declared ← findProcedure called_function_name
  if !declared then
    TC.raise ("ERROR: Function " ++ called_function_name ++ " used without declaration.")
  else if node.prodRuleRHS.length = 3 then do
    let parameters ← signature called_function_name
    if parameters.length ≠ 0 then
      TC.raise ("ERROR: Function " ++ called_function_name
        ++ " called with wrong number of arguments.")
    else handleCallArguments rec node called_function_name variable_context
  else handleCallArguments rec node called_function_name variable_context

/-- Branch `arglist -> expr` (lines 496-509). -/
def handleArglistOne (rec : Rec) (node : ParseTreeNode)
    (function_name variable_context : String) : TC ParseTreeNode := do
  let expr ← rec 0 function_name variable_context
  let node1 := (node.setChild 0 expr).setType expr.type
  let parameters ← signature function_name
  if parameters.length ≠ 1 then
    TC.raise ("ERROR: Function " ++ function_name ++ " called with wrong number of arguments.")
  else if some node1.type ≠ parameters.get? 0 then
    TC.raise ("ERROR: Function " ++ function_name ++ " called with wrong argument types.")
  else pure node1

/-- The `while` loop of lines 520-528 started at `argNode`, followed by lines
531-533: the annotated `argNode` and the vector `argVector`. -/
def arglistWalkBody (rec : Rec) (walk : Walk) (argNode : ParseTreeNode)
    (function_name variable_context : String) : TC (ParseTreeNode × List String) :=
  if argNode.prodRuleRHS.length = 3 then do
    let expr ← rec 0 function_name variable_context
    let argType := expr.type
    let (arglist, argVector) ← walk 2 function_name variable_context
    pure ((argNode.setChild 0 expr).setChild 2 arglist, argType :: argVector)
  else do
    let expr ← rec 0 function_name variable_context
    let argType := expr.type
    pure (argNode.setChild 0 expr, [argType])

/-- The loop of lines 540-544 on two vectors of the same size: no position
holds different strings. -/
def sameTypes : List String → List String → Bool
  | a :: as, p :: ps => if a ≠ p then false else sameTypes as ps
  | _, _ => true

/-- Branch `arglist -> expr COMMA arglist` (lines 512-545). -/
def handleArglistMany (rec : Rec) (walk : Walk) (node : ParseTreeNode)
    (function_name variable_context : String) : TC ParseTreeNode := do
  let (node1, argVector) ← arglistWalkBody rec walk node function_name variable_context
  let parameters ← signature function_name
  if argVector.length ≠ parameters.length then
    TC.raise ("ERROR: Function " ++ function_name ++ " called with wrong number of arguments.")
  else if !sameTypes argVector parameters then
    TC.raise ("ERROR: Function " ++ function_name ++ " called with wrong argument types.")
  else pure node1

/-- Branch `expr -> term` (lines 548-553). -/
def handleExprTerm (rec : Rec) (node : ParseTreeNode)
    (function_name variable_context : String) : TC ParseTreeNode := do
  let term ← rec 0 function_name variable_context
  pure (((node.setChild 0 term).setType term.type).setWellTyped)

/-- Branch `term -> factor` (lines 555-559). -/
def handleTermFactor (rec : Rec) (node : ParseTreeNode)
    (function_name variable_context : String) : TC ParseTreeNode := do
  let factor ← rec 0 function_name variable_context
  pure ((node.setChild 0 factor).setType factor.type)

/-- Branch `factor -> NUM` (lines 561-564). -/
def handleFactorNum (node : ParseTreeNode) : TC ParseTreeNode := do
  let literal ← child node.children 0
  pure ((node.setChild 0 (literal.setType "int")).setType "int")

/-- Branch `factor -> NULL` (lines 566-569). -/
def handleFactorNull (node : ParseTreeNode) : TC ParseTreeNode := do
  let literal ← child node.children 0
  pure ((node.setChild 0 (literal.setType "int*")).setType "int*")

/-- Branch `factor -> LPAREN expr RPAREN` (lines 571-575). -/
def handleFactorParen (rec : Rec) (node : ParseTreeNode)
    (function_name variable_context : String) : TC ParseTreeNode := do
  let expr ← rec 1 function_name variable_context
  pure ((node.setChild 1 expr).setType expr.type)

/-- Branch `statements -> .EMPTY` (lines 577-579). -/
def handleStatementsEmpty (node : ParseTreeNode) : TC ParseTreeNode :=
  pure node.setWellTyped

/-- Branch `statements -> statements statement` (lines 581-589); the condition
reads `children[2]` once `children[0]` is well typed. -/
def handleStatementsMore (rec : Rec) (node : ParseTreeNode)
    (function_name variable_context : String) : TC ParseTreeNode := do
  let statements ← rec 0 function_name variable_context
  let statement ← rec 1 function_name variable_context
  let node1 := (node.setChild 0 statements).setChild 1 statement
  if statements.wellTyped then do
    let third ← child node1.children 2
    if third.wellTyped then pure node1.setWellTyped else pure node1
  else pure node1

/-- Branch `statement -> lvalue BECOMES expr SEMI` (lines 591-601). -/
def handleAssignment (rec : Rec) (node : ParseTreeNode)
    (function_name variable_context : String) : TC ParseTreeNode := do
  let lvalue ← rec 0 function_name variable_context
  let expr ← rec 2 function_name variable_context
  if lvalue.type = expr.type then
    pure (((node.setChild 0 lvalue).setChild 2 expr).setWellTyped)
  else
    TC.raise "ERROR: Type mismatch in statement -> lvalue BECOMES expr SEMI "

/-- Branch `statement -> IF ...` (lines 603-612). -/
def handleIfElse (rec : Rec) (node : ParseTreeNode)
    (function_name variable_context : String) : TC ParseTreeNode := do
  let test ← rec 2 function_name variable_context
  let thenPart ← rec 5 function_name variable_context
  let elsePart ← rec 9 function_name variable_context
  let node1 := ((node.setChild 2 test).setChild 5 thenPart).setChild 9 elsePart
  if test.wellTyped = true ∧ thenPart.wellTyped = true ∧ elsePart.wellTyped = true then
    pure node1.setWellTyped
  else pure node1

/-- Branch `statement -> WHILE ...` (lines 614-622). -/
def handleWhileLoop (rec : Rec) (node : ParseTreeNode)
    (function_name variable_context : String) : TC ParseTreeNode := do
  let test ← rec 2 function_name variable_context
  let body ← rec 5 function_name variable_context
  let node1 := (node.setChild 2 test).setChild 5 body
  if test.wellTyped = true ∧ body.wellTyped = true then pure node1.setWellTyped
  else pure node1

/-- Branch `statement -> PRINTLN LPAREN expr RPAREN SEMI` (lines 624-632). -/
def handlePrintln (rec : Rec) (node : ParseTreeNode)
    (function_name variable_context : String) : TC ParseTreeNode := do
  let expr ← rec 2 function_name variable_context
  if expr.type = "int" then pure ((node.setChild 2 expr).setWellTyped)
  else TC.raise "ERROR: Print must have type int"

/-- Branch `statement -> DELETE LBRACK RBRACK expr SEMI` (lines 634-642). -/
def handleDelete (rec : Rec) (node : ParseTreeNode)
    (function_name variable_context : String) : TC ParseTreeNode := do
  let expr ← rec 3 function_name variable_context
  if expr.type = "int*" then pure ((node.setChild 3 expr).setWellTyped)
  else TC.raise "ERROR: Delete must have type int*"

/-- Branch `test` (lines 649-658). -/
def handleTest (rec : Rec) (node : ParseTreeNode)
    (function_name variable_context : String) : TC ParseTreeNode := do
  let left ← rec 0 function_name variable_context
  let right ← rec 2 function_name variable_context
  if left.type = right.type then
    pure (((node.setChild 0 left).setChild 2 right).setWellTyped)
  else
    TC.raise "ERROR: Type mismatch in test compairison"

/-- The body of the branch chosen by the chain. -/
def handle (h : Handler) (rec : Rec) (walk : Walk) (node : ParseTreeNode)
    (function_name variable_context : String) : TC ParseTreeNode :=
  match h with
  | .start => handleStart rec node function_name variable_context
  | .proceduresMain => handleProceduresMain rec node function_name variable_context
  | .proceduresProcedure => handleProceduresProcedure rec node function_name variable_context
  | .main => handleMain rec node
  | .procedure => handleProcedure rec node
  | .params => handleParams rec node function_name variable_context
  | .paramlist => handleParamlist rec node function_name variable_context
  | .dcl => handleDcl node function_name variable_context
  | .dcls => handleDcls rec node function_name variable_context
  | .useID => handleUseID node function_name variable_context
  | .exprBinary => handleExprBinary rec node function_name variable_context
  | .termBinary => handleTermBinary rec node function_name variable_context
  | .addressOf => handleAddressOf rec node function_name variable_context
  | .dereference => handleDereference rec node function_name variable_context
  | .newArray => handleNewArray rec node function_name variable_context
  | .lvalueParen => handleLvalueParen rec node function_name variable_context
  | .call => handleCall rec node variable_context
  | .arglistOne => handleArglistOne rec node function_name variable_context
  | .arglistMany => handleArglistMany rec walk node function_name variable_context
  | .exprTerm => handleExprTerm rec node function_name variable_context
  | .termFactor => handleTermFactor rec node function_name variable_context
  | .factorNum => handleFactorNum node
  | .factorNull => handleFactorNull node
  | .factorParen => handleFactorParen rec node function_name variable_context
  | .statementsEmpty => handleStatementsEmpty node
  | .statementsMore => handleStatementsMore rec node function_name variable_context
  | .assignment => handleAssignment rec node function_name variable_context
  | .ifElse => handleIfElse rec node function_name variable_context
  | .whileLoop => handleWhileLoop rec node function_name variable_context
  | .println => handlePrintln rec node function_name variable_context
  | .delete => handleDelete rec node function_name variable_context
  | .test => handleTest rec node function_name variable_context

/-- The body of `annotateTypes` (lines 178-660) with its recursive calls
abstracted. -/
def annotateBody (rec : Rec) (walk : Walk) (node : ParseTreeNode)
    (function_name variable_context : String) : TC ParseTreeNode :=
  if node.isTerminal then
    if node.token.kind = "NUM" then pure (node.setType "int")
    else if node.token.kind = "NULL" then pure (node.setType "int*")
    else pure node
  else
    match dispatch node.prodRuleLHS node.prodRuleRHS with
    | .error e => fun st => (.error e, st)
    | .ok none => pure node
    | .ok (some h) => handle h rec walk node function_name variable_context

mutual
/-- The function `annotateTypes`; the annotated tree is returned instead of
being updated in place. -/
def annotateTypes : ParseTreeNode → String → String → TC ParseTreeNode
  | .mk lhs rhs tok cs ty wt, function_name, variable_context =>
    annotateBody (fun i f c => annotateAt cs i f c) (fun i f c => arglistWalkAt cs i f c)
      (.mk lhs rhs tok cs ty wt) function_name variable_context
termination_by structural node => node
/-- The call `annotateTypes(children[i], ...)`. -/
def annotateAt : List ParseTreeNode → Nat → String → String → TC ParseTreeNode
  | [], _, _, _ => TC.undefined "children[i]"
  | c :: _, 0, function_name, variable_context => annotateTypes c function_name variable_context
  | _ :: cs, i + 1, function_name, variable_context =>
    annotateAt cs i function_name variable_context
termination_by structural cs => cs
/-- The `while` loop of the `arglist` branch from `argNode` on. -/
def arglistWalk : ParseTreeNode → String → String → TC (ParseTreeNode × List String)
  | .mk lhs rhs tok cs ty wt, function_name, variable_context =>
    arglistWalkBody (fun i f c => annotateAt cs i f c) (fun i f c => arglistWalkAt cs i f c)
      (.mk lhs rhs tok cs ty wt) function_name variable_context
termination_by structural node => node
/-- The loop continued at `argNode = argNode->children[i]`. -/
def arglistWalkAt : List ParseTreeNode → Nat → String → String →
    TC (ParseTreeNode × List String)
  | [], _, _, _ => TC.undefined "children[i]"
  | c :: _, 0, function_name, variable_context => arglistWalk c function_name variable_context
  | _ :: cs, i + 1, function_name, variable_context =>
    arglistWalkAt cs i function_name variable_context
termination_by structural cs => cs
end

/-- The call `annotateTypes(root, "", "")` of `main` with the table empty. -/
def analyse (root : ParseTreeNode) : Except Fault ParseTreeNode × SymbolTable :=
  annotateTypes root "" "" []

/-! ### Trees of the WLP4 grammar -/

/-- Modelled from the spec: the production rules of the source language, which
the repository keeps in the missing header `wlp4data.h`; they are the rule
shapes the comments of `annotateTypes` list. -/
def productions : List (String × List String) :=
  [ ("start", ["BOF", "procedures", "EOF"]),
    ("procedures", ["procedure", "procedures"]),
    ("procedures", ["main"]),
    ("procedure", ["INT", "ID", "LPAREN", "params", "RPAREN", "LBRACE", "dcls", "statements",
      "RETURN", "expr", "SEMI", "RBRACE"]),
    ("main", ["INT", "WAIN", "LPAREN", "dcl", "COMMA", "dcl", "RPAREN", "LBRACE", "dcls",
      "statements", "RETURN", "expr", "SEMI", "RBRACE"]),
    ("params", [".EMPTY"]),
    ("params", ["paramlist"]),
    ("paramlist", ["dcl"]),
    ("paramlist", ["dcl", "COMMA", "paramlist"]),
    ("type", ["INT"]),
    ("type", ["INT", "STAR"]),
    ("dcls", [".EMPTY"]),
    ("dcls", ["dcls", "dcl", "BECOMES", "NUM", "SEMI"]),
    ("dcls", ["dcls", "dcl", "BECOMES", "NULL", "SEMI"]),
    ("dcl", ["type", "ID"]),
    ("statements", [".EMPTY"]),
    ("statements", ["statements", "statement"]),
    ("statement", ["lvalue", "BECOMES", "expr", "SEMI"]),
    ("statement", ["IF", "LPAREN", "test", "RPAREN", "LBRACE", "statements", "RBRACE", "ELSE",
      "LBRACE", "statements", "RBRACE"]),
    ("statement", ["WHILE", "LPAREN", "test", "RPAREN", "LBRACE", "statements", "RBRACE"]),
    ("statement", ["PRINTLN", "LPAREN", "expr", "RPAREN", "SEMI"]),
    ("statement", ["DELETE", "LBRACK", "RBRACK", "expr", "SEMI"]),
    ("test", ["expr", "EQ", "expr"]),
    ("test", ["expr", "NE", "expr"]),
    ("test", ["expr", "LT", "expr"]),
    ("test", ["expr", "LE", "expr"]),
    ("test", ["expr", "GE", "expr"]),
    ("test", ["expr", "GT", "expr"]),
    ("expr", ["term"]),
    ("expr", ["expr", "PLUS", "term"]),
    ("expr", ["expr", "MINUS", "term"]),
    ("term", ["factor"]),
    ("term", ["term", "STAR", "factor"]),
    ("term", ["term", "SLASH", "factor"]),
    ("term", ["term", "PCT", "factor"]),
    ("factor", ["ID"]),
    ("factor", ["NUM"]),
    ("factor", ["NULL"]),
    ("factor", ["LPAREN", "expr", "RPAREN"]),
    ("factor", ["AMP", "lvalue"]),
    ("factor", ["STAR", "factor"]),
    ("factor", ["NEW", "INT", "LBRACK", "expr", "RBRACK"]),
    ("factor", ["ID", "LPAREN", "RPAREN"]),
    ("factor", ["ID", "LPAREN", "arglist", "RPAREN"]),
    ("arglist", ["expr"]),
    ("arglist", ["expr", "COMMA", "arglist"]),
    ("lvalue", ["ID"]),
    ("lvalue", ["STAR", "factor"]),
    ("lvalue", ["LPAREN", "lvalue", "RPAREN"]) ]

/-- Modelled from the spec: the terminal symbols (token kinds) of the grammar. -/
def terminals : List String :=
  [ "BOF", "EOF", "ID", "NUM", "LPAREN", "RPAREN", "LBRACE", "RBRACE", "RETURN", "IF", "ELSE",
    "WHILE", "PRINTLN", "WAIN", "BECOMES", "INT", "EQ", "NE", "LT", "GT", "LE", "GE", "PLUS",
    "MINUS", "STAR", "SLASH", "PCT", "COMMA", "SEMI", "NEW", "DELETE", "LBRACK", "RBRACK",
    "AMP", "NULL" ]

mutual
/-- Conformance `conforms symbol node`: the node is a tree `buildParseTree` builds from the
pre-order listing of a derivation of `symbol`.  A terminal is a leaf made by
`ParseTreeNode(Token)` from a line `KIND lexeme`; a rule `lhs .EMPTY` is the
leaf with token `(lhs, ".EMPTY")`; any other rule is an internal node with one
child per right-hand-side symbol.  The fields `type` and `wellTyped` are not
constrained. -/
def conforms : String → ParseTreeNode → Bool
  | symbol, .mk lhs rhs tok cs _ _ =>
    if symbol ∈ terminals then
      decide (lhs = "" ∧ rhs = [] ∧ tok.kind = symbol) && cs.isEmpty
    else if tok.kind ≠ "" then
      decide (lhs = "" ∧ rhs = [] ∧ tok = ⟨symbol, ".EMPTY"⟩
        ∧ (symbol, [".EMPTY"]) ∈ productions) && cs.isEmpty
    else
      decide (lhs = symbol ∧ tok = ⟨"", ""⟩ ∧ (symbol, rhs) ∈ productions ∧ ".EMPTY" ∉ rhs)
        && conformsAll rhs cs
termination_by structural _ node => node
/-- The children conform to the symbols of a right-hand side, one by one. -/
def conformsAll : List String → List ParseTreeNode → Bool
  | [], [] => true
  | symbol :: symbols, c :: cs => conforms symbol c && conformsAll symbols cs
  | _, _ => false
termination_by structural _ cs => cs
end

mutual
/-- All nodes of a tree, in pre-order. -/
def nodes : ParseTreeNode → List ParseTreeNode
  | .mk lhs rhs tok cs ty wt => .mk lhs rhs tok cs ty wt :: nodesOfList cs
def nodesOfList : List ParseTreeNode → List ParseTreeNode
  | [] => []
  | c :: cs => nodes c ++ nodesOfList cs
end

/-- The relation `IsArglist node es`: the node is an `arglist` whose argument expressions
are, in order, `es`. -/
inductive IsArglist : ParseTreeNode → List ParseTreeNode → Prop
  | one (e : ParseTreeNode) (ty : String) (wt : Bool) :
      IsArglist (.mk "arglist" ["expr"] ⟨"", ""⟩ [e] ty wt) [e]
  | more (e comma rest : ParseTreeNode) (es : List ParseTreeNode) (ty : String) (wt : Bool) :
      IsArglist rest es →
      IsArglist (.mk "arglist" ["expr", "COMMA", "arglist"] ⟨"", ""⟩ [e, comma, rest] ty wt)
        (e :: es)

/-- The expressions of a list annotated one after the other, each by
`annotateTypes`. -/
def annotateAll : List ParseTreeNode → String → String → TC (List ParseTreeNode)
  | [], _, _ => pure []
  | e :: es, function_name, variable_context => do
    let e1 ← annotateTypes e function_name variable_context
    let es1 ← annotateAll es function_name variable_context
    pure (e1 :: es1)

/-- The relation `SigFrame st st1`: every procedure recorded in `st` is recorded in `st1`
with the same parameter types. -/
def SigFrame (st st1 : SymbolTable) : Prop :=
  ∀ p parameters vars, lookup p st = some (parameters, vars) →
    ∃ vars1, lookup p st1 = some (parameters, vars1)

/-- A computation that keeps the recorded parameter types, whatever it returns. -/
structure Frames {α : Type} (x : TC α) : Prop where
  keeps : ∀ st, SigFrame st (x st).2

/-- The symbols from which expressions are derived. -/
def expressionSymbols : List String :=
  ["expr", "term", "factor", "lvalue", "arglist"]

/-- No node of the tree is a `procedure` or a `paramlist`. -/
def DeclarationFree (node : ParseTreeNode) : Prop :=
  ∀ n ∈ nodes node, n.prodRuleLHS ≠ "procedure" ∧ n.prodRuleLHS ≠ "paramlist"

/-- The nonterminals whose nodes carry a type: expressions and lvalues. -/
def typedSymbols : List String :=
  ["expr", "term", "factor", "lvalue"]

/-- The two semantic types. -/
def IsType (t : String) : Prop :=
  t = "int" ∨ t = "int*"

/-- Every `expr`, `term`, `factor` and `lvalue` node of the tree has its `type`
field set to `int` or to `int*`. -/
def AllTyped (node : ParseTreeNode) : Prop :=
  ∀ n ∈ nodes node, n.prodRuleLHS ∈ typedSymbols → IsType n.type

/-- Every variable recorded in the table has type `int` or `int*`. -/
def TableTyped (st : SymbolTable) : Prop :=
  ∀ p entry, lookup p st = some entry → ∀ x t, lookup x entry.2 = some t → IsType t

/-- The triple `Sound x Q`: when `x` is run on a table whose variables are typed and
returns, the result satisfies `Q` and the variables of the table are typed. -/
structure Sound {α : Type} (x : TC α) (Q : α → Prop) : Prop where
  holds : ∀ st a st1, TableTyped st → x st = (.ok a, st1) → Q a ∧ TableTyped st1

/-- What the analysis establishes for a tree derived from `symbol`. -/
def Typed (symbol : String) (r : ParseTreeNode) : Prop :=
  AllTyped r ∧ (symbol ∈ typedSymbols → IsType r.type)

/-! ### Sample trees -/

/-- The node `factor -> NUM` for a literal, as `buildParseTree` builds it. -/
def factorNum (lexeme : String) : ParseTreeNode :=
  .internal "factor" ["NUM"] [.terminal ⟨"NUM", lexeme⟩]

/-- The node `factor -> NULL`. -/
def factorNull : ParseTreeNode :=
  .internal "factor" ["NULL"] [.terminal ⟨"NULL", "NULL"⟩]

/-- The node `factor -> ID` for a variable. -/
def factorId (name : String) : ParseTreeNode :=
  .internal "factor" ["ID"] [.terminal ⟨"ID", name⟩]

/-- The node `lvalue -> ID` for a variable. -/
def lvalueId (name : String) : ParseTreeNode :=
  .internal "lvalue" ["ID"] [.terminal ⟨"ID", name⟩]

/-- The node `term -> factor`. -/
def termOf (factor : ParseTreeNode) : ParseTreeNode :=
  .internal "term" ["factor"] [factor]

/-- The nodes `expr -> term` over `term -> factor`. -/
def exprOf (factor : ParseTreeNode) : ParseTreeNode :=
  .internal "expr" ["term"] [termOf factor]

/-- The node `expr -> expr PLUS term` or `expr -> expr MINUS term`. -/
def sumOf (operator : String) (expr term : ParseTreeNode) : ParseTreeNode :=
  .internal "expr" ["expr", operator, "term"]
    [expr, .terminal ⟨operator, if operator = "PLUS" then "+" else "-"⟩, term]

/-- The node `dcl -> type ID` declaring an `int`. -/
def dclInt (name : String) : ParseTreeNode :=
  .internal "dcl" ["type", "ID"]
    [.internal "type" ["INT"] [.terminal ⟨"INT", "int"⟩], .terminal ⟨"ID", name⟩]

/-- The node `dcl -> type ID` declaring an `int*`. -/
def dclPointer (name : String) : ParseTreeNode :=
  .internal "dcl" ["type", "ID"]
    [.internal "type" ["INT", "STAR"] [.terminal ⟨"INT", "int"⟩, .terminal ⟨"STAR", "*"⟩],
     .terminal ⟨"ID", name⟩]

/-- The annotated `factor -> NUM`. -/
def typedFactorNum (lexeme : String) : ParseTreeNode :=
  .mk "factor" ["NUM"] ⟨"", ""⟩ [.mk "" [] ⟨"NUM", lexeme⟩ [] "int" false] "int" false

/-- The annotated `factor -> NULL`. -/
def typedFactorNull : ParseTreeNode :=
  .mk "factor" ["NULL"] ⟨"", ""⟩ [.mk "" [] ⟨"NULL", "NULL"⟩ [] "int*" false] "int*" false

/-- The annotated `term -> factor`. -/
def typedTerm (factor : ParseTreeNode) (type : String) : ParseTreeNode :=
  .mk "term" ["factor"] ⟨"", ""⟩ [factor] type false

/-- The annotated `expr -> term` over `term -> factor`. -/
def typedExpr (factor : ParseTreeNode) (type : String) : ParseTreeNode :=
  .mk "expr" ["term"] ⟨"", ""⟩ [typedTerm factor type] type true

/-- The leaf `buildParseTree` makes of a line `lhs .EMPTY`. -/
def emptyRule (lhs : String) : ParseTreeNode :=
  .terminal ⟨lhs, ".EMPTY"⟩

/-- The node `params -> paramlist` for a non-empty list of `dcl` nodes. -/
def paramsOf : List ParseTreeNode → ParseTreeNode
  | [] => emptyRule "params"
  | dcl :: dcls =>
    let rec paramlist : ParseTreeNode → List ParseTreeNode → ParseTreeNode
      | d, [] => .internal "paramlist" ["dcl"] [d]
      | d, d1 :: ds =>
        .internal "paramlist" ["dcl", "COMMA", "paramlist"]
          [d, .terminal ⟨"COMMA", ","⟩, paramlist d1 ds]
    .internal "params" ["paramlist"] [paramlist dcl dcls]

/-- The node `procedure -> INT ID LPAREN params RPAREN LBRACE dcls statements
RETURN expr SEMI RBRACE`. -/
def procedureOf (name : String) (params dcls statements expr : ParseTreeNode) :
    ParseTreeNode :=
  .internal "procedure"
    ["INT", "ID", "LPAREN", "params", "RPAREN", "LBRACE", "dcls", "statements", "RETURN",
      "expr", "SEMI", "RBRACE"]
    [.terminal ⟨"INT", "int"⟩, .terminal ⟨"ID", name⟩, .terminal ⟨"LPAREN", "("⟩, params,
      .terminal ⟨"RPAREN", ")"⟩, .terminal ⟨"LBRACE", "\x7b"⟩, dcls, statements,
      .terminal ⟨"RETURN", "return"⟩, expr, .terminal ⟨"SEMI", ";"⟩,
      .terminal ⟨"RBRACE", "\x7d"⟩]

/-- The node `main -> INT WAIN LPAREN dcl COMMA dcl RPAREN LBRACE dcls statements
RETURN expr SEMI RBRACE`. -/
def mainOf (dcl1 dcl2 dcls statements expr : ParseTreeNode) : ParseTreeNode :=
  .internal "main"
    ["INT", "WAIN", "LPAREN", "dcl", "COMMA", "dcl", "RPAREN", "LBRACE", "dcls", "statements",
      "RETURN", "expr", "SEMI", "RBRACE"]
    [.terminal ⟨"INT", "int"⟩, .terminal ⟨"WAIN", "wain"⟩, .terminal ⟨"LPAREN", "("⟩, dcl1,
      .terminal ⟨"COMMA", ","⟩, dcl2, .terminal ⟨"RPAREN", ")"⟩, .terminal ⟨"LBRACE", "\x7b"⟩,
      dcls, statements, .terminal ⟨"RETURN", "return"⟩, expr, .terminal ⟨"SEMI", ";"⟩,
      .terminal ⟨"RBRACE", "\x7d"⟩]

/-- The `procedures` node for some procedures followed by `main`. -/
def proceduresOf (main : ParseTreeNode) : List ParseTreeNode → ParseTreeNode
  | [] => .internal "procedures" ["main"] [main]
  | p :: ps => .internal "procedures" ["procedure", "procedures"] [p, proceduresOf main ps]

/-- The node `start -> BOF procedures EOF` of a whole program. -/
def programOf (procedures : List ParseTreeNode) (main : ParseTreeNode) : ParseTreeNode :=
  .internal "start" ["BOF", "procedures", "EOF"]
    [.terminal ⟨"BOF", "BOF"⟩, proceduresOf main procedures, .terminal ⟨"EOF", "EOF"⟩]

/-- The call `f()` as a `factor`. -/
def callNoArgs (name : String) : ParseTreeNode :=
  .internal "factor" ["ID", "LPAREN", "RPAREN"]
    [.terminal ⟨"ID", name⟩, .terminal ⟨"LPAREN", "("⟩, .terminal ⟨"RPAREN", ")"⟩]

/-- The `arglist` node for a non-empty list of `expr` nodes. -/
def arglistOf : ParseTreeNode → List ParseTreeNode → ParseTreeNode
  | e, [] => .internal "arglist" ["expr"] [e]
  | e, e1 :: es =>
    .internal "arglist" ["expr", "COMMA", "arglist"]
      [e, .terminal ⟨"COMMA", ","⟩, arglistOf e1 es]

/-- The call `f(e, es...)` as a `factor`. -/
def callWith (name : String) (e : ParseTreeNode) (es : List ParseTreeNode) : ParseTreeNode :=
  .internal "factor" ["ID", "LPAREN", "arglist", "RPAREN"]
    [.terminal ⟨"ID", name⟩, .terminal ⟨"LPAREN", "("⟩, arglistOf e es,
      .terminal ⟨"RPAREN", ")"⟩]

/-- The program `int f(int x) { return x; } int wain(int x, int y) { return f(y); }`:
the name `x` is declared in both procedures. -/
def sameNameInTwoProcedures : ParseTreeNode :=
  programOf
    [procedureOf "f" (paramsOf [dclInt "x"]) (emptyRule "dcls") (emptyRule "statements")
      (exprOf (factorId "x"))]
    (mainOf (dclInt "x") (dclInt "y") (emptyRule "dcls") (emptyRule "statements")
      (exprOf (callWith "f" (exprOf (factorId "y")) [])))

/-- The program `int f() { return 0; } int f() { return 1; } int wain(int a, int b)
{ return 0; }`. -/
def procedureDeclaredTwice : ParseTreeNode :=
  programOf
    [procedureOf "f" (emptyRule "params") (emptyRule "dcls") (emptyRule "statements")
      (exprOf (factorNum "0")),
     procedureOf "f" (emptyRule "params") (emptyRule "dcls") (emptyRule "statements")
      (exprOf (factorNum "1"))]
    (mainOf (dclInt "a") (dclInt "b") (emptyRule "dcls") (emptyRule "statements")
      (exprOf (factorNum "0")))

/-- The program `int wain(int a, int a) { return 0; }`. -/
def parameterDeclaredTwice : ParseTreeNode :=
  programOf []
    (mainOf (dclInt "a") (dclInt "a") (emptyRule "dcls") (emptyRule "statements")
      (exprOf (factorNum "0")))

/-- The fault of a run, if it failed. -/
def faultOf {α : Type} (r : Except Fault α × SymbolTable) : Option Fault :=
  match r.1 with
  | .ok _ => none
  | .error e => some e

/-- The tree a successful analysis of a program returns (the program itself if
the analysis fails). -/
def annotated (root : ParseTreeNode) : ParseTreeNode :=
  match (analyse root).1 with
  | .ok r => r
  | .error _ => root

/-- The types of the `expr`, `term`, `factor` and `lvalue` nodes of a tree, in
pre-order. -/
def expressionTypes (root : ParseTreeNode) : List String :=
  ((nodes root).filter (fun n => decide (n.prodRuleLHS ∈ typedSymbols))).map ParseTreeNode.type

end wlp4type

/-! ## Parser: runs of the loop -/

namespace wlp4parse

/-- The states in which the loop body is entered or the loop is left: the
initial state, and the state after an iteration that was entered (the loop
condition held) and ran to its end. -/
inductive Visits (g : Tables) (unread : List Token) : State → Prop
  | start : Visits g unread initial
  | next {s s1 : State} : Visits g unread s → continues unread s = true →
      step g unread s = .ok s1 → Visits g unread s1

/-- State of the run of `earlyAccept` on the empty input after its first
iteration, the reduction by `S -> .EMPTY` that is tagged `.ACCEPT`. -/
def earlyAcceptReduced : State :=
  { unread_position := 0, stack := ["S"], stateStack := [1, 0],
    parseTreeStack := [.mk "S .EMPTY" [] none], accepted := true }

/-- State of the run of `tiny` on `ID x` after BOF, `ID x` (reduced to `item`)
and EOF were shifted. -/
def tinyBeforeAccept : State :=
  { unread_position := 3, stack := ["EOF", "item", "BOF"], stateStack := [4, 3, 1, 0],
    parseTreeStack :=
      [.mk "EOF EOF" [] (some ⟨"EOF", "EOF"⟩),
       .mk "item ID" [.mk "ID x" [] (some ⟨"ID", "x"⟩)] none,
       .mk "BOF BOF" [] (some ⟨"BOF", "BOF"⟩)],
    accepted := false }

end wlp4parse

/-! ## Context-sensitive analysis: parameter lists and further sample programs -/

namespace wlp4type

/-- The relation `IsParamlist node ds`: the node is a `paramlist` whose `dcl` children are,
in order, the nodes `dcl -> type ID` with the (type, ID) children listed in `ds`. -/
inductive IsParamlist : ParseTreeNode → List (ParseTreeNode × ParseTreeNode) → Prop
  | one (typeNode idNode : ParseTreeNode) (tyd ty : String) (wtd wt : Bool) :
      IsParamlist
        (.mk "paramlist" ["dcl"] ⟨"", ""⟩
          [.mk "dcl" ["type", "ID"] ⟨"", ""⟩ [typeNode, idNode] tyd wtd] ty wt)
        [(typeNode, idNode)]
  | more (typeNode idNode comma rest : ParseTreeNode)
      (ds : List (ParseTreeNode × ParseTreeNode)) (tyd ty : String) (wtd wt : Bool) :
      IsParamlist rest ds →
      IsParamlist
        (.mk "paramlist" ["dcl", "COMMA", "paramlist"] ⟨"", ""⟩
          [.mk "dcl" ["type", "ID"] ⟨"", ""⟩ [typeNode, idNode] tyd wtd, comma, rest] ty wt)
        ((typeNode, idNode) :: ds)

/-- The relation `IsParams node ds`: the node is the `params` child of a procedure, either
the leaf of `params .EMPTY` (no parameter) or `params -> paramlist`. -/
inductive IsParams : ParseTreeNode → List (ParseTreeNode × ParseTreeNode) → Prop
  | none (ty : String) (wt : Bool) : IsParams (.mk "" [] ⟨"params", ".EMPTY"⟩ [] ty wt) []
  | some (paramlist : ParseTreeNode) (ds : List (ParseTreeNode × ParseTreeNode)) (ty : String)
      (wt : Bool) :
      IsParamlist paramlist ds →
      IsParams (.mk "params" ["paramlist"] ⟨"", ""⟩ [paramlist] ty wt) ds

/-- The declared types of a list of parameters. -/
def declaredTypes (ds : List (ParseTreeNode × ParseTreeNode)) : List String :=
  ds.map (fun d => declaredType d.1)

/-- The symbols from which the body of a procedure is derived. -/
def bodySymbols : List String :=
  ["dcls", "dcl", "type", "statements", "statement", "test", "expr", "term", "factor", "lvalue",
    "arglist"]

/-- The program `int f(int n) { return f(n); } int wain(int a, int b) { return f(b); }`. -/
def selfRecursive : ParseTreeNode :=
  programOf
    [procedureOf "f" (paramsOf [dclInt "n"]) (emptyRule "dcls") (emptyRule "statements")
      (exprOf (callWith "f" (exprOf (factorId "n")) []))]
    (mainOf (dclInt "a") (dclInt "b") (emptyRule "dcls") (emptyRule "statements")
      (exprOf (callWith "f" (exprOf (factorId "b")) [])))

/-- The program `int f(int n) { return g(n); } int g(int n) { return f(n); }
int wain(int a, int b) { return f(b); }`: `f` calls `g`, declared later, and
`g` calls `f`. -/
def mutuallyRecursive : ParseTreeNode :=
  programOf
    [procedureOf "f" (paramsOf [dclInt "n"]) (emptyRule "dcls") (emptyRule "statements")
      (exprOf (callWith "g" (exprOf (factorId "n")) [])),
     procedureOf "g" (paramsOf [dclInt "n"]) (emptyRule "dcls") (emptyRule "statements")
      (exprOf (callWith "f" (exprOf (factorId "n")) []))]
    (mainOf (dclInt "a") (dclInt "b") (emptyRule "dcls") (emptyRule "statements")
      (exprOf (callWith "f" (exprOf (factorId "b")) [])))

/-- The program `int wain(int a, int b) { return 0; }`. -/
def minimalProgram : ParseTreeNode :=
  programOf []
    (mainOf (dclInt "a") (dclInt "b") (emptyRule "dcls") (emptyRule "statements")
      (exprOf (factorNum "0")))

/-- The node `statement -> PRINTLN LPAREN expr RPAREN SEMI`. -/
def printlnOf (expr : ParseTreeNode) : ParseTreeNode :=
  .internal "statement" ["PRINTLN", "LPAREN", "expr", "RPAREN", "SEMI"]
    [.terminal ⟨"PRINTLN", "println"⟩, .terminal ⟨"LPAREN", "("⟩, expr,
      .terminal ⟨"RPAREN", ")"⟩, .terminal ⟨"SEMI", ";"⟩]

/-- The `statements` node for a list of statements. -/
def statementsOf (statements : List ParseTreeNode) : ParseTreeNode :=
  statements.foldl
    (fun acc s => .internal "statements" ["statements", "statement"] [acc, s])
    (emptyRule "statements")

/-- The node `statement -> WHILE LPAREN test RPAREN LBRACE statements RBRACE`
with the test `left LT right`. -/
def whileLess (left right body : ParseTreeNode) : ParseTreeNode :=
  .internal "statement" ["WHILE", "LPAREN", "test", "RPAREN", "LBRACE", "statements", "RBRACE"]
    [.terminal ⟨"WHILE", "while"⟩, .terminal ⟨"LPAREN", "("⟩,
      .internal "test" ["expr", "LT", "expr"] [left, .terminal ⟨"LT", "<"⟩, right],
      .terminal ⟨"RPAREN", ")"⟩, .terminal ⟨"LBRACE", "\x7b"⟩, body,
      .terminal ⟨"RBRACE", "\x7d"⟩]

/-- The program `int f() { return 0; } int wain(int a, int b) { while (a < b)
{ println(a); } println(b); return 0; }`. -/
def loopProgram : ParseTreeNode :=
  programOf
    [procedureOf "f" (emptyRule "params") (emptyRule "dcls") (emptyRule "statements")
      (exprOf (factorNum "0"))]
    (mainOf (dclInt "a") (dclInt "b") (emptyRule "dcls")
      (statementsOf
        [whileLess (exprOf (factorId "a")) (exprOf (factorId "b"))
            (statementsOf [printlnOf (exprOf (factorId "a"))]),
          printlnOf (exprOf (factorId "b"))])
      (exprOf (factorNum "0")))

/-- The `wellTyped` flags of the nodes that are a `main`, a `procedure`, a
`statements` (a node of the rule `statements -> statements statement` or the
leaf of `statements .EMPTY`), a `statement` or a `test`, in pre-order. -/
def wellTypedFlags (root : ParseTreeNode) : List (String × Bool) :=
  ((nodes root).filter (fun n =>
      decide (n.prodRuleLHS ∈ ["main", "procedure", "statements", "statement", "test"])
        || decide (n.token.kind = "statements"))).map
    (fun n => (if n.prodRuleLHS = "" then n.token.kind else n.prodRuleLHS, n.wellTyped))

end wlp4type

/-! ## Code generator: the tree optimizer of `wlp4gen.cc`

`optimizeTree` updates the tree in place and returns a flag; its embedding
returns the flag together with the tree as it is after the call.  Where two
calls of `optimizeTree` are the operands of one `|`, the left operand is taken
to be evaluated first.  An `int` operation whose exact result is not an `int`,
and a division by zero, are undefined. -/

namespace wlp4gen

/-- The `Token` struct of wlp4gen.cc. -/
structure Token where
  kind : String
  lexeme : String
deriving DecidableEq, Repr

/-- The `ParseTreeNode` struct of wlp4gen.cc.  Its fields `isConstant` and
`constantValue` are never initialised nor read and are left out. -/
inductive ParseTreeNode where
  | mk (prodRuleLHS : String) (prodRuleRHS : List String) (token : Token)
      (children : List ParseTreeNode) (type : String) (wellTyped : Bool)

namespace ParseTreeNode

def prodRuleLHS : ParseTreeNode → String
  | .mk lhs _ _ _ _ _ => lhs

def prodRuleRHS : ParseTreeNode → List String
  | .mk _ rhs _ _ _ _ => rhs

def token : ParseTreeNode → Token
  | .mk _ _ tok _ _ _ => tok

def children : ParseTreeNode → List ParseTreeNode
  | .mk _ _ _ cs _ _ => cs

def type : ParseTreeNode → String
  | .mk _ _ _ _ ty _ => ty

def wellTyped : ParseTreeNode → Bool
  | .mk _ _ _ _ _ wt => wt

/-- The constructor `ParseTreeNode(prodRuleLHS, prodRuleRHS, children, type)`. -/
def internal (lhs : String) (rhs : List String) (cs : List ParseTreeNode) (ty : String) :
    ParseTreeNode :=
  .mk lhs rhs ⟨"", ""⟩ cs ty false

/-- The constructor `ParseTreeNode(Token t, string type)`. -/
def terminal (t : Token) (ty : String) : ParseTreeNode :=
  .mk "" [] t [] ty false

/-- The assignment `node->prodRuleRHS = rhs`. -/
def setRHS (rhs : List String) : ParseTreeNode → ParseTreeNode
  | .mk lhs _ tok cs ty wt => .mk lhs rhs tok cs ty wt

/-- The assignment `node->children = cs`. -/
def setChildren (cs : List ParseTreeNode) : ParseTreeNode → ParseTreeNode
  | .mk lhs rhs tok _ ty wt => .mk lhs rhs tok cs ty wt

/-- The node after `node->children[i]` was replaced (or updated in place). -/
def setChild (node : ParseTreeNode) (i : Nat) (c : ParseTreeNode) : ParseTreeNode :=
  node.setChildren (node.children.set i c)

end ParseTreeNode

/-- Ways in which the code generator can fail to return: an operation the C++
standard leaves undefined, the exceptions `std::invalid_argument` and
`std::out_of_range` of `std::stoi` (neither is a `std::runtime_error`, so
`main` does not catch them), and a `std::runtime_error`. -/
inductive Fault where
  | undefined (what : String)
  | invalid_argument (what : String)
  | out_of_range (what : String)
  | runtime_error (what : String)
deriving DecidableEq, Repr

/-- The smallest value of type `int`. -/
def INT_MIN : Int := -2147483648

/-- The largest value of type `int`. -/
def INT_MAX : Int := 2147483647

/-- The characters `isspace` accepts (in the "C" locale). -/
def isspace (c : Char) : Bool :=
  c = ' ' || c = '\t' || c = '\n' || c = '\x0b' || c = '\x0c' || c = '\r'

/-- The value of a run of decimal digits. -/
def digitsValue (digits : List Char) : Nat :=
  digits.foldl (fun acc c => 10 * acc + (c.toNat - '0'.toNat)) 0

/-- The number `std::stoi` reads from a string: leading white space is
skipped, then an optional sign and the longest run of decimal digits are read
and what follows is ignored; `none` when there is no digit. -/
def parseInteger (s : String) : Option Int :=
  let rest := s.data.dropWhile isspace
  let (negative, body) :=
    match rest with
    | '-' :: body => (true, body)
    | '+' :: body => (false, body)
    | body => (false, body)
  let digits := body.takeWhile Char.isDigit
  if digits.isEmpty then none
  else if negative then some (-(digitsValue digits : Int))
  else some (digitsValue digits : Int)

/-- The function `std::stoi(s)`: no digit to read is `std::invalid_argument`,
a value that is not an `int` is `std::out_of_range`. -/
def stoi (s : String) : Except Fault Int :=
  match parseInteger s with
  | none => .error (.invalid_argument "stoi")
  | some value =>
    if INT_MIN ≤ value ∧ value ≤ INT_MAX then .ok value else .error (.out_of_range "stoi")

/-- The function `std::to_string(int)`: the decimal text, with `-` in front of
a negative value. -/
def to_string (value : Int) : String :=
  toString value

/-- The result of an `int` operation, which is undefined when the exact value
is not an `int`. -/
def checked (value : Int) : Except Fault Int :=
  if INT_MIN ≤ value ∧ value ≤ INT_MAX then .ok value
  else .error (.undefined "signed integer overflow")

/-- The `int` expression `a * b`. -/
def multiply (a b : Int) : Except Fault Int := checked (a * b)

/-- The `int` expression `a / b`: undefined for `b = 0`, otherwise the quotient
truncated toward zero. -/
def divide (a b : Int) : Except Fault Int :=
  if b = 0 then .error (.undefined "division by zero") else checked (Int.tdiv a b)

/-- The `int` expression `a % b`: undefined for `b = 0` and when `a / b` is not
an `int`, otherwise the remainder of the truncated division. -/
def modulo (a b : Int) : Except Fault Int :=
  if b = 0 then .error (.undefined "division by zero")
  else (checked (Int.tdiv a b)).map (fun _ => Int.tmod a b)

/-- The `int` expression `a + b`. -/
def plus (a b : Int) : Except Fault Int := checked (a + b)

/-- The `int` expression `a - b`. -/
def minus (a b : Int) : Except Fault Int := checked (a - b)

/-- The global `varTable`: variable name to (value, type, dirty).  As for the
other maps, only the first pair of a key counts. -/
abbrev VarTable := List (String × (String × String × Bool))

/-- The value stored under a key (`find`), if any. -/
def find {β : Type} (k : String) : List (String × β) → Option β
  | [] => none
  | (k1, v) :: rest => if k1 = k then some v else find k rest

/-- The map after `m[k] = v`. -/
def insert {β : Type} (k : String) (v : β) : List (String × β) → List (String × β)
  | [] => [(k, v)]
  | (k1, v1) :: rest => if k1 = k then (k, v) :: rest else (k1, v1) :: insert k v rest

/-- The globals `optimizeTree` reads or writes, and the lines it writes to
standard output. -/
structure OptState where
  varTable : VarTable
  ifWhileNestLevel : Int
  wainParam1Name : String
  wainParam2Name : String
  output : List String
deriving DecidableEq, Repr

/-- The globals at program start (lines 92-106). -/
def OptState.initial : OptState :=
  { varTable := [], ifWhileNestLevel := 0, wainParam1Name := "", wainParam2Name := "",
    output := [] }

/-- A computation of the optimizer: it updates the globals and returns, or
fails. -/
def Opt (α : Type) : Type := OptState → Except Fault (α × OptState)

namespace Opt

def pure {α : Type} (a : α) : Opt α := fun st => .ok (a, st)

def bind {α β : Type} (x : Opt α) (f : α → Opt β) : Opt β := fun st =>
  match x st with
  | .ok (a, st1) => f a st1
  | .error e => .error e

/-- A computation that fails. -/
def fail {α : Type} (e : Fault) : Opt α := fun _ => .error e

/-- The result of a computation without access to the globals. -/
def lift {α : Type} (r : Except Fault α) : Opt α := fun st =>
  match r with
  | .ok a => .ok (a, st)
  | .error e => .error e

end Opt

instance : Monad Opt where
  pure := Opt.pure
  bind := Opt.bind

/-- The expression `node->children[i]`. -/
def childAt (node : ParseTreeNode) (i : Nat) : Opt ParseTreeNode :=
  match node.children.get? i with
  | some c => pure c
  | none => Opt.fail (.undefined "children[i]")

/-- The expression `node->prodRuleRHS[i]`. -/
def rhsAt (node : ParseTreeNode) (i : Nat) : Opt String :=
  match node.prodRuleRHS.get? i with
  | some s => pure s
  | none => Opt.fail (.undefined "prodRuleRHS[i]")

/-- The current value of `ifWhileNestLevel`. -/
def nestLevel : Opt Int := fun st => .ok (st.ifWhileNestLevel, st)

/-- The statements `ifWhileNestLevel++` (for 1) and `ifWhileNestLevel--` (for -1). -/
def addNestLevel (d : Int) : Opt Unit := fun st =>
  .ok ((), { st with ifWhileNestLevel := st.ifWhileNestLevel + d })

/-- The lookup `varTable.find(name)`. -/
def findVar (name : String) : Opt (Option (String × String × Bool)) := fun st =>
  .ok (find name st.varTable, st)

/-- The statement `varTable[name] = make_tuple(value, type, dirty)`. -/
def setVar (name value type : String) (dirty : Bool) : Opt Unit := fun st =>
  .ok ((), { st with varTable := insert name (value, type, dirty) st.varTable })

/-- The statement `get<2>(varTable[name]) = true`; a missing entry is created
with empty strings first. -/
def markDirty (name : String) : Opt Unit := fun st =>
  let entry := (find name st.varTable).getD ("", "", false)
  .ok ((), { st with varTable := insert name (entry.1, entry.2.1, true) st.varTable })

/-- The statement `varTable.clear()`. -/
def clearVarTable : Opt Unit := fun st => .ok ((), { st with varTable := [] })

/-- A line written to standard output. -/
def print (line : String) : Opt Unit := fun st =>
  .ok ((), { st with output := st.output ++ [line] })

/-- Lines 318-321: the names of the two parameters of `wain` are recorded. -/
def recordWainParams (node : ParseTreeNode) : Opt Unit := do
  let dcl1 ← childAt node 3
  let id1 ← childAt dcl1 1
  let dcl2 ← childAt node 5
  let id2 ← childAt dcl2 1
  fun st => .ok ((), { st with wainParam1Name := id1.token.lexeme,
                               wainParam2Name := id2.token.lexeme })

mutual
/-- The function `addDclsToVarTable` (lines 218-239). -/
def addDclsToVarTable : ParseTreeNode → Opt Unit
  | .mk lhs rhs tok cs ty wt =>
    if rhs.length ≠ 5 then pure ()
    else do
      let node := ParseTreeNode.mk lhs rhs tok cs ty wt
      let initialiser ← rhsAt node 3
      (if initialiser = "NUM" then do
        let dcl ← childAt node 1
        let idNode ← childAt dcl 1
        let literal ← childAt node 3
        setVar idNode.token.lexeme literal.token.lexeme "int" false
      else if initialiser = "NULL" then do
        let dcl ← childAt node 1
        let idNode ← childAt dcl 1
        let _ ← childAt node 3
        setVar idNode.token.lexeme "1" "int*" false
      else pure ())
      addDclsToFirst cs
termination_by structural node => node
/-- The call `addDclsToVarTable(node->children[0])`. -/
def addDclsToFirst : List ParseTreeNode → Opt Unit
  | [] => Opt.fail (.undefined "children[0]")
  | c :: _ => addDclsToVarTable c
termination_by structural cs => cs
end

/-- A recursive call `optimizeTree(node->children[i])`: it returns the flag and
the child as it is after the call. -/
abbrev Rec := Nat → Opt (Bool × ParseTreeNode)

/-- The loop of lines 586-591 over all children: it returns the flag and the
children as they are after the loop. -/
abbrev Loop := Opt (Bool × List ParseTreeNode)

/-- The literal subtree `factor -> NUM` built at lines 335-339 (and in the
other folding branches). -/
def newFactorNum (newResult : String) : ParseTreeNode :=
  .internal "factor" ["NUM"] [.terminal ⟨"kind", newResult⟩ "int"] "int"

/-- The three folding branches of a `term` node (lines 326-351, 353-378 and
380-405), which differ in the operator only.  The two recursive calls are
operands of `|`; the left one is taken to run first. -/
def foldTerm (rec : Rec) (node : ParseTreeNode) (operation : Int → Int → Except Fault Int) :
    Opt (Bool × ParseTreeNode) := do
  let (left, term) ← rec 0
  let (right, factor) ← rec 2
  let didOptimize := left || right
  let node1 := (node.setChild 0 term).setChild 2 factor
  let termFactor ← childAt term 0
  let termRule ← rhsAt termFactor 0
  let bothConstants ←
    (if termRule = "NUM" then do
      let factorRule ← rhsAt factor 0
      pure (decide (factorRule = "NUM"))
    else pure false)
  if bothConstants then do
    let termLiteral ← childAt termFactor 0
    let a ← Opt.lift (stoi termLiteral.token.lexeme)
    let factorLiteral ← childAt factor 0
    let b ← Opt.lift (stoi factorLiteral.token.lexeme)
    let value ← Opt.lift (operation a b)
    let newResult := to_string value
    pure (true, (node1.setRHS ["factor"]).setChildren [newFactorNum newResult])
  else pure (didOptimize, node1)

/-- The two folding branches of an `expr` node (lines 408-436 and 438-466). -/
def foldExpr (rec : Rec) (node : ParseTreeNode) (operation : Int → Int → Except Fault Int) :
    Opt (Bool × ParseTreeNode) := do
  let (left, expr) ← rec 0
  let (right, term) ← rec 2
  let didOptimize := left || right
  let node1 := (node.setChild 0 expr).setChild 2 term
  let exprTerm ← childAt expr 0
  let exprFactor ← childAt exprTerm 0
  let exprRule ← rhsAt exprFactor 0
  let bothConstants ←
    (if exprRule = "NUM" then do
      let termFactor ← childAt term 0
      let termRule ← rhsAt termFactor 0
      pure (decide (termRule = "NUM"))
    else pure false)
  if bothConstants then do
    let exprLiteral ← childAt exprFactor 0
    let a ← Opt.lift (stoi exprLiteral.token.lexeme)
    let termFactor ← childAt term 0
    let termLiteral ← childAt termFactor 0
    let b ← Opt.lift (stoi termLiteral.token.lexeme)
    let value ← Opt.lift (operation a b)
    let newResult := to_string value
    let newTermFactor := ParseTreeNode.internal "term" ["factor"] [newFactorNum newResult] "int"
    pure (true, (node1.setRHS ["term"]).setChildren [newTermFactor])
  else pure (didOptimize, node1)

/-- Lines 324-467, constant folding: `some` with the returned flag when a
branch returns, `none` when control reaches line 469. -/
def constantFolding (rec : Rec) (node : ParseTreeNode) : Opt (Option (Bool × ParseTreeNode)) :=
  let rhs := node.prodRuleRHS
  if node.prodRuleLHS = "term" then
    if rhs.length = 3 ∧ rhs.get? 1 = some "STAR" then some <$> foldTerm rec node multiply
    else if rhs.length = 3 ∧ rhs.get? 1 = some "SLASH" then some <$> foldTerm rec node divide
    else if rhs.length = 3 ∧ rhs.get? 1 = some "PCT" then some <$> foldTerm rec node modulo
    else pure none
  else if node.prodRuleLHS = "expr" then
    if rhs.length = 3 ∧ rhs.get? 1 = some "PLUS" then some <$> foldExpr rec node plus
    else if rhs.length = 3 ∧ rhs.get? 1 = some "MINUS" then some <$> foldExpr rec node minus
    else pure none
  else pure none

/-- Branch `main` of the propagation part (lines 472-481). -/
def optimizeMain (rec : Rec) (node : ParseTreeNode) : Opt (Bool × ParseTreeNode) := do
  let dcls ← childAt node 8
  addDclsToVarTable dcls
  let (left, statements) ← rec 9
  let (right, expr) ← rec 11
  let didOptimize := left || right
  clearVarTable
  pure (didOptimize, (node.setChild 9 statements).setChild 11 expr)

/-- Branch `procedure` (lines 483-492). -/
def optimizeProcedure (rec : Rec) (node : ParseTreeNode) : Opt (Bool × ParseTreeNode) := do
  let dcls ← childAt node 6
  addDclsToVarTable dcls
  let (left, statements) ← rec 7
  let (right, expr) ← rec 9
  let didOptimize := left || right
  clearVarTable
  pure (didOptimize, (node.setChild 7 statements).setChild 9 expr)

/-- Branch `statement -> lvalue BECOMES expr SEMI` (lines 494-521). -/
def optimizeAssignment (rec : Rec) (node : ParseTreeNode) : Opt (Bool × ParseTreeNode) := do
  let (didOptimize, expr) ← rec 2
  let node1 := node.setChild 2 expr
  let level ← nestLevel
  let lvalue ← childAt node1 0
  let nested ← (if level ≠ 0 then do
      let rule ← rhsAt lvalue 0
      pure (decide (rule = "ID"))
    else pure false)
  if nested then do
    let idNode ← childAt lvalue 0
    markDirty idNode.token.lexeme
    pure (didOptimize, node1)
  else do
    let rule ← rhsAt lvalue 0
    if rule = "ID" then do
      let exprTerm ← childAt expr 0
      let exprFactor ← childAt exprTerm 0
      let exprRule ← rhsAt exprFactor 0
      if exprRule ≠ "NUM" then do
        let idNode ← childAt lvalue 0
        markDirty idNode.token.lexeme
        pure (didOptimize, node1)
      else do
        let idNode ← childAt lvalue 0
        let literal ← childAt exprFactor 0
        setVar idNode.token.lexeme literal.token.lexeme "int" false
        pure (didOptimize, node1)
    else pure (didOptimize, node1)

/-- Branch `statement -> WHILE ...` (lines 523-537). -/
def optimizeWhile (rec : Rec) (node : ParseTreeNode) : Opt (Bool × ParseTreeNode) := do
  addNestLevel 1
  let (first, test) ← rec 2
  let (second, statements) ← rec 5
  addNestLevel (-1)
  pure (first || second, (node.setChild 2 test).setChild 5 statements)

/-- Branch `statement -> IF ...` (lines 540-556). -/
def optimizeIf (rec : Rec) (node : ParseTreeNode) : Opt (Bool × ParseTreeNode) := do
  addNestLevel 1
  let (first, test) ← rec 2
  let (second, thenPart) ← rec 5
  let (third, elsePart) ← rec 9
  addNestLevel (-1)
  pure ((first || second) || third,
    ((node.setChild 2 test).setChild 5 thenPart).setChild 9 elsePart)

/-- Branch `factor -> ID` (lines 560-583). -/
def optimizeUse (node : ParseTreeNode) : Opt (Bool × ParseTreeNode) := do
  let idNode ← childAt node 0
  let varName := idNode.token.lexeme
  let level ← nestLevel
  if level = 0 then do
    let entry ← findVar varName
    match entry with
    | some (value, type, false) => do
      print ("; " ++ varName ++ " FOUND AND NOT DIRTY")
      pure (true, (node.setChild 0 (.terminal ⟨"kind", value⟩ type)).setRHS ["NUM"])
    | _ => pure (false, node)
  else pure (false, node)

/-- The test `isupper(s[0])`; `s[0]` of the empty string is the null character. -/
def startsUpper (s : String) : Bool :=
  match s.data with
  | [] => false
  | c :: _ => c.isUpper

/-- Lines 472-592, constant propagation and the fall-through loop. -/
def constantPropagation (rec : Rec) (loop : Loop) (node : ParseTreeNode) :
    Opt (Bool × ParseTreeNode) :=
  let lhs := node.prodRuleLHS
  let rhs := node.prodRuleRHS
  if lhs = "main" then optimizeMain rec node
  else if lhs = "procedure" then optimizeProcedure rec node
  else if lhs = "statement" ∧ rhs.length = 4 then optimizeAssignment rec node
  else do
    let isWhile ← (if lhs = "statement" then do
        let first ← rhsAt node 0
        pure (decide (first = "WHILE"))
      else pure false)
    if isWhile then optimizeWhile rec node
    else do
      let isIf ← (if lhs = "statement" then do
          let first ← rhsAt node 0
          pure (decide (first = "IF"))
        else pure false)
      if isIf then optimizeIf rec node
      else if lhs = "factor" ∧ rhs.length = 1 ∧ rhs.get? 0 = some "ID" then optimizeUse node
      else do
        let (didOptimize, children) ← loop
        pure (didOptimize, node.setChildren children)

/-- The body of `optimizeTree` (lines 300-593) with its recursive calls
abstracted. -/
def optimizeBody (rec : Rec) (loop : Loop) (node : ParseTreeNode) :
    Opt (Bool × ParseTreeNode) := do
  (if node.prodRuleLHS = "main" then recordWainParams node else pure ())
  let folded ← constantFolding rec node
  match folded with
  | some result => pure result
  | none => constantPropagation rec loop node

mutual
/-- The function `optimizeTree`: it returns the flag and the tree as it is
after the call (the source updates the tree in place). -/
def optimizeTree : ParseTreeNode → Opt (Bool × ParseTreeNode)
  | .mk lhs rhs tok cs ty wt =>
    optimizeBody (fun i => optimizeAt cs i) (optimizeLoop rhs cs) (.mk lhs rhs tok cs ty wt)
termination_by structural node => node
/-- The call `optimizeTree(node->children[i])`. -/
def optimizeAt : List ParseTreeNode → Nat → Opt (Bool × ParseTreeNode)
  | [], _ => Opt.fail (.undefined "children[i]")
  | c :: _, 0 => optimizeTree c
  | _ :: cs, i + 1 => optimizeAt cs i
termination_by structural cs => cs
/-- The loop of lines 586-591, from index `i` on: the symbols
`prodRuleRHS[i], ...` and the children `children[i], ...`. -/
def optimizeLoop : List String → List ParseTreeNode → Opt (Bool × List ParseTreeNode)
  | _, [] => pure (false, [])
  | [], _ :: _ => Opt.fail (.undefined "prodRuleRHS[i]")
  | symbol :: symbols, c :: cs => do
    let (first, c1) ←
      (if symbol ≠ ".EMPTY" ∧ startsUpper symbol = false then optimizeTree c
       else pure (false, c))
    let (others, cs1) ← optimizeLoop symbols cs
    pure (first || others, c1 :: cs1)
termination_by structural _ cs => cs
end

/-- The loop of `main` (lines 1587-1592) after a pass that returned
`didOptimize`: the number of further passes and the final tree.  The loop need
not stop, so it is run for at most `fuel` passes. -/
def optimizeAgain : Nat → Bool → ParseTreeNode → Nat → Opt (Option (Nat × ParseTreeNode))
  | _, false, root, optimizeCounter => pure (some (optimizeCounter, root))
  | 0, true, _, _ => pure none
  | fuel + 1, true, root, optimizeCounter => do
    clearVarTable
    let (didOptimize, root1) ← optimizeTree root
    optimizeAgain fuel didOptimize root1 (optimizeCounter + 1)

/-- Lines 1586-1593 of `main`: the passes over the tree and the comment line
that reports their number (`none` when the fuel ran out). -/
def optimize (fuel : Nat) (root : ParseTreeNode) : Opt (Option ParseTreeNode) := do
  let (didOptimize, root1) ← optimizeTree root
  let result ← optimizeAgain fuel didOptimize root1 0
  match result with
  | none => pure none
  | some (optimizeCounter, root2) => do
    print ("; Optimizations: " ++ toString optimizeCounter)
    pure (some root2)

end wlp4gen

/-! ### Sample trees of the optimizer -/

namespace wlp4gen

/-- The subtree `factor -> NUM` of a literal, as `buildParseTree` builds it
from the output of the type checker. -/
def literalFactor (lexeme : String) : ParseTreeNode :=
  .internal "factor" ["NUM"] [.terminal ⟨"NUM", lexeme⟩ "int"] "int"

/-- The subtree `term -> factor` over `factor -> NUM`. -/
def literalTerm (lexeme : String) : ParseTreeNode :=
  .internal "term" ["factor"] [literalFactor lexeme] "int"

/-- The subtree `expr -> term` over `term -> factor` over `factor -> NUM`. -/
def literalExpr (lexeme : String) : ParseTreeNode :=
  .internal "expr" ["term"] [literalTerm lexeme] "int"

/-- The node `term -> term OP factor` on two literals. -/
def termOfLiterals (a operator sign b : String) : ParseTreeNode :=
  .internal "term" ["term", operator, "factor"]
    [literalTerm a, .terminal ⟨operator, sign⟩ "", literalFactor b] "int"

/-- The node `expr -> expr OP term` on two literals. -/
def exprOfLiterals (a operator sign b : String) : ParseTreeNode :=
  .internal "expr" ["expr", operator, "term"]
    [literalExpr a, .terminal ⟨operator, sign⟩ "", literalTerm b] "int"

/-- The literal subtree that folding leaves under a `term`. -/
def foldedTerm (lexeme : String) : ParseTreeNode :=
  .internal "term" ["factor"] [newFactorNum lexeme] "int"

/-- The literal subtree that folding leaves under an `expr`. -/
def foldedExpr (lexeme : String) : ParseTreeNode :=
  .internal "expr" ["term"] [.internal "term" ["factor"] [newFactorNum lexeme] "int"] "int"

end wlp4gen

namespace wlp4gen

/-- The node is a literal: `factor -> NUM` over the leaf `leaf`. -/
def IsLiteralFactor (node leaf : ParseTreeNode) : Prop :=
  node.prodRuleLHS = "factor" ∧ node.prodRuleRHS = ["NUM"] ∧ node.children = [leaf]

/-- The node is a literal: `term -> factor` over `factor -> NUM` over `leaf`. -/
def IsLiteralTerm (node leaf : ParseTreeNode) : Prop :=
  node.prodRuleLHS = "term" ∧ node.prodRuleRHS = ["factor"] ∧
    ∃ factor, node.children = [factor] ∧ IsLiteralFactor factor leaf

/-- The node is a literal: `expr -> term` over `term -> factor` over
`factor -> NUM` over `leaf`. -/
def IsLiteralExpr (node leaf : ParseTreeNode) : Prop :=
  node.prodRuleLHS = "expr" ∧ node.prodRuleRHS = ["term"] ∧
    ∃ term, node.children = [term] ∧ IsLiteralTerm term leaf

/-- The subtree `expr -> term` over `term -> factor` over `factor -> ID` of a
variable. -/
def variableExpr (name type : String) : ParseTreeNode :=
  .internal "expr" ["term"]
    [.internal "term" ["factor"]
      [.internal "factor" ["ID"] [.terminal ⟨"ID", name⟩ type] type] type] type

/-- The tree of `a + 3` for an `int` variable `a`. -/
def variablePlusThree : ParseTreeNode :=
  .internal "expr" ["expr", "PLUS", "term"]
    [variableExpr "a" "int", .terminal ⟨"PLUS", "+"⟩ "", literalTerm "3"] "int"

end wlp4gen

/-! ### Properties of optimizer computations -/

namespace wlp4gen

/-- The triple `Post x Q`: when `x` returns, its result satisfies `Q`. -/
structure Post {α : Type} (x : Opt α) (Q : α → Prop) : Prop where
  holds : ∀ st a st1, x st = .ok (a, st1) → Q a

/-- The returned flag is `false` exactly when the returned tree is `node`. -/
def Unchanged (node : ParseTreeNode) (r : Bool × ParseTreeNode) : Prop :=
  r.1 = false ↔ r.2 = node

/-- What is assumed of the recursive calls on the children `cs`. -/
def RecFlagged (rec : Rec) (cs : List ParseTreeNode) : Prop :=
  ∀ i, Post (rec i) (fun r => ∃ c, cs.get? i = some c ∧ Unchanged c r)

/-- Two states with the same `varTable` and the same `ifWhileNestLevel`. -/
def Agree (st st1 : OptState) : Prop :=
  st.varTable = st1.varTable ∧ st.ifWhileNestLevel = st1.ifWhileNestLevel

/-- A computation whose result, and whose final `varTable` and
`ifWhileNestLevel`, depend on the `varTable` and the `ifWhileNestLevel` it is
started with only. -/
structure Same {α : Type} (x : Opt α) : Prop where
  same : ∀ st st1 a s, Agree st st1 → x st = .ok (a, s) →
    ∃ s1, x st1 = .ok (a, s1) ∧ Agree s s1

end wlp4gen

/-! ### Sample programs of the optimizer -/

namespace wlp4gen

/-- A leaf without a type, as `buildParseTree` builds it for a token line. -/
def leaf (kind lexeme : String) : ParseTreeNode :=
  .terminal ⟨kind, lexeme⟩ ""

/-- The leaf that `buildParseTree` builds for a rule `lhs .EMPTY` (line 201). -/
def emptyRule (lhs : String) : ParseTreeNode :=
  .terminal ⟨lhs, ".EMPTY"⟩ ""

/-- The subtree `type -> INT`. -/
def intType : ParseTreeNode :=
  .internal "type" ["INT"] [leaf "INT" "int"] ""

/-- The subtree `type -> INT STAR`. -/
def pointerType : ParseTreeNode :=
  .internal "type" ["INT", "STAR"] [leaf "INT" "int", leaf "STAR" "*"] ""

/-- The subtree `dcl -> type ID` of an `int` variable. -/
def intDcl (name : String) : ParseTreeNode :=
  .internal "dcl" ["type", "ID"] [intType, .terminal ⟨"ID", name⟩ "int"] ""

/-- The subtree `dcl -> type ID` of an `int*` variable. -/
def pointerDcl (name : String) : ParseTreeNode :=
  .internal "dcl" ["type", "ID"] [pointerType, .terminal ⟨"ID", name⟩ "int*"] ""

/-- The subtree `dcls -> dcls dcl BECOMES NUM SEMI`. -/
def dclsNum (rest : ParseTreeNode) (name value : String) : ParseTreeNode :=
  .internal "dcls" ["dcls", "dcl", "BECOMES", "NUM", "SEMI"]
    [rest, intDcl name, leaf "BECOMES" "=", .terminal ⟨"NUM", value⟩ "int", leaf "SEMI" ";"] ""

/-- The subtree `dcls -> dcls dcl BECOMES NULL SEMI`. -/
def dclsNull (rest : ParseTreeNode) (name : String) : ParseTreeNode :=
  .internal "dcls" ["dcls", "dcl", "BECOMES", "NULL", "SEMI"]
    [rest, pointerDcl name, leaf "BECOMES" "=", .terminal ⟨"NULL", "NULL"⟩ "int*",
      leaf "SEMI" ";"] ""

/-- The subtree `lvalue -> ID`. -/
def lvalueOf (name type : String) : ParseTreeNode :=
  .internal "lvalue" ["ID"] [.terminal ⟨"ID", name⟩ type] type

/-- The subtree `lvalue -> LPAREN lvalue RPAREN`. -/
def lvalueParen (inner : ParseTreeNode) : ParseTreeNode :=
  .internal "lvalue" ["LPAREN", "lvalue", "RPAREN"]
    [leaf "LPAREN" "(", inner, leaf "RPAREN" ")"] inner.type

/-- The subtree `lvalue -> STAR factor`. -/
def lvalueStar (factor : ParseTreeNode) : ParseTreeNode :=
  .internal "lvalue" ["STAR", "factor"] [leaf "STAR" "*", factor] "int"

/-- The subtree `factor -> ID` of a variable. -/
def variableFactor (name type : String) : ParseTreeNode :=
  .internal "factor" ["ID"] [.terminal ⟨"ID", name⟩ type] type

/-- The subtree `factor -> AMP lvalue`. -/
def addressOf (lvalue : ParseTreeNode) : ParseTreeNode :=
  .internal "factor" ["AMP", "lvalue"] [leaf "AMP" "&", lvalue] "int*"

/-- The subtree `factor -> STAR factor`. -/
def dereference (factor : ParseTreeNode) : ParseTreeNode :=
  .internal "factor" ["STAR", "factor"] [leaf "STAR" "*", factor] "int"

/-- The subtree `expr -> term` over `term -> factor` over the factor. -/
def exprOfFactor (factor : ParseTreeNode) : ParseTreeNode :=
  .internal "expr" ["term"] [.internal "term" ["factor"] [factor] factor.type] factor.type

/-- The subtree `statement -> lvalue BECOMES expr SEMI`. -/
def assignment (lvalue expr : ParseTreeNode) : ParseTreeNode :=
  .internal "statement" ["lvalue", "BECOMES", "expr", "SEMI"]
    [lvalue, leaf "BECOMES" "=", expr, leaf "SEMI" ";"] ""

/-- The subtree `statements -> statements statement`. -/
def statementsThen (rest statement : ParseTreeNode) : ParseTreeNode :=
  .internal "statements" ["statements", "statement"] [rest, statement] ""

/-- The statements in source order, after `statements -> .EMPTY`. -/
def statementList (list : List ParseTreeNode) : ParseTreeNode :=
  list.foldl statementsThen (emptyRule "statements")

/-- The subtree of `int wain(dcl1, dcl2) { dcls statements return expr; }`. -/
def wainOf (dcl1 dcl2 dcls statements expr : ParseTreeNode) : ParseTreeNode :=
  .internal "main"
    ["INT", "WAIN", "LPAREN", "dcl", "COMMA", "dcl", "RPAREN", "LBRACE", "dcls", "statements",
      "RETURN", "expr", "SEMI", "RBRACE"]
    [leaf "INT" "int", leaf "WAIN" "wain", leaf "LPAREN" "(", dcl1, leaf "COMMA" ",", dcl2,
      leaf "RPAREN" ")", leaf "LBRACE" "\x7b", dcls, statements, leaf "RETURN" "return", expr,
      leaf "SEMI" ";", leaf "RBRACE" "\x7d"] ""

/-- The tree of a program: `start -> BOF procedures EOF` over a chain
`procedures -> procedure procedures` that ends in `procedures -> main`. -/
def programOf (procedures : List ParseTreeNode) (main : ParseTreeNode) : ParseTreeNode :=
  .internal "start" ["BOF", "procedures", "EOF"]
    [leaf "BOF" "BOF",
      procedures.foldr
        (fun p rest => .internal "procedures" ["procedure", "procedures"] [p, rest] "")
        (.internal "procedures" ["main"] [main] ""),
      leaf "EOF" "EOF"] ""

/-- The tree of
`int wain(int a, int b) \x7b int x = 1; x = a; x = 5; return x; \x7d`. -/
def reassigned : ParseTreeNode :=
  programOf [] (wainOf (intDcl "a") (intDcl "b") (dclsNum (emptyRule "dcls") "x" "1")
    (statementList [assignment (lvalueOf "x" "int") (variableExpr "a" "int"),
      assignment (lvalueOf "x" "int") (literalExpr "5")])
    (variableExpr "x" "int"))

/-- The tree of
`int wain(int* a, int b) \x7b int x = 1; a = &x; *a = 5; return x; \x7d`. -/
def aliased : ParseTreeNode :=
  programOf [] (wainOf (pointerDcl "a") (intDcl "b") (dclsNum (emptyRule "dcls") "x" "1")
    (statementList [assignment (lvalueOf "a" "int*") (exprOfFactor (addressOf (lvalueOf "x" "int"))),
      assignment (lvalueStar (variableFactor "a" "int*")) (literalExpr "5")])
    (variableExpr "x" "int"))

/-- The tree of
`int wain(int a, int b) \x7b int x = 1; (x) = a; return x; \x7d`. -/
def parenthesised : ParseTreeNode :=
  programOf [] (wainOf (intDcl "a") (intDcl "b") (dclsNum (emptyRule "dcls") "x" "1")
    (statementList [assignment (lvalueParen (lvalueOf "x" "int")) (variableExpr "a" "int")])
    (variableExpr "x" "int"))

/-- The return expression of a program tree with `wain` alone: child 11 of the
`main` node. -/
def returnExpr (root : ParseTreeNode) : Option ParseTreeNode := do
  let procedures ← root.children.get? 1
  let main ← procedures.children.get? 0
  main.children.get? 11

end wlp4gen

namespace wlp4gen

/-- The subtree of `int name(params) { dcls statements return expr; }`. -/
def procedureOf (name : String) (params dcls statements expr : ParseTreeNode) : ParseTreeNode :=
  .internal "procedure"
    ["INT", "ID", "LPAREN", "params", "RPAREN", "LBRACE", "dcls", "statements", "RETURN", "expr",
      "SEMI", "RBRACE"]
    [leaf "INT" "int", leaf "ID" name, leaf "LPAREN" "(", params, leaf "RPAREN" ")",
      leaf "LBRACE" "\x7b", dcls, statements, leaf "RETURN" "return", expr, leaf "SEMI" ";",
      leaf "RBRACE" "\x7d"] ""

/-- The subtree `params -> paramlist` over `paramlist -> dcl`. -/
def oneParam (dcl : ParseTreeNode) : ParseTreeNode :=
  .internal "params" ["paramlist"] [.internal "paramlist" ["dcl"] [dcl] ""] ""

/-- The subtree `factor -> ID LPAREN arglist RPAREN` with one argument. -/
def callWith (name : String) (argument : ParseTreeNode) : ParseTreeNode :=
  .internal "factor" ["ID", "LPAREN", "arglist", "RPAREN"]
    [leaf "ID" name, leaf "LPAREN" "(", .internal "arglist" ["expr"] [argument] "",
      leaf "RPAREN" ")"] "int"

/-- The tree of `int f() \x7b int x = 0; return x; \x7d`. -/
def registerLocal : ParseTreeNode :=
  procedureOf "f" (emptyRule "params") (dclsNum (emptyRule "dcls") "x" "0")
    (emptyRule "statements") (variableExpr "x" "int")

/-- The tree of `int g(int x) \x7b return x; \x7d`. -/
def frameParameter : ParseTreeNode :=
  procedureOf "g" (oneParam (intDcl "x")) (emptyRule "dcls") (emptyRule "statements")
    (variableExpr "x" "int")

/-- The tree of the program
`int f() \x7b int x = 0; return x; \x7d int g(int x) \x7b return x; \x7d
int wain(int a, int b) \x7b return g(a); \x7d`. -/
def sameName : ParseTreeNode :=
  programOf [registerLocal, frameParameter]
    (wainOf (intDcl "a") (intDcl "b") (emptyRule "dcls") (emptyRule "statements")
      (exprOfFactor (callWith "g" (variableExpr "a" "int"))))

/-- The tree of `int wain(int a, int b) \x7b return *&*&a; \x7d`. -/
def nestedAddress : ParseTreeNode :=
  programOf [] (wainOf (intDcl "a") (intDcl "b") (emptyRule "dcls") (emptyRule "statements")
    (exprOfFactor (dereference (addressOf (lvalueStar (addressOf (lvalueOf "a" "int")))))))

end wlp4gen

namespace wlp4gen

/-- The subtree `expr -> term` over a term. -/
def exprOfTerm (term : ParseTreeNode) : ParseTreeNode :=
  .internal "expr" ["term"] [term] term.type

/-- The tree of `int wain(int a, int b) \x7b return 1 / 0; \x7d`. -/
def divisionByZero : ParseTreeNode :=
  programOf [] (wainOf (intDcl "a") (intDcl "b") (emptyRule "dcls") (emptyRule "statements")
    (exprOfTerm (termOfLiterals "1" "SLASH" "/" "0")))

/-- The tree of `int wain(int a, int b) \x7b return 1 % 0; \x7d`. -/
def remainderByZero : ParseTreeNode :=
  programOf [] (wainOf (intDcl "a") (intDcl "b") (emptyRule "dcls") (emptyRule "statements")
    (exprOfTerm (termOfLiterals "1" "PCT" "%" "0")))

end wlp4gen

namespace wlp4gen

/-- The subtree `test -> expr LT expr`. -/
def lessThan (left right : ParseTreeNode) : ParseTreeNode :=
  .internal "test" ["expr", "LT", "expr"] [left, leaf "LT" "<", right] ""

/-- The subtree `statement -> IF LPAREN test RPAREN LBRACE statements RBRACE
ELSE LBRACE statements RBRACE`. -/
def ifElse (test thenPart elsePart : ParseTreeNode) : ParseTreeNode :=
  .internal "statement"
    ["IF", "LPAREN", "test", "RPAREN", "LBRACE", "statements", "RBRACE", "ELSE", "LBRACE",
      "statements", "RBRACE"]
    [leaf "IF" "if", leaf "LPAREN" "(", test, leaf "RPAREN" ")", leaf "LBRACE" "\x7b", thenPart,
      leaf "RBRACE" "\x7d", leaf "ELSE" "else", leaf "LBRACE" "\x7b", elsePart,
      leaf "RBRACE" "\x7d"] ""

/-- The subtree `statement -> WHILE LPAREN test RPAREN LBRACE statements
RBRACE`. -/
def whileLoop (test body : ParseTreeNode) : ParseTreeNode :=
  .internal "statement"
    ["WHILE", "LPAREN", "test", "RPAREN", "LBRACE", "statements", "RBRACE"]
    [leaf "WHILE" "while", leaf "LPAREN" "(", test, leaf "RPAREN" ")", leaf "LBRACE" "\x7b", body,
      leaf "RBRACE" "\x7d"] ""

/-- The tree of `if (x < b) \x7b\x7d else \x7b\x7d`. -/
def emptyIf : ParseTreeNode :=
  ifElse (lessThan (variableExpr "x" "int") (variableExpr "b" "int"))
    (emptyRule "statements") (emptyRule "statements")

end wlp4gen

namespace wlp4gen

/-- A state at level 0 in which the variable `x` is tracked with the value 1. -/
def tracked : OptState :=
  { OptState.initial with varTable := [("x", ("1", "int", false))] }

/-- A state at level 0 in which the variable `x` is marked dirty. -/
def marked : OptState :=
  { OptState.initial with varTable := [("x", ("1", "int", true))] }

end wlp4gen

namespace wlp4gen

/-- The tree of `int f() \x7b int x = 0; return 0; \x7d`. -/
def registerLocal0 : ParseTreeNode :=
  procedureOf "f" (emptyRule "params") (dclsNum (emptyRule "dcls") "x" "0")
    (emptyRule "statements") (literalExpr "0")

/-- The tree of the program
`int f() \x7b int x = 0; return 0; \x7d int g(int x) \x7b return x; \x7d
int wain(int a, int b) \x7b return g(a); \x7d`. -/
def sameName0 : ParseTreeNode :=
  programOf [registerLocal0, frameParameter]
    (wainOf (intDcl "a") (intDcl "b") (emptyRule "dcls") (emptyRule "statements")
      (exprOfFactor (callWith "g" (variableExpr "a" "int"))))

end wlp4gen

/-! ## Code generator: `checkForDereferences` and `code` of `wlp4gen.cc`

The tree is no longer changed here.  A map is a list of pairs in which the
first pair of a key counts and a new key is added at the end; where the source
iterates over a map (in an order the language leaves open) the list order is
taken.  An `int` that leaves its range, and an index past the end of a vector,
are undefined. -/

namespace wlp4gen

/-- The globals that code generation reads or writes (lines 77-106), and the
lines written to standard output so far. -/
structure GenState where
  symbol_table : List (String × (String × String))
  latestOffset : Int
  labelCounter : Int
  numDeletes : Int
  regTable : List (String × String)
  freeRegisters : List String
  dereferencedVariables : List String
  wainParam1Name : String
  wainParam2Name : String
  output : List String
deriving DecidableEq, Repr

/-- The globals at program start. -/
def GenState.initial : GenState :=
  { symbol_table := [], latestOffset := 0, labelCounter := 0, numDeletes := 0, regTable := [],
    freeRegisters := ["$28", "$27", "$26", "$25", "$24", "$23", "$22", "$21", "$20", "$19",
      "$18", "$17", "$16", "$15", "$14", "$13", "$9", "$8"],
    dereferencedVariables := [], wainParam1Name := "", wainParam2Name := "", output := [] }

/-- A computation of the code generator: it updates the globals and returns or
fails; the globals are kept as they are at the point of failure. -/
def Gen (α : Type) : Type := GenState → Except Fault α × GenState

namespace Gen

def pure {α : Type} (a : α) : Gen α := fun st => (.ok a, st)

def bind {α β : Type} (x : Gen α) (f : α → Gen β) : Gen β := fun st =>
  match x st with
  | (.ok a, st1) => f a st1
  | (.error e, st1) => (.error e, st1)

/-- A computation that fails. -/
def fail {α : Type} (e : Fault) : Gen α := fun st => (.error e, st)

/-- The result of a computation without access to the globals. -/
def lift {α : Type} (r : Except Fault α) : Gen α := fun st => (r, st)

end Gen

instance : Monad Gen where
  pure := Gen.pure
  bind := Gen.bind

/-- The expression `node->children[i]`. -/
def childOf (node : ParseTreeNode) (i : Nat) : Gen ParseTreeNode :=
  match node.children.get? i with
  | some c => pure c
  | none => Gen.fail (.undefined "children[i]")

/-- The expression `node->prodRuleRHS[i]`. -/
def symbolOf (node : ParseTreeNode) (i : Nat) : Gen String :=
  match node.prodRuleRHS.get? i with
  | some s => pure s
  | none => Gen.fail (.undefined "prodRuleRHS[i]")

/-- A line written to standard output (`cout << ... << endl`). -/
def emit (line : String) : Gen Unit := fun st =>
  (.ok (), { st with output := st.output ++ [line] })

/-- The function `inDereferencedVars` (lines 257-267). -/
def inDereferencedVars (s : String) : Gen Bool := fun st =>
  (.ok (decide (s ∈ st.dereferencedVariables)), st)

/-- The lookup `regTable.find(name)`: the register of the name, if it has one. -/
def findRegister (name : String) : Gen (Option String) := fun st =>
  (.ok (find name st.regTable), st)

/-- The statement `regTable[name] = reg`. -/
def setRegister (name reg : String) : Gen Unit := fun st =>
  (.ok (), { st with regTable := insert name reg st.regTable })

/-- The expression `symbol_table[name].second`: a missing entry is created
with empty strings first. -/
def offsetOf (name : String) : Gen String := fun st =>
  match find name st.symbol_table with
  | some entry => (.ok entry.2, st)
  | none => (.ok "", { st with symbol_table := insert name ("", "") st.symbol_table })

/-- The statement `dereferencedVariables.emplace_back(varName)`. -/
def recordDereference (varName : String) : Gen Unit := fun st =>
  (.ok (), { st with dereferencedVariables := st.dereferencedVariables ++ [varName] })

/-- The statements `symbol_table.clear()` and `latestOffset = 0` (lines
844-846 and 877-879). -/
def clearSymbolTable : Gen Unit := fun st =>
  (.ok (), { st with symbol_table := [], latestOffset := 0 })

/-- The statement `symbol_table[name] = make_pair(type, offset)`. -/
def setSymbol (name type offset : String) : Gen Unit := fun st =>
  (.ok (), { st with symbol_table := insert name (type, offset) st.symbol_table })

/-- The value of the global `latestOffset`. -/
def getLatestOffset : Gen Int := fun st => (.ok st.latestOffset, st)

/-- An assignment to the global `latestOffset`. -/
def setLatestOffset (value : Int) : Gen Unit := fun st =>
  (.ok (), { st with latestOffset := value })

/-- The value of the global `numDeletes`. -/
def getNumDeletes : Gen Int := fun st => (.ok st.numDeletes, st)

/-- An assignment to the global `numDeletes`. -/
def setNumDeletes (value : Int) : Gen Unit := fun st =>
  (.ok (), { st with numDeletes := value })

/-- The content of the global `freeRegisters`. -/
def getFreeRegisters : Gen (List String) := fun st => (.ok st.freeRegisters, st)

/-- The statement `freeRegisters.pop_back()`. -/
def popFreeRegister : Gen Unit := fun st =>
  (.ok (), { st with freeRegisters := st.freeRegisters.dropLast })

/-- The value of the global `wainParam1Name`. -/
def getWainParam1Name : Gen String := fun st => (.ok st.wainParam1Name, st)

/-- The value of the global `wainParam2Name`. -/
def getWainParam2Name : Gen String := fun st => (.ok st.wainParam2Name, st)

/-- The text that `operator<<` writes for a node (lines 53-72). -/
def render (node : ParseTreeNode) : String :=
  if node.token.kind ≠ "" then
    node.token.kind ++ " " ++ node.token.lexeme ++
      (if node.type ≠ "" then " : " ++ node.type else "")
  else
    node.prodRuleLHS ++ " -> " ++ String.join (node.prodRuleRHS.map (fun rhs => rhs ++ " ")) ++
      (if node.type ≠ "" then " : " ++ node.type else "")

/-- The function `printSymbolTable` (lines 155-164). -/
def printSymbolTable : Gen Unit := fun st =>
  (.ok (), { st with output := st.output ++ "; Symbol Table:" ::
    st.symbol_table.map (fun entry =>
      "; Variable: " ++ entry.1 ++ ", Type: " ++ entry.2.1 ++ ", Offset: " ++ entry.2.2) })

mutual
/-- The loop of lines 605-617 of `checkForDereferences`, started at an lvalue
node. -/
def unwrapDereference : ParseTreeNode → Gen Unit
  | .mk lhs rhs tok cs ty wt =>
    if rhs.length ≠ 3 then do
      let node := ParseTreeNode.mk lhs rhs tok cs ty wt
      let first ← symbolOf node 0
      if first = "ID" then do
        let idNode ← childOf node 0
        let varName := idNode.token.lexeme
        recordDereference varName
        emit ("; " ++ varName ++ " added to dereferenced variables list")
      else pure ()
    else unwrapDereferenceAt cs 1
termination_by structural node => node
/-- The loop continued at `node->children[i]`. -/
def unwrapDereferenceAt : List ParseTreeNode → Nat → Gen Unit
  | [], _ => Gen.fail (.undefined "children[i]")
  | c :: _, 0 => unwrapDereference c
  | _ :: cs, i + 1 => unwrapDereferenceAt cs i
termination_by structural cs => cs
/-- The function `checkForDereferences` (lines 595-625). -/
def checkForDereferences : ParseTreeNode → Gen Unit
  | .mk lhs rhs _ cs _ _ =>
    if lhs = "factor" then
      match rhs with
      | [] => Gen.fail (.undefined "prodRuleRHS[0]")
      | first :: _ =>
        if first = "AMP" then unwrapDereferenceAt cs 1
        else checkLoop rhs cs
    else checkLoop rhs cs
termination_by structural node => node
/-- The loop of lines 620-624, from index `i` on. -/
def checkLoop : List String → List ParseTreeNode → Gen Unit
  | _, [] => pure ()
  | [], _ :: _ => Gen.fail (.undefined "prodRuleRHS[i]")
  | symbol :: symbols, c :: cs => do
    (if symbol ≠ ".EMPTY" ∧ startsUpper symbol = false then checkForDereferences c
     else pure ())
    checkLoop symbols cs
termination_by structural _ cs => cs
end

end wlp4gen

namespace wlp4gen

/-- The function `resolveToID` (lines 630-669): the register of the variable
that an `expr`, `term` or `factor` node consists of, or the empty string. -/
def resolveToID (node : ParseTreeNode) : Gen String := do
  emit ("; " ++ render node)
  let factor ←
    (if node.prodRuleLHS = "expr" then do
      let first ← symbolOf node 0
      if first = "term" then do
        let term ← childOf node 0
        let second ← symbolOf term 0
        if second = "factor" then do
          let factor ← childOf term 0
          pure (some factor)
        else pure none
      else pure none
    else if node.prodRuleLHS = "term" then do
      let first ← symbolOf node 0
      if first = "factor" then do
        let factor ← childOf node 0
        pure (some factor)
      else pure none
    else if node.prodRuleLHS = "factor" then pure (some node)
    else pure none)
  match factor with
  | none => pure ""
  | some factor => do
    let rule ← symbolOf factor 0
    if rule = "ID" then do
      let idNode ← childOf factor 0
      let reg ← findRegister idNode.token.lexeme
      match reg with
      | some name => pure name
      | none => pure ""
    else pure ""

/-- The function `push` (lines 671-676). -/
def push (registerX : String) : Gen Unit := do
  emit ("sw " ++ registerX ++ ", -4($30) ; push(" ++ registerX ++ ")")
  emit "sub $30, $30, $4"

/-- The function `pop` (lines 678-681). -/
def pop (registerX : String) : Gen Unit := do
  emit ("add $30, $30, $4 ; pop(" ++ registerX ++ ")")
  emit ("lw " ++ registerX ++ ", -4($30)")

/-- The function `generatePrologue` (lines 683-705). -/
def generatePrologue : Gen Unit := do
  emit ".import print"
  emit ".import init"
  emit ".import new"
  emit ".import delete"
  emit "lis $4"
  emit ".word 4"
  emit "sub $29, $30, $4 ; setup frame pointer"
  let wainParam1Name ← getWainParam1Name
  let first ← inDereferencedVars wainParam1Name
  (if first then push "$1" else pure ())
  let wainParam2Name ← getWainParam2Name
  let second ← inDereferencedVars wainParam2Name
  (if second then push "$2" else pure ())
  emit "lis $11"
  emit ".word 1"
  emit "lis $10"
  emit ".word print"
  emit "beq $0, $0, wain"
  emit "; END OF PROLOGUE"

/-- The function `generateEpilogue` (lines 707-716). -/
def generateEpilogue : Gen Unit := do
  emit "; START OF EPILOGUE"
  let wainParam2Name ← getWainParam2Name
  let second ← inDereferencedVars wainParam2Name
  (if second then pop "$2" else pure ())
  let wainParam1Name ← getWainParam1Name
  let first ← inDereferencedVars wainParam1Name
  (if first then pop "$1" else pure ())
  emit "jr $31"

/-- The function `initHeap` (lines 718-738). -/
def initHeap (dcl1 : ParseTreeNode) : Gen Unit := do
  emit "; START OF INITHEAP"
  push "$31"
  push "$2"
  let idNode ← childOf dcl1 1
  (if idNode.type = "int" then emit "add $2, $0, $0" else pure ())
  emit "lis $3"
  emit ".word init"
  emit "jalr $3"
  pop "$2"
  pop "$31"
  emit "; END OF INITHEAP"

/-- One step of the loop of `incrementSymbolTable`. -/
def incrementEntry (inc : Int) (entry : String × (String × String)) :
    Except Fault (String × (String × String)) := do
  let offset ← stoi entry.2.2
  let offset1 ← checked (offset + inc)
  pure (entry.1, (entry.2.1, to_string offset1))

/-- The function `incrementSymbolTable` (lines 774-783). -/
def incrementSymbolTable (inc : Int) : Gen Unit := fun st =>
  match st.symbol_table.mapM (incrementEntry inc) with
  | .ok table => (.ok (), { st with symbol_table := table })
  | .error e => (.error e, st)

mutual
/-- The function `getNumParamsRec` (lines 786-795). -/
def getNumParamsRec : ParseTreeNode → Except Fault Int
  | .mk _ rhs _ cs _ _ =>
    if rhs.length = 1 then pure 1
    else do
      let rest ← getNumParamsAt cs 2
      checked (1 + rest)
termination_by structural node => node
/-- The call `getNumParamsRec(node->children[i])`. -/
def getNumParamsAt : List ParseTreeNode → Nat → Except Fault Int
  | [], _ => .error (.undefined "children[i]")
  | c :: _, 0 => getNumParamsRec c
  | _ :: cs, i + 1 => getNumParamsAt cs i
termination_by structural cs => cs
end

/-- The function `getNumParams` (lines 799-808). -/
def getNumParams (node : ParseTreeNode) : Except Fault Int :=
  if node.prodRuleRHS.length = 0 then pure 0
  else getNumParamsAt node.children 0

/-- The functions `pushAllRegisters` (lines 811-815). -/
def pushAllRegisters : Gen Unit := do
  push "$5"
  push "$6"
  push "$7"

/-- The function `popAllRegisters` (lines 818-822). -/
def popAllRegisters : Gen Unit := do
  pop "$7"
  pop "$6"
  pop "$5"

/-- A recursive call `code(node->children[i])`. -/
abbrev Code := Nat → Gen Unit

/-- The statement `labelCounter++` after its value was saved (lines 1087-1088
and 1100-1101): the saved value. -/
def nextLabel : Gen Int := fun st =>
  match checked (st.labelCounter + 1) with
  | .ok next => (.ok st.labelCounter, { st with labelCounter := next })
  | .error e => (.error e, st)

/-- Branch `procedure` of `code` (lines 842-874). -/
def codeProcedure (rec : Code) (node : ParseTreeNode) : Gen Unit := do
  emit "; Symbol table cleared"
  clearSymbolTable
  let idNode ← childOf node 1
  emit ("F" ++ idNode.token.lexeme ++ ":")
  emit "sub $29, $30, $4"
  rec 3
  rec 6
  emit "; Push All Registers"
  pushAllRegisters
  printSymbolTable
  let params ← childOf node 3
  let numParams ← Gen.lift (getNumParams params)
  let inc ← Gen.lift (checked (4 * numParams))
  incrementSymbolTable inc
  emit "; Add 4 * # params to symbol table???"
  printSymbolTable
  rec 7
  rec 9
  emit "; Pop All Registers"
  popAllRegisters
  emit "add $30, $29, $4"
  emit "jr $31"

/-- Lines 885-905 of branch `main`: a parameter of `wain` is bound to its
register unless its address is taken. -/
def codeParameter (rec : Code) (node : ParseTreeNode) (i : Nat) (reg : String) : Gen Unit := do
  let dcl ← childOf node i
  let idNode ← childOf dcl 1
  let dereferenced ← inDereferencedVars idNode.token.lexeme
  if ¬ dereferenced then do
    setRegister idNode.token.lexeme reg
    emit ("; Variable " ++ idNode.token.lexeme ++ " assigned to register " ++ reg)
  else rec i

/-- Branch `main` of `code` (lines 876-915). -/
def codeMain (rec : Code) (node : ParseTreeNode) : Gen Unit := do
  clearSymbolTable
  emit "wain:"
  codeParameter rec node 3 "$1"
  codeParameter rec node 5 "$2"
  let dcl1 ← childOf node 3
  initHeap dcl1
  rec 8
  rec 9
  rec 11

/-- The two branches of an initialised declaration (lines 932-966 and
969-1000), which differ in the word that is loaded: the lexeme of the `NUM`
(`literal = true`) or 1.  The variable gets the last free register when there
is one and its address is not taken, and a place in the frame otherwise. -/
def codeInitialised (rec : Code) (node : ParseTreeNode) (literal : Bool) : Gen Unit := do
  rec 0
  let value ← (if literal then do
      let num ← childOf node 3
      pure num.token.lexeme
    else pure "1")
  let dcl ← childOf node 1
  let idNode ← childOf dcl 1
  let variableName := idNode.token.lexeme
  let dereferenced ← inDereferencedVars variableName
  let free ← getFreeRegisters
  match (if dereferenced then none else free.getLast?) with
  | some reg => do
    setRegister variableName reg
    popFreeRegister
    emit ("; Variable " ++ variableName ++ " assigned to register " ++ reg)
    emit ("lis " ++ reg)
    emit (".word " ++ value)
  | none => do
    rec 1
    let _ ← offsetOf variableName
    emit "lis $3"
    emit (".word " ++ value)
    push "$3"

/-- Branch `dcl` of `code` (lines 1004-1021). -/
def codeDcl (node : ParseTreeNode) : Gen Unit := do
  let idNode ← childOf node 1
  let variableName := idNode.token.lexeme
  let typeNode ← childOf node 0
  let variableType :=
    if typeNode.prodRuleRHS.length > 1 ∧ typeNode.prodRuleRHS.get? 0 = some "INT" ∧
        typeNode.prodRuleRHS.get? 1 = some "STAR" then "int*"
    else if typeNode.prodRuleRHS.length > 0 ∧ typeNode.prodRuleRHS.get? 0 = some "INT" then "int"
    else ""
  let latestOffset ← getLatestOffset
  emit ("; Variable " ++ variableName ++ " added to symbol table with offset " ++
    toString latestOffset)
  setSymbol variableName variableType (to_string latestOffset)
  let next ← Gen.lift (checked (latestOffset - 4))
  setLatestOffset next

end wlp4gen

namespace wlp4gen

/-- The operands of a binary operation as lines 1052-1074, 1155-1178,
1321-1343 and 1495-1513 prepare them: the registers that hold the first and
the second operand.  An operand that is a variable in a register stays there;
otherwise its code is emitted and it is in `$3` (the first in `$5` when both
are computed).  Once the first test has failed at most one register is empty,
so the order of the two tests that follow, which differs between these places,
does not matter. -/
def operands (first second : ParseTreeNode) (codeFirst codeSecond : Gen Unit) :
    Gen (String × String) := do
  let firstReg ← resolveToID first
  let secondReg ← resolveToID second
  if firstReg = "" ∧ secondReg = "" then do
    codeFirst
    push "$3"
    codeSecond
    pop "$5"
    pure ("$5", "$3")
  else if secondReg = "" then do
    codeSecond
    pure (firstReg, "$3")
  else if firstReg = "" then do
    codeFirst
    pure ("$3", secondReg)
  else pure (firstReg, secondReg)

/-- The body of the loop of lines 1035-1082 for an lvalue that is not in
parentheses: `codeExpr` is the call `code(expr)`. -/
def assignBody (rec : Code) (codeExpr : Gen Unit) (expr node : ParseTreeNode) : Gen Unit := do
  let first ← symbolOf node 0
  if first = "ID" then do
    codeExpr
    let idNode ← childOf node 0
    let varName := idNode.token.lexeme
    let reg ← findRegister varName
    match reg with
    | some name => emit ("add " ++ name ++ ", $0, $3")
    | none => do
      let offset ← offsetOf varName
      emit ("sw $3, " ++ offset ++ "($29)")
  else if node.prodRuleRHS.length = 2 then do
    let factor ← childOf node 1
    let (exprReg, factorReg) ← operands expr factor codeExpr (rec 1)
    emit ("sw " ++ exprReg ++ ", 0(" ++ factorReg ++ ")")
  else pure ()

/-- The body of the loop of lines 1398-1426 for an lvalue that is not in
parentheses. -/
def addressBody (rec : Code) (node : ParseTreeNode) : Gen Unit := do
  let first ← symbolOf node 0
  if first = "ID" then do
    let idNode ← childOf node 0
    let variableName := idNode.token.lexeme
    let reg ← findRegister variableName
    match reg with
    | some name => emit ("add $3, $0, " ++ name)
    | none => do
      emit "lis $3"
      let offset ← offsetOf variableName
      emit (".word " ++ offset)
      emit "add $3, $3, $29"
  else if node.prodRuleRHS.length = 2 then rec 1
  else pure ()

/-- Branch `statement -> IF ...` (lines 1086-1097). -/
def codeIf (rec : Code) : Gen Unit := do
  let currentLabelCounterValue ← nextLabel
  emit "; If"
  rec 2
  emit ("beq $3, $0, else" ++ toString currentLabelCounterValue)
  rec 5
  emit ("beq $0, $0, endif" ++ toString currentLabelCounterValue)
  emit ("else" ++ toString currentLabelCounterValue ++ ":")
  rec 9
  emit ("endif" ++ toString currentLabelCounterValue ++ ":")

/-- Branch `statement -> WHILE ...` (lines 1099-1109). -/
def codeWhile (rec : Code) : Gen Unit := do
  let currentLabelCounterValue ← nextLabel
  emit "; While"
  emit ("loop" ++ toString currentLabelCounterValue ++ ":")
  rec 2
  emit ("beq $3, $0, endWhile" ++ toString currentLabelCounterValue)
  rec 5
  emit ("beq $0, $0, loop" ++ toString currentLabelCounterValue)
  emit ("endWhile" ++ toString currentLabelCounterValue ++ ":")

/-- Branch `statement -> PRINTLN ...` (lines 1111-1121). -/
def codePrintln (rec : Code) : Gen Unit := do
  push "$1"
  rec 2
  emit "add $1, $3, $0"
  push "$31"
  emit "lis $5"
  emit ".word print"
  emit "jalr $5"
  pop "$31"
  pop "$1"

/-- Branch `statement -> DELETE ...` (lines 1123-1137). -/
def codeDelete (rec : Code) : Gen Unit := do
  rec 3
  push "$1"
  let numDeletes ← getNumDeletes
  emit ("beq $3, $11, skipDelete" ++ toString numDeletes)
  emit "add $1, $3, $0"
  push "$31"
  emit "lis $5"
  emit ".word delete"
  emit "jalr $5"
  pop "$31"
  pop "$1"
  emit ("skipDelete" ++ toString numDeletes ++ ":")
  let next ← Gen.lift (checked (numDeletes + 1))
  setNumDeletes next

/-- Branch `expr -> term` (lines 1139-1149). -/
def codeExprTerm (rec : Code) (node : ParseTreeNode) : Gen Unit := do
  let term ← childOf node 0
  let factor ← childOf term 0
  let rule ← symbolOf factor 0
  if rule = "NUM" then do
    emit "lis $3"
    let literal ← childOf factor 0
    emit (".word " ++ literal.token.lexeme)
  else rec 0

/-- The test `x && y` of two conditions, the second of which may read the
tree. -/
def both (x y : Gen Bool) : Gen Bool := do
  let first ← x
  if first then y else pure false

/-- The test `node->children[i]->type == type`. -/
def typeIs (node : ParseTreeNode) (i : Nat) (type : String) : Gen Bool := do
  let c ← childOf node i
  pure (decide (c.type = type))

/-- The test `node->prodRuleRHS[i] == symbol`. -/
def symbolIs (node : ParseTreeNode) (i : Nat) (symbol : String) : Gen Bool := do
  let s ← symbolOf node i
  pure (decide (s = symbol))

/-- Lines 1155-1187: `int` plus or minus `int`. -/
def codeIntSum (rec : Code) (node : ParseTreeNode) : Gen Unit := do
  let expr ← childOf node 0
  let term ← childOf node 2
  let (exprReg, termReg) ← operands expr term (rec 0) (rec 2)
  let operator ← symbolOf node 1
  if operator = "PLUS" then emit ("add $3, " ++ exprReg ++ ", " ++ termReg)
  else emit ("sub $3, " ++ exprReg ++ ", " ++ termReg)

/-- Lines 1192-1218 and 1252-1279: `int*` plus or minus `int`; `operation` is
`add` or `sub`, and the line of the subtraction is written first (line 1255). -/
def codePointerInt (rec : Code) (node : ParseTreeNode) (operation : String) : Gen Unit := do
  let expr ← childOf node 0
  let exprReg ← resolveToID expr
  let term ← childOf node 2
  let termReg ← resolveToID term
  (if operation = "sub" then emit ("; expr MINUS term. ER: " ++ exprReg ++ " TR:" ++ termReg)
   else pure ())
  if exprReg = "" ∧ termReg = "" then do
    rec 0
    push "$3"
    rec 2
    emit "mult $3, $4"
    emit "mflo $3"
    pop "$5"
    emit (operation ++ " $3, $5, $3")
  else if termReg = "" then do
    rec 2
    emit "mult $3, $4"
    emit "mflo $3"
    emit (operation ++ " $3, " ++ exprReg ++ ", $3")
  else if exprReg = "" then do
    emit ("mult " ++ termReg ++ ", $4")
    emit "mflo $5"
    rec 0
    emit (operation ++ " $3, $5, $3")
  else do
    emit ("mult " ++ termReg ++ ", $4")
    emit "mflo $3"
    emit (operation ++ " $3, " ++ exprReg ++ ", $3")

/-- Lines 1222-1248: `int` plus `int*`. -/
def codeIntPointer (rec : Code) (node : ParseTreeNode) : Gen Unit := do
  let expr ← childOf node 0
  let exprReg ← resolveToID expr
  let term ← childOf node 2
  let termReg ← resolveToID term
  if exprReg = "" ∧ termReg = "" then do
    rec 2
    push "$3"
    rec 0
    emit "mult $3, $4"
    emit "mflo $3"
    pop "$5"
    emit "add $3, $5, $3"
  else if termReg = "" then do
    emit ("mult " ++ exprReg ++ ", $4")
    emit "mflo $5"
    rec 2
    emit "add $3, $5, $3"
  else if exprReg = "" then do
    rec 0
    emit "mult $3, $4"
    emit "mflo $3"
    emit ("add $3, " ++ termReg ++ ", $3")
  else do
    emit ("mult " ++ exprReg ++ ", $4")
    emit "mflo $3"
    emit ("add $3, " ++ termReg ++ ", $3")

/-- Lines 1283-1309: `int*` minus `int*`. -/
def codePointerDifference (rec : Code) (node : ParseTreeNode) : Gen Unit := do
  let expr ← childOf node 0
  let exprReg ← resolveToID expr
  let term ← childOf node 2
  let termReg ← resolveToID term
  if exprReg = "" ∧ termReg = "" then do
    rec 0
    push "$3"
    rec 2
    pop "$5"
    emit "sub $3, $5, $3"
    emit "div $3, $4"
    emit "mflo $3"
  else if termReg = "" then do
    rec 2
    emit ("sub $3, " ++ exprReg ++ ", $3")
    emit "div $3, $4"
    emit "mflo $3"
  else if exprReg = "" then do
    rec 0
    emit ("sub $3, $3, " ++ termReg)
    emit "div $3, $4"
    emit "mflo $3"
  else do
    emit ("sub $3, " ++ exprReg ++ ", " ++ termReg)
    emit "div $3, $4"
    emit "mflo $3"

/-- Branch `expr -> expr PLUS term` and `expr -> expr MINUS term` (lines
1152-1311): the five cases are tried in the order of the source. -/
def codeSum (rec : Code) (node : ParseTreeNode) : Gen Unit := do
  let ints ← both (typeIs node 0 "int") (typeIs node 2 "int")
  if ints then codeIntSum rec node
  else do
    let pointerPlusInt ← both (symbolIs node 1 "PLUS")
      (both (typeIs node 0 "int*") (typeIs node 2 "int"))
    if pointerPlusInt then codePointerInt rec node "add"
    else do
      let intPlusPointer ← both (symbolIs node 1 "PLUS")
        (both (typeIs node 0 "int") (typeIs node 2 "int*"))
      if intPlusPointer then codeIntPointer rec node
      else do
        let pointerMinusInt ← both (symbolIs node 1 "MINUS")
          (both (typeIs node 0 "int*") (typeIs node 2 "int"))
        if pointerMinusInt then codePointerInt rec node "sub"
        else do
          let pointerMinusPointer ← both (symbolIs node 1 "MINUS")
            (both (typeIs node 0 "int*") (typeIs node 2 "int*"))
          if pointerMinusPointer then codePointerDifference rec node
          else pure ()

/-- Branch `term -> term STAR factor`, `term -> term SLASH factor` and
`term -> term PCT factor` (lines 1320-1359). -/
def codeProduct (rec : Code) (node : ParseTreeNode) : Gen Unit := do
  let term ← childOf node 0
  let factor ← childOf node 2
  let (termReg, factorReg) ← operands term factor (rec 0) (rec 2)
  let operator ← symbolOf node 1
  if operator = "STAR" then do
    emit ("mult " ++ termReg ++ ", " ++ factorReg)
    emit "mflo $3"
  else if operator = "SLASH" then do
    emit ("div " ++ termReg ++ ", " ++ factorReg)
    emit "mflo $3"
  else do
    emit ("div " ++ termReg ++ ", " ++ factorReg)
    emit "mfhi $3"

end wlp4gen

namespace wlp4gen

/-- Branch `factor -> NUM` (lines 1361-1365). -/
def codeNum (node : ParseTreeNode) : Gen Unit := do
  let literal ← childOf node 0
  emit "lis $3"
  emit (".word " ++ literal.token.lexeme)

/-- Branch `factor -> ID` (lines 1372-1383). -/
def codeVariable (node : ParseTreeNode) : Gen Unit := do
  let idNode ← childOf node 0
  let variableName := idNode.token.lexeme
  let reg ← findRegister variableName
  match reg with
  | some name => emit ("add $3, $0, " ++ name)
  | none => do
    let offset ← offsetOf variableName
    emit ("lw $3, " ++ offset ++ "($29)")

/-- Branch `factor -> ID LPAREN RPAREN` (lines 1430-1440). -/
def codeCall (node : ParseTreeNode) : Gen Unit := do
  push "$29"
  push "$31"
  emit "lis $5"
  let idNode ← childOf node 0
  emit (".word F" ++ idNode.token.lexeme)
  emit "jalr $5"
  pop "$31"
  pop "$29"

/-- The loop of lines 1454-1456: `pop("$31")`, `count` times. -/
def popArguments : Nat → Gen Unit
  | 0 => pure ()
  | count + 1 => do
    pop "$31"
    popArguments count

/-- Branch `factor -> ID LPAREN arglist RPAREN` (lines 1443-1460);
`pushArguments` is the call `pushArgs(node->children[2])`. -/
def codeCallWith (pushArguments : Gen Int) (node : ParseTreeNode) : Gen Unit := do
  push "$29"
  push "$31"
  emit "; Push Args"
  let numArgsPushed ← pushArguments
  emit "lis $5"
  let idNode ← childOf node 0
  emit (".word F" ++ idNode.token.lexeme)
  emit "jalr $5"
  popArguments numArgsPushed.toNat
  pop "$31"
  pop "$29"

/-- Branch `factor -> NEW INT LBRACK expr RBRACK` (lines 1469-1482). -/
def codeNew (rec : Code) : Gen Unit := do
  rec 3
  push "$1"
  emit "add $1, $3, $0"
  push "$31"
  emit "lis $5"
  emit ".word new"
  emit "jalr $5"
  pop "$31"
  emit "bne $3, $0, 1"
  emit "add $3, $11, $0"
  pop "$1"

/-- The lines 1516-1576 of branch `test`: the comparison of two registers,
signed (`slt`) or not (`sltu`). -/
def compare (instruction operator expr1Reg expr2Reg : String) : Gen Unit :=
  if operator = "LT" then
    emit (instruction ++ " $3, " ++ expr1Reg ++ ", " ++ expr2Reg)
  else if operator = "GT" then
    emit (instruction ++ " $3, " ++ expr2Reg ++ ", " ++ expr1Reg)
  else if operator = "NE" then do
    emit (instruction ++ " $6, " ++ expr2Reg ++ ", " ++ expr1Reg)
    emit (instruction ++ " $7, " ++ expr1Reg ++ ", " ++ expr2Reg)
    emit "add $3, $6, $7"
  else if operator = "EQ" then do
    emit (instruction ++ " $6, " ++ expr2Reg ++ ", " ++ expr1Reg)
    emit (instruction ++ " $7, " ++ expr1Reg ++ ", " ++ expr2Reg)
    emit "add $3, $6, $7"
    emit "sub $3, $11, $3"
  else if operator = "LE" then do
    emit (instruction ++ " $6, " ++ expr2Reg ++ ", " ++ expr1Reg)
    emit "sub $3, $11, $6"
  else if operator = "GE" then do
    emit (instruction ++ " $6, " ++ expr1Reg ++ ", " ++ expr2Reg)
    emit "sub $3, $11, $6"
  else pure ()

/-- Branch `test` (lines 1494-1577). -/
def codeTest (rec : Code) (node : ParseTreeNode) : Gen Unit := do
  let expr1 ← childOf node 0
  let expr2 ← childOf node 2
  let (expr1Reg, expr2Reg) ← operands expr1 expr2 (rec 0) (rec 2)
  let operator ← symbolOf node 1
  if expr1.type = "int" then compare "slt" operator expr1Reg expr2Reg
  else compare "sltu" operator expr1Reg expr2Reg

/-- The left-hand sides whose branches of `code` start with a test of
`prodRuleRHS[0]`. -/
def readsFirstSymbol (lhs : String) : Bool :=
  lhs = "procedures" || lhs = "params" || lhs = "statements" || lhs = "statement" ||
    lhs = "expr" || lhs = "term" || lhs = "factor"

/-- The branches of `code` for a `statement` node (lines 1029-1137); `assign`
is the loop of lines 1035-1082, given `node->children[2]`. -/
def codeStatement (rec : Code) (assign : ParseTreeNode → Gen Unit) (node : ParseTreeNode) :
    Gen Unit :=
  let first := node.prodRuleRHS.get? 0
  if first = some "lvalue" then do
    let expr ← childOf node 2
    assign expr
  else if first = some "IF" then codeIf rec
  else if first = some "WHILE" then codeWhile rec
  else if first = some "PRINTLN" then codePrintln rec
  else if first = some "DELETE" then codeDelete rec
  else pure ()

/-- The branches of `code` for a `factor` node (lines 1361-1482); `address` is
the loop of lines 1398-1426 and `pushArguments` the call
`pushArgs(node->children[2])`. -/
def codeFactor (rec : Code) (address : Gen Unit) (pushArguments : Gen Int)
    (node : ParseTreeNode) : Gen Unit :=
  let rhs := node.prodRuleRHS
  let first := rhs.get? 0
  if first = some "NUM" then codeNum node
  else if first = some "NULL" then emit "add $3, $0, $11 ;"
  else if rhs.length = 1 ∧ first = some "ID" then codeVariable node
  else if first = some "LPAREN" then rec 1
  else if first = some "AMP" then address
  else if first = some "ID" ∧ rhs.length = 3 then codeCall node
  else if first = some "ID" ∧ rhs.length = 4 then codeCallWith pushArguments node
  else if first = some "STAR" then do
    rec 1
    emit "lw $3, 0($3)"
  else if first = some "NEW" then codeNew rec
  else pure ()

/-- The body of `code` (lines 824-1578) with its recursive calls abstracted.
The branches are tried in the order of the source.  A node whose first branch
test reads `prodRuleRHS[0]` although it has no symbols is undefined. -/
def codeBody (rec : Code) (assign : ParseTreeNode → Gen Unit) (address : Gen Unit)
    (pushArguments : Gen Int) (node : ParseTreeNode) : Gen Unit :=
  let lhs := node.prodRuleLHS
  let rhs := node.prodRuleRHS
  let first := rhs.get? 0
  if readsFirstSymbol lhs = true ∧ rhs = [] then Gen.fail (.undefined "prodRuleRHS[0]")
  else if lhs = "start" then rec 1
  else if lhs = "procedures" ∧ first = some "main" then rec 0
  else if lhs = "procedures" ∧ first = some "procedure" then do
    rec 0
    rec 1
  else if lhs = "procedure" then codeProcedure rec node
  else if lhs = "main" then codeMain rec node
  else if lhs = "params" ∧ first = some "paramlist" then rec 0
  else if lhs = "paramlist" then do
    rec 0
    if rhs.length = 3 then rec 2 else pure ()
  else if lhs = "dcls" ∧ rhs.length = 5 ∧ rhs.get? 3 = some "NUM" then
    codeInitialised rec node true
  else if lhs = "dcls" ∧ rhs.length = 5 ∧ rhs.get? 3 = some "NULL" then
    codeInitialised rec node false
  else if lhs = "dcl" then codeDcl node
  else if lhs = "statements" ∧ first = some "statements" then do
    rec 0
    rec 1
  else if lhs = "statement" then codeStatement rec assign node
  else if lhs = "expr" ∧ first = some "term" then codeExprTerm rec node
  else if lhs = "expr" ∧ rhs.length = 3 then codeSum rec node
  else if lhs = "term" ∧ first = some "factor" then rec 0
  else if lhs = "term" ∧ rhs.length = 3 then codeProduct rec node
  else if lhs = "factor" then codeFactor rec address pushArguments node
  else if lhs = "lvalue" ∧ rhs.length = 3 then rec 1
  else if lhs = "test" then codeTest rec node
  else pure ()

mutual
/-- The function `code` (lines 824-1578). -/
def code : ParseTreeNode → Gen Unit
  | .mk lhs rhs tok cs ty wt =>
    codeBody (fun i => codeAt cs i) (fun expr => assignAt cs 0 (codeAt cs 2) expr)
      (addressAt cs 1) (pushArgsAt cs 2) (.mk lhs rhs tok cs ty wt)
termination_by structural node => node
/-- The call `code(node->children[i])`. -/
def codeAt : List ParseTreeNode → Nat → Gen Unit
  | [], _ => Gen.fail (.undefined "children[i]")
  | c :: _, 0 => code c
  | _ :: cs, i + 1 => codeAt cs i
termination_by structural cs => cs
/-- The loop of lines 1035-1082, started at an lvalue node. -/
def assign : ParseTreeNode → Gen Unit → ParseTreeNode → Gen Unit
  | .mk lhs rhs tok cs ty wt, codeExpr, expr =>
    if rhs.length ≠ 3 then
      assignBody (fun i => codeAt cs i) codeExpr expr (.mk lhs rhs tok cs ty wt)
    else assignAt cs 1 codeExpr expr
termination_by structural node => node
/-- The loop continued at `node->children[i]`. -/
def assignAt : List ParseTreeNode → Nat → Gen Unit → ParseTreeNode → Gen Unit
  | [], _, _, _ => Gen.fail (.undefined "children[i]")
  | c :: _, 0, codeExpr, expr => assign c codeExpr expr
  | _ :: cs, i + 1, codeExpr, expr => assignAt cs i codeExpr expr
termination_by structural cs => cs
/-- The loop of lines 1398-1426, started at an lvalue node. -/
def address : ParseTreeNode → Gen Unit
  | .mk lhs rhs tok cs ty wt =>
    if rhs.length ≠ 3 then addressBody (fun i => codeAt cs i) (.mk lhs rhs tok cs ty wt)
    else addressAt cs 1
termination_by structural node => node
/-- The loop continued at `node->children[i]`. -/
def addressAt : List ParseTreeNode → Nat → Gen Unit
  | [], _ => Gen.fail (.undefined "children[i]")
  | c :: _, 0 => address c
  | _ :: cs, i + 1 => addressAt cs i
termination_by structural cs => cs
/-- The function `pushArgs` (lines 758-771): the number of arguments pushed. -/
def pushArgs : ParseTreeNode → Gen Int
  | .mk _ rhs _ cs _ _ =>
    if rhs.length = 1 then do
      codeAt cs 0
      push "$3"
      pure 1
    else do
      codeAt cs 0
      push "$3"
      let rest ← pushArgsAt cs 2
      Gen.lift (checked (1 + rest))
termination_by structural node => node
/-- The call `pushArgs(node->children[i])`. -/
def pushArgsAt : List ParseTreeNode → Nat → Gen Int
  | [], _ => Gen.fail (.undefined "children[i]")
  | c :: _, 0 => pushArgs c
  | _ :: cs, i + 1 => pushArgsAt cs i
termination_by structural cs => cs
end

/-- The globals of code generation after the optimizer has run: the names of
the parameters of `wain` and the lines written so far. -/
def GenState.after (st : OptState) : GenState :=
  { GenState.initial with wainParam1Name := st.wainParam1Name,
                          wainParam2Name := st.wainParam2Name, output := st.output }

/-- Lines 1596-1603 of `main`. -/
def generate (root : ParseTreeNode) : Gen Unit := do
  checkForDereferences root
  generatePrologue
  code root
  generateEpilogue

/-- The function `main` (lines 1580-1617) from the tree that `buildParseTree`
returns: the globals at the end and whether `main` returned (`none` when the
loop of the optimizer was cut off after `fuel` passes).  When the optimizer
ends in a fault the result is that fault with the globals of program start:
the lines the optimizer wrote before the fault and the names it recorded are
not kept. -/
def main (fuel : Nat) (root : ParseTreeNode) : Option (Except Fault Unit × GenState) :=
  match optimize fuel root OptState.initial with
  | .error e => some (.error e, GenState.initial)
  | .ok (none, _) => none
  | .ok (some root1, st) => some (generate root1 (GenState.after st))

end wlp4gen

namespace wlp4gen

mutual
/-- The function `getVarNameFromLvalue` (lines 745-754). -/
def getVarNameFromLvalue : ParseTreeNode → Except Fault String
  | .mk _ rhs _ cs _ _ =>
    if rhs.length = 3 then getVarNameAt cs 1
    else
      match cs with
      | [] => .error (.undefined "children[i]")
      | idNode :: _ => .ok idNode.token.lexeme
termination_by structural node => node
/-- The call `getVarNameFromLvalue(node->children[i])`. -/
def getVarNameAt : List ParseTreeNode → Nat → Except Fault String
  | [], _ => .error (.undefined "children[i]")
  | c :: _, 0 => getVarNameFromLvalue c
  | _ :: cs, i + 1 => getVarNameAt cs i
termination_by structural cs => cs
end

end wlp4gen

namespace wlp4gen

/-- The triple `Twin R x R1` of two runs of `x`: when the first run is started
in `st`, the second in `st1`, the two states are related by `R` and the first
run returns, then the second returns the same result and the final states are
related by `R1`.  With `Alone P` for `R` and `Alone Q` for `R1` this is the
triple of one run: started in a state with `P`, `x` returns in a state with
`Q`. -/
structure Twin {α : Type} (R : OptState → OptState → Prop) (x : Opt α)
    (R1 : OptState → OptState → Prop) : Prop where
  twin : ∀ st st1 a s, R st st1 → x st = .ok (a, s) → ∃ s1, x st1 = .ok (a, s1) ∧ R1 s s1

/-- The relation of a state with `P` to itself. -/
def Alone (P : OptState → Prop) (st st1 : OptState) : Prop :=
  P st ∧ st1 = st

end wlp4gen

namespace wlp4gen

/-- The state is at nesting level `level`. -/
def AtLevel (level : Int) (st : OptState) : Prop :=
  st.ifWhileNestLevel = level

/-- Two states at nesting level `level` whose outputs are `out` and `out1`;
their `varTable`s may differ. -/
def Gated (level : Int) (out out1 : List String) (st st1 : OptState) : Prop :=
  st.ifWhileNestLevel = level ∧ st1.ifWhileNestLevel = level ∧
    st.output = out ∧ st1.output = out1

/-- The entry of the variable in the `varTable` is marked dirty. -/
def IsDirty (name : String) (st : OptState) : Prop :=
  ∃ value type, find name st.varTable = some (value, type, true)

/-- The state is at nesting level `level` and the variable is marked dirty. -/
def DirtyAt (name : String) (level : Int) (st : OptState) : Prop :=
  st.ifWhileNestLevel = level ∧ IsDirty name st

/-- The first of the children is `lvalue -> ID` of the variable `name`: the
test of lines 498-514 on the target of an assignment. -/
def targets (name : String) (cs : List ParseTreeNode) : Bool :=
  match cs with
  | [] => false
  | lvalue :: _ =>
    decide (lvalue.prodRuleRHS.get? 0 = some "ID") &&
      (match lvalue.children with
       | [] => false
       | idNode :: _ => decide (idNode.token.lexeme = name))

mutual
/-- The subtree has a `main` or `procedure` node, or an assignment to the
variable `name` that is in no `if` or `while` statement (of the subtree, or
around it when `nested` is set). -/
def reassigns (name : String) (nested : Bool) : ParseTreeNode → Bool
  | .mk lhs rhs _ cs _ _ =>
    decide (lhs = "main") || decide (lhs = "procedure") ||
      (decide (lhs = "statement") && decide (rhs.length = 4) && !nested && targets name cs) ||
      reassignsAny name
        (nested || (decide (lhs = "statement") && decide (rhs.length ≠ 4) &&
          (decide (rhs.get? 0 = some "WHILE") || decide (rhs.get? 0 = some "IF")))) cs
termination_by structural node => node
/-- One of the subtrees does. -/
def reassignsAny (name : String) (nested : Bool) : List ParseTreeNode → Bool
  | [] => false
  | c :: cs => reassigns name nested c || reassignsAny name nested cs
termination_by structural cs => cs
end

/-- The symbol `expr->children[0]->children[0]->prodRuleRHS[0]` that lines 506
and 514 test on the right-hand side of an assignment, if there is one. -/
def literalRule (expr : ParseTreeNode) : Option String := do
  let term ← expr.children.get? 0
  let factor ← term.children.get? 0
  factor.prodRuleRHS.get? 0

end wlp4gen

namespace wlp4gen

mutual
/-- The declaration list (a `dcls` node) has a declaration of the variable
with an initialiser, that is `addDclsToVarTable` writes its entry. -/
def declares (name : String) : ParseTreeNode → Bool
  | .mk _ rhs _ cs _ _ =>
    decide (rhs.length = 5) &&
      (((decide (rhs.get? 3 = some "NUM") || decide (rhs.get? 3 = some "NULL")) &&
          (match cs.get? 1 with
           | some dcl =>
             (match dcl.children.get? 1 with
              | some idNode => decide (idNode.token.lexeme = name)
              | none => false)
           | none => false)) ||
        declaresFirst name cs)
termination_by structural node => node
/-- The first of the children does. -/
def declaresFirst (name : String) : List ParseTreeNode → Bool
  | [] => false
  | c :: _ => declares name c
termination_by structural cs => cs
end

end wlp4gen

namespace wlp4gen

/-- The triple `Keeps P x`: a run of `x` that starts in a state with `P` ends,
or fails, in a state with `P`. -/
structure Keeps {α : Type} (P : GenState → Prop) (x : Gen α) : Prop where
  keeps : ∀ st, P st → P (x st).2

/-- The content of `dereferencedVariables` is `names` and the binding of the
variable `name` in `regTable` is `reg` (`none`: it has no register). -/
def BoundAs (names : List String) (name : String) (reg : Option String) (st : GenState) :
    Prop :=
  st.dereferencedVariables = names ∧ find name st.regTable = reg

end wlp4gen

namespace wlp4gen

/-- A property of the globals that depends on `dereferencedVariables` and
`regTable` only. -/
def OnRegisters (P : GenState → Prop) : Prop :=
  ∀ st st1 : GenState, st1.dereferencedVariables = st.dereferencedVariables →
    st1.regTable = st.regTable → P st → P st1

/-- What the four functions that walk the tree keep at a node. -/
def KeptAt (P : GenState → Prop) (node : ParseTreeNode) : Prop :=
  Keeps P (code node) ∧
    (∀ codeExpr expr, Keeps P codeExpr → Keeps P (assign node codeExpr expr)) ∧
    Keeps P (address node) ∧ Keeps P (pushArgs node)

/-- No variable of `dereferencedVariables` is a key of `regTable`. -/
def Framed (st : GenState) : Prop :=
  ∀ name ∈ st.dereferencedVariables, find name st.regTable = none

/-- The content of `dereferencedVariables` is `names`, and none of them is a
key of `regTable`. -/
def FramedAs (names : List String) (st : GenState) : Prop :=
  st.dereferencedVariables = names ∧ ∀ name ∈ names, find name st.regTable = none

end wlp4gen

/-! ## Labels of the emitted assembly: definitions -/

namespace wlp4gen

/-- The first word of a line: its characters before the first blank. -/
def firstWord (line : String) : List Char :=
  line.data.takeWhile (fun c => c ≠ ' ')

/-- The label that a line of assembly defines: the first word of the line
without its colon, when that word ends in a colon.  (A comment starts with the
word `;` and an instruction with its name.) -/
def labelOf (line : String) : Option String :=
  if (firstWord line).getLast? = some ':' then some (String.mk (firstWord line).dropLast)
  else none

/-- The labels that the lines of an output define, in the order of the lines. -/
def labelsOf (lines : List String) : List String :=
  lines.filterMap labelOf

/-- The lines of an output that define a label. -/
def labelLines (lines : List String) : List String :=
  lines.filter (fun line => (labelOf line).isSome)

/-- A line with a blank after a first word that does not end in a colon: it
defines no label. -/
def spaced (line : String) : Bool :=
  (firstWord line).length < line.data.length && (firstWord line).getLast? ≠ some ':'

/-- The procedure that a node starts: `some name` for a node `procedure` with
the name at child 1, `none` for a node `main`. -/
def ownEntry (node : ParseTreeNode) : List (Option String) :=
  if node.prodRuleLHS = "procedure" then
    match node.children.get? 1 with
    | some idNode => [some idNode.token.lexeme]
    | none => []
  else if node.prodRuleLHS = "main" then [none]
  else []

mutual
/-- The procedures of a tree, `main` among them, in the order of the tree. -/
def entries : ParseTreeNode → List (Option String)
  | .mk lhs rhs tok cs ty wt => ownEntry (.mk lhs rhs tok cs ty wt) ++ entriesOf cs
termination_by structural node => node
/-- The procedures of a list of trees. -/
def entriesOf : List ParseTreeNode → List (Option String)
  | [] => []
  | c :: cs => entries c ++ entriesOf cs
termination_by structural cs => cs
end

/-- The name of a procedure; the name of `main` is `wain`. -/
def entryName : Option String → String
  | some name => name
  | none => "wain"

/-- The line with the label of a procedure (lines 847 and 881). -/
def entryLine : Option String → String
  | some name => "F" ++ name ++ ":"
  | none => "wain:"

/-- The names of the procedures of a program, `wain` among them. -/
def procedureNames (root : ParseTreeNode) : List String :=
  (entries root).map entryName

/-- The lines with the labels of the procedures of a tree. -/
def entryLines (node : ParseTreeNode) : List String :=
  (entries node).map entryLine

/-- The lines with the labels of the procedures of child `i`. -/
def entryLinesAt (cs : List ParseTreeNode) (i : Nat) : Multiset String :=
  match cs.get? i with
  | some c => (entryLines c : Multiset String)
  | none => 0

/-- The four lines with the labels that belong to the value `n` of
`labelCounter` (lines 1092-1096 and 1104-1108). -/
def counterLinesAt (n : Int) : List String :=
  ["else" ++ toString n ++ ":", "endif" ++ toString n ++ ":", "loop" ++ toString n ++ ":",
    "endWhile" ++ toString n ++ ":"]

/-- The lines with the labels that belong to the values `a, ..., b - 1` of
`labelCounter`. -/
def counterLines (a b : Int) : Multiset String :=
  (Multiset.Ico a b).bind (fun n => (counterLinesAt n : Multiset String))

/-- The line with the label that belongs to the value `n` of `numDeletes`
(line 1135). -/
def deleteLine (n : Int) : String :=
  "skipDelete" ++ toString n ++ ":"

/-- The lines with the labels that belong to the values `a, ..., b - 1` of
`numDeletes`. -/
def deleteLines (a b : Int) : Multiset String :=
  (Multiset.Ico a b).map deleteLine

/-- The label lines that a run from `st` to `st1` may have written: those of
`budget` and those of the values that the two counters went through. -/
def allowance (budget : Multiset String) (st st1 : GenState) : Multiset String :=
  budget + counterLines st.labelCounter st1.labelCounter +
    deleteLines st.numDeletes st1.numDeletes

/-- The triple `Emits budget x`: when `x` returns, the two counters have not
gone down, the output has grown, and the new lines that define a label are
among the label lines of `budget` and of the counter values that were used,
each at most as often as it is there. -/
structure Emits {α : Type} (budget : Multiset String) (x : Gen α) : Prop where
  emits : ∀ st a st1, x st = (.ok a, st1) →
    st.labelCounter ≤ st1.labelCounter ∧ st.numDeletes ≤ st1.numDeletes ∧
      ∃ new, st1.output = st.output ++ new ∧
        (labelLines new : Multiset String) ≤ allowance budget st st1

/-- What the four functions that walk the tree emit at a node. -/
def EmitsAt (node : ParseTreeNode) : Prop :=
  Emits (entryLines node : Multiset String) (code node) ∧
    (∀ codeExpr expr budget, Emits budget codeExpr →
      Emits ((entryLines node : Multiset String) + budget) (assign node codeExpr expr)) ∧
    Emits (entryLines node : Multiset String) (address node) ∧
    Emits (entryLines node : Multiset String) (pushArgs node)

/-- The sum of the budgets of the recursive calls 0 to 11, which are the ones
that `code` makes at a node. -/
def span (E : Nat → Multiset String) : Multiset String :=
  E 0 + E 1 + E 2 + E 3 + E 4 + E 5 + E 6 + E 7 + E 8 + E 9 + E 10 + E 11

/-- The label line of the node itself. -/
def ownLines (node : ParseTreeNode) : Multiset String :=
  ((ownEntry node).map entryLine : Multiset String)

end wlp4gen

namespace wlp4gen

/-- The label of a procedure. -/
def entryLabel : Option String → String
  | some name => "F" ++ name
  | none => "wain"

/-- The family of a label, told from its first characters: 0 for `F...`, 1 for
`w...`, 2 for `el...`, 3 for `endi...`, 4 for `l...`, 5 for `endW...`, 6 for
`s...`. -/
def kindOf (label : String) : Nat :=
  match label.data with
  | 'F' :: _ => 0
  | 'w' :: _ => 1
  | 'e' :: 'l' :: _ => 2
  | 'e' :: 'n' :: 'd' :: 'i' :: _ => 3
  | 'l' :: _ => 4
  | 'e' :: 'n' :: 'd' :: 'W' :: _ => 5
  | 's' :: _ => 6
  | _ => 7

/-- The labels that belong to the values `a, ..., b - 1` of `labelCounter`
and `c, ..., d - 1` of `numDeletes`, after those of the procedures `es`. -/
def labelBound (es : List (Option String)) (a b c d : Int) : Multiset String :=
  (es.map entryLabel : Multiset String) +
    (Multiset.Ico a b).map (fun n => "else" ++ toString n) +
    (Multiset.Ico a b).map (fun n => "endif" ++ toString n) +
    (Multiset.Ico a b).map (fun n => "loop" ++ toString n) +
    (Multiset.Ico a b).map (fun n => "endWhile" ++ toString n) +
    (Multiset.Ico c d).map (fun n => "skipDelete" ++ toString n)

end wlp4gen

namespace wlp4gen

/-- The procedures of the tree that a call of the optimizer returns are among
those of the tree it was given. -/
def Shrinks (node : ParseTreeNode) (r : Bool × ParseTreeNode) : Prop :=
  (entries r.2 : Multiset (Option String)) ≤ (entries node : Multiset (Option String))

/-- The recursive calls of the optimizer at the children `cs` return trees
whose procedures are among those of the child. -/
def RecShrinks (rec : Rec) (cs : List ParseTreeNode) : Prop :=
  ∀ i, Post (rec i) (fun r => ∃ c, cs.get? i = some c ∧ Shrinks c r)

/-- No line of the output of the optimizer defines a label. -/
def PlainOutput (st : OptState) : Prop :=
  ∀ line ∈ st.output, spaced line = true

end wlp4gen

namespace wlp4gen

/-- The tree of the program
`int g(int x) \x7b return x; \x7d
int wain(int a, int b) \x7b
  while (a < b) \x7b if (a < b) \x7b if (a < b) \x7b\x7d else \x7b\x7d \x7d else \x7b\x7d \x7d
  if (a < b) \x7b\x7d else \x7b\x7d
  return a; \x7d`. -/
def nestedLoops : ParseTreeNode :=
  programOf [frameParameter]
    (wainOf (intDcl "a") (intDcl "b") (emptyRule "dcls")
      (statementList
        [whileLoop (lessThan (variableExpr "a" "int") (variableExpr "b" "int"))
          (statementList
            [ifElse (lessThan (variableExpr "a" "int") (variableExpr "b" "int"))
              (statementList
                [ifElse (lessThan (variableExpr "a" "int") (variableExpr "b" "int"))
                  (emptyRule "statements") (emptyRule "statements")])
              (emptyRule "statements")]),
         ifElse (lessThan (variableExpr "a" "int") (variableExpr "b" "int"))
          (emptyRule "statements") (emptyRule "statements")])
      (variableExpr "a" "int"))

end wlp4gen

namespace wlp4gen

/-- The subtree `expr -> expr PLUS term` of `p + 1` for an `int*` variable `p`,
as the type checker annotates it. -/
def pointerPlusOne : ParseTreeNode :=
  .internal "expr" ["expr", "PLUS", "term"]
    [variableExpr "p" "int*", .terminal ⟨"PLUS", "+"⟩ "", literalTerm "1"] "int*"

/-- The tree of
`int wain(int* a, int b) \x7b int* p = NULL; p = p + 1; return p - a; \x7d`. -/
def nullPlusOne : ParseTreeNode :=
  programOf [] (wainOf (pointerDcl "a") (intDcl "b") (dclsNull (emptyRule "dcls") "p")
    (statementList [assignment (lvalueOf "p" "int*") pointerPlusOne])
    (.internal "expr" ["expr", "MINUS", "term"]
      [variableExpr "p" "int*", .terminal ⟨"MINUS", "-"⟩ "",
        .internal "term" ["factor"] [variableFactor "a" "int*"] "int*"] "int"))

/-- The expression assigned by the first statement of `wain` in a program tree
with `wain` alone: child 2 of child 1 of the `statements` node. -/
def assignedExpr (root : ParseTreeNode) : Option ParseTreeNode := do
  let procedures ← root.children.get? 1
  let main ← procedures.children.get? 0
  let statements ← main.children.get? 9
  let statement ← statements.children.get? 1
  statement.children.get? 2

/-- The lexeme of the literal that an expression consists of, with the type of
the `expr` node: the expression is `expr -> term` over `term -> factor` over
`factor -> NUM`. -/
def literalOf (expr : ParseTreeNode) : Option (String × String) := do
  let term ← expr.children.get? 0
  let factor ← term.children.get? 0
  let literal ← factor.children.get? 0
  if expr.prodRuleRHS = ["term"] ∧ term.prodRuleRHS = ["factor"] ∧ factor.prodRuleRHS = ["NUM"]
  then some (literal.token.lexeme, expr.type)
  else none

/-- The tree that the passes of the optimizer leave, when they return. -/
def optimized (fuel : Nat) (root : ParseTreeNode) : Option ParseTreeNode :=
  match optimize fuel root OptState.initial with
  | .ok (some root1, _) => some root1
  | _ => none

end wlp4gen

namespace wlp4gen

/-- What a node itself adds to the measure of the fixpoint loop: 1 for the
node, and 1 more when it is a node `factor -> ID`. -/
def ownWeight (node : ParseTreeNode) : Nat :=
  1 + (if node.prodRuleLHS = "factor" ∧ node.prodRuleRHS = ["ID"] then 1 else 0)

mutual
/-- The measure of the fixpoint loop: the number of nodes of the tree plus the
number of its nodes `factor -> ID`. -/
def weight : ParseTreeNode → Nat
  | .mk lhs rhs tok cs ty wt => ownWeight (.mk lhs rhs tok cs ty wt) + weightOf cs
termination_by structural node => node
/-- The measure of a list of trees. -/
def weightOf : List ParseTreeNode → Nat
  | [] => 0
  | c :: cs => weight c + weightOf cs
termination_by structural cs => cs
end

/-- A call of the optimizer returns a tree whose measure is not larger, and is
smaller when the call returns `true`. -/
def Drops (node : ParseTreeNode) (r : Bool × ParseTreeNode) : Prop :=
  weight r.2 ≤ weight node ∧ (r.1 = true → weight r.2 < weight node)

/-- The recursive calls of the optimizer at the children `cs` lower the
measure of the child as `Drops` says. -/
def RecDrops (rec : Rec) (cs : List ParseTreeNode) : Prop :=
  ∀ i, Post (rec i) (fun r => ∃ c, cs.get? i = some c ∧ Drops c r)

/-- The loop over the children lowers the measure of the list as `Drops` says
for a tree. -/
def LoopDrops (cs : List ParseTreeNode) (r : Bool × List ParseTreeNode) : Prop :=
  weightOf r.2 ≤ weightOf cs ∧ (r.1 = true → weightOf r.2 < weightOf cs)

end wlp4gen

namespace wlp4type

/-- The triple `InBounds x Q`: on every table, `x` does not run into undefined
behaviour (an index beyond the end of `children` or of `prodRuleRHS`), and
when it returns its result satisfies `Q`. -/
structure InBounds {α : Type} (x : TC α) (Q : α → Prop) : Prop where
  holds : ∀ st, (∀ what, (x st).1 ≠ .error (.undefined what)) ∧
    ∀ a st1, x st = (.ok a, st1) → Q a

/-- What the analysis keeps of a tree derived from `symbol`, as far as later
index expressions depend on it: a `statements` node is still not flagged well
typed, and a `dcl` node still has its two children. -/
def Kept (symbol : String) (r : ParseTreeNode) : Prop :=
  (symbol = "statements" → r.wellTyped = false) ∧ (symbol = "dcl" → r.children.length = 2)

/-- No node of the tree is flagged well typed, as in a tree that
`buildParseTree` has just built (both constructors set `wellTyped = false`). -/
def Unflagged (node : ParseTreeNode) : Prop :=
  ∀ n ∈ nodes node, n.wellTyped = false

end wlp4type

namespace wlp4parse

end wlp4parse

namespace wlp4gen

/-- The subtree `term -> factor` over a factor. -/
def termOfFactor (factor : ParseTreeNode) : ParseTreeNode :=
  .internal "term" ["factor"] [factor] factor.type

/-- The subtree `expr -> expr OP term` with the type the type checker gives it. -/
def sumOf (left : ParseTreeNode) (operator sign : String) (right : ParseTreeNode)
    (type : String) : ParseTreeNode :=
  .internal "expr" ["expr", operator, "term"] [left, .terminal ⟨operator, sign⟩ "", right] type

/-- The subtree `factor -> LPAREN expr RPAREN`. -/
def parenthesisedFactor (expr : ParseTreeNode) : ParseTreeNode :=
  .internal "factor" ["LPAREN", "expr", "RPAREN"]
    [leaf "LPAREN" "(", expr, leaf "RPAREN" ")"] expr.type

/-- The tree of the expression `q + 1 + i` for an `int*` variable `q` and an
`int` variable `i`. -/
def indexedAddress : ParseTreeNode :=
  sumOf (sumOf (variableExpr "q" "int*") "PLUS" "+" (literalTerm "1") "int*") "PLUS" "+"
    (termOfFactor (variableFactor "i" "int")) "int*"

/-- The tree of the program
`int f(int* q) \x7b int i = 0; i = *q; return *(q + 1 + i); \x7d
int wain(int* a, int b) \x7b return f(a); \x7d`. -/
def indexed : ParseTreeNode :=
  programOf
    [procedureOf "f" (oneParam (pointerDcl "q")) (dclsNum (emptyRule "dcls") "i" "0")
      (statementList [assignment (lvalueOf "i" "int")
        (exprOfFactor (dereference (variableFactor "q" "int*")))])
      (exprOfFactor (dereference (parenthesisedFactor indexedAddress)))]
    (wainOf (pointerDcl "a") (intDcl "b") (emptyRule "dcls") (emptyRule "statements")
      (exprOfFactor (callWith "f" (variableExpr "a" "int*"))))

end wlp4gen

namespace wlp4gen

/-- The tree of the program
`int f(int n) \x7b int x = 0; x = n; if (0 < n) \x7b n = f(n - 1); \x7d else \x7b\x7d return x; \x7d
int wain(int a, int b) \x7b return f(a); \x7d`. -/
def recursive : ParseTreeNode :=
  programOf
    [procedureOf "f" (oneParam (intDcl "n")) (dclsNum (emptyRule "dcls") "x" "0")
      (statementList
        [assignment (lvalueOf "x" "int") (variableExpr "n" "int"),
         ifElse (lessThan (literalExpr "0") (variableExpr "n" "int"))
           (statementList [assignment (lvalueOf "n" "int")
             (exprOfFactor (callWith "f"
               (sumOf (variableExpr "n" "int") "MINUS" "-" (literalTerm "1") "int")))])
           (emptyRule "statements")])
      (variableExpr "x" "int")]
    (wainOf (intDcl "a") (intDcl "b") (emptyRule "dcls") (emptyRule "statements")
      (exprOfFactor (callWith "f" (variableExpr "a" "int"))))

/-- The lines of an output from the label line `entry` to the first `jr $31`
after it: the code of one procedure. -/
def procedureLines (entry : String) (lines : List String) : List String :=
  let body := lines.dropWhile (fun line => line ≠ entry)
  body.takeWhile (fun line => line ≠ "jr $31")

/-- The registers that the lines of an output save with `push`: the lines are
those that `push` writes first. -/
def savedRegisters (lines : List String) : List String :=
  lines.filterMap (fun line =>
    if firstWord line = "sw".data then
      some (String.mk (((line.data.drop 3).takeWhile (fun c => c ≠ ','))))
    else none)

/-- The registers that the lines of an output restore with `pop`. -/
def restoredRegisters (lines : List String) : List String :=
  lines.filterMap (fun line =>
    if firstWord line = "lw".data ∧ line.data.getLast? = some ')' ∧
        (line.data.dropLast.reverse.takeWhile (fun c => c ≠ '(')).reverse = "$30".data then
      some (String.mk (((line.data.drop 3).takeWhile (fun c => c ≠ ','))))
    else none)

end wlp4gen

namespace wlp4gen

/-- The code of the procedures of a list, one after the other in the order of
the list. -/
def codeEach : List ParseTreeNode → Gen Unit
  | [] => pure ()
  | procedure :: rest => do
    code procedure
    codeEach rest

end wlp4gen

namespace wlp4gen

/-- The type that `codeDcl` records for a declaration: `int*` for a pointer. -/
def typeName (pointer : Bool) : String :=
  if pointer then "int*" else "int"

/-- The subtree `dcl -> type ID` of a variable, given its name and whether it
is a pointer. -/
def declaration (v : String × Bool) : ParseTreeNode :=
  if v.2 then pointerDcl v.1 else intDcl v.1

/-- The chain `paramlist -> dcl COMMA paramlist` that ends in
`paramlist -> dcl`, for a first declaration and those after it. -/
def paramlistOf : ParseTreeNode → List ParseTreeNode → ParseTreeNode
  | dcl, [] => .internal "paramlist" ["dcl"] [dcl] ""
  | dcl, next :: rest =>
    .internal "paramlist" ["dcl", "COMMA", "paramlist"]
      [dcl, leaf "COMMA" ",", paramlistOf next rest] ""

/-- The subtree `params` of a list of parameter declarations: the leaf of
`params .EMPTY` for no parameter, `params -> paramlist` otherwise. -/
def paramsOf : List ParseTreeNode → ParseTreeNode
  | [] => emptyRule "params"
  | dcl :: rest => .internal "params" ["paramlist"] [paramlistOf dcl rest] ""

/-- The subtree `dcls` that declares one more local after those of `rest`. -/
def initialised (rest : ParseTreeNode) (l : String × Option String) : ParseTreeNode :=
  match l.2 with
  | some value => dclsNum rest l.1 value
  | none => dclsNull rest l.1

/-- The subtree `dcls` of a list of initialised declarations in source order:
a name with `some value` is `int name = value;`, a name with `none` is
`int* name = NULL;`. -/
def localsOf (locals : List (String × Option String)) : ParseTreeNode :=
  locals.foldl initialised (emptyRule "dcls")

/-- The name and the type of a local declared as in `localsOf`. -/
def localVariable (l : String × Option String) : String × String :=
  (l.1, typeName l.2.isNone)

/-- The test of `codeInitialised` (lines 944 and 981) for one local, given the
locals placed in the frame so far and the number of free registers. -/
def allocateStep (dereferenced : List String) (acc : List (String × String) × Nat)
    (l : String × Option String) : List (String × String) × Nat :=
  if l.1 ∈ dereferenced ∨ acc.2 = 0 then (acc.1 ++ [localVariable l], acc.2)
  else (acc.1, acc.2 - 1)

/-- The test of `codeInitialised` applied to the locals in source order, given
the variables whose address is taken and the number of free registers: the
locals that get a place in the frame (name and type), and the number of
registers still free.  A local gets a register unless its address is taken or
no register is free. -/
def allocate (dereferenced : List String) (free : Nat)
    (locals : List (String × Option String)) : List (String × String) × Nat :=
  locals.foldl (allocateStep dereferenced) ([], free)

/-- The frame table the specification describes for variables placed in
declaration order: the first gets the offset `first` and each next one an
offset that is 4 less. -/
def specOffsets (first : Int) : List (String × String) → List (String × (String × String))
  | [] => []
  | (name, type) :: rest => (name, (type, to_string first)) :: specOffsets (first - 4) rest

/-- The part of branch `procedure` up to the call of `incrementSymbolTable`
(lines 843-858), after which the frame table of the procedure is final. -/
def procedureEntry (rec : Code) (node : ParseTreeNode) : Gen Unit := do
  emit "; Symbol table cleared"
  clearSymbolTable
  let idNode ← childOf node 1
  emit ("F" ++ idNode.token.lexeme ++ ":")
  emit "sub $29, $30, $4"
  rec 3
  rec 6
  emit "; Push All Registers"
  pushAllRegisters
  printSymbolTable
  let params ← childOf node 3
  let numParams ← Gen.lift (getNumParams params)
  let inc ← Gen.lift (checked (4 * numParams))
  incrementSymbolTable inc

/-- The rest of branch `procedure` (lines 860-873). -/
def procedureExit (rec : Code) : Gen Unit := do
  emit "; Add 4 * # params to symbol table???"
  printSymbolTable
  rec 7
  rec 9
  emit "; Pop All Registers"
  popAllRegisters
  emit "add $30, $29, $4"
  emit "jr $31"

/-- The part of branch `main` up to the code of the declarations (lines
877-909), after which the frame table of `wain` is final. -/
def mainEntry (rec : Code) (node : ParseTreeNode) : Gen Unit := do
  clearSymbolTable
  emit "wain:"
  codeParameter rec node 3 "$1"
  codeParameter rec node 5 "$2"
  let dcl1 ← childOf node 3
  initHeap dcl1
  rec 8

/-- The rest of branch `main` (lines 910-912). -/
def mainExit (rec : Code) : Gen Unit := do
  rec 9
  rec 11

/-- The parameters of `wain` that get a place in the frame: those whose address
is taken. -/
def frameParameters (dereferenced : List String) (parameters : List (String × Bool)) :
    List (String × String) :=
  (parameters.filter (fun p => decide (p.1 ∈ dereferenced))).map
    (fun p => (p.1, typeName p.2))

end wlp4gen

namespace wlp4gen

/-- The frame table after the statements `symbol_table[name] = make_pair(type,
to_string(latestOffset)); latestOffset -= 4;` were run for the variables of a
list in order, from the table `table` and the offset `first`. -/
def place (table : List (String × (String × String))) (first : Int) :
    List (String × String) → List (String × (String × String))
  | [] => table
  | (name, type) :: rest => place (insert name (type, to_string first) table) (first - 4) rest

/-- The relation `Places vars st st1`: between the states `st` and `st1` the
variables `vars` got their places in the frame table, in order, and `latestOffset`
went down by 4 for each; the variables whose address is taken are the same. -/
structure Places (vars : List (String × String)) (st st1 : GenState) : Prop where
  table : st1.symbol_table = place st.symbol_table st.latestOffset vars
  offset : st1.latestOffset = st.latestOffset - 4 * vars.length
  dereferenced : st1.dereferencedVariables = st.dereferencedVariables

/-- The globals that decide the places of variables: the frame table, the next
offset, the variables whose address is taken and the free registers. -/
def frameOf (st : GenState) :
    List (String × (String × String)) × Int × List String × List String :=
  (st.symbol_table, st.latestOffset, st.dereferencedVariables, st.freeRegisters)

/-- A computation that returns in every state and leaves the globals of
`frameOf` as they are. -/
structure Quiet (x : Gen Unit) : Prop where
  run : ∀ st, ∃ st1, x st = (.ok (), st1) ∧ frameOf st1 = frameOf st

end wlp4gen

namespace wlp4gen

/-- The variables of a procedure that get a place in the frame: all parameters,
then the locals that `allocate` selects. -/
def frameVariables (st : GenState) (ps : List (String × Bool))
    (ls : List (String × Option String)) : List (String × String) :=
  ps.map (fun v => (v.1, typeName v.2))
    ++ (allocate st.dereferencedVariables st.freeRegisters.length ls).1

/-- The variables of `wain` that get a place in the frame: the parameters
whose address is taken, then the locals that `allocate` selects. -/
def wainVariables (st : GenState) (a b : String × Bool)
    (ls : List (String × Option String)) : List (String × String) :=
  frameParameters st.dereferencedVariables [a, b]
    ++ (allocate st.dereferencedVariables st.freeRegisters.length ls).1

/-- The property of a frame table that the specification states: its entries
are the variables `vars` in their order, the offset of the entry at position
`i` is the text of an `int` with the value `first - 4 * i`, and no two offsets
are the same text. -/
def Descends (first : Int) (vars : List (String × String))
    (table : List (String × (String × String))) : Prop :=
  table.map (fun entry => (entry.1, entry.2.1)) = vars ∧
  (∀ (i : Nat) entry, table.get? i = some entry → stoi entry.2.2 = .ok (first - 4 * (i : Int))) ∧
  (table.map (fun entry => entry.2.2)).Nodup

end wlp4gen

namespace wlp4gen

/-- The subtree of a procedure with the parameters `ps` (name, and whether it is
a pointer) and the initialised locals `ls`, in source order. -/
def procedureWith (name : String) (ps : List (String × Bool))
    (ls : List (String × Option String)) (statements expr : ParseTreeNode) : ParseTreeNode :=
  procedureOf name (paramsOf (ps.map declaration)) (localsOf ls) statements expr

/-- The subtree of `wain` with the parameters `a` and `b` and the initialised
locals `ls`, in source order. -/
def wainWith (a b : String × Bool) (ls : List (String × Option String))
    (statements expr : ParseTreeNode) : ParseTreeNode :=
  wainOf (declaration a) (declaration b) (localsOf ls) statements expr

end wlp4gen

namespace wlp4gen

/-- The globals at program start with `y`, `q` and `a` recorded as variables
whose address is taken. -/
def addressesTaken : GenState :=
  { GenState.initial with dereferencedVariables := ["y", "q", "a"] }

end wlp4gen

/-! ## Scanner: `wlp4scan.cc` -/

namespace wlp4scan

/-- Ways in which the scan of a chunk stops early: the `std::runtime_error`
that `main` catches and reports, and an operation that is undefined. -/
inductive Fault where
  | runtime_error (what : String)
  | undefined (what : String)
deriving DecidableEq, Repr

/-- The function `isValidIDCharacter` (lines 6-9), on the characters of the
"C" locale. -/
def isValidIDCharacter (c : Char) : Bool :=
  c.isAlpha || c.isDigit

/-- The arrays `keywords` and `tokenNames` (lines 131-132), entry by entry. -/
def keywords : List (String × String) :=
  [("return", "RETURN"), ("if", "IF"), ("else", "ELSE"), ("while", "WHILE"),
    ("println", "PRINTLN"), ("wain", "WAIN"), ("int", "INT"), ("new", "NEW"),
    ("delete", "DELETE"), ("NULL", "NULL")]

/-- The call `s.substr(pos, count)` for `pos` not beyond the end of `s`: at most
`count` characters from position `pos` on. -/
def substr (s : List Char) (pos count : Nat) : List Char :=
  (s.drop pos).take count

/-- The loop over the keywords (lines 136-157) at position `i` of the chunk
`s`: the line that is printed and the length of the keyword, for the first
keyword that passes the three tests. -/
def matchKeyword (s : List Char) (i : Nat) : List (String × String) → Option (String × Nat)
  | [] => none
  | (keyword, tokenName) :: rest =>
    if i + keyword.length - 1 < s.length then
      if substr s i (i + keyword.length) = keyword.data then
        if i + keyword.length < s.length then
          if isValidIDCharacter ((s.drop (i + keyword.length)).headD ' ') = false then
            some (tokenName ++ " " ++ keyword, keyword.length)
          else matchKeyword s i rest
        else some (tokenName ++ " " ++ keyword, keyword.length)
      else matchKeyword s i rest
    else matchKeyword s i rest

/-- The tokens of one character (lines 31-73). -/
def singles : List (Char × String) :=
  [('(', "LPAREN ("), (')', "RPAREN )"), ('\x7b', "LBRACE \x7b"), ('\x7d', "RBRACE \x7d"),
    ('+', "PLUS +"), ('-', "MINUS -"), ('*', "STAR *"), ('/', "SLASH /"), ('%', "PCT %"),
    (',', "COMMA ,"), (';', "SEMI ;"), ('[', "LBRACK ["), (']', "RBRACK ]"), ('&', "AMP &")]

/-- What one iteration of the loop over the characters of a chunk does: it
prints a token line and goes on at position `next`, or it finds a comment and
leaves the loop, or it throws. -/
inductive Step where
  | token (line : String) (next : Nat)
  | comment
  | fault (e : Fault)
deriving DecidableEq, Repr

/-- The tokens that start with `=`, `!`, `<` or `>` (lines 75-129): `two` is
printed when the next character is `=`, otherwise `one`, which is missing for
`!`. -/
def withEquals (s : List Char) (i : Nat) (two : String) (one : Option String) : Step :=
  if i + 1 ≠ s.length ∧ (s.drop (i + 1)).headD ' ' = '=' then .token two (i + 2)
  else
    match one with
    | some line => .token line (i + 1)
    | none => .fault (.runtime_error "'!' without '='")

/-- The number branch (lines 163-191) for the run of digits `currString` found
at position `i`; `none` when the run is empty. -/
def scanNumber (currString : List Char) (i : Nat) : Option Step :=
  if currString.length = 1 then some (.token ("NUM " ++ String.mk currString) (i + 1))
  else if currString.length > 10 then
    some (.fault (.runtime_error ("num out of range: " ++ String.mk currString)))
  else if currString.length ≥ 2 then
    if currString.head? = some '0' then
      some (.fault (.runtime_error "num starting with a '0' detected"))
    else if (String.mk currString).toNat! ≤ 2147483647 then
      some (.token ("NUM " ++ String.mk currString) (i + currString.length))
    else some (.fault (.runtime_error ("num out of range: " ++ String.mk currString)))
  else none

/-- The body of the loop over the characters (lines 22-212) at position `i`,
where the character is `c`. -/
def scanAt (s : List Char) (i : Nat) (c : Char) : Step :=
  if c = '/' ∧ i + 1 < s.length ∧ (s.drop (i + 1)).headD ' ' = '/' then .comment
  else
    match singles.lookup c with
    | some line => .token line (i + 1)
    | none =>
      if c = '=' then withEquals s i "EQ ==" (some "BECOMES =")
      else if c = '!' then withEquals s i "NE !=" none
      else if c = '<' then withEquals s i "LE <=" (some "LT <")
      else if c = '>' then withEquals s i "GE >=" (some "GT >")
      else
        match matchKeyword s i keywords with
        | some (line, length) => .token line (i + length)
        | none =>
          match scanNumber ((s.drop i).takeWhile Char.isDigit) i with
          | some step => step
          | none =>
            if c.isAlpha then
              let currID := c :: (s.drop (i + 1)).takeWhile isValidIDCharacter
              .token ("ID " ++ String.mk currID) (i + currID.length)
            else if c.toNat ≤ 24 then
              .fault (.runtime_error (String.mk ("unrecognized character: ".data.drop c.toNat)))
            else .fault (.undefined "\"unrecognized character: \" + c")

/-- The loop over the characters of a chunk from position `i` on: the lines
printed, the exception thrown if any, and the flag `inComment`.  Every
iteration moves on by at least one character, so the loop is run for at most
`fuel` iterations with `fuel` the length of the chunk. -/
def scanFrom (s : List Char) : Nat → Nat → List String × Option Fault × Bool
  | 0, _ => ([], none, false)
  | fuel + 1, i =>
    match s.drop i with
    | [] => ([], none, false)
    | c :: _ =>
      match scanAt s i c with
      | .token line next =>
        let rest := scanFrom s fuel next
        (line :: rest.1, rest.2)
      | .comment => ([], none, true)
      | .fault e => ([], some e, false)

/-- The scan of one chunk `s` (a maximal run of characters without white
space, as `lineStream >> s` reads it). -/
def scanChunk (s : String) : List String × Option Fault × Bool :=
  scanFrom s.data s.data.length 0

/-- The loop over the chunks of a line (lines 20-218): a comment ends the
line. -/
def scanChunks : List String → List String × Option Fault
  | [] => ([], none)
  | s :: rest =>
    match scanChunk s with
    | (lines, some e, _) => (lines, some e)
    | (lines, none, true) => (lines, none)
    | (lines, none, false) =>
      let others := scanChunks rest
      (lines ++ others.1, others.2)

/-- The characters `operator>>` skips (white space of the "C" locale). -/
def isspace (c : Char) : Bool :=
  c = ' ' || c = '\t' || c = '\n' || c = '\x0b' || c = '\x0c' || c = '\r'

/-- The chunks of a line: its maximal runs of characters that are not white
space; `current` is the run read so far, last character first. -/
def chunksFrom : List Char → List Char → List String
  | current, [] => if current.isEmpty then [] else [String.mk current.reverse]
  | current, c :: rest =>
    if isspace c then
      if current.isEmpty then chunksFrom [] rest
      else String.mk current.reverse :: chunksFrom [] rest
    else chunksFrom (c :: current) rest

/-- The function `main` on the lines of standard input: the lines written to
standard output and the exception that ended the scan, if any. -/
def main : List String → List String × Option Fault
  | [] => ([], none)
  | line :: rest =>
    match scanChunks (chunksFrom [] line.data) with
    | (lines, some e) => (lines, some e)
    | (lines, none) =>
      let others := main rest
      (lines ++ others.1, others.2)

end wlp4scan

/-! ## Parser: lemmas -/

namespace wlp4parse

theorem popLoop_spec (syms : List String) :
    ∀ (stack : List String) (stateStack : List Int) (pts children : List ParseTreeNode)
      (stack1 : List String) (stateStack1 : List Int) (pts1 children1 : List ParseTreeNode),
      popLoop syms stack stateStack pts children = .ok (stack1, stateStack1, pts1, children1) →
      pts.length = stack.length →
      ∃ popped : List ParseTreeNode,
        popped.length = (syms.takeWhile (fun sym => decide (sym ≠ ".EMPTY"))).length ∧
        pts = popped ++ pts1 ∧ children1 = popped.reverse ++ children ∧
        pts1.length = stack1.length := by
  induction syms with
  | nil =>
    intro stack stateStack pts children stack1 stateStack1 pts1 children1 h hlen
    simp only [popLoop, Except.ok.injEq, Prod.mk.injEq] at h
    obtain ⟨rfl, -, rfl, rfl⟩ := h
    exact ⟨[], by simp, by simp, by simp, hlen⟩
  | cons sym rest ih =>
    intro stack stateStack pts children stack1 stateStack1 pts1 children1 h hlen
    by_cases hE : sym = ".EMPTY"
    · simp only [popLoop, hE, if_true, Except.ok.injEq, Prod.mk.injEq] at h
      obtain ⟨rfl, -, rfl, rfl⟩ := h
      exact ⟨[], by simp [List.takeWhile, hE], by simp, by simp, hlen⟩
    · cases stack with
      | nil => simp [popLoop, hE] at h
      | cons top stackTail =>
        cases pts with
        | nil => simp at hlen
        | cons node below =>
          by_cases hT : sym = top
          · subst hT
            cases stateStack with
            | nil => simp [popLoop, hE] at h
            | cons st stateTail =>
              simp only [popLoop, hE, if_false, ne_eq, not_true_eq_false] at h
              have hlen1 : below.length = stackTail.length := by simpa using hlen
              obtain ⟨popped, h1, h2, h3, h4⟩ := ih _ _ _ _ _ _ _ _ h hlen1
              refine ⟨node :: popped, ?_, ?_, ?_, h4⟩
              · simp [List.takeWhile, hE, h1]
              · simp [h2]
              · simp [h3]
          · simp [popLoop, hE, hT] at h

theorem stackLeaves_append (xs ys : List ParseTreeNode) :
    stackLeaves (xs ++ ys) = stackLeaves ys ++ stackLeaves xs := by
  induction xs with
  | nil => simp [stackLeaves]
  | cons x xs ih => simp [stackLeaves, ih, List.append_assoc]

theorem stackLeaves_eq_leavesList_reverse (xs : List ParseTreeNode) :
    stackLeaves xs = leavesList xs.reverse := by
  have happ : ∀ as bs : List ParseTreeNode,
      leavesList (as ++ bs) = leavesList as ++ leavesList bs := by
    intro as bs
    induction as with
    | nil => simp [leavesList]
    | cons a as ih => simp [leavesList, ih, List.append_assoc]
  induction xs with
  | nil => simp [stackLeaves, leavesList]
  | cons x xs ih => simp [stackLeaves, ih, happ, leavesList]

theorem reduce_spec (g : Tables) (ruleNumber : Int) (acc : Bool) (s s1 : State)
    (h : reduce g ruleNumber acc s = .ok s1)
    (hlen : s.parseTreeStack.length = s.stack.length) :
    ∃ (ruleLHS : String) (ruleRHS : List String) (children below : List ParseTreeNode),
      g.productionRules.get? ruleNumber.toNat = some (ruleLHS, ruleRHS) ∧
      s1.parseTreeStack = .mk (productionRuleText ruleLHS ruleRHS) children none :: below ∧
      s.parseTreeStack = children.reverse ++ below ∧
      children.length = (poppedSymbols ruleRHS).length ∧
      s1.parseTreeStack.length = s1.stack.length ∧
      s1.unread_position = s.unread_position := by
  unfold reduce at h
  split at h
  · simp at h
  · split at h
    · simp at h
    · rename_i ruleLHS ruleRHS hrule
      split at h
      · simp at h
      · rename_i stack1 stateStack1 pts1 children hpop
        obtain ⟨popped, h1, h2, h3, h4⟩ := popLoop_spec _ _ _ _ _ _ _ _ _ hpop hlen
        split at h
        · simp at h
        · simp only [Except.ok.injEq] at h
          subst h
          refine ⟨ruleLHS, ruleRHS, children, pts1, hrule, rfl, ?_, ?_, ?_, rfl⟩
          · simp [h2, h3]
          · simp [h3, h1, poppedSymbols]
          · simp [h4]

theorem shift_spec (g : Tables) (unread : List Token) (cur : Int) (s s1 : State)
    (h : shift g unread cur s = .ok s1) :
    ∃ tok, unread.get? s.unread_position = some tok ∧
      s1.parseTreeStack = .mk (tok.kind ++ " " ++ tok.lexeme) [] (some tok) :: s.parseTreeStack ∧
      s1.stack = tok.kind :: s.stack ∧
      s1.unread_position = s.unread_position + 1 := by
  unfold shift at h
  split at h
  · simp at h
  · rename_i tok htok
    split at h
    · simp only [Except.ok.injEq] at h
      subst h
      exact ⟨tok, htok, rfl, rfl, rfl⟩
    · simp at h

/-- The loop invariant: the tree stack mirrors the symbol stack, and its leaves
are the tokens consumed so far. -/
def Inv (unread : List Token) (s : State) : Prop :=
  s.parseTreeStack.length = s.stack.length ∧
  stackLeaves s.parseTreeStack = unread.take s.unread_position

theorem Inv_initial (unread : List Token) : Inv unread initial := by
  simp [Inv, initial, stackLeaves]

theorem Inv_step (g : Tables) (unread : List Token) (s s1 : State)
    (hinv : Inv unread s) (h : step g unread s = .ok s1) : Inv unread s1 := by
  unfold step at h
  split at h
  · simp at h
  · rename_i cur rest hss
    split at h
    · obtain ⟨tok, htok, hpts, hstack, hpos⟩ := shift_spec _ _ _ _ _ h
      refine ⟨by simp [hpts, hstack, hinv.1], ?_⟩
      rw [hpts, hpos, stackLeaves, hinv.2]
      have hlt : s.unread_position < unread.length := by
        rcases Nat.lt_or_ge s.unread_position unread.length with hlt | hge
        · exact hlt
        · rw [List.get?_eq_none.mpr hge] at htok
          cases htok
      have hget : unread[s.unread_position] = tok := by
        have := List.get?_eq_get hlt
        rw [htok] at this
        simpa using this.symm
      rw [List.take_succ, List.getElem?_eq_getElem hlt, hget]
      simp [leaves, leavesList]
    · obtain ⟨l, r, children, below, -, hpts, hold, -, hsync, hpos⟩ :=
        reduce_spec _ _ _ _ _ h hinv.1
      refine ⟨hsync, ?_⟩
      rw [hpos, ← hinv.2, hpts, hold, stackLeaves, stackLeaves_append,
        stackLeaves_eq_leavesList_reverse children.reverse]
      simp [leaves]

theorem Inv_parseLoop (g : Tables) (unread : List Token) (fuel : Nat) :
    ∀ s s1 : State, Inv unread s → parseLoop g unread fuel s = .ok s1 →
      Inv unread s1 ∧ continues unread s1 = false := by
  induction fuel with
  | zero =>
    intro s s1 hinv h
    unfold parseLoop at h
    split at h
    · simp at h
    · rename_i hc
      simp only [Except.ok.injEq] at h
      subst h
      exact ⟨hinv, by simpa using hc⟩
  | succ n ih =>
    intro s s1 hinv h
    unfold parseLoop at h
    split at h
    · split at h
      · simp at h
      · rename_i s2 hstep
        exact ih _ _ (Inv_step _ _ _ _ hinv hstep) h
    · rename_i hc
      simp only [Except.ok.injEq] at h
      subst h
      exact ⟨hinv, by simpa using hc⟩

theorem Reachable_sync (g : Tables) (unread : List Token) (s : State)
    (h : Reachable g unread s) : Inv unread s := by
  induction h with
  | start => exact Inv_initial unread
  | next _ hstep ih => exact Inv_step _ _ _ _ ih hstep

end wlp4parse

/-! ## Parser: the claims -/

namespace wlp4parse

/-- C1, as stated, fails: with the table `earlyAccept` the loop finishes
successfully on the empty input, the root it prints is the leaf `EOF EOF`, and
the leaves of that root are not BOF followed by EOF. -/
theorem parse_root_leaves_counterexample :
    parse earlyAccept [] 3 = .ok earlyAcceptFinal ∧
    (root earlyAcceptFinal).map leaves = some [⟨"EOF", "EOF"⟩] ∧
    (root earlyAcceptFinal).map leaves ≠ some (bracket []) := by
  refine ⟨rfl, rfl, ?_⟩
  decide

/-- C1 (amended): for every table and every input on which the parse loop
finishes successfully, the shifted-token leaves of the nodes left on the
parse-tree stack, read from the bottom of the stack to its top and left to
right, are exactly BOF, the input tokens in order, EOF; so the root has exactly
these leaves whenever it is the only node on the stack. -/
theorem parse_leaves_roundtrip (g : Tables) (input : List Token) (fuel : Nat) (s : State)
    (h : parse g input fuel = .ok s) :
    stackLeaves s.parseTreeStack = bracket input ∧
    ∀ r : ParseTreeNode, s.parseTreeStack = [r] → leaves r = bracket input := by
  obtain ⟨hinv, hstop⟩ := Inv_parseLoop g (bracket input) fuel initial s
    (Inv_initial _) h
  have hpos : (bracket input).length ≤ s.unread_position := by
    simp only [continues, Bool.or_eq_false_iff, decide_eq_false_iff_not, not_lt] at hstop
    exact hstop.1
  have hall : stackLeaves s.parseTreeStack = bracket input := by
    rw [hinv.2, List.take_of_length_le hpos]
  refine ⟨hall, ?_⟩
  intro r hr
  rw [hr] at hall
  simpa [stackLeaves] using hall

theorem parse_leaves_roundtrip_witness :
    parse tiny [⟨"ID", "x"⟩] 10 = .ok tinyFinal ∧
    stackLeaves tinyFinal.parseTreeStack = bracket [⟨"ID", "x"⟩] ∧
    ∀ r : ParseTreeNode, tinyFinal.parseTreeStack = [r] → leaves r = bracket [⟨"ID", "x"⟩] :=
  ⟨rfl, parse_leaves_roundtrip tiny [⟨"ID", "x"⟩] 10 tinyFinal rfl⟩

/-- C2. Grammar conformance: every internal node created by a reduce step of
the parse loop for a rule (lhs, rhs) of the grammar format, in which `.EMPTY`
stands only for an empty right-hand side (rhs has no `.EMPTY` or is `.EMPTY`
alone), has exactly as many children as rhs has non-`.EMPTY` symbols, and these
children are the popped tree-stack nodes in their original left-to-right
order: the tree stack before the step is the children, last child on top,
above what is left below the new node. -/
theorem reduce_children (g : Tables) (unread : List Token) (s : State)
    (hs : Reachable g unread s) (ruleNumber : Int) (acc : Bool) (s1 : State)
    (h : reduce g ruleNumber acc s = .ok s1)
    (hformat : ∀ rule ∈ g.productionRules,
      (∀ sym ∈ rule.2, sym ≠ ".EMPTY") ∨ rule.2 = [".EMPTY"]) :
    ∃ (ruleLHS : String) (ruleRHS : List String) (children below : List ParseTreeNode),
      g.productionRules.get? ruleNumber.toNat = some (ruleLHS, ruleRHS) ∧
      s1.parseTreeStack = .mk (productionRuleText ruleLHS ruleRHS) children none :: below ∧
      s.parseTreeStack = children.reverse ++ below ∧
      children.length = (ruleRHS.filter (fun sym => decide (sym ≠ ".EMPTY"))).length := by
  obtain ⟨l, r, children, below, h1, h2, h3, h4, -, -⟩ :=
    reduce_spec g ruleNumber acc s s1 h (Reachable_sync g unread s hs).1
  refine ⟨l, r, children, below, h1, h2, h3, ?_⟩
  rcases hformat (l, r) (List.get?_mem h1) with hno | hone
  · have e1 : r.reverse.takeWhile (fun sym => decide (sym ≠ ".EMPTY")) = r.reverse := by
      rw [List.takeWhile_eq_self_iff]
      intro x hx
      simpa using hno x (List.mem_reverse.mp hx)
    have e2 : r.filter (fun sym => decide (sym ≠ ".EMPTY")) = r := by
      rw [List.filter_eq_self]
      intro x hx
      simpa using hno x hx
    rw [h4, poppedSymbols, e1, e2, List.reverse_reverse]
  · have hone1 : r = [".EMPTY"] := hone
    subst hone1
    rw [h4]
    decide

/-- In the run of `tiny` on `ID x`, after BOF and `ID x` were shifted the loop
reduces by rule 1, `item -> ID`: the new node `item ID` has one child, the leaf
`ID x` that was on top of the tree stack. -/
theorem reduce_children_witness :
    Reachable tiny (bracket [⟨"ID", "x"⟩]) tinyShifted ∧
    (∀ rule ∈ tiny.productionRules,
      (∀ sym ∈ rule.2, sym ≠ ".EMPTY") ∨ rule.2 = [".EMPTY"]) ∧
    step tiny (bracket [⟨"ID", "x"⟩]) tinyShifted = reduce tiny 1 false tinyShifted ∧
    ∃ (ruleLHS : String) (ruleRHS : List String) (children below : List ParseTreeNode),
      tiny.productionRules.get? (1 : Int).toNat = some (ruleLHS, ruleRHS) ∧
      ({ tinyShifted with
          stack := ["item", "BOF"], stateStack := [3, 1, 0],
          parseTreeStack :=
            [.mk "item ID" [.mk "ID x" [] (some ⟨"ID", "x"⟩)] none,
             .mk "BOF BOF" [] (some ⟨"BOF", "BOF"⟩)] } : State).parseTreeStack
        = .mk (productionRuleText ruleLHS ruleRHS) children none :: below ∧
      tinyShifted.parseTreeStack = children.reverse ++ below ∧
      children.length = (ruleRHS.filter (fun sym => decide (sym ≠ ".EMPTY"))).length :=
  have hreach : Reachable tiny (bracket [⟨"ID", "x"⟩]) tinyShifted :=
    Reachable.next (Reachable.next Reachable.start rfl) rfl
  have hformat : ∀ rule ∈ tiny.productionRules,
      (∀ sym ∈ rule.2, sym ≠ ".EMPTY") ∨ rule.2 = [".EMPTY"] := by decide
  ⟨hreach, hformat, rfl,
    reduce_children tiny (bracket [⟨"ID", "x"⟩]) tinyShifted hreach 1 false _ rfl hformat⟩

end wlp4parse

/-! ## Context-sensitive analysis: lemmas -/

namespace wlp4type

@[simp] theorem pure_apply {α : Type} (a : α) (st : SymbolTable) :
    (pure a : TC α) st = (.ok a, st) := rfl

@[simp] theorem raise_apply {α : Type} (what : String) (st : SymbolTable) :
    (TC.raise what : TC α) st = (.error (.runtime_error what), st) := rfl

@[simp] theorem undefined_apply {α : Type} (what : String) (st : SymbolTable) :
    (TC.undefined what : TC α) st = (.error (.undefined what), st) := rfl

theorem bind_apply {α β : Type} (x : TC α) (f : α → TC β) (st : SymbolTable) :
    (x >>= f) st =
      match x st with
      | (.ok a, st1) => f a st1
      | (.error e, st1) => (.error e, st1) := rfl

theorem bind_of_ok {α β : Type} {x : TC α} {f : α → TC β} {st st1 : SymbolTable} {a : α}
    (h : x st = (.ok a, st1)) : (x >>= f) st = f a st1 := by
  rw [bind_apply, h]

theorem bind_of_error {α β : Type} {x : TC α} {f : α → TC β} {st st1 : SymbolTable}
    {e : Fault} (h : x st = (.error e, st1)) : (x >>= f) st = (.error e, st1) := by
  rw [bind_apply, h]

theorem bind_ok_iff {α β : Type} {x : TC α} {f : α → TC β} {st st2 : SymbolTable} {b : β} :
    (x >>= f) st = (.ok b, st2) ↔
      ∃ a st1, x st = (.ok a, st1) ∧ f a st1 = (.ok b, st2) := by
  rw [bind_apply]
  rcases hx : x st with ⟨r, st1⟩
  cases r with
  | ok a =>
    constructor
    · intro h; exact ⟨a, st1, rfl, h⟩
    · rintro ⟨a1, s1, h1, h2⟩
      simp only [Prod.mk.injEq, Except.ok.injEq] at h1
      obtain ⟨rfl, rfl⟩ := h1
      exact h2
  | error e => simp

theorem annotateTypes_eq (node : ParseTreeNode) (fn ctx : String) :
    annotateTypes node fn ctx =
      annotateBody (fun i f c => annotateAt node.children i f c)
        (fun i f c => arglistWalkAt node.children i f c) node fn ctx := by
  cases node
  simp [annotateTypes, ParseTreeNode.children]

theorem arglistWalk_eq (node : ParseTreeNode) (fn ctx : String) :
    arglistWalk node fn ctx =
      arglistWalkBody (fun i f c => annotateAt node.children i f c)
        (fun i f c => arglistWalkAt node.children i f c) node fn ctx := by
  cases node
  simp [arglistWalk, ParseTreeNode.children]

theorem annotateAt_eq (cs : List ParseTreeNode) :
    ∀ (i : Nat) (fn ctx : String), annotateAt cs i fn ctx =
      match cs.get? i with
      | some c => annotateTypes c fn ctx
      | none => TC.undefined "children[i]" := by
  induction cs with
  | nil => intro i fn ctx; simp [annotateAt]
  | cons c cs ih =>
    intro i fn ctx
    cases i with
    | zero => simp [annotateAt]
    | succ i => simp [annotateAt, ih]

theorem arglistWalkAt_eq (cs : List ParseTreeNode) :
    ∀ (i : Nat) (fn ctx : String), arglistWalkAt cs i fn ctx =
      match cs.get? i with
      | some c => arglistWalk c fn ctx
      | none => TC.undefined "children[i]" := by
  induction cs with
  | nil => intro i fn ctx; simp [arglistWalkAt]
  | cons c cs ih =>
    intro i fn ctx
    cases i with
    | zero => simp [arglistWalkAt]
    | succ i => simp [arglistWalkAt, ih]

/-- Unfolding of `annotateTypes` at a node that is not a terminal. -/
theorem annotateTypes_internal (lhs : String) (rhs : List String) (tok : Token)
    (cs : List ParseTreeNode) (ty : String) (wt : Bool) (fn ctx : String) (h : Handler)
    (hk : tok.kind = "") (hd : dispatch lhs rhs = .ok (some h)) :
    annotateTypes (.mk lhs rhs tok cs ty wt) fn ctx =
      handle h (fun i f c => annotateAt cs i f c) (fun i f c => arglistWalkAt cs i f c)
        (.mk lhs rhs tok cs ty wt) fn ctx := by
  rw [annotateTypes_eq]
  simp [annotateBody, ParseTreeNode.isTerminal, ParseTreeNode.token, hk,
    ParseTreeNode.prodRuleLHS, ParseTreeNode.prodRuleRHS, hd, ParseTreeNode.children]

/-! ### The symbol table -/

theorem lookup_assign {β : Type} (k k1 : String) (v : β) (m : List (String × β)) :
    lookup k1 (assign k v m) = if k = k1 then some v else lookup k1 m := by
  induction m with
  | nil => simp [assign, lookup]
  | cons p rest ih =>
    obtain ⟨kp, vp⟩ := p
    by_cases h : kp = k
    · subst h
      by_cases h1 : kp = k1
      · simp [assign, lookup, h1]
      · simp [assign, lookup, h1]
    · by_cases h1 : kp = k1
      · subst h1
        simp [assign, lookup, h, Ne.symm h]
      · simp [assign, lookup, h, h1, ih]

theorem assign_of_lookup {β : Type} (k : String) (v : β) (m : List (String × β))
    (h : lookup k m = some v) : assign k v m = m := by
  induction m with
  | nil => simp [lookup] at h
  | cons p rest ih =>
    obtain ⟨kp, vp⟩ := p
    by_cases hk : kp = k
    · subst hk
      simp only [lookup, if_true, Option.some.injEq] at h
      simp [assign, h]
    · simp only [lookup, hk, if_false] at h
      simp [assign, hk, ih h]

theorem touch_of_lookup {β : Type} (d : β) (k : String) (v : β) (m : List (String × β))
    (h : lookup k m = some v) : touch d k m = m := by
  simp [touch, h]

theorem valueAt_of_lookup {β : Type} (d : β) (k : String) (v : β) (m : List (String × β))
    (h : lookup k m = some v) : valueAt d k m = v := by
  simp [valueAt, h]

theorem lookup_touch {β : Type} (d : β) (k k1 : String) (m : List (String × β)) :
    lookup k1 (touch d k m) =
      match lookup k m with
      | some _ => lookup k1 m
      | none => if k = k1 then some d else lookup k1 m := by
  unfold touch
  cases h : lookup k m with
  | none => simp only [lookup_assign]
  | some v => simp

theorem valueAt_touch {β : Type} (d : β) (k : String) (m : List (String × β)) :
    valueAt d k (touch d k m) = valueAt d k m := by
  unfold valueAt
  rw [lookup_touch]
  cases h : lookup k m <;> simp [h]

theorem assign_assign {β : Type} (k : String) (v w : β) (m : List (String × β)) :
    assign k w (assign k v m) = assign k w m := by
  induction m with
  | nil => simp [assign]
  | cons p rest ih =>
    obtain ⟨kp, vp⟩ := p
    by_cases hk : kp = k
    · simp [assign, hk]
    · simp [assign, hk, ih]

theorem assign_touch {β : Type} (d : β) (k : String) (w : β) (m : List (String × β)) :
    assign k w (touch d k m) = assign k w m := by
  unfold touch
  cases h : lookup k m with
  | none => simp [assign_assign]
  | some v => simp

/-! ### Induction on trees -/

theorem tree_induction {P : ParseTreeNode → Prop}
    (step : ∀ (lhs : String) (rhs : List String) (tok : Token) (cs : List ParseTreeNode)
      (ty : String) (wt : Bool), (∀ c ∈ cs, P c) → P (.mk lhs rhs tok cs ty wt))
    (node : ParseTreeNode) : P node :=
  @ParseTreeNode.rec P (fun cs => ∀ c ∈ cs, P c)
    (fun lhs rhs tok cs ty wt ih => step lhs rhs tok cs ty wt ih)
    (fun c hc => by cases hc)
    (fun c cs hc hcs d hd => by
      rcases List.mem_cons.mp hd with rfl | hmem
      · exact hc
      · exact hcs d hmem)
    node

theorem nodes_eq (node : ParseTreeNode) : nodes node = node :: nodesOfList node.children := by
  cases node
  simp [nodes, ParseTreeNode.children]

theorem mem_nodes_self (node : ParseTreeNode) : node ∈ nodes node := by
  rw [nodes_eq]
  exact List.mem_cons_self _ _

theorem mem_nodesOfList {n : ParseTreeNode} (cs : List ParseTreeNode) :
    n ∈ nodesOfList cs ↔ ∃ c ∈ cs, n ∈ nodes c := by
  induction cs with
  | nil => simp [nodesOfList]
  | cons c cs ih => simp [nodesOfList, ih]

theorem nodes_child {n c : ParseTreeNode} {lhs : String} {rhs : List String} {tok : Token}
    {cs : List ParseTreeNode} {ty : String} {wt : Bool} (hc : c ∈ cs) (hn : n ∈ nodes c) :
    n ∈ nodes (.mk lhs rhs tok cs ty wt) := by
  rw [nodes_eq]
  exact List.mem_cons_of_mem _ ((mem_nodesOfList cs).mpr ⟨c, hc, hn⟩)

/-! ### Computations that keep the recorded parameter types -/

theorem sigFrame_refl (st : SymbolTable) : SigFrame st st :=
  fun _ _ vars h => ⟨vars, h⟩

theorem sigFrame_trans {st st1 st2 : SymbolTable} (h1 : SigFrame st st1)
    (h2 : SigFrame st1 st2) : SigFrame st st2 := by
  intro p parameters vars h
  obtain ⟨vars1, h3⟩ := h1 p parameters vars h
  exact h2 p parameters vars1 h3

theorem sigFrame_touch (k : String) (st : SymbolTable) :
    SigFrame st (touch ([], []) k st) := by
  intro p parameters vars h
  refine ⟨vars, ?_⟩
  rw [lookup_touch]
  cases hk : lookup k st with
  | none =>
    by_cases heq : k = p
    · subst heq; rw [hk] at h; cases h
    · simpa [heq] using h
  | some v => simpa using h

theorem sigFrame_assign_vars (k : String) (vars1 : VarTable) (st : SymbolTable) :
    SigFrame st (assign k ((valueAt ([], []) k st).1, vars1) st) := by
  intro p parameters vars h
  rw [lookup_assign]
  by_cases heq : k = p
  · subst heq
    refine ⟨vars1, ?_⟩
    simp [valueAt, h]
  · exact ⟨vars, by simpa [heq] using h⟩

theorem frames_pure {α : Type} (a : α) : Frames (pure a : TC α) :=
  ⟨fun st => sigFrame_refl st⟩

theorem frames_raise {α : Type} (what : String) : Frames (TC.raise what : TC α) :=
  ⟨fun st => sigFrame_refl st⟩

theorem frames_undefined {α : Type} (what : String) : Frames (TC.undefined what : TC α) :=
  ⟨fun st => sigFrame_refl st⟩

theorem frames_error {α : Type} (e : Fault) :
    Frames (fun st => (.error e, st) : TC α) :=
  ⟨fun st => sigFrame_refl st⟩

theorem frames_bind {α β : Type} {x : TC α} {f : α → TC β} (hx : Frames x)
    (hf : ∀ a, Frames (f a)) : Frames (x >>= f) := by
  constructor
  intro st
  rw [bind_apply]
  have h1 := hx.keeps st
  rcases hxs : x st with ⟨r, st1⟩
  rw [hxs] at h1
  cases r with
  | ok a => exact sigFrame_trans h1 ((hf a).keeps st1)
  | error e => exact h1

theorem frames_ite {α : Type} {c : Prop} [Decidable c] {x y : TC α} (hx : Frames x)
    (hy : Frames y) : Frames (if c then x else y) := by
  split
  · exact hx
  · exact hy

theorem frames_child (cs : List ParseTreeNode) (i : Nat) : Frames (child cs i) := by
  unfold wlp4type.child
  split
  · exact frames_pure _
  · exact frames_undefined _

theorem frames_findProcedure (name : String) : Frames (findProcedure name) :=
  ⟨fun st => sigFrame_refl st⟩

theorem frames_findVariable (ctx name : String) : Frames (findVariable ctx name) :=
  ⟨fun st => sigFrame_touch ctx st⟩

theorem frames_signature (name : String) : Frames (signature name) :=
  ⟨fun st => sigFrame_touch name st⟩

theorem frames_setVariable (ctx name type : String) : Frames (setVariable ctx name type) :=
  ⟨fun st => sigFrame_assign_vars ctx _ st⟩

theorem frames_getVariable (ctx name : String) : Frames (getVariable ctx name) :=
  ⟨fun st => sigFrame_assign_vars ctx _ st⟩


theorem frames_handle (h : Handler) (rec : Rec) (walk : Walk) (node : ParseTreeNode)
    (fn ctx : String) (hp : h ≠ .procedure) (hl : h ≠ .paramlist)
    (hrec : ∀ i f c, Frames (rec i f c)) (hwalk : ∀ i f c, Frames (walk i f c)) :
    Frames (handle h rec walk node fn ctx) := by
  cases h <;> first | exact absurd rfl hp | exact absurd rfl hl | skip
  all_goals
    simp only [wlp4type.handle, handleStart, handleProceduresMain, handleProceduresProcedure,
      handleMain, handleParams, handleDcl, handleDcls, handleUseID, handleExprBinary,
      handleTermBinary, handleAddressOf, handleDereference, handleNewArray, handleLvalueParen,
      handleCall, handleCallArguments, handleArglistOne, handleArglistMany, arglistWalkBody,
      handleExprTerm, handleTermFactor, handleFactorNum, handleFactorNull, handleFactorParen,
      handleStatementsEmpty, handleStatementsMore, handleAssignment, handleIfElse,
      handleWhileLoop, handlePrintln, handleDelete, handleTest]
    repeat' first
      | exact hrec _ _ _
      | exact hwalk _ _ _
      | exact frames_pure _
      | exact frames_raise _
      | exact frames_undefined _
      | exact frames_child _ _
      | exact frames_findProcedure _
      | exact frames_findVariable _ _
      | exact frames_signature _
      | exact frames_setVariable _ _ _
      | exact frames_getVariable _ _
      | apply frames_bind
      | apply frames_ite
      | intro _
      | split


theorem firstMatch_mem (l : List (Cond × Handler)) (h : Handler)
    (hm : firstMatch l = .ok (some h)) : (some true, h) ∈ l := by
  induction l with
  | nil => simp [firstMatch] at hm
  | cons p rest ih =>
    obtain ⟨c, h1⟩ := p
    cases c with
    | none => simp [firstMatch] at hm
    | some b =>
      cases b with
      | true =>
        simp only [firstMatch, Except.ok.injEq, Option.some.injEq] at hm
        subst hm
        exact List.mem_cons_self _ _
      | false =>
        simp only [firstMatch] at hm
        exact List.mem_cons_of_mem _ (ih hm)

theorem dispatch_declaration (lhs : String) (rhs : List String) (h : Handler)
    (hd : dispatch lhs rhs = .ok (some h)) :
    (h = .procedure → lhs = "procedure") ∧ (h = .paramlist → lhs = "paramlist") := by
  have hm := firstMatch_mem _ _ hd
  constructor
  · intro he
    subst he
    simp [chain] at hm
    exact hm
  · intro he
    subst he
    simp [chain] at hm
    exact hm

theorem annotateAt_frames (cs : List ParseTreeNode) (i : Nat) (fn ctx : String)
    (h : ∀ c ∈ cs, ∀ f x, Frames (annotateTypes c f x)) : Frames (annotateAt cs i fn ctx) := by
  rw [annotateAt_eq]
  split
  · rename_i c hc
    exact h c (List.get?_mem hc) fn ctx
  · exact frames_undefined _

theorem arglistWalkAt_frames (cs : List ParseTreeNode) (i : Nat) (fn ctx : String)
    (h : ∀ c ∈ cs, ∀ f x, Frames (arglistWalk c f x)) :
    Frames (arglistWalkAt cs i fn ctx) := by
  rw [arglistWalkAt_eq]
  split
  · rename_i c hc
    exact h c (List.get?_mem hc) fn ctx
  · exact frames_undefined _

/-- Analysing a tree without `procedure` and `paramlist` nodes keeps the
parameter types of every recorded procedure. -/
theorem annotateTypes_frames (node : ParseTreeNode) :
    DeclarationFree node →
      (∀ fn ctx, Frames (annotateTypes node fn ctx)) ∧
      (∀ fn ctx, Frames (arglistWalk node fn ctx)) := by
  induction node using tree_induction with
  | step lhs rhs tok cs ty wt ih =>
    intro hfree
    have hself := hfree _ (mem_nodes_self _)
    simp only [ParseTreeNode.prodRuleLHS] at hself
    have hcs : ∀ c ∈ cs, DeclarationFree c := fun c hc n hn => hfree n (nodes_child hc hn)
    have hrec : ∀ i f x, Frames (annotateAt cs i f x) := fun i f x =>
      annotateAt_frames cs i f x (fun c hc => (ih c hc (hcs c hc)).1)
    have hwalk : ∀ i f x, Frames (arglistWalkAt cs i f x) := fun i f x =>
      arglistWalkAt_frames cs i f x (fun c hc => (ih c hc (hcs c hc)).2)
    constructor
    · intro fn ctx
      rw [annotateTypes_eq]
      unfold annotateBody
      split
      · split
        · exact frames_pure _
        · split
          · exact frames_pure _
          · exact frames_pure _
      · split
        · exact frames_error _
        · exact frames_pure _
        · rename_i h hd
          have hdecl := dispatch_declaration _ _ h hd
          simp only [ParseTreeNode.prodRuleLHS] at hdecl
          exact frames_handle h _ _ _ fn ctx (fun he => hself.1 (hdecl.1 he))
            (fun he => hself.2 (hdecl.2 he)) hrec hwalk
    · intro fn ctx
      rw [arglistWalk_eq]
      unfold arglistWalkBody
      split
      · refine frames_bind (hrec _ _ _) (fun a => frames_bind (hwalk _ _ _) (fun b => ?_))
        exact frames_pure _
      · exact frames_bind (hrec _ _ _) (fun a => frames_pure _)

theorem conformsAll_mem (rhs : List String) :
    ∀ cs : List ParseTreeNode, conformsAll rhs cs = true →
      ∀ c ∈ cs, ∃ symbol ∈ rhs, conforms symbol c = true := by
  induction rhs with
  | nil =>
    intro cs h c hc
    cases cs with
    | nil => cases hc
    | cons d ds => simp [conformsAll] at h
  | cons symbol symbols ih =>
    intro cs h c hc
    cases cs with
    | nil => cases hc
    | cons d ds =>
      simp only [conformsAll, Bool.and_eq_true] at h
      rcases List.mem_cons.mp hc with rfl | hmem
      · exact ⟨symbol, List.mem_cons_self _ _, h.1⟩
      · obtain ⟨s, hs, hconf⟩ := ih ds h.2 c hmem
        exact ⟨s, List.mem_cons_of_mem _ hs, hconf⟩

theorem expression_closed :
    ∀ p ∈ productions, p.1 ∈ expressionSymbols →
      ∀ symbol ∈ p.2, symbol ∈ expressionSymbols ∨ symbol ∈ terminals := by
  decide

/-- A tree derived from an expression symbol has no `procedure` and no
`paramlist` node. -/
theorem conforms_declarationFree (node : ParseTreeNode) :
    ∀ symbol, (symbol ∈ expressionSymbols ∨ symbol ∈ terminals) →
      conforms symbol node = true → DeclarationFree node := by
  induction node using tree_induction with
  | step lhs rhs tok cs ty wt ih =>
    intro symbol hsym hconf
    unfold conforms at hconf
    split at hconf
    · simp only [Bool.and_eq_true, decide_eq_true_eq, List.isEmpty_iff] at hconf
      obtain ⟨⟨hl, -, -⟩, hcs⟩ := hconf
      subst hl hcs
      intro n hn
      simp only [nodes, nodesOfList, List.mem_singleton] at hn
      subst hn
      simp [ParseTreeNode.prodRuleLHS]
    · rename_i hterm
      split at hconf
      · simp only [Bool.and_eq_true, decide_eq_true_eq, List.isEmpty_iff] at hconf
        obtain ⟨⟨hl, -, -⟩, hcs⟩ := hconf
        subst hl hcs
        intro n hn
        simp only [nodes, nodesOfList, List.mem_singleton] at hn
        subst hn
        simp [ParseTreeNode.prodRuleLHS]
      · simp only [Bool.and_eq_true, decide_eq_true_eq] at hconf
        obtain ⟨⟨hl, -, hprod, -⟩, hall⟩ := hconf
        subst hl
        have hexpr : lhs ∈ expressionSymbols := by
          rcases hsym with h | h
          · exact h
          · exact absurd h hterm
        intro n hn
        rw [nodes_eq] at hn
        rcases List.mem_cons.mp hn with rfl | hmem
        · simp only [ParseTreeNode.prodRuleLHS]
          simp only [expressionSymbols, List.mem_cons, List.mem_singleton] at hexpr
          rcases hexpr with rfl | rfl | rfl | rfl | rfl | h
          all_goals first | decide | cases h
        · simp only [ParseTreeNode.children] at hmem
          obtain ⟨c, hc, hnc⟩ := (mem_nodesOfList cs).mp hmem
          obtain ⟨s, hs, hsc⟩ := conformsAll_mem rhs cs hall c hc
          exact ih c hc s (expression_closed _ hprod hexpr s hs) hsc n hnc


theorem annotateAll_frames (fn ctx : String) (es : List ParseTreeNode)
    (h : ∀ e ∈ es, DeclarationFree e) : Frames (annotateAll es fn ctx) := by
  induction es with
  | nil => exact frames_pure _
  | cons e es ih =>
    unfold annotateAll
    refine frames_bind ((annotateTypes_frames e (h e (List.mem_cons_self _ _))).1 fn ctx)
      (fun a => frames_bind (ih (fun d hd => h d (List.mem_cons_of_mem _ hd))) (fun b => ?_))
    exact frames_pure _

theorem annotateAll_cons_ok {e : ParseTreeNode} {es es1 : List ParseTreeNode} {fn ctx : String}
    {st st2 : SymbolTable} (h : annotateAll (e :: es) fn ctx st = (.ok es1, st2)) :
    ∃ e1 rest st1, annotateTypes e fn ctx st = (.ok e1, st1) ∧
      annotateAll es fn ctx st1 = (.ok rest, st2) ∧ es1 = e1 :: rest := by
  unfold annotateAll at h
  obtain ⟨e1, st1, h1, h2⟩ := bind_ok_iff.mp h
  obtain ⟨rest, st3, h3, h4⟩ := bind_ok_iff.mp h2
  simp only [pure_apply, Prod.mk.injEq, Except.ok.injEq] at h4
  obtain ⟨h5, h6⟩ := h4
  subst h6
  exact ⟨e1, rest, st1, h1, h3, h5.symm⟩

/-- The loop of the `arglist` branch collects the types of the annotated
argument expressions, in order. -/
theorem arglistWalk_spec (args : ParseTreeNode) (es : List ParseTreeNode)
    (hargs : IsArglist args es) :
    ∀ (fn ctx : String) (st st1 : SymbolTable) (es1 : List ParseTreeNode),
      annotateAll es fn ctx st = (.ok es1, st1) →
      ∃ r, arglistWalk args fn ctx st = (.ok (r, es1.map ParseTreeNode.type), st1) := by
  induction hargs with
  | one e ty wt =>
    intro fn ctx st st1 es1 h
    obtain ⟨e1, rest, st2, h1, h2, h3⟩ := annotateAll_cons_ok h
    simp only [annotateAll, pure_apply, Prod.mk.injEq, Except.ok.injEq] at h2
    obtain ⟨h4, h5⟩ := h2
    subst h3 h4 h5
    rw [arglistWalk_eq]
    simp [arglistWalkBody, ParseTreeNode.prodRuleRHS, ParseTreeNode.children, annotateAt,
      bind_of_ok h1]
  | more e comma rest es ty wt _ ih =>
    intro fn ctx st st1 es1 h
    obtain ⟨e1, rest1, st2, h1, h2, h3⟩ := annotateAll_cons_ok h
    obtain ⟨r, hr⟩ := ih fn ctx st2 st1 rest1 h2
    subst h3
    rw [arglistWalk_eq]
    simp [arglistWalkBody, ParseTreeNode.prodRuleRHS, ParseTreeNode.children, annotateAt,
      arglistWalkAt, bind_of_ok h1, bind_of_ok hr]

theorem sameTypes_iff (as : List String) :
    ∀ ps : List String, as.length = ps.length → (sameTypes as ps = true ↔ as = ps) := by
  induction as with
  | nil =>
    intro ps h
    cases ps with
    | nil => simp [sameTypes]
    | cons p ps => simp at h
  | cons a as ih =>
    intro ps h
    cases ps with
    | nil => simp at h
    | cons p ps =>
      have hlen : as.length = ps.length := by simpa using h
      by_cases hap : a = p
      · simp [sameTypes, hap, ih ps hlen]
      · simp [sameTypes, hap]

/-- The check of an argument list against the parameter types of the callee. -/
theorem arglist_check (args : ParseTreeNode) (es : List ParseTreeNode)
    (hargs : IsArglist args es) (callee ctx : String) (st st1 : SymbolTable)
    (es1 : List ParseTreeNode) (parameters : List String) (vars1 : VarTable)
    (hann : annotateAll es callee ctx st = (.ok es1, st1))
    (hsig : lookup callee st1 = some (parameters, vars1)) :
    (es1.map ParseTreeNode.type = parameters →
      ∃ r, annotateTypes args callee ctx st = (.ok r, st1)) ∧
    (es1.map ParseTreeNode.type ≠ parameters →
      ∃ what, annotateTypes args callee ctx st = (.error (.runtime_error what), st1)) := by
  have htouch : touch ([], []) callee st1 = st1 := touch_of_lookup _ _ _ _ hsig
  have hval : valueAt ([], []) callee st1 = (parameters, vars1) :=
    valueAt_of_lookup _ _ _ _ hsig
  cases hargs with
  | one e ty wt =>
    obtain ⟨e1, rest, st2, h1, h2, h3⟩ := annotateAll_cons_ok hann
    simp only [annotateAll, pure_apply, Prod.mk.injEq, Except.ok.injEq] at h2
    obtain ⟨h4, h5⟩ := h2
    subst h3 h4 h5
    rw [annotateTypes_internal "arglist" ["expr"] _ _ _ _ _ _ .arglistOne rfl rfl]
    simp only [handle, handleArglistOne, annotateAt, bind_of_ok h1, bind_apply, signature,
      htouch, hval]
    constructor
    · intro heq
      simp only [List.map_cons, List.map_nil] at heq
      subst heq
      simp [ParseTreeNode.setType, ParseTreeNode.setChild, ParseTreeNode.setChildren,
        ParseTreeNode.type]
    · intro hne
      simp only [List.map_cons, List.map_nil] at hne
      by_cases hlen : parameters.length = 1
      · obtain ⟨p, hp⟩ := List.length_eq_one.mp hlen
        subst hp
        have hp1 : ¬ e1.type = p := fun h => hne (by rw [h])
        simp [ParseTreeNode.setType, ParseTreeNode.setChild, ParseTreeNode.setChildren,
          ParseTreeNode.type, hp1]
        cases e1
        simp_all [ParseTreeNode.type]
      · simp [hlen]
  | more e comma rest es0 ty wt hrest =>
    obtain ⟨r, hr⟩ := arglistWalk_spec _ _ (IsArglist.more e comma rest es0 ty wt hrest)
      callee ctx st st1 es1 hann
    rw [annotateTypes_internal "arglist" ["expr", "COMMA", "arglist"] _ _ _ _ _ _ .arglistMany
      rfl rfl]
    rw [arglistWalk_eq] at hr
    simp only [ParseTreeNode.children] at hr
    simp only [handle, handleArglistMany, bind_of_ok hr, bind_apply, signature, htouch, hval]
    constructor
    · intro heq
      have hlen : (es1.map ParseTreeNode.type).length = parameters.length := by rw [heq]
      have hsame := (sameTypes_iff _ _ hlen).mpr heq
      simp only [List.length_map] at hlen
      simp [hlen, hsame]
    · intro hne
      by_cases hlen : (es1.map ParseTreeNode.type).length = parameters.length
      · have hsame : sameTypes (es1.map ParseTreeNode.type) parameters = false := by
          cases hs : sameTypes (es1.map ParseTreeNode.type) parameters with
          | false => rfl
          | true => exact absurd ((sameTypes_iff _ _ hlen).mp hs) hne
        simp only [List.length_map] at hlen
        simp [hlen, hsame]
      · simp only [List.length_map] at hlen
        simp [hlen]

/-! ### Soundness of the analysis -/

theorem sound_pure {α : Type} {Q : α → Prop} (a : α) (h : Q a) : Sound (pure a : TC α) Q := by
  constructor
  intro st b st1 ht hb
  simp only [pure_apply, Prod.mk.injEq, Except.ok.injEq] at hb
  obtain ⟨rfl, rfl⟩ := hb
  exact ⟨h, ht⟩

theorem sound_raise {α : Type} {Q : α → Prop} (what : String) :
    Sound (TC.raise what : TC α) Q := by
  constructor
  intro st b st1 _ hb
  simp at hb

theorem sound_undefined {α : Type} {Q : α → Prop} (what : String) :
    Sound (TC.undefined what : TC α) Q := by
  constructor
  intro st b st1 _ hb
  simp at hb

theorem sound_error {α : Type} {Q : α → Prop} (e : Fault) :
    Sound (fun st => (.error e, st) : TC α) Q := by
  constructor
  intro st b st1 _ hb
  simp at hb

theorem sound_bind {α β : Type} {x : TC α} {f : α → TC β} {P : α → Prop} {Q : β → Prop}
    (hx : Sound x P) (hf : ∀ a, P a → Sound (f a) Q) : Sound (x >>= f) Q := by
  constructor
  intro st b st2 ht hb
  obtain ⟨a, st1, h1, h2⟩ := bind_ok_iff.mp hb
  obtain ⟨hp, ht1⟩ := hx.holds st a st1 ht h1
  exact (hf a hp).holds st1 b st2 ht1 h2

theorem sound_ite {α : Type} {c : Prop} [Decidable c] {x y : TC α} {Q : α → Prop}
    (hx : c → Sound x Q) (hy : ¬ c → Sound y Q) : Sound (if c then x else y) Q := by
  by_cases h : c
  · rw [if_pos h]; exact hx h
  · rw [if_neg h]; exact hy h

theorem sound_child (cs : List ParseTreeNode) (i : Nat) :
    Sound (child cs i) (fun c => cs.get? i = some c) := by
  constructor
  intro st a st1 ht ha
  unfold wlp4type.child at ha
  cases hc : cs.get? i with
  | none =>
    rw [hc] at ha
    simp at ha
  | some c =>
    rw [hc] at ha
    simp only [pure_apply, Prod.mk.injEq, Except.ok.injEq] at ha
    obtain ⟨rfl, rfl⟩ := ha
    exact ⟨rfl, ht⟩

theorem tableTyped_nil : TableTyped [] := by
  intro p entry h
  simp [lookup] at h

theorem tableTyped_touch (k : String) (st : SymbolTable) (h : TableTyped st) :
    TableTyped (touch ([], []) k st) := by
  intro p entry hp x t hx
  rw [lookup_touch] at hp
  cases hk : lookup k st with
  | none =>
    rw [hk] at hp
    by_cases heq : k = p
    · simp only [heq, if_true, Option.some.injEq] at hp
      subst hp
      simp [lookup] at hx
    · simp only [heq, if_false] at hp
      exact h p entry hp x t hx
  | some v =>
    rw [hk] at hp
    exact h p entry hp x t hx

theorem tableTyped_assign (k : String) (entry : List String × VarTable) (st : SymbolTable)
    (h : TableTyped st) (he : ∀ x t, lookup x entry.2 = some t → IsType t) :
    TableTyped (assign k entry st) := by
  intro p e hp x t hx
  rw [lookup_assign] at hp
  by_cases heq : k = p
  · simp only [heq, if_true, Option.some.injEq] at hp
    subst hp
    exact he x t hx
  · simp only [heq, if_false] at hp
    exact h p e hp x t hx

theorem tableTyped_valueAt (k : String) (st : SymbolTable) (h : TableTyped st) :
    ∀ x t, lookup x (valueAt ([], []) k st).2 = some t → IsType t := by
  intro x t hx
  unfold wlp4type.valueAt at hx
  cases hk : lookup k st with
  | none => rw [hk] at hx; simp [lookup] at hx
  | some entry => rw [hk] at hx; exact h k entry hk x t hx

theorem sound_findProcedure (name : String) : Sound (findProcedure name) (fun _ => True) := by
  constructor
  intro st a st1 ht ha
  simp only [wlp4type.findProcedure, Prod.mk.injEq, Except.ok.injEq] at ha
  obtain ⟨-, rfl⟩ := ha
  exact ⟨trivial, ht⟩

theorem sound_declareProcedure (name : String) :
    Sound (declareProcedure name) (fun _ => True) := by
  constructor
  intro st a st1 ht ha
  simp only [wlp4type.declareProcedure, Prod.mk.injEq, Except.ok.injEq] at ha
  obtain ⟨-, rfl⟩ := ha
  exact ⟨trivial, tableTyped_assign _ _ _ ht (by intro x t hx; simp [lookup] at hx)⟩

theorem sound_findVariable (ctx name : String) :
    Sound (findVariable ctx name) (fun _ => True) := by
  constructor
  intro st a st1 ht ha
  simp only [wlp4type.findVariable, Prod.mk.injEq, Except.ok.injEq] at ha
  obtain ⟨-, rfl⟩ := ha
  exact ⟨trivial, tableTyped_touch _ _ ht⟩

theorem sound_signature (name : String) : Sound (signature name) (fun _ => True) := by
  constructor
  intro st a st1 ht ha
  simp only [wlp4type.signature, Prod.mk.injEq, Except.ok.injEq] at ha
  obtain ⟨-, rfl⟩ := ha
  exact ⟨trivial, tableTyped_touch _ _ ht⟩

theorem sound_pushParameter (ctx type : String) :
    Sound (pushParameter ctx type) (fun _ => True) := by
  constructor
  intro st a st1 ht ha
  simp only [wlp4type.pushParameter, Prod.mk.injEq, Except.ok.injEq] at ha
  obtain ⟨-, rfl⟩ := ha
  exact ⟨trivial, tableTyped_assign _ _ _ ht (tableTyped_valueAt ctx st ht)⟩

theorem sound_setVariable (ctx name type : String) (h : IsType type) :
    Sound (setVariable ctx name type) (fun _ => True) := by
  constructor
  intro st a st1 ht ha
  simp only [wlp4type.setVariable, Prod.mk.injEq, Except.ok.injEq] at ha
  obtain ⟨-, rfl⟩ := ha
  refine ⟨trivial, tableTyped_assign _ _ _ ht ?_⟩
  intro x t hx
  simp only at hx
  rw [lookup_assign] at hx
  by_cases heq : name = x
  · simp only [heq, if_true, Option.some.injEq] at hx
    subst hx
    exact h
  · simp only [heq, if_false] at hx
    exact tableTyped_valueAt ctx st ht x t hx

/-- Reading a variable: either the value read is the empty string (the name
was missing), or it is a type and the table is as it was. -/
theorem getVariable_typed (ctx name : String) :
    ∀ st t st1, TableTyped st → getVariable ctx name st = (.ok t, st1) →
      t = "" ∨ (IsType t ∧ TableTyped st1) := by
  intro st t st1 ht h
  simp only [wlp4type.getVariable, Prod.mk.injEq, Except.ok.injEq] at h
  obtain ⟨h1, h2⟩ := h
  have hval : ∀ m : VarTable, valueAt "" name m = (lookup name m).getD "" := fun _ => rfl
  cases hv : lookup name (valueAt ([], []) ctx st).2 with
  | none =>
    left
    rw [← h1, hval, hv]
    rfl
  | some declared =>
    right
    have ht1 : t = declared := by
      rw [← h1, hval, hv]
      rfl
    subst ht1
    refine ⟨tableTyped_valueAt ctx st ht name _ hv, ?_⟩
    rw [← h2, touch_of_lookup _ _ _ _ hv]
    exact tableTyped_assign _ _ _ ht (tableTyped_valueAt ctx st ht)

theorem AllTyped_mk (lhs : String) (rhs : List String) (tok : Token) (cs : List ParseTreeNode)
    (ty : String) (wt : Bool) :
    AllTyped (.mk lhs rhs tok cs ty wt) ↔
      (lhs ∈ typedSymbols → IsType ty) ∧ ∀ c ∈ cs, AllTyped c := by
  unfold AllTyped
  constructor
  · intro h
    refine ⟨fun hl => h _ (mem_nodes_self _) hl, fun c hc n hn hl => h n (nodes_child hc hn) hl⟩
  · intro h n hn hl
    rw [nodes_eq] at hn
    rcases List.mem_cons.mp hn with rfl | hmem
    · exact h.1 hl
    · obtain ⟨c, hc, hnc⟩ := (mem_nodesOfList _).mp hmem
      exact h.2 c hc n hnc hl

theorem pure_bind_eq {α β : Type} (a : α) (f : α → TC β) : (pure a >>= f) = f a := rfl

theorem conformsAll_nil (cs : List ParseTreeNode) : conformsAll [] cs = true ↔ cs = [] := by
  cases cs <;> simp [conformsAll]

theorem conformsAll_cons (symbol : String) (symbols : List String) (cs : List ParseTreeNode) :
    conformsAll (symbol :: symbols) cs = true ↔
      ∃ c rest, cs = c :: rest ∧ conforms symbol c = true ∧ conformsAll symbols rest = true := by
  cases cs with
  | nil => simp [conformsAll]
  | cons c rest =>
    simp only [conformsAll, Bool.and_eq_true]
    constructor
    · intro h
      exact ⟨c, rest, rfl, h⟩
    · rintro ⟨c1, rest1, heq, h⟩
      simp only [List.cons.injEq] at heq
      obtain ⟨rfl, rfl⟩ := heq
      exact h

theorem conforms_terminal (symbol : String) (c : ParseTreeNode) (hs : symbol ∈ terminals)
    (h : conforms symbol c = true) :
    ∃ tok ty wt, c = .mk "" [] tok [] ty wt ∧ tok.kind = symbol := by
  cases c with
  | mk lhs rhs tok cs ty wt =>
    unfold conforms at h
    rw [if_pos hs] at h
    simp only [Bool.and_eq_true, decide_eq_true_eq, List.isEmpty_iff] at h
    obtain ⟨⟨rfl, rfl, hk⟩, rfl⟩ := h
    exact ⟨tok, ty, wt, rfl, hk⟩

theorem conforms_leaf {P : Prop} (symbol : String) (c : ParseTreeNode)
    (h : conforms symbol c = true) (hs : decide (symbol ∈ terminals) = true)
    (k : ∀ tok ty wt, c = .mk "" [] tok [] ty wt → P) : P :=
  have ⟨tok, ty, wt, hc, _⟩ := conforms_terminal symbol c (of_decide_eq_true hs) h
  k tok ty wt hc

theorem conforms_nonterminal (symbol lhs : String) (rhs : List String) (tok : Token)
    (cs : List ParseTreeNode) (ty : String) (wt : Bool) (hs : symbol ∉ terminals)
    (h : conforms symbol (.mk lhs rhs tok cs ty wt) = true) :
    (lhs = "" ∧ rhs = [] ∧ cs = [] ∧ tok = ⟨symbol, ".EMPTY"⟩ ∧ symbol ≠ ""
      ∧ (symbol, [".EMPTY"]) ∈ productions) ∨
    (lhs = symbol ∧ tok = ⟨"", ""⟩ ∧ (symbol, rhs) ∈ productions ∧ ".EMPTY" ∉ rhs
      ∧ conformsAll rhs cs = true) := by
  unfold conforms at h
  rw [if_neg hs] at h
  split at h
  · rename_i hk
    simp only [Bool.and_eq_true, decide_eq_true_eq, List.isEmpty_iff] at h
    obtain ⟨⟨rfl, rfl, ht, hp⟩, rfl⟩ := h
    left
    refine ⟨rfl, rfl, rfl, ht, ?_, hp⟩
    rw [ht] at hk
    simpa using hk
  · rename_i hk
    simp only [Bool.and_eq_true, decide_eq_true_eq] at h
    obtain ⟨⟨rfl, ht, hp, he⟩, hall⟩ := h
    right
    exact ⟨rfl, ht, hp, he, hall⟩

theorem AllTyped_leaf (tok : Token) (ty : String) (wt : Bool) :
    AllTyped (.mk "" [] tok [] ty wt) := by
  rw [AllTyped_mk]
  simp [typedSymbols]

theorem conforms_type (c : ParseTreeNode) (h : conforms "type" c = true) :
    AllTyped c ∧ IsType (declaredType c) := by
  cases c with
  | mk lhs rhs tok cs ty wt =>
    rcases conforms_nonterminal "type" lhs rhs tok cs ty wt (by decide) h with
      ⟨-, -, -, -, -, hp⟩ | ⟨rfl, rfl, hp, -, hall⟩
    · exact absurd hp (by decide)
    · simp only [productions, List.mem_cons, Prod.mk.injEq, List.mem_singleton] at hp
      simp only [String.reduceEq, false_and, true_and, false_or, or_false] at hp
      simp only [List.not_mem_nil, or_false] at hp
      rcases hp with rfl | rfl
      · rw [conformsAll_cons] at hall
        obtain ⟨c0, rest, rfl, h0, hall⟩ := hall
        rw [conformsAll_nil] at hall
        subst hall
        obtain ⟨tok0, ty0, wt0, rfl, -⟩ := conforms_terminal _ _ (by decide) h0
        refine ⟨?_, Or.inl rfl⟩
        rw [AllTyped_mk]
        simp [typedSymbols, AllTyped_leaf]
      · rw [conformsAll_cons] at hall
        obtain ⟨c0, rest, rfl, h0, hall⟩ := hall
        rw [conformsAll_cons] at hall
        obtain ⟨c1, rest, rfl, h1, hall⟩ := hall
        rw [conformsAll_nil] at hall
        subst hall
        obtain ⟨tok0, ty0, wt0, rfl, -⟩ := conforms_terminal _ _ (by decide) h0
        obtain ⟨tok1, ty1, wt1, rfl, -⟩ := conforms_terminal _ _ (by decide) h1
        refine ⟨?_, Or.inr rfl⟩
        rw [AllTyped_mk]
        simp [typedSymbols, AllTyped_leaf]

theorem getVariable_bind_sound {β : Type} (ctx name : String) {f : String → TC β}
    {Q : β → Prop} (h : ∀ t, IsType t → Sound (f t) Q)
    (h0 : ∀ st b st1, f "" st ≠ (.ok b, st1)) : Sound (getVariable ctx name >>= f) Q := by
  constructor
  intro st b st2 ht hb
  obtain ⟨t, st1, h1, h2⟩ := bind_ok_iff.mp hb
  rcases getVariable_typed ctx name st t st1 ht h1 with rfl | ⟨hty, ht1⟩
  · exact absurd h2 (h0 st1 b st2)
  · exact (h t hty).holds st1 b st2 ht1 h2

/-- The branch for `factor -> ID` and `lvalue -> ID` gives the node the type
recorded for the variable, which is `int` or `int*`. -/
theorem handleUseID_sound (symbol lhs : String) (tok tok0 : Token) (ty ty0 : String)
    (wt wt0 : Bool) (fn ctx : String) :
    Sound (handleUseID (.mk lhs ["ID"] tok [.mk "" [] tok0 [] ty0 wt0] ty wt) fn ctx)
      (Typed symbol) := by
  constructor
  intro st r st2 ht hr
  simp only [handleUseID, child, ParseTreeNode.children, List.get?_cons_zero, pure_bind_eq,
    ParseTreeNode.token] at hr
  obtain ⟨declared, st1, h1, h2⟩ := bind_ok_iff.mp hr
  simp only [findVariable, Prod.mk.injEq, Except.ok.injEq] at h1
  obtain ⟨hd, rfl⟩ := h1
  cases declared with
  | false => simp at h2
  | true =>
    simp only [Bool.not_true, Bool.false_eq_true, ↓reduceIte] at h2
    obtain ⟨t, st3, h3, h4⟩ := bind_ok_iff.mp h2
    have ht1 := tableTyped_touch ctx st ht
    have hsome : ∃ t0, lookup tok0.lexeme (valueAt ([], []) ctx st).2 = some t0 := by
      cases hl : lookup tok0.lexeme (valueAt ([], []) ctx st).2 with
      | none => rw [hl] at hd; simp at hd
      | some t0 => exact ⟨t0, rfl⟩
    obtain ⟨t0, hl⟩ := hsome
    have ht0 : IsType t0 := tableTyped_valueAt ctx st ht _ _ hl
    rcases getVariable_typed ctx tok0.lexeme _ t st3 ht1 h3 with rfl | ⟨hty, ht3⟩
    · simp only [getVariable, Prod.mk.injEq, Except.ok.injEq] at h3
      obtain ⟨h5, -⟩ := h3
      rw [valueAt_touch] at h5
      have h6 : valueAt "" tok0.lexeme (valueAt ([], []) ctx st).2 = t0 :=
        valueAt_of_lookup _ _ _ _ hl
      rw [h6] at h5
      subst h5
      rcases ht0 with h | h <;> simp at h
    · simp only [pure_apply, Prod.mk.injEq, Except.ok.injEq] at h4
      obtain ⟨rfl, rfl⟩ := h4
      refine ⟨?_, ht3⟩
      simp only [Typed, ParseTreeNode.setType, ParseTreeNode.setChild,
        ParseTreeNode.setChildren, ParseTreeNode.children, List.set, AllTyped_mk,
        ParseTreeNode.type]
      refine ⟨⟨fun _ => hty, ?_⟩, fun _ => hty⟩
      intro c hc
      simp only [List.mem_singleton] at hc
      subst hc
      exact AllTyped_leaf _ _ _

theorem sound_internal {Q : ParseTreeNode → Prop} (lhs : String) (rhs : List String)
    (tok : Token) (cs : List ParseTreeNode) (ty : String) (wt : Bool) (fn ctx : String)
    (h : Handler) (hk : tok.kind = "") (hd : dispatch lhs rhs = .ok (some h))
    (hs : Sound (handle h (fun i f c => annotateAt cs i f c)
      (fun i f c => arglistWalkAt cs i f c) (.mk lhs rhs tok cs ty wt) fn ctx) Q) :
    Sound (annotateTypes (.mk lhs rhs tok cs ty wt) fn ctx) Q := by
  rw [annotateTypes_internal lhs rhs tok cs ty wt fn ctx h hk hd]
  exact hs

theorem sound_unhandled {Q : ParseTreeNode → Prop} (lhs : String) (rhs : List String)
    (tok : Token) (cs : List ParseTreeNode) (ty : String) (wt : Bool) (fn ctx : String)
    (hk : tok.kind = "") (hd : dispatch lhs rhs = .ok none)
    (hq : Q (.mk lhs rhs tok cs ty wt)) :
    Sound (annotateTypes (.mk lhs rhs tok cs ty wt) fn ctx) Q := by
  rw [annotateTypes_eq]
  simp only [annotateBody, ParseTreeNode.isTerminal, ParseTreeNode.token, hk,
    ParseTreeNode.prodRuleLHS, ParseTreeNode.prodRuleRHS, hd, beq_self_eq_true, Bool.not_true,
    Bool.false_eq_true, ↓reduceIte]
  exact sound_pure _ hq

theorem sound_bind_assoc {α β γ : Type} {x : TC α} {f : α → TC β} {g : β → TC γ}
    {Q : γ → Prop} (h : Sound (x >>= fun a => f a >>= g) Q) : Sound ((x >>= f) >>= g) Q := by
  constructor
  intro st c st3 ht hc
  refine h.holds st c st3 ht ?_
  rw [← hc, bind_apply, bind_apply, bind_apply]
  rcases x st with ⟨r, st1⟩
  cases r <;> rfl

theorem terminals_untyped : ∀ symbol ∈ terminals, symbol ∉ typedSymbols := by
  decide

theorem empty_rules_untyped :
    ∀ p ∈ productions, p.2 = [".EMPTY"] → p.1 ∉ typedSymbols := by
  decide

set_option maxHeartbeats 4000000 in
theorem annotate_sound (node : ParseTreeNode) :
    (∀ symbol fn ctx, conforms symbol node = true →
      Sound (annotateTypes node fn ctx) (Typed symbol)) ∧
    (∀ fn ctx, conforms "arglist" node = true →
      Sound (arglistWalk node fn ctx) (fun p => AllTyped p.1)) := by
  induction node using tree_induction with
  | step lhs rhs tok cs ty wt ih =>
    constructor
    · intro symbol fn ctx hconf
      by_cases hterm : symbol ∈ terminals
      · obtain ⟨tok0, ty0, wt0, heq, hk⟩ := conforms_terminal _ _ hterm hconf
        simp only [ParseTreeNode.mk.injEq] at heq
        obtain ⟨rfl, rfl, rfl, rfl, rfl, rfl⟩ := heq
        have huntyped := terminals_untyped symbol hterm
        rw [annotateTypes_eq]
        simp only [annotateBody]
        refine sound_ite (fun _ => sound_ite (fun _ => sound_pure _ ?_)
          (fun _ => sound_ite (fun _ => sound_pure _ ?_) (fun _ => sound_pure _ ?_)))
          (fun hnot => ?_)
        · exact ⟨AllTyped_leaf _ _ _, fun h => absurd h huntyped⟩
        · exact ⟨AllTyped_leaf _ _ _, fun h => absurd h huntyped⟩
        · exact ⟨AllTyped_leaf _ _ _, fun h => absurd h huntyped⟩
        · exfalso
          apply hnot
          simp only [ParseTreeNode.isTerminal, ParseTreeNode.token, hk, Bool.not_eq_true',
            beq_eq_false_iff_ne, ne_eq]
          rintro rfl
          exact absurd hterm (by decide)
      · rcases conforms_nonterminal symbol lhs rhs tok cs ty wt hterm hconf with
          ⟨rfl, rfl, rfl, rfl, hne, hp⟩ | ⟨rfl, rfl, hp, he, hall⟩
        · have huntyped := empty_rules_untyped _ hp rfl
          rw [annotateTypes_eq]
          simp only [annotateBody]
          refine sound_ite (fun _ => sound_ite (fun _ => sound_pure _ ?_)
            (fun _ => sound_ite (fun _ => sound_pure _ ?_) (fun _ => sound_pure _ ?_)))
            (fun hnot => ?_)
          · exact ⟨AllTyped_leaf _ _ _, fun h => absurd h huntyped⟩
          · exact ⟨AllTyped_leaf _ _ _, fun h => absurd h huntyped⟩
          · exact ⟨AllTyped_leaf _ _ _, fun h => absurd h huntyped⟩
          · exfalso
            apply hnot
            simpa [ParseTreeNode.isTerminal, ParseTreeNode.token] using hne
        · clear hconf hterm
          unfold productions at hp
          repeat'
            (have hmem := List.mem_cons.mp hp
             clear hp
             rcases hmem with hp | hp)
          all_goals
            first
              | exact absurd hp (List.not_mem_nil _)
              | (simp only [Prod.mk.injEq] at hp
                 obtain ⟨rfl, rfl⟩ := hp)
          all_goals first | exact absurd (List.mem_singleton_self _) he | skip
          all_goals
            clear he
            repeat
              (rw [conformsAll_cons] at hall
               obtain ⟨_, _, rfl, hc, hall⟩ := hall
               first
                | (refine conforms_leaf _ _ hc rfl (fun _ _ _ heq => ?_)
                   subst heq)
                | (refine (fun hty => ?_) (conforms_type _ hc))
                | skip)
            rw [conformsAll_nil] at hall
            subst hall
          all_goals
            first
             | (refine sound_unhandled _ _ _ _ _ _ _ _ (by rfl) (by rfl) ?_)
             | (refine sound_internal _ _ _ _ _ _ _ _ _ (by rfl) (by rfl) ?_
                simp only [handle, handleStart, handleProceduresMain, handleProceduresProcedure,
                  handleMain, handleProcedure, handleParams, handleParamlist, handleDcl,
                  handleDcls,
                  handleExprBinary, handleTermBinary, handleAddressOf, handleDereference,
                  handleNewArray, handleLvalueParen, handleCall, handleCallArguments,
                  handleArglistOne, handleArglistMany, arglistWalkBody, handleExprTerm,
                  handleTermFactor, handleFactorNum, handleFactorNull, handleFactorParen,
                  handleStatementsEmpty, handleStatementsMore, handleAssignment, handleIfElse,
                  handleWhileLoop, handlePrintln, handleDelete, handleTest,
                  annotateAt, arglistWalkAt, ParseTreeNode.children,
                  ParseTreeNode.prodRuleRHS, child, List.get?_cons_succ, List.get?_cons_zero,
                  pure_bind_eq, String.reduceEq, ↓reduceIte, List.length_cons, List.length_nil,
                  Nat.reduceAdd, Nat.reduceEqDiff, OfNat.ofNat_ne_zero, ne_eq,
                  not_true_eq_false, not_false_eq_true]
                repeat' first
                  | rw [pure_bind_eq]
                  | refine sound_bind_assoc ?_
                  | exact sound_raise _
                  | exact sound_undefined _
                  | exact handleUseID_sound _ _ _ _ _ _ _ _ _ _
                  | refine sound_bind ((ih _ (by simp)).1 _ _ _ (by assumption)) (fun _ _ => ?_)
                  | refine sound_bind ((ih _ (by simp)).2 _ _ (by assumption)) (fun _ _ => ?_)
                  | refine sound_bind (sound_findProcedure _) (fun _ _ => ?_)
                  | refine sound_bind (sound_declareProcedure _) (fun _ _ => ?_)
                  | refine sound_bind (sound_signature _) (fun _ _ => ?_)
                  | refine sound_bind (sound_pushParameter _ _) (fun _ _ => ?_)
                  | refine sound_bind (sound_findVariable _ _) (fun _ _ => ?_)
                  | refine sound_bind (sound_setVariable _ _ _ hty.2) (fun _ _ => ?_)
                  | refine getVariable_bind_sound _ _ (fun _ _ => ?_) (fun _ _ _ => ?_)
                  | refine sound_bind (sound_child _ _) (fun _ _ => ?_)
                  | refine sound_ite (fun _ => ?_) (fun _ => ?_)
                  | refine sound_pure _ ?_)
          all_goals clear ih
          all_goals simp_all [Typed, ParseTreeNode.setChild, ParseTreeNode.setChildren,
            ParseTreeNode.setType, ParseTreeNode.setWellTyped, ParseTreeNode.children,
            ParseTreeNode.type, AllTyped_mk, AllTyped_leaf, typedSymbols, IsType]
    · intro fn ctx hconf
      rcases conforms_nonterminal "arglist" lhs rhs tok cs ty wt (by decide) hconf with
        ⟨-, -, -, -, -, hp⟩ | ⟨rfl, rfl, hp, -, hall⟩
      · exact absurd hp (by decide)
      · simp only [productions, List.mem_cons, Prod.mk.injEq, List.not_mem_nil, or_false,
          String.reduceEq, false_and, true_and, false_or] at hp
        rcases hp with rfl | rfl
        · rw [conformsAll_cons] at hall
          obtain ⟨e, _, rfl, he, hall⟩ := hall
          rw [conformsAll_nil] at hall
          subst hall
          rw [arglistWalk_eq]
          simp only [arglistWalkBody, ParseTreeNode.prodRuleRHS, ParseTreeNode.children,
            annotateAt, List.length_cons, List.length_nil, Nat.reduceAdd, Nat.reduceEqDiff,
            ↓reduceIte]
          refine sound_bind ((ih _ (by simp)).1 _ _ _ he) (fun e1 he1 => sound_pure _ ?_)
          simp only [ParseTreeNode.setChild, ParseTreeNode.setChildren,
            ParseTreeNode.children, List.set, AllTyped_mk, typedSymbols]
          refine ⟨fun h => absurd h (by decide), ?_⟩
          intro c hc
          simp only [List.mem_singleton] at hc
          subst hc
          exact he1.1
        · rw [conformsAll_cons] at hall
          obtain ⟨e, _, rfl, he, hall⟩ := hall
          rw [conformsAll_cons] at hall
          obtain ⟨comma, _, rfl, hcomma, hall⟩ := hall
          rw [conformsAll_cons] at hall
          obtain ⟨rest, _, rfl, hrest, hall⟩ := hall
          rw [conformsAll_nil] at hall
          subst hall
          refine conforms_leaf _ _ hcomma rfl (fun _ _ _ heq => ?_)
          subst heq
          rw [arglistWalk_eq]
          simp only [arglistWalkBody, ParseTreeNode.prodRuleRHS, ParseTreeNode.children,
            annotateAt, arglistWalkAt, List.length_cons, List.length_nil, Nat.reduceAdd,
            ↓reduceIte]
          refine sound_bind ((ih _ (by simp)).1 _ _ _ he) (fun e1 he1 =>
            sound_bind ((ih _ (by simp)).2 _ _ hrest) (fun p hp => sound_pure _ ?_))
          simp only [ParseTreeNode.setChild, ParseTreeNode.setChildren,
            ParseTreeNode.children, List.set, AllTyped_mk, typedSymbols]
          refine ⟨fun h => absurd h (by decide), ?_⟩
          intro c hc
          simp only [List.mem_cons, List.mem_singleton, List.not_mem_nil, or_false] at hc
          rcases hc with rfl | rfl | rfl
          · exact he1.1
          · exact AllTyped_leaf _ _ _
          · exact hp

end wlp4type

/-! ## Context-sensitive analysis: the typing rules -/

namespace wlp4type

/-- C3. Type soundness: for every program tree (a tree of the grammar, as
`buildParseTree` builds it) on which `annotateTypes`, called as in `main`,
returns without throwing, every `expr`, `term`, `factor` and `lvalue` node of
the annotated tree has its `type` field set to `int` or to `int*`. -/
theorem type_soundness (root root1 : ParseTreeNode) (st1 : SymbolTable)
    (hroot : conforms "start" root = true)
    (h : annotateTypes root "" "" [] = (.ok root1, st1)) :
    ∀ n ∈ nodes root1, n.prodRuleLHS ∈ ["expr", "term", "factor", "lvalue"] →
      n.type = "int" ∨ n.type = "int*" :=
  ((((annotate_sound root).1 "start" "" "" hroot).holds [] root1 st1 tableTyped_nil h).1).1

theorem type_soundness_witness :
    conforms "start" sameNameInTwoProcedures = true ∧
    annotateTypes sameNameInTwoProcedures "" "" []
      = (.ok (annotated sameNameInTwoProcedures), (analyse sameNameInTwoProcedures).2) ∧
    expressionTypes (annotated sameNameInTwoProcedures)
      = ["int", "int", "int", "int", "int", "int", "int", "int", "int"] ∧
    ∀ n ∈ nodes (annotated sameNameInTwoProcedures),
      n.prodRuleLHS ∈ ["expr", "term", "factor", "lvalue"] → n.type = "int" ∨ n.type = "int*" :=
  ⟨by decide, rfl, by decide,
    type_soundness sameNameInTwoProcedures (annotated sameNameInTwoProcedures)
      (analyse sameNameInTwoProcedures).2 (by decide) rfl⟩

/-- C4. Addition: for a node `expr -> expr PLUS term` whose operands were
annotated with types `e.type` and `t.type`, `annotateTypes` gives the node type
`int` for int + int, `int*` for int* + int and for int + int*, and throws for
int* + int*. -/
theorem plus_typing (c0 c1 c2 : ParseTreeNode) (ty : String) (wt : Bool) (fn ctx : String)
    (st st1 st2 : SymbolTable) (e t : ParseTreeNode)
    (h0 : annotateTypes c0 fn ctx st = (.ok e, st1))
    (h2 : annotateTypes c2 fn ctx st1 = (.ok t, st2)) :
    (e.type = "int" → t.type = "int" →
      annotateTypes (.mk "expr" ["expr", "PLUS", "term"] ⟨"", ""⟩ [c0, c1, c2] ty wt) fn ctx st
        = (.ok (.mk "expr" ["expr", "PLUS", "term"] ⟨"", ""⟩ [e, c1, t] "int" true), st2)) ∧
    (e.type = "int*" → t.type = "int" →
      annotateTypes (.mk "expr" ["expr", "PLUS", "term"] ⟨"", ""⟩ [c0, c1, c2] ty wt) fn ctx st
        = (.ok (.mk "expr" ["expr", "PLUS", "term"] ⟨"", ""⟩ [e, c1, t] "int*" true), st2)) ∧
    (e.type = "int" → t.type = "int*" →
      annotateTypes (.mk "expr" ["expr", "PLUS", "term"] ⟨"", ""⟩ [c0, c1, c2] ty wt) fn ctx st
        = (.ok (.mk "expr" ["expr", "PLUS", "term"] ⟨"", ""⟩ [e, c1, t] "int*" true), st2)) ∧
    (e.type = "int*" → t.type = "int*" →
      annotateTypes (.mk "expr" ["expr", "PLUS", "term"] ⟨"", ""⟩ [c0, c1, c2] ty wt) fn ctx st
        = (.error (.runtime_error "ERROR: Failed to add int* and int*"), st2)) := by
  rw [annotateTypes_internal "expr" ["expr", "PLUS", "term"] _ _ _ _ _ _ .exprBinary rfl rfl]
  refine ⟨?_, ?_, ?_, ?_⟩ <;> intro he ht <;>
    simp [handle, handleExprBinary, annotateAt, bind_of_ok h0, bind_of_ok h2, he, ht,
      ParseTreeNode.setChild, ParseTreeNode.setChildren, ParseTreeNode.setType,
      ParseTreeNode.setWellTyped, ParseTreeNode.children, ParseTreeNode.prodRuleRHS]

theorem plus_typing_witness :
    annotateTypes (sumOf "PLUS" (exprOf (factorNum "1")) (termOf (factorNum "2"))) "wain" "wain" []
      = (.ok (.mk "expr" ["expr", "PLUS", "term"] ⟨"", ""⟩
          [typedExpr (typedFactorNum "1") "int", .terminal ⟨"PLUS", "+"⟩,
            typedTerm (typedFactorNum "2") "int"] "int" true), []) :=
  (plus_typing (exprOf (factorNum "1")) (.terminal ⟨"PLUS", "+"⟩) (termOf (factorNum "2")) "" false
    "wain" "wain" [] [] [] (typedExpr (typedFactorNum "1") "int")
    (typedTerm (typedFactorNum "2") "int") rfl rfl).1 rfl rfl

/-- C5. Subtraction: for a node `expr -> expr MINUS term` whose operands were
annotated with types `e.type` and `t.type`, `annotateTypes` gives the node type
`int` for int - int, `int*` for int* - int, `int` for int* - int*, and throws
for int - int*. -/
theorem minus_typing (c0 c1 c2 : ParseTreeNode) (ty : String) (wt : Bool) (fn ctx : String)
    (st st1 st2 : SymbolTable) (e t : ParseTreeNode)
    (h0 : annotateTypes c0 fn ctx st = (.ok e, st1))
    (h2 : annotateTypes c2 fn ctx st1 = (.ok t, st2)) :
    (e.type = "int" → t.type = "int" →
      annotateTypes (.mk "expr" ["expr", "MINUS", "term"] ⟨"", ""⟩ [c0, c1, c2] ty wt) fn ctx st
        = (.ok (.mk "expr" ["expr", "MINUS", "term"] ⟨"", ""⟩ [e, c1, t] "int" true), st2)) ∧
    (e.type = "int*" → t.type = "int" →
      annotateTypes (.mk "expr" ["expr", "MINUS", "term"] ⟨"", ""⟩ [c0, c1, c2] ty wt) fn ctx st
        = (.ok (.mk "expr" ["expr", "MINUS", "term"] ⟨"", ""⟩ [e, c1, t] "int*" true), st2)) ∧
    (e.type = "int*" → t.type = "int*" →
      annotateTypes (.mk "expr" ["expr", "MINUS", "term"] ⟨"", ""⟩ [c0, c1, c2] ty wt) fn ctx st
        = (.ok (.mk "expr" ["expr", "MINUS", "term"] ⟨"", ""⟩ [e, c1, t] "int" true), st2)) ∧
    (e.type = "int" → t.type = "int*" →
      annotateTypes (.mk "expr" ["expr", "MINUS", "term"] ⟨"", ""⟩ [c0, c1, c2] ty wt) fn ctx st
        = (.error (.runtime_error "ERROR: Failed to subtractint* from int"), st2)) := by
  rw [annotateTypes_internal "expr" ["expr", "MINUS", "term"] _ _ _ _ _ _ .exprBinary rfl rfl]
  refine ⟨?_, ?_, ?_, ?_⟩ <;> intro he ht <;>
    simp [handle, handleExprBinary, annotateAt, bind_of_ok h0, bind_of_ok h2, he, ht,
      ParseTreeNode.setChild, ParseTreeNode.setChildren, ParseTreeNode.setType,
      ParseTreeNode.setWellTyped, ParseTreeNode.children, ParseTreeNode.prodRuleRHS]

theorem minus_typing_witness :
    annotateTypes (sumOf "MINUS" (exprOf (factorNum "1")) (termOf factorNull)) "wain" "wain" []
      = (.error (.runtime_error "ERROR: Failed to subtractint* from int"), []) :=
  (minus_typing (exprOf (factorNum "1")) (.terminal ⟨"MINUS", "-"⟩) (termOf factorNull) "" false
    "wain" "wain" [] [] [] (typedExpr (typedFactorNum "1") "int")
    (typedTerm typedFactorNull "int*") rfl rfl).2.2.2 rfl rfl

/-- C6. Multiplication, division and modulo: for a node
`term -> term OP factor` with OP one of STAR, SLASH, PCT whose operands were
annotated, `annotateTypes` gives the node type `int` when both operand types
are `int`, and throws in every other case. -/
theorem multiplicative_typing (operator : String) (c0 c1 c2 : ParseTreeNode) (ty : String)
    (wt : Bool) (fn ctx : String) (st st1 st2 : SymbolTable) (t f : ParseTreeNode)
    (hop : operator = "STAR" ∨ operator = "SLASH" ∨ operator = "PCT")
    (h0 : annotateTypes c0 fn ctx st = (.ok t, st1))
    (h2 : annotateTypes c2 fn ctx st1 = (.ok f, st2)) :
    (t.type = "int" ∧ f.type = "int" →
      annotateTypes (.mk "term" ["term", operator, "factor"] ⟨"", ""⟩ [c0, c1, c2] ty wt)
          fn ctx st
        = (.ok (.mk "term" ["term", operator, "factor"] ⟨"", ""⟩ [t, c1, f] "int" wt), st2)) ∧
    (¬ (t.type = "int" ∧ f.type = "int") →
      annotateTypes (.mk "term" ["term", operator, "factor"] ⟨"", ""⟩ [c0, c1, c2] ty wt)
          fn ctx st
        = (.error (.runtime_error ("ERROR: Failed to multiply, divide, or mod " ++ t.type
            ++ " and " ++ f.type)), st2)) := by
  have hd : dispatch "term" ["term", operator, "factor"] = .ok (some .termBinary) := by
    rcases hop with rfl | rfl | rfl <;> rfl
  rw [annotateTypes_internal "term" ["term", operator, "factor"] _ _ _ _ _ _ .termBinary rfl hd]
  refine ⟨?_, ?_⟩ <;> intro h <;>
    simp [handle, handleTermBinary, annotateAt, bind_of_ok h0, bind_of_ok h2, h,
      ParseTreeNode.setChild, ParseTreeNode.setChildren, ParseTreeNode.setType,
      ParseTreeNode.children]

theorem multiplicative_typing_witness :
    annotateTypes (.internal "term" ["term", "SLASH", "factor"]
        [termOf (factorNum "7"), .terminal ⟨"SLASH", "/"⟩, factorNull]) "wain" "wain" []
      = (.error (.runtime_error "ERROR: Failed to multiply, divide, or mod int and int*"), []) :=
  (multiplicative_typing "SLASH" (termOf (factorNum "7")) (.terminal ⟨"SLASH", "/"⟩) factorNull
    "" false "wain" "wain" [] [] [] (typedTerm (typedFactorNum "7") "int") typedFactorNull
    (Or.inr (Or.inl rfl)) rfl rfl).2 (by decide)

/-- C7. Pointer operators: for `factor -> AMP lvalue` whose operand was
annotated, `annotateTypes` gives the node type `int*` when the lvalue has type
`int` and throws otherwise; for `factor -> STAR factor` and
`lvalue -> STAR factor` it gives the node type `int` when the operand has type
`int*` and throws otherwise. -/
theorem pointer_operator_typing (lhs : String) (c0 c1 : ParseTreeNode) (ty : String) (wt : Bool)
    (fn ctx : String) (st st1 : SymbolTable) (o : ParseTreeNode)
    (hlhs : lhs = "factor" ∨ lhs = "lvalue")
    (h1 : annotateTypes c1 fn ctx st = (.ok o, st1)) :
    (o.type = "int" →
      annotateTypes (.mk "factor" ["AMP", "lvalue"] ⟨"", ""⟩ [c0, c1] ty wt) fn ctx st
        = (.ok (.mk "factor" ["AMP", "lvalue"] ⟨"", ""⟩ [c0, o] "int*" wt), st1)) ∧
    (o.type ≠ "int" →
      annotateTypes (.mk "factor" ["AMP", "lvalue"] ⟨"", ""⟩ [c0, c1] ty wt) fn ctx st
        = (.error (.runtime_error "ERROR: Attempting to get an address of a non-integer"),
            st1)) ∧
    (o.type = "int*" →
      annotateTypes (.mk lhs ["STAR", "factor"] ⟨"", ""⟩ [c0, c1] ty wt) fn ctx st
        = (.ok (.mk lhs ["STAR", "factor"] ⟨"", ""⟩ [c0, o] "int" wt), st1)) ∧
    (o.type ≠ "int*" →
      annotateTypes (.mk lhs ["STAR", "factor"] ⟨"", ""⟩ [c0, c1] ty wt) fn ctx st
        = (.error (.runtime_error "ERROR: Attempting to dereference a non-pointer"), st1)) := by
  have hd : dispatch lhs ["STAR", "factor"] = .ok (some .dereference) := by
    rcases hlhs with rfl | rfl <;> rfl
  rw [annotateTypes_internal "factor" ["AMP", "lvalue"] _ _ _ _ _ _ .addressOf rfl rfl,
    annotateTypes_internal lhs ["STAR", "factor"] _ _ _ _ _ _ .dereference rfl hd]
  refine ⟨?_, ?_, ?_, ?_⟩ <;> intro h <;>
    simp [handle, handleAddressOf, handleDereference, annotateAt, bind_of_ok h1, h,
      ParseTreeNode.setChild, ParseTreeNode.setChildren, ParseTreeNode.setType,
      ParseTreeNode.children]

theorem pointer_operator_typing_witness :
    annotateTypes (.internal "factor" ["STAR", "factor"] [.terminal ⟨"STAR", "*"⟩, factorNull])
        "wain" "wain" []
      = (.ok (.mk "factor" ["STAR", "factor"] ⟨"", ""⟩
          [.terminal ⟨"STAR", "*"⟩, typedFactorNull] "int" false), []) :=
  (pointer_operator_typing "factor" (.terminal ⟨"STAR", "*"⟩) factorNull "" false "wain" "wain"
    [] [] typedFactorNull (Or.inl rfl) rfl).2.2.1 rfl

/-- C10. Variable use: for a node `factor -> ID` or `lvalue -> ID`,
`annotateTypes` throws "used without declaration" when the name is absent from
the variable table of the current procedure, and otherwise gives the node and
its ID child the declared type (so it throws exactly when the name is absent). -/
theorem variable_use (lhs : String) (idNode : ParseTreeNode) (ty : String) (wt : Bool)
    (fn ctx : String) (st : SymbolTable) (hlhs : lhs = "factor" ∨ lhs = "lvalue") :
    (lookup idNode.token.lexeme (valueAt ([], []) ctx st).2 = none →
      annotateTypes (.mk lhs ["ID"] ⟨"", ""⟩ [idNode] ty wt) fn ctx st
        = (.error (.runtime_error ("ERROR: Variable " ++ idNode.token.lexeme
            ++ " used without declaration in function " ++ fn)), touch ([], []) ctx st)) ∧
    (∀ declared : String,
      lookup idNode.token.lexeme (valueAt ([], []) ctx st).2 = some declared →
      annotateTypes (.mk lhs ["ID"] ⟨"", ""⟩ [idNode] ty wt) fn ctx st
        = (.ok (.mk lhs ["ID"] ⟨"", ""⟩ [idNode.setType declared] declared wt), st)) := by
  have hd : dispatch lhs ["ID"] = .ok (some .useID) := by
    rcases hlhs with rfl | rfl <;> rfl
  rw [annotateTypes_internal lhs ["ID"] _ _ _ _ _ _ .useID rfl hd]
  constructor
  · intro h
    simp [handle, handleUseID, child, bind_apply, findVariable, h, ParseTreeNode.children]
  · intro declared h
    have hctx : ∃ entry, lookup ctx st = some entry := by
      cases hl : lookup ctx st with
      | none => simp [valueAt, hl, lookup] at h
      | some entry => exact ⟨entry, rfl⟩
    obtain ⟨entry, hentry⟩ := hctx
    have hv : valueAt ([], []) ctx st = entry := valueAt_of_lookup _ _ _ _ hentry
    rw [hv] at h
    simp [handle, handleUseID, child, bind_apply, findVariable, getVariable, h, hv,
      ParseTreeNode.children, touch_of_lookup _ _ _ _ hentry, touch_of_lookup _ _ _ _ h,
      valueAt_of_lookup _ _ _ _ h, assign_of_lookup _ _ _ hentry,
      ParseTreeNode.setChild, ParseTreeNode.setChildren, ParseTreeNode.setType]

theorem variable_use_witness :
    annotateTypes (factorId "a") "wain" "wain" [("wain", ([], [("a", "int*")]))]
        = (.ok (.mk "factor" ["ID"] ⟨"", ""⟩ [.mk "" [] ⟨"ID", "a"⟩ [] "int*" false]
            "int*" false), [("wain", ([], [("a", "int*")]))]) ∧
    annotateTypes (lvalueId "b") "wain" "wain" [("wain", ([], [("a", "int*")]))]
        = (.error (.runtime_error
            "ERROR: Variable b used without declaration in function wain"),
            [("wain", ([], [("a", "int*")]))]) :=
  ⟨(variable_use "factor" (.terminal ⟨"ID", "a"⟩) "" false "wain" "wain"
      [("wain", ([], [("a", "int*")]))] (Or.inl rfl)).2 "int*" rfl,
   (variable_use "lvalue" (.terminal ⟨"ID", "b"⟩) "" false "wain" "wain"
      [("wain", ([], [("a", "int*")]))] (Or.inr rfl)).1 rfl⟩

/-- C9. Duplicate detection.  (a) A `procedure` node whose name is already a
key of the table makes `annotateTypes` throw "already declared" and leaves the
table as it was.  (b) A `dcl` node (a variable or a parameter) whose name is
already in the variable table of the current procedure makes it throw
"Duplicate variable" and leaves the table as it was.  (c) A `dcl` whose name is
not in the variable table of the current procedure is accepted and recorded
there, whatever the tables of the other procedures hold; so the same name in
two different procedures is not an error. -/
theorem duplicate_detection (rhs : List String) (cs : List ParseTreeNode)
    (typeNode idNode : ParseTreeNode) (ty : String) (wt : Bool) (fn ctx : String)
    (st : SymbolTable) (hid : cs.get? 1 = some idNode) :
    (∀ entry, lookup idNode.token.lexeme st = some entry →
      annotateTypes (.mk "procedure" rhs ⟨"", ""⟩ cs ty wt) fn ctx st
        = (.error (.runtime_error ("ERROR: Function " ++ idNode.token.lexeme
            ++ " already declared.")), st)) ∧
    (∀ parameters vars declared, lookup ctx st = some (parameters, vars) →
      lookup idNode.token.lexeme vars = some declared →
      annotateTypes (.mk "dcl" ["type", "ID"] ⟨"", ""⟩ [typeNode, idNode] ty wt) fn ctx st
        = (.error (.runtime_error ("ERROR: Duplicate variable " ++ idNode.token.lexeme
            ++ " found in function " ++ fn)), st)) ∧
    (lookup idNode.token.lexeme (valueAt ([], []) ctx st).2 = none →
      annotateTypes (.mk "dcl" ["type", "ID"] ⟨"", ""⟩ [typeNode, idNode] ty wt) fn ctx st
        = (.ok (.mk "dcl" ["type", "ID"] ⟨"", ""⟩
              [typeNode, idNode.setType (declaredType typeNode)] ty wt),
            assign ctx ((valueAt ([], []) ctx st).1,
              assign idNode.token.lexeme (declaredType typeNode) (valueAt ([], []) ctx st).2)
              st)) := by
  have hd : dispatch "procedure" rhs = .ok (some .procedure) := by
    simp [dispatch, chain, firstMatch, Cond.and]
  rw [annotateTypes_internal "procedure" rhs _ _ _ _ _ _ .procedure rfl hd,
    annotateTypes_internal "dcl" ["type", "ID"] _ _ _ _ _ _ .dcl rfl rfl]
  have hid1 : cs[1]? = some idNode := by simpa using hid
  refine ⟨?_, ?_, ?_⟩
  · intro entry h
    simp [handle, handleProcedure, child, bind_apply, findProcedure, h, hid1,
      ParseTreeNode.children]
  · intro parameters vars declared hctx h
    simp [handle, handleDcl, child, bind_apply, findVariable, h, hctx,
      ParseTreeNode.children, valueAt_of_lookup _ _ _ _ hctx, touch_of_lookup _ _ _ _ hctx]
  · intro h
    simp [handle, handleDcl, child, bind_apply, findVariable, setVariable, h,
      ParseTreeNode.children, valueAt_touch, assign_touch,
      ParseTreeNode.setChild, ParseTreeNode.setChildren]

theorem duplicate_detection_witness :
    annotateTypes (procedureOf "f" (emptyRule "params") (emptyRule "dcls")
        (emptyRule "statements") (exprOf (factorNum "1"))) "" ""
        [("f", ([], [("x", "int")]))]
      = (.error (.runtime_error "ERROR: Function f already declared."),
          [("f", ([], [("x", "int")]))]) ∧
    annotateTypes (.internal "dcl" ["type", "ID"]
        [.internal "type" ["INT", "STAR"] [.terminal ⟨"INT", "int"⟩, .terminal ⟨"STAR", "*"⟩],
          .terminal ⟨"ID", "x"⟩]) "f" "f" [("f", ([], [("x", "int")]))]
      = (.error (.runtime_error "ERROR: Duplicate variable x found in function f"),
          [("f", ([], [("x", "int")]))]) ∧
    annotateTypes (.internal "dcl" ["type", "ID"]
        [.internal "type" ["INT", "STAR"] [.terminal ⟨"INT", "int"⟩, .terminal ⟨"STAR", "*"⟩],
          .terminal ⟨"ID", "x"⟩]) "wain" "wain" [("f", ([], [("x", "int")]))]
      = (.ok (.mk "dcl" ["type", "ID"] ⟨"", ""⟩
            [.internal "type" ["INT", "STAR"]
              [.terminal ⟨"INT", "int"⟩, .terminal ⟨"STAR", "*"⟩],
             .mk "" [] ⟨"ID", "x"⟩ [] "int*" false] "" false),
          [("f", ([], [("x", "int")])), ("wain", ([], [("x", "int*")]))]) :=
  ⟨(duplicate_detection _ _ (.terminal ⟨"INT", "int"⟩) (.terminal ⟨"ID", "f"⟩) "" false "" ""
      [("f", ([], [("x", "int")]))] (by rfl)).1 ([], [("x", "int")]) (by rfl),
   (duplicate_detection [] [.terminal ⟨"INT", "int"⟩, .terminal ⟨"ID", "x"⟩]
      (.internal "type" ["INT", "STAR"] [.terminal ⟨"INT", "int"⟩, .terminal ⟨"STAR", "*"⟩])
      (.terminal ⟨"ID", "x"⟩) "" false "f" "f"
      [("f", ([], [("x", "int")]))] rfl).2.1 [] [("x", "int")] "int" rfl rfl,
   (duplicate_detection [] [.terminal ⟨"INT", "int"⟩, .terminal ⟨"ID", "x"⟩]
      (.internal "type" ["INT", "STAR"] [.terminal ⟨"INT", "int"⟩, .terminal ⟨"STAR", "*"⟩])
      (.terminal ⟨"ID", "x"⟩) "" false "wain" "wain"
      [("f", ([], [("x", "int")]))] rfl).2.2 rfl⟩

/-- C8. Call checking.  For a call `factor -> ID LPAREN RPAREN`, and for a
call `factor -> ID LPAREN arglist RPAREN` whose argument expressions `es`
(expressions of the grammar) are annotated without error, giving `es1`:
`annotateTypes` succeeds, giving the call type `int`, when the callee is a key
of the signature table and its recorded parameter types are exactly the list of
argument types (the empty list for a call without arguments); in every other
case it throws. -/
theorem call_checking (idNode lp rp args : ParseTreeNode) (es es1 : List ParseTreeNode)
    (ty : String) (wt : Bool) (fn ctx : String) (st st1 : SymbolTable)
    (hargs : IsArglist args es)
    (hconf : ∀ e ∈ es, conforms "expr" e = true)
    (hann : annotateAll es idNode.token.lexeme ctx st = (.ok es1, st1)) :
    ((∃ vars, lookup idNode.token.lexeme st = some ([], vars)) →
      annotateTypes (.mk "factor" ["ID", "LPAREN", "RPAREN"] ⟨"", ""⟩ [idNode, lp, rp] ty wt)
          fn ctx st
        = (.ok (.mk "factor" ["ID", "LPAREN", "RPAREN"] ⟨"", ""⟩ [idNode, lp, rp] "int" wt),
            st)) ∧
    (¬ (∃ vars, lookup idNode.token.lexeme st = some ([], vars)) →
      ∃ what st2,
        annotateTypes (.mk "factor" ["ID", "LPAREN", "RPAREN"] ⟨"", ""⟩ [idNode, lp, rp] ty wt)
            fn ctx st
          = (.error (.runtime_error what), st2)) ∧
    ((∃ vars, lookup idNode.token.lexeme st = some (es1.map ParseTreeNode.type, vars)) →
      ∃ args1,
        annotateTypes (.mk "factor" ["ID", "LPAREN", "arglist", "RPAREN"] ⟨"", ""⟩
            [idNode, lp, args, rp] ty wt) fn ctx st
          = (.ok (.mk "factor" ["ID", "LPAREN", "arglist", "RPAREN"] ⟨"", ""⟩
              [idNode, lp, args1, rp] "int" wt), st1)) ∧
    (¬ (∃ vars, lookup idNode.token.lexeme st = some (es1.map ParseTreeNode.type, vars)) →
      ∃ what st2,
        annotateTypes (.mk "factor" ["ID", "LPAREN", "arglist", "RPAREN"] ⟨"", ""⟩
            [idNode, lp, args, rp] ty wt) fn ctx st
          = (.error (.runtime_error what), st2)) := by
  rw [annotateTypes_internal "factor" ["ID", "LPAREN", "RPAREN"] _ _ _ _ _ _ .call rfl rfl,
    annotateTypes_internal "factor" ["ID", "LPAREN", "arglist", "RPAREN"] _ _ _ _ _ _ .call
      rfl rfl]
  have hframe : SigFrame st st1 := by
    have h := (annotateAll_frames idNode.token.lexeme ctx es (fun e he =>
      conforms_declarationFree e "expr" (Or.inl (by decide)) (hconf e he))).keeps st
    rw [hann] at h
    exact h
  cases hl : lookup idNode.token.lexeme st with
  | none =>
    refine ⟨?_, ?_, ?_, ?_⟩
    · rintro ⟨vars, hv⟩
      cases hv
    · intro _
      exact ⟨"ERROR: Function " ++ idNode.token.lexeme ++ " used without declaration.", st, by
        simp [handle, handleCall, child, bind_apply, findProcedure, hl,
          ParseTreeNode.children]⟩
    · rintro ⟨vars, hv⟩
      cases hv
    · intro _
      exact ⟨"ERROR: Function " ++ idNode.token.lexeme ++ " used without declaration.", st, by
        simp [handle, handleCall, child, bind_apply, findProcedure, hl,
          ParseTreeNode.children]⟩
  | some entry =>
    obtain ⟨parameters, vars⟩ := entry
    have htouch : touch ([], []) idNode.token.lexeme st = st := touch_of_lookup _ _ _ _ hl
    have hval : valueAt ([], []) idNode.token.lexeme st = (parameters, vars) :=
      valueAt_of_lookup _ _ _ _ hl
    obtain ⟨vars1, hl1⟩ := hframe _ _ _ hl
    obtain ⟨hyes, hno⟩ := arglist_check args es hargs idNode.token.lexeme ctx st st1 es1
      parameters vars1 hann hl1
    refine ⟨?_, ?_, ?_, ?_⟩
    · rintro ⟨vars2, hv⟩
      simp only [Option.some.injEq, Prod.mk.injEq] at hv
      obtain ⟨hp, -⟩ := hv
      subst hp
      simp [handle, handleCall, handleCallArguments, child, bind_apply, findProcedure, hl,
        signature, htouch, hval, ParseTreeNode.children, ParseTreeNode.prodRuleRHS,
        ParseTreeNode.setType]
    · intro hnot
      have hne : parameters ≠ [] := by
        intro he
        subst he
        exact hnot ⟨vars, rfl⟩
      have hlen : parameters.length ≠ 0 := fun h => hne (List.length_eq_zero.mp h)
      exact ⟨"ERROR: Function " ++ idNode.token.lexeme
          ++ " called with wrong number of arguments.", st, by
        simp [handle, handleCall, child, bind_apply, findProcedure, hl,
          signature, htouch, hval, ParseTreeNode.children, ParseTreeNode.prodRuleRHS, hne]⟩
    · rintro ⟨vars2, hv⟩
      simp only [Option.some.injEq, Prod.mk.injEq] at hv
      obtain ⟨hp, -⟩ := hv
      obtain ⟨r, hr⟩ := hyes hp.symm
      exact ⟨r, by
        simp [handle, handleCall, handleCallArguments, child, bind_apply, findProcedure, hl,
          ParseTreeNode.children, ParseTreeNode.prodRuleRHS, annotateAt, hr,
          ParseTreeNode.setType, ParseTreeNode.setChild, ParseTreeNode.setChildren]⟩
    · intro hnot
      have hne : es1.map ParseTreeNode.type ≠ parameters := by
        intro he
        exact hnot ⟨vars, by rw [he]⟩
      obtain ⟨what, hw⟩ := hno hne
      exact ⟨what, st1, by
        simp [handle, handleCall, handleCallArguments, child, bind_apply, findProcedure, hl,
          ParseTreeNode.children, ParseTreeNode.prodRuleRHS, annotateAt, hw]⟩

theorem call_checking_witness :
    ∃ args1,
      annotateTypes (callWith "f" (exprOf (factorId "y")) []) "wain" "wain"
          [("f", (["int"], [("x", "int")])), ("wain", ([], [("x", "int"), ("y", "int")]))]
        = (.ok (.mk "factor" ["ID", "LPAREN", "arglist", "RPAREN"] ⟨"", ""⟩
            [.terminal ⟨"ID", "f"⟩, .terminal ⟨"LPAREN", "("⟩, args1,
              .terminal ⟨"RPAREN", ")"⟩] "int" false),
          [("f", (["int"], [("x", "int")])), ("wain", ([], [("x", "int"), ("y", "int")]))]) :=
  (call_checking (.terminal ⟨"ID", "f"⟩) (.terminal ⟨"LPAREN", "("⟩) (.terminal ⟨"RPAREN", ")"⟩)
    (arglistOf (exprOf (factorId "y")) []) [exprOf (factorId "y")]
    [typedExpr (.mk "factor" ["ID"] ⟨"", ""⟩ [.mk "" [] ⟨"ID", "y"⟩ [] "int" false] "int" false)
      "int"]
    "" false "wain" "wain"
    [("f", (["int"], [("x", "int")])), ("wain", ([], [("x", "int"), ("y", "int")]))]
    [("f", (["int"], [("x", "int")])), ("wain", ([], [("x", "int"), ("y", "int")]))]
    (IsArglist.one _ _ _) (by decide) rfl).2.2.1 ⟨[("x", "int")], rfl⟩

/-! ### Whole programs -/

/-- The program with two procedures named `f` is rejected at the second one;
the table still holds the entry of the first. -/
theorem procedureDeclaredTwice_rejected :
    analyse procedureDeclaredTwice
      = (.error (.runtime_error "ERROR: Function f already declared."), [("f", ([], []))]) :=
  rfl

/-- The program whose entry procedure declares the parameter `a` twice is
rejected at the second declaration; the table still holds the first. -/
theorem parameterDeclaredTwice_rejected :
    analyse parameterDeclaredTwice
      = (.error (.runtime_error "ERROR: Duplicate variable a found in function wain"),
          [("wain", ([], [("a", "int")]))]) :=
  rfl

/-- The program that declares `x` in `f` and in `wain` is accepted, with one
variable table per procedure. -/
theorem sameNameInTwoProcedures_accepted :
    faultOf (analyse sameNameInTwoProcedures) = none ∧
    (analyse sameNameInTwoProcedures).2
      = [("f", (["int"], [("x", "int")])), ("wain", ([], [("x", "int"), ("y", "int")]))] :=
  ⟨rfl, rfl⟩

end wlp4type

/-! ## Parser: errors and acceptance -/

namespace wlp4parse

theorem selectAction_eq_none (lookahead : String) (rs : List (Int × String))
    (h : ∀ entry ∈ rs, entry.2 ≠ lookahead ∧ entry.2 ≠ ".ACCEPT") :
    selectAction (some lookahead) rs = none := by
  induction rs with
  | nil => rfl
  | cons r rest ih =>
    obtain ⟨rule, tag⟩ := r
    have h1 := h (rule, tag) (List.mem_cons_self _ _)
    have hne : lookahead ≠ tag := fun e => h1.1 e.symm
    simp only [selectAction, Option.some.injEq, hne, if_false, h1.2]
    exact ih (fun entry he => h entry (List.mem_cons_of_mem _ he))

theorem findTransition_eq_none (symbol : String) (ts : List (String × Int))
    (h : ∀ entry ∈ ts, entry.1 ≠ symbol) : findTransition symbol ts = none := by
  induction ts with
  | nil => rfl
  | cons t rest ih =>
    obtain ⟨sym, target⟩ := t
    have h1 := h (sym, target) (List.mem_cons_self _ _)
    simp only [findTransition, h1, if_false]
    exact ih (fun entry he => h entry (List.mem_cons_of_mem _ he))

theorem parseLoop_of_visits (g : Tables) (unread : List Token) (s : State)
    (hs : Visits g unread s) (r : Except Fault State) (n : Nat)
    (h : ∀ fuel, n ≤ fuel → parseLoop g unread fuel s = r) :
    ∃ m, ∀ fuel, m ≤ fuel → parseLoop g unread fuel initial = r := by
  induction hs generalizing n with
  | start => exact ⟨n, h⟩
  | next _ hc hstep ih =>
    refine ih (n + 1) ?_
    intro fuel hfuel
    obtain ⟨k, rfl⟩ : ∃ k, fuel = k + 1 := ⟨fuel - 1, by omega⟩
    rw [parseLoop, if_pos hc, hstep]
    exact h k (by omega)

/-- C17. Syntax error on a failed shift.  Let the loop be at the top of an
iteration with current state `currentState` and lookahead token `tok`, the
token at index `unread_position` of the BOF-bracketed input.  If no reduction
entry of the current state is tagged with the lookahead kind or with `.ACCEPT`
(so the parser has to shift) and the transition table has no entry for the
current state and the lookahead kind, then the iteration throws
"ERROR at k" with k the index of the lookahead in the bracketed input (BOF has
index 0), and the whole parse ends with that error: no final state, hence no
tree, is produced. -/
theorem shift_error (g : Tables) (input : List Token) (s : State) (currentState : Int)
    (rest : List Int) (tok : Token)
    (hvisit : Visits g (bracket input) s)
    (hstate : s.stateStack = currentState :: rest)
    (htok : (bracket input).get? s.unread_position = some tok)
    (hshift : ∀ entry ∈ g.reductions currentState,
      entry.2 ≠ tok.kind ∧ entry.2 ≠ ".ACCEPT")
    (hnone : ∀ entry ∈ g.transitions currentState, entry.1 ≠ tok.kind) :
    step g (bracket input) s
      = .error (.runtime_error ("ERROR at " ++ toString s.unread_position)) ∧
    ∃ n, ∀ fuel, n ≤ fuel →
      parse g input fuel
        = .error (.runtime_error ("ERROR at " ++ toString s.unread_position)) := by
  have hstep : step g (bracket input) s
      = .error (.runtime_error ("ERROR at " ++ toString s.unread_position)) := by
    simp only [step, hstate, htok, Option.map_some', selectAction_eq_none _ _ hshift, shift,
      findTransition_eq_none _ _ hnone, Nat.add_sub_cancel]
  refine ⟨hstep, ?_⟩
  have hlt : s.unread_position < (bracket input).length := by
    rcases Nat.lt_or_ge s.unread_position (bracket input).length with hlt | hge
    · exact hlt
    · rw [List.get?_eq_none.mpr hge] at htok
      cases htok
  have hc : continues (bracket input) s = true := by simp [continues, hlt]
  refine parseLoop_of_visits g (bracket input) s hvisit _ 1 ?_
  intro fuel hfuel
  obtain ⟨k, rfl⟩ : ∃ k, fuel = k + 1 := ⟨fuel - 1, by omega⟩
  rw [parseLoop, if_pos hc, hstep]

theorem shift_error_witness :
    step tiny (bracket [⟨"NUM", "7"⟩]) { initial with
        unread_position := 1, stack := ["BOF"], stateStack := [1, 0],
        parseTreeStack := [.mk "BOF BOF" [] (some ⟨"BOF", "BOF"⟩)] }
      = .error (.runtime_error "ERROR at 1") ∧
    ∃ n, ∀ fuel, n ≤ fuel →
      parse tiny [⟨"NUM", "7"⟩] fuel = .error (.runtime_error "ERROR at 1") :=
  shift_error tiny [⟨"NUM", "7"⟩] _ 1 [0] ⟨"NUM", "7"⟩
    (Visits.next Visits.start rfl rfl) rfl rfl (by decide) (by decide)

/-- C18, as stated, fails: with the table `earlyAccept` the first iteration on
the empty input performs a reduction tagged `.ACCEPT`, but the loop condition
still holds afterwards, the loop goes on to shift BOF and EOF, and when it
stops the parse-tree stack holds three nodes. -/
theorem accept_stops_counterexample :
    selectAction (((bracket []).get? initial.unread_position).map Token.kind)
      (earlyAccept.reductions 0) = some (0, true) ∧
    step earlyAccept (bracket []) initial = .ok earlyAcceptReduced ∧
    continues (bracket []) earlyAcceptReduced = true ∧
    parse earlyAccept [] 3 = .ok earlyAcceptFinal ∧
    earlyAcceptFinal.parseTreeStack.length = 3 :=
  ⟨rfl, rfl, rfl, rfl, rfl⟩

/-- C18 (amended): for every table and input, an iteration that performs a
reduction chosen for its `.ACCEPT` tag sets `accepted` and consumes no token;
the loop stops right after it, with success, exactly when every token of the
bracketed input has been consumed before (otherwise its condition still
holds).  The top of the parse-tree stack is then the node this reduction
built, and it is the only node on the stack exactly when the reduction left
its left-hand side alone on the symbol stack. -/
theorem accept_stops (g : Tables) (unread : List Token) (s s1 : State) (currentState : Int)
    (rest : List Int) (ruleNumber : Int)
    (hreach : Reachable g unread s)
    (hstate : s.stateStack = currentState :: rest)
    (hsel : selectAction ((unread.get? s.unread_position).map Token.kind)
      (g.reductions currentState) = some (ruleNumber, true))
    (hstep : step g unread s = .ok s1) :
    s1.accepted = true ∧ s1.unread_position = s.unread_position ∧
    (unread.length ≤ s.unread_position → ∀ fuel, parseLoop g unread fuel s1 = .ok s1) ∧
    (s.unread_position < unread.length → continues unread s1 = true) ∧
    ∃ (ruleLHS : String) (ruleRHS : List String) (children below : List ParseTreeNode),
      g.productionRules.get? ruleNumber.toNat = some (ruleLHS, ruleRHS) ∧
      s1.parseTreeStack = .mk (productionRuleText ruleLHS ruleRHS) children none :: below ∧
      (s1.parseTreeStack.length = 1 ↔ s1.stack = [ruleLHS]) := by
  have hred : reduce g ruleNumber (s.accepted || true) s = .ok s1 := by
    simpa only [step, hstate, hsel] using hstep
  obtain ⟨l, r, children, below, h1, h2, -, -, hsync, hpos⟩ :=
    reduce_spec g ruleNumber _ s s1 hred (Reachable_sync g unread s hreach).1
  have hacc : s1.accepted = true ∧ ∃ tail, s1.stack = l :: tail := by
    unfold reduce at hred
    split at hred
    · simp at hred
    · rw [h1] at hred
      simp only at hred
      split at hred
      · simp at hred
      · split at hred
        · simp at hred
        · simp only [Except.ok.injEq] at hred
          subst hred
          simp
  obtain ⟨hacc, tail, htail⟩ := hacc
  refine ⟨hacc, hpos, ?_, ?_, l, r, children, below, h1, h2, ?_⟩
  · intro hle fuel
    have hc : continues unread s1 = false := by
      simp [continues, hacc, hpos, Nat.not_lt.mpr hle]
    cases fuel with
    | zero => simp [parseLoop, hc]
    | succ k => simp [parseLoop, hc]
  · intro hlt
    simp [continues, hpos, hlt]
  · rw [hsync, htail]
    simp

theorem accept_stops_witness :
    tinyFinal.accepted = true ∧ tinyFinal.unread_position = tinyBeforeAccept.unread_position ∧
    ((bracket [⟨"ID", "x"⟩]).length ≤ tinyBeforeAccept.unread_position →
      ∀ fuel, parseLoop tiny (bracket [⟨"ID", "x"⟩]) fuel tinyFinal = .ok tinyFinal) ∧
    (tinyBeforeAccept.unread_position < (bracket [⟨"ID", "x"⟩]).length →
      continues (bracket [⟨"ID", "x"⟩]) tinyFinal = true) ∧
    ∃ (ruleLHS : String) (ruleRHS : List String) (children below : List ParseTreeNode),
      tiny.productionRules.get? (0 : Int).toNat = some (ruleLHS, ruleRHS) ∧
      tinyFinal.parseTreeStack = .mk (productionRuleText ruleLHS ruleRHS) children none :: below ∧
      (tinyFinal.parseTreeStack.length = 1 ↔ tinyFinal.stack = [ruleLHS]) :=
  accept_stops tiny (bracket [⟨"ID", "x"⟩]) tinyBeforeAccept tinyFinal 4 [3, 1, 0] 0
    (Reachable.next (Reachable.next (Reachable.next (Reachable.next Reachable.start rfl) rfl)
      rfl) rfl) rfl rfl rfl

end wlp4parse

/-! ## Context-sensitive analysis: statements, declarations, procedures -/

namespace wlp4type

theorem dispatch_test (rhs : List String) : dispatch "test" rhs = .ok (some .test) := by
  simp [dispatch, chain, firstMatch, Cond.and]

theorem setType_token (t : String) (n : ParseTreeNode) : (n.setType t).token = n.token := by
  cases n
  rfl

theorem setType_type (t : String) (n : ParseTreeNode) : (n.setType t).type = t := by
  cases n
  rfl

/-- C11. Equality-of-types checks.  For an assignment statement
`statement -> lvalue BECOMES expr SEMI` and for a `test` node
`test -> expr OP expr` (whatever the operator, in particular EQ, NE, LT, LE, GE,
GT) whose two operands were annotated with types `l.type` and `r.type`:
`annotateTypes` succeeds (returning the node with its operands annotated and
`wellTyped` set) when the two types are equal, and throws when they differ. -/
theorem equality_checks (operator : String) (c0 c1 c2 c3 : ParseTreeNode) (ty : String)
    (wt : Bool) (fn ctx : String) (st st1 st2 : SymbolTable) (l r : ParseTreeNode)
    (h0 : annotateTypes c0 fn ctx st = (.ok l, st1))
    (h2 : annotateTypes c2 fn ctx st1 = (.ok r, st2)) :
    (l.type = r.type →
      annotateTypes (.mk "statement" ["lvalue", "BECOMES", "expr", "SEMI"] ⟨"", ""⟩
          [c0, c1, c2, c3] ty wt) fn ctx st
        = (.ok (.mk "statement" ["lvalue", "BECOMES", "expr", "SEMI"] ⟨"", ""⟩
            [l, c1, r, c3] ty true), st2)) ∧
    (l.type ≠ r.type →
      annotateTypes (.mk "statement" ["lvalue", "BECOMES", "expr", "SEMI"] ⟨"", ""⟩
          [c0, c1, c2, c3] ty wt) fn ctx st
        = (.error (.runtime_error
            "ERROR: Type mismatch in statement -> lvalue BECOMES expr SEMI "), st2)) ∧
    (l.type = r.type →
      annotateTypes (.mk "test" ["expr", operator, "expr"] ⟨"", ""⟩ [c0, c1, c2] ty wt) fn ctx st
        = (.ok (.mk "test" ["expr", operator, "expr"] ⟨"", ""⟩ [l, c1, r] ty true), st2)) ∧
    (l.type ≠ r.type →
      annotateTypes (.mk "test" ["expr", operator, "expr"] ⟨"", ""⟩ [c0, c1, c2] ty wt) fn ctx st
        = (.error (.runtime_error "ERROR: Type mismatch in test compairison"), st2)) := by
  rw [annotateTypes_internal "statement" ["lvalue", "BECOMES", "expr", "SEMI"] _ _ _ _ _ _
      .assignment rfl rfl,
    annotateTypes_internal "test" ["expr", operator, "expr"] _ _ _ _ _ _ .test rfl
      (dispatch_test _)]
  refine ⟨?_, ?_, ?_, ?_⟩ <;> intro h <;>
    simp [handle, handleAssignment, handleTest, annotateAt, bind_of_ok h0, bind_of_ok h2, h,
      ParseTreeNode.setChild, ParseTreeNode.setChildren, ParseTreeNode.setWellTyped,
      ParseTreeNode.children]

theorem equality_checks_witness :
    annotateTypes (.internal "test" ["expr", "LT", "expr"]
        [exprOf (factorNum "1"), .terminal ⟨"LT", "<"⟩, exprOf factorNull]) "wain" "wain" []
      = (.error (.runtime_error "ERROR: Type mismatch in test compairison"), []) ∧
    annotateTypes (.internal "test" ["expr", "LT", "expr"]
        [exprOf (factorNum "1"), .terminal ⟨"LT", "<"⟩, exprOf (factorNum "2")]) "wain" "wain" []
      = (.ok (.mk "test" ["expr", "LT", "expr"] ⟨"", ""⟩
          [typedExpr (typedFactorNum "1") "int", .terminal ⟨"LT", "<"⟩,
            typedExpr (typedFactorNum "2") "int"] "" true), []) :=
  ⟨(equality_checks "LT" (exprOf (factorNum "1")) (.terminal ⟨"LT", "<"⟩) (exprOf factorNull)
      (.terminal ⟨"SEMI", ";"⟩) "" false "wain" "wain" [] [] []
      (typedExpr (typedFactorNum "1") "int") (typedExpr typedFactorNull "int*")
      rfl rfl).2.2.2 (by decide),
   (equality_checks "LT" (exprOf (factorNum "1")) (.terminal ⟨"LT", "<"⟩)
      (exprOf (factorNum "2")) (.terminal ⟨"SEMI", ";"⟩) "" false "wain" "wain" [] [] []
      (typedExpr (typedFactorNum "1") "int") (typedExpr (typedFactorNum "2") "int")
      rfl rfl).2.2.1 rfl⟩

/-- C14. Statement operand checks.  For `statement -> PRINTLN LPAREN expr
RPAREN SEMI` whose expression was annotated with type `e.type`, `annotateTypes`
succeeds when that type is `int` and throws otherwise; for `statement -> DELETE
LBRACK RBRACK expr SEMI` it succeeds when the type is `int*` and throws
otherwise. -/
theorem statement_operand_checks (c0 c1 c2 c3 c4 : ParseTreeNode) (ty : String) (wt : Bool)
    (fn ctx : String) (st st1 : SymbolTable) (e : ParseTreeNode) :
    (annotateTypes c2 fn ctx st = (.ok e, st1) →
      (e.type = "int" →
        annotateTypes (.mk "statement" ["PRINTLN", "LPAREN", "expr", "RPAREN", "SEMI"] ⟨"", ""⟩
            [c0, c1, c2, c3, c4] ty wt) fn ctx st
          = (.ok (.mk "statement" ["PRINTLN", "LPAREN", "expr", "RPAREN", "SEMI"] ⟨"", ""⟩
              [c0, c1, e, c3, c4] ty true), st1)) ∧
      (e.type ≠ "int" →
        annotateTypes (.mk "statement" ["PRINTLN", "LPAREN", "expr", "RPAREN", "SEMI"] ⟨"", ""⟩
            [c0, c1, c2, c3, c4] ty wt) fn ctx st
          = (.error (.runtime_error "ERROR: Print must have type int"), st1))) ∧
    (annotateTypes c3 fn ctx st = (.ok e, st1) →
      (e.type = "int*" →
        annotateTypes (.mk "statement" ["DELETE", "LBRACK", "RBRACK", "expr", "SEMI"] ⟨"", ""⟩
            [c0, c1, c2, c3, c4] ty wt) fn ctx st
          = (.ok (.mk "statement" ["DELETE", "LBRACK", "RBRACK", "expr", "SEMI"] ⟨"", ""⟩
              [c0, c1, c2, e, c4] ty true), st1)) ∧
      (e.type ≠ "int*" →
        annotateTypes (.mk "statement" ["DELETE", "LBRACK", "RBRACK", "expr", "SEMI"] ⟨"", ""⟩
            [c0, c1, c2, c3, c4] ty wt) fn ctx st
          = (.error (.runtime_error "ERROR: Delete must have type int*"), st1))) := by
  rw [annotateTypes_internal "statement" ["PRINTLN", "LPAREN", "expr", "RPAREN", "SEMI"]
      _ _ _ _ _ _ .println rfl rfl,
    annotateTypes_internal "statement" ["DELETE", "LBRACK", "RBRACK", "expr", "SEMI"]
      _ _ _ _ _ _ .delete rfl rfl]
  refine ⟨fun h2 => ⟨?_, ?_⟩, fun h3 => ⟨?_, ?_⟩⟩ <;> intro h
  · simp [handle, handlePrintln, annotateAt, bind_of_ok h2, h, ParseTreeNode.setChild,
      ParseTreeNode.setChildren, ParseTreeNode.setWellTyped, ParseTreeNode.children]
  · simp [handle, handlePrintln, annotateAt, bind_of_ok h2, h, ParseTreeNode.setChild,
      ParseTreeNode.setChildren, ParseTreeNode.setWellTyped, ParseTreeNode.children]
  · simp [handle, handleDelete, annotateAt, bind_of_ok h3, h, ParseTreeNode.setChild,
      ParseTreeNode.setChildren, ParseTreeNode.setWellTyped, ParseTreeNode.children]
  · simp [handle, handleDelete, annotateAt, bind_of_ok h3, h, ParseTreeNode.setChild,
      ParseTreeNode.setChildren, ParseTreeNode.setWellTyped, ParseTreeNode.children]

theorem statement_operand_checks_witness :
    annotateTypes (.internal "statement" ["PRINTLN", "LPAREN", "expr", "RPAREN", "SEMI"]
        [.terminal ⟨"PRINTLN", "println"⟩, .terminal ⟨"LPAREN", "("⟩, exprOf factorNull,
          .terminal ⟨"RPAREN", ")"⟩, .terminal ⟨"SEMI", ";"⟩]) "wain" "wain" []
      = (.error (.runtime_error "ERROR: Print must have type int"), []) ∧
    annotateTypes (.internal "statement" ["DELETE", "LBRACK", "RBRACK", "expr", "SEMI"]
        [.terminal ⟨"DELETE", "delete"⟩, .terminal ⟨"LBRACK", "["⟩, .terminal ⟨"RBRACK", "]"⟩,
          exprOf factorNull, .terminal ⟨"SEMI", ";"⟩]) "wain" "wain" []
      = (.ok (.mk "statement" ["DELETE", "LBRACK", "RBRACK", "expr", "SEMI"] ⟨"", ""⟩
          [.terminal ⟨"DELETE", "delete"⟩, .terminal ⟨"LBRACK", "["⟩, .terminal ⟨"RBRACK", "]"⟩,
            typedExpr typedFactorNull "int*", .terminal ⟨"SEMI", ";"⟩] "" true), []) :=
  ⟨((statement_operand_checks (.terminal ⟨"PRINTLN", "println"⟩) (.terminal ⟨"LPAREN", "("⟩)
      (exprOf factorNull) (.terminal ⟨"RPAREN", ")"⟩) (.terminal ⟨"SEMI", ";"⟩) "" false
      "wain" "wain" [] [] (typedExpr typedFactorNull "int*")).1 rfl).2 (by decide),
   ((statement_operand_checks (.terminal ⟨"DELETE", "delete"⟩) (.terminal ⟨"LBRACK", "["⟩)
      (.terminal ⟨"RBRACK", "]"⟩) (exprOf factorNull) (.terminal ⟨"SEMI", ";"⟩) "" false
      "wain" "wain" [] [] (typedExpr typedFactorNull "int*")).2 rfl).1 rfl⟩

end wlp4type

namespace wlp4type

/-- A `dcl` node that is analysed without error gets the declared type on its
ID child, and the variable is then recorded with that type in the table of the
current procedure, whose parameter types stay as they were. -/
theorem dcl_ok (typeNode idNode : ParseTreeNode) (ty : String) (wt : Bool) (fn ctx : String)
    (st st1 : SymbolTable) (d : ParseTreeNode)
    (h : annotateTypes (.mk "dcl" ["type", "ID"] ⟨"", ""⟩ [typeNode, idNode] ty wt) fn ctx st
      = (.ok d, st1)) :
    d = .mk "dcl" ["type", "ID"] ⟨"", ""⟩ [typeNode, idNode.setType (declaredType typeNode)]
      ty wt ∧
    lookup ctx st1 = some ((valueAt ([], []) ctx st).1,
      assign idNode.token.lexeme (declaredType typeNode) (valueAt ([], []) ctx st).2) := by
  rw [annotateTypes_internal "dcl" ["type", "ID"] _ _ _ _ _ _ .dcl rfl rfl] at h
  cases hl : lookup idNode.token.lexeme (valueAt ([], []) ctx st).2 with
  | some declared =>
    simp [handle, handleDcl, child, bind_apply, findVariable, hl, ParseTreeNode.children] at h
  | none =>
    simp [handle, handleDcl, child, bind_apply, findVariable, setVariable, hl,
      ParseTreeNode.children, valueAt_touch, assign_touch, ParseTreeNode.setChild,
      ParseTreeNode.setChildren] at h
    obtain ⟨h1, h2⟩ := h
    subst h1 h2
    refine ⟨rfl, ?_⟩
    rw [lookup_assign, if_pos rfl]

/-- Reading a recorded variable leaves the table as it is. -/
theorem getVariable_recorded (ctx name type : String) (parameters : List String)
    (vars : VarTable) (st : SymbolTable) (hctx : lookup ctx st = some (parameters, vars))
    (hname : lookup name vars = some type) :
    getVariable ctx name st = (.ok type, st) := by
  simp [getVariable, valueAt_of_lookup _ _ _ _ hctx, valueAt_of_lookup _ _ _ _ hname,
    touch_of_lookup _ _ _ _ hname, assign_of_lookup _ _ _ hctx]

/-- C13. Initialised declarations.  For `dcls -> dcls dcl BECOMES NUM SEMI`
and `dcls -> dcls dcl BECOMES NULL SEMI` whose `dcls` and `dcl` children were
analysed without error: with initialiser NUM, `annotateTypes` succeeds when the
declared type of the variable is `int` and throws otherwise; with initialiser
NULL it succeeds when the declared type is `int*` and throws otherwise.  So it
throws exactly when the declared type and the kind of the initialiser
disagree. -/
theorem initialised_declarations (c0 typeNode idNode c2 c3 c4 : ParseTreeNode)
    (ty tyd : String) (wt wtd : Bool) (fn ctx : String) (st st1 st2 : SymbolTable)
    (d0 d1 : ParseTreeNode)
    (h0 : annotateTypes c0 fn ctx st = (.ok d0, st1))
    (h1 : annotateTypes (.mk "dcl" ["type", "ID"] ⟨"", ""⟩ [typeNode, idNode] tyd wtd)
      fn ctx st1 = (.ok d1, st2)) :
    (declaredType typeNode = "int" →
      annotateTypes (.mk "dcls" ["dcls", "dcl", "BECOMES", "NUM", "SEMI"] ⟨"", ""⟩
          [c0, .mk "dcl" ["type", "ID"] ⟨"", ""⟩ [typeNode, idNode] tyd wtd, c2, c3, c4]
          ty wt) fn ctx st
        = (.ok (.mk "dcls" ["dcls", "dcl", "BECOMES", "NUM", "SEMI"] ⟨"", ""⟩
            [d0, d1, c2, c3.setType "int", c4] ty wt), st2)) ∧
    (declaredType typeNode ≠ "int" →
      annotateTypes (.mk "dcls" ["dcls", "dcl", "BECOMES", "NUM", "SEMI"] ⟨"", ""⟩
          [c0, .mk "dcl" ["type", "ID"] ⟨"", ""⟩ [typeNode, idNode] tyd wtd, c2, c3, c4]
          ty wt) fn ctx st
        = (.error (.runtime_error ("ERROR: Variable " ++ idNode.token.lexeme
            ++ " assigned wrong type (Expected int), got: " ++ declaredType typeNode)), st2)) ∧
    (declaredType typeNode = "int*" →
      annotateTypes (.mk "dcls" ["dcls", "dcl", "BECOMES", "NULL", "SEMI"] ⟨"", ""⟩
          [c0, .mk "dcl" ["type", "ID"] ⟨"", ""⟩ [typeNode, idNode] tyd wtd, c2, c3, c4]
          ty wt) fn ctx st
        = (.ok (.mk "dcls" ["dcls", "dcl", "BECOMES", "NULL", "SEMI"] ⟨"", ""⟩
            [d0, d1, c2, c3.setType "int*", c4] ty wt), st2)) ∧
    (declaredType typeNode ≠ "int*" →
      annotateTypes (.mk "dcls" ["dcls", "dcl", "BECOMES", "NULL", "SEMI"] ⟨"", ""⟩
          [c0, .mk "dcl" ["type", "ID"] ⟨"", ""⟩ [typeNode, idNode] tyd wtd, c2, c3, c4]
          ty wt) fn ctx st
        = (.error (.runtime_error ("ERROR: Variable " ++ idNode.token.lexeme
            ++ " assigned wrong type (Expected int*), got: " ++ declaredType typeNode)),
            st2)) := by
  obtain ⟨hd1, hctx⟩ := dcl_ok _ _ _ _ _ _ _ _ _ h1
  have hget := getVariable_recorded ctx idNode.token.lexeme (declaredType typeNode) _ _ st2 hctx
    (by rw [lookup_assign, if_pos rfl])
  rw [annotateTypes_internal "dcls" ["dcls", "dcl", "BECOMES", "NUM", "SEMI"] _ _ _ _ _ _
      .dcls rfl rfl,
    annotateTypes_internal "dcls" ["dcls", "dcl", "BECOMES", "NULL", "SEMI"] _ _ _ _ _ _
      .dcls rfl rfl]
  subst hd1
  refine ⟨?_, ?_, ?_, ?_⟩ <;> intro h <;>
    simp [handle, handleDcls, annotateAt, bind_of_ok h0, bind_of_ok h1, h, child,
      pure_bind_eq, setType_token, bind_of_ok hget,
      ParseTreeNode.setChild, ParseTreeNode.setChildren, ParseTreeNode.children,
      ParseTreeNode.prodRuleRHS]

end wlp4type

namespace wlp4type

theorem initialised_declarations_witness :
    annotateTypes (.internal "dcls" ["dcls", "dcl", "BECOMES", "NUM", "SEMI"]
        [emptyRule "dcls", dclPointer "p", .terminal ⟨"BECOMES", "="⟩, .terminal ⟨"NUM", "5"⟩,
          .terminal ⟨"SEMI", ";"⟩]) "wain" "wain" []
      = (.error (.runtime_error
          "ERROR: Variable p assigned wrong type (Expected int), got: int*"),
          [("wain", ([], [("p", "int*")]))]) ∧
    annotateTypes (.internal "dcls" ["dcls", "dcl", "BECOMES", "NULL", "SEMI"]
        [emptyRule "dcls", dclPointer "p", .terminal ⟨"BECOMES", "="⟩,
          .terminal ⟨"NULL", "NULL"⟩, .terminal ⟨"SEMI", ";"⟩]) "wain" "wain" []
      = (.ok (.mk "dcls" ["dcls", "dcl", "BECOMES", "NULL", "SEMI"] ⟨"", ""⟩
          [emptyRule "dcls",
            .mk "dcl" ["type", "ID"] ⟨"", ""⟩
              [.internal "type" ["INT", "STAR"]
                [.terminal ⟨"INT", "int"⟩, .terminal ⟨"STAR", "*"⟩],
               .mk "" [] ⟨"ID", "p"⟩ [] "int*" false] "" false,
            .terminal ⟨"BECOMES", "="⟩, .mk "" [] ⟨"NULL", "NULL"⟩ [] "int*" false,
            .terminal ⟨"SEMI", ";"⟩] "" false),
          [("wain", ([], [("p", "int*")]))]) :=
  ⟨(initialised_declarations (emptyRule "dcls")
      (.internal "type" ["INT", "STAR"] [.terminal ⟨"INT", "int"⟩, .terminal ⟨"STAR", "*"⟩])
      (.terminal ⟨"ID", "p"⟩) (.terminal ⟨"BECOMES", "="⟩) (.terminal ⟨"NUM", "5"⟩)
      (.terminal ⟨"SEMI", ";"⟩) "" "" false false "wain" "wain" [] []
      [("wain", ([], [("p", "int*")]))] (emptyRule "dcls") _ rfl rfl).2.1 (by decide),
   (initialised_declarations (emptyRule "dcls")
      (.internal "type" ["INT", "STAR"] [.terminal ⟨"INT", "int"⟩, .terminal ⟨"STAR", "*"⟩])
      (.terminal ⟨"ID", "p"⟩) (.terminal ⟨"BECOMES", "="⟩) (.terminal ⟨"NULL", "NULL"⟩)
      (.terminal ⟨"SEMI", ";"⟩) "" "" false false "wain" "wain" [] []
      [("wain", ([], [("p", "int*")]))] (emptyRule "dcls") _ rfl rfl).2.2.1 rfl⟩

theorem annotateAt_ok {cs : List ParseTreeNode} {i : Nat} {fn ctx : String}
    {st st1 : SymbolTable} {r : ParseTreeNode}
    (h : annotateAt cs i fn ctx st = (.ok r, st1)) :
    ∃ c, cs.get? i = some c ∧ annotateTypes c fn ctx st = (.ok r, st1) := by
  rw [annotateAt_eq] at h
  cases hc : cs.get? i with
  | none =>
    rw [hc] at h
    simp at h
  | some c =>
    rw [hc] at h
    exact ⟨c, rfl, h⟩

theorem dispatch_main (rhs : List String) : dispatch "main" rhs = .ok (some .main) := by
  simp [dispatch, chain, firstMatch, Cond.and]

theorem dispatch_procedure (rhs : List String) :
    dispatch "procedure" rhs = .ok (some .procedure) := by
  simp [dispatch, chain, firstMatch, Cond.and]

/-- C12. Entry and return constraints.  (a) In `main`, once the two parameter
declarations were analysed: when the second parameter is not declared `int`,
`annotateTypes` throws; when it is, and the declarations, the statements and
the return expression were analysed, `annotateTypes` throws if the return
expression does not have type `int` and succeeds if it does.  (b) In a
`procedure` whose name is new, once its parameters, declarations, statements
and return expression were analysed, `annotateTypes` throws if the return
expression does not have type `int` and succeeds if it does. -/
theorem entry_and_return_constraints (rhs : List String) (cs : List ParseTreeNode)
    (ty : String) (wt : Bool) (fn ctx : String) (st : SymbolTable) :
    (∀ p1 p2 typeNode idNode tyd wtd st1 st2,
      annotateAt cs 3 "wain" "wain" st = (.ok p1, st1) →
      cs.get? 5 = some (.mk "dcl" ["type", "ID"] ⟨"", ""⟩ [typeNode, idNode] tyd wtd) →
      annotateAt cs 5 "wain" "wain" st1 = (.ok p2, st2) →
      (declaredType typeNode ≠ "int" →
        annotateTypes (.mk "main" rhs ⟨"", ""⟩ cs ty wt) fn ctx st
          = (.error (.runtime_error "ERROR: The second parameter of wain is not int type."),
              st2)) ∧
      (declaredType typeNode = "int" → ∀ d s e st3 st4 st5,
        annotateAt cs 8 "wain" "wain" st2 = (.ok d, st3) →
        annotateAt cs 9 "wain" "wain" st3 = (.ok s, st4) →
        annotateAt cs 11 "wain" "wain" st4 = (.ok e, st5) →
        (e.type ≠ "int" →
          annotateTypes (.mk "main" rhs ⟨"", ""⟩ cs ty wt) fn ctx st
            = (.error (.runtime_error "ERROR: The return expression of wain is not int type."),
                st5)) ∧
        (e.type = "int" →
          ∃ r, annotateTypes (.mk "main" rhs ⟨"", ""⟩ cs ty wt) fn ctx st = (.ok r, st5)))) ∧
    (∀ idNode ps d s e st1 st2 st3 st4,
      cs.get? 1 = some idNode →
      lookup idNode.token.lexeme st = none →
      annotateAt cs 3 idNode.token.lexeme idNode.token.lexeme
        (assign idNode.token.lexeme ([], []) st) = (.ok ps, st1) →
      annotateAt cs 6 idNode.token.lexeme idNode.token.lexeme st1 = (.ok d, st2) →
      annotateAt cs 7 idNode.token.lexeme idNode.token.lexeme st2 = (.ok s, st3) →
      annotateAt cs 9 idNode.token.lexeme idNode.token.lexeme st3 = (.ok e, st4) →
      (e.type ≠ "int" →
        annotateTypes (.mk "procedure" rhs ⟨"", ""⟩ cs ty wt) fn ctx st
          = (.error (.runtime_error ("ERROR: The return expression of function "
              ++ idNode.token.lexeme ++ " is not int type.")), st4)) ∧
      (e.type = "int" →
        ∃ r, annotateTypes (.mk "procedure" rhs ⟨"", ""⟩ cs ty wt) fn ctx st
          = (.ok r, st4))) := by
  rw [annotateTypes_internal "main" rhs _ _ _ _ _ _ .main rfl (dispatch_main _),
    annotateTypes_internal "procedure" rhs _ _ _ _ _ _ .procedure rfl (dispatch_procedure _)]
  constructor
  · intro p1 p2 typeNode idNode tyd wtd st1 st2 h3 hdcl h5
    obtain ⟨c3, hc3, -⟩ := annotateAt_ok h3
    obtain ⟨c5, hc5, h5a⟩ := annotateAt_ok h5
    rw [hdcl] at hc5
    cases hc5
    obtain ⟨hp2, -⟩ := dcl_ok _ _ _ _ _ _ _ _ _ h5a
    subst hp2
    have hc3a : cs[3]? = some c3 := by simpa using hc3
    have hdcla : cs[5]? = some (.mk "dcl" ["type", "ID"] ⟨"", ""⟩ [typeNode, idNode] tyd wtd) := by
      simpa using hdcl
    constructor
    · intro hne
      simp [handle, handleMain, child, hc3a, hdcla, pure_bind_eq, bind_of_ok h3, bind_of_ok h5,
        ParseTreeNode.children, setType_type, hne]
    · intro heq d s e st3 st4 st5 h8 h9 h11
      constructor
      · intro hne
        simp [handle, handleMain, child, hc3a, hdcla, pure_bind_eq, bind_of_ok h3,
          bind_of_ok h5, bind_of_ok h8, bind_of_ok h9, bind_of_ok h11,
          ParseTreeNode.children, setType_type, heq, hne]
      · intro he
        by_cases hw : d.wellTyped = true ∧ s.wellTyped = true
        · exact ⟨_, by
            simp [handle, handleMain, child, hc3a, hdcla, pure_bind_eq, bind_of_ok h3,
              bind_of_ok h5, bind_of_ok h8, bind_of_ok h9, bind_of_ok h11,
              ParseTreeNode.children, setType_type, heq, he, hw.1, hw.2]
            rfl⟩
        · exact ⟨_, by
            simp only [handle, handleMain, child, hc3a, hdcla, pure_bind_eq, bind_of_ok h3,
              bind_of_ok h5, bind_of_ok h8, bind_of_ok h9, bind_of_ok h11,
              ParseTreeNode.children, setType_type, heq, he, List.get?_eq_getElem?,
              List.getElem?_cons_succ, List.getElem?_cons_zero, ne_eq, not_true_eq_false,
              if_false, true_and, and_true]
            rw [if_neg hw]
            rfl⟩
  · intro idNode ps d s e st1 st2 st3 st4 hid hnew h3 h6 h7 h9
    have hida : cs[1]? = some idNode := by simpa using hid
    have hfind : findProcedure idNode.token.lexeme st = (.ok false, st) := by
      simp [findProcedure, hnew]
    have hdecl : declareProcedure idNode.token.lexeme st
        = (.ok (), assign idNode.token.lexeme ([], []) st) := rfl
    constructor
    · intro hne
      simp [handle, handleProcedure, child, hida, pure_bind_eq, bind_of_ok hfind,
        bind_of_ok hdecl, bind_of_ok h3, bind_of_ok h6, bind_of_ok h7, bind_of_ok h9,
        ParseTreeNode.children, hne]
    · intro he
      by_cases hw : d.wellTyped = true ∧ s.wellTyped = true
      · exact ⟨_, by
          simp [handle, handleProcedure, child, hida, pure_bind_eq, bind_of_ok hfind,
            bind_of_ok hdecl, bind_of_ok h3, bind_of_ok h6, bind_of_ok h7, bind_of_ok h9,
            ParseTreeNode.children, he, hw.1, hw.2]
          rfl⟩
      · exact ⟨_, by
          simp only [handle, handleProcedure, child, hida, pure_bind_eq, bind_of_ok hfind,
            bind_of_ok hdecl, bind_of_ok h3, bind_of_ok h6, bind_of_ok h7, bind_of_ok h9,
            ParseTreeNode.children, he, List.get?_eq_getElem?, ne_eq, not_true_eq_false,
            if_false, Bool.false_eq_true, and_true]
          rw [if_neg hw]
          rfl⟩

theorem entry_and_return_constraints_witness :
    annotateTypes (mainOf (dclInt "a") (dclPointer "b") (emptyRule "dcls")
        (emptyRule "statements") (exprOf (factorNum "0"))) "" "" []
      = (.error (.runtime_error "ERROR: The second parameter of wain is not int type."),
          [("wain", ([], [("a", "int"), ("b", "int*")]))]) ∧
    annotateTypes (procedureOf "f" (emptyRule "params") (emptyRule "dcls")
        (emptyRule "statements") (exprOf factorNull)) "" "" []
      = (.error (.runtime_error "ERROR: The return expression of function f is not int type."),
          [("f", ([], []))]) :=
  ⟨((entry_and_return_constraints
      (mainOf (dclInt "a") (dclPointer "b") (emptyRule "dcls") (emptyRule "statements")
        (exprOf (factorNum "0"))).prodRuleRHS
      (mainOf (dclInt "a") (dclPointer "b") (emptyRule "dcls") (emptyRule "statements")
        (exprOf (factorNum "0"))).children "" false "" "" []).1
      (.mk "dcl" ["type", "ID"] ⟨"", ""⟩
        [.internal "type" ["INT"] [.terminal ⟨"INT", "int"⟩],
          .mk "" [] ⟨"ID", "a"⟩ [] "int" false] "" false)
      (.mk "dcl" ["type", "ID"] ⟨"", ""⟩
        [.internal "type" ["INT", "STAR"] [.terminal ⟨"INT", "int"⟩, .terminal ⟨"STAR", "*"⟩],
          .mk "" [] ⟨"ID", "b"⟩ [] "int*" false] "" false)
      (.internal "type" ["INT", "STAR"] [.terminal ⟨"INT", "int"⟩, .terminal ⟨"STAR", "*"⟩])
      (.terminal ⟨"ID", "b"⟩) "" false [("wain", ([], [("a", "int")]))]
      [("wain", ([], [("a", "int"), ("b", "int*")]))] (by rfl) (by rfl) (by rfl)).1
      (by decide),
   ((entry_and_return_constraints
      (procedureOf "f" (emptyRule "params") (emptyRule "dcls") (emptyRule "statements")
        (exprOf factorNull)).prodRuleRHS
      (procedureOf "f" (emptyRule "params") (emptyRule "dcls") (emptyRule "statements")
        (exprOf factorNull)).children "" false "" "" []).2 (.terminal ⟨"ID", "f"⟩)
      (emptyRule "params") (emptyRule "dcls") (emptyRule "statements")
      (typedExpr typedFactorNull "int*") [("f", ([], []))] [("f", ([], []))]
      [("f", ([], []))] [("f", ([], []))] (by rfl) (by rfl) (by rfl) (by rfl) (by rfl)
      (by rfl)).1 (by decide)⟩

end wlp4type

namespace wlp4type

theorem body_closed :
    ∀ p ∈ productions, p.1 ∈ bodySymbols → ".EMPTY" ∉ p.2 →
      ∀ symbol ∈ p.2, symbol ∈ bodySymbols ∨ symbol ∈ terminals := by
  decide

/-- A tree derived from a symbol of a procedure body has no `procedure` and no
`paramlist` node. -/
theorem conforms_body_free (node : ParseTreeNode) :
    ∀ symbol, (symbol ∈ bodySymbols ∨ symbol ∈ terminals) →
      conforms symbol node = true → DeclarationFree node := by
  induction node using tree_induction with
  | step lhs rhs tok cs ty wt ih =>
    intro symbol hsym hconf
    unfold conforms at hconf
    split at hconf
    · simp only [Bool.and_eq_true, decide_eq_true_eq, List.isEmpty_iff] at hconf
      obtain ⟨⟨hl, -, -⟩, hcs⟩ := hconf
      subst hl hcs
      intro n hn
      simp only [nodes, nodesOfList, List.mem_singleton] at hn
      subst hn
      simp [ParseTreeNode.prodRuleLHS]
    · rename_i hterm
      split at hconf
      · simp only [Bool.and_eq_true, decide_eq_true_eq, List.isEmpty_iff] at hconf
        obtain ⟨⟨hl, -, -⟩, hcs⟩ := hconf
        subst hl hcs
        intro n hn
        simp only [nodes, nodesOfList, List.mem_singleton] at hn
        subst hn
        simp [ParseTreeNode.prodRuleLHS]
      · simp only [Bool.and_eq_true, decide_eq_true_eq] at hconf
        obtain ⟨⟨hl, -, hprod, hne⟩, hall⟩ := hconf
        subst hl
        have hbody : lhs ∈ bodySymbols := by
          rcases hsym with h | h
          · exact h
          · exact absurd h hterm
        intro n hn
        rw [nodes_eq] at hn
        rcases List.mem_cons.mp hn with rfl | hmem
        · simp only [ParseTreeNode.prodRuleLHS]
          have h1 : "procedure" ∉ bodySymbols := by decide
          have h2 : "paramlist" ∉ bodySymbols := by decide
          exact ⟨fun e => h1 (e ▸ hbody), fun e => h2 (e ▸ hbody)⟩
        · simp only [ParseTreeNode.children] at hmem
          obtain ⟨c, hc, hnc⟩ := (mem_nodesOfList cs).mp hmem
          obtain ⟨s, hs, hsc⟩ := conformsAll_mem rhs cs hall c hc
          exact ih c hc s (body_closed _ hprod hbody hne s hs) hsc n hnc

/-- Analysing a `paramlist` appends the declared types of its parameters, in
order, to the parameter types recorded for the current procedure. -/
theorem paramlist_signature (node : ParseTreeNode) (ds : List (ParseTreeNode × ParseTreeNode))
    (hlist : IsParamlist node ds) :
    ∀ (fn f : String) (st st1 : SymbolTable) (r : ParseTreeNode) (sig : List String)
      (vars : VarTable), lookup f st = some (sig, vars) →
      annotateTypes node fn f st = (.ok r, st1) →
      ∃ vars1, lookup f st1 = some (sig ++ declaredTypes ds, vars1) := by
  induction hlist with
  | one typeNode idNode tyd ty wtd wt =>
    intro fn f st st1 r sig vars hsig h
    rw [annotateTypes_internal "paramlist" ["dcl"] _ _ _ _ _ _ .paramlist rfl rfl] at h
    simp only [handle, handleParamlist, annotateAt] at h
    obtain ⟨d1, stA, hd, h2⟩ := bind_ok_iff.mp h
    obtain ⟨hd1, hctx⟩ := dcl_ok _ _ _ _ _ _ _ _ _ hd
    subst hd1
    rw [valueAt_of_lookup _ _ _ _ hsig] at hctx
    simp [child, ParseTreeNode.children, pure_bind_eq, bind_apply, pushParameter,
      valueAt_of_lookup _ _ _ _ hctx, ParseTreeNode.prodRuleRHS] at h2
    obtain ⟨-, h3⟩ := h2
    subst h3
    exact ⟨_, by rw [lookup_assign, if_pos rfl]; rfl⟩
  | more typeNode idNode comma rest ds tyd ty wtd wt _ ih =>
    intro fn f st st1 r sig vars hsig h
    rw [annotateTypes_internal "paramlist" ["dcl", "COMMA", "paramlist"] _ _ _ _ _ _ .paramlist
      rfl rfl] at h
    simp only [handle, handleParamlist, annotateAt] at h
    obtain ⟨d1, stA, hd, h2⟩ := bind_ok_iff.mp h
    obtain ⟨hd1, hctx⟩ := dcl_ok _ _ _ _ _ _ _ _ _ hd
    subst hd1
    rw [valueAt_of_lookup _ _ _ _ hsig] at hctx
    simp only [child, ParseTreeNode.children, List.get?_eq_getElem?, List.getElem?_cons_zero,
      pure_bind_eq] at h2
    obtain ⟨u, stB, hpush, h3⟩ := bind_ok_iff.mp h2
    simp only [pushParameter, valueAt_of_lookup _ _ _ _ hctx, Prod.mk.injEq,
      Except.ok.injEq, true_and] at hpush
    subst hpush
    simp only [ParseTreeNode.prodRuleRHS, List.length_cons, List.length_nil, if_true] at h3
    obtain ⟨r1, stC, hrest, h4⟩ := bind_ok_iff.mp h3
    simp only [pure_apply, Prod.mk.injEq, Except.ok.injEq] at h4
    obtain ⟨-, h5⟩ := h4
    subst h5
    obtain ⟨vars1, hv⟩ := ih fn f _ _ r1 (sig ++ [declaredType typeNode]) _
      (by rw [lookup_assign, if_pos rfl]) hrest
    exact ⟨vars1, by simpa [declaredTypes, List.append_assoc] using hv⟩

/-- Analysing the `params` child of a procedure whose name was just recorded
leaves the procedure recorded with the declared types of its parameters. -/
theorem params_signature (params : ParseTreeNode) (ds : List (ParseTreeNode × ParseTreeNode))
    (hparams : IsParams params ds) (fn f : String) (st st1 : SymbolTable) (r : ParseTreeNode)
    (h : annotateTypes params fn f (assign f ([], []) st) = (.ok r, st1)) :
    ∃ vars, lookup f st1 = some (declaredTypes ds, vars) := by
  have hsig : lookup f (assign f (([] : List String), ([] : VarTable)) st) = some ([], []) := by
    rw [lookup_assign, if_pos rfl]
  cases hparams with
  | none ty wt =>
    rw [annotateTypes_eq] at h
    simp [annotateBody, ParseTreeNode.isTerminal, ParseTreeNode.token] at h
    obtain ⟨-, h1⟩ := h
    subst h1
    exact ⟨[], hsig⟩
  | some paramlist ds ty wt hlist =>
    rw [annotateTypes_internal "params" ["paramlist"] _ _ _ _ _ _ .params rfl rfl] at h
    simp only [handle, handleParams, annotateAt] at h
    obtain ⟨p1, stA, hp, h2⟩ := bind_ok_iff.mp h
    simp only [pure_apply, Prod.mk.injEq, Except.ok.injEq] at h2
    obtain ⟨-, h3⟩ := h2
    subst h3
    obtain ⟨vars1, hv⟩ := paramlist_signature paramlist ds hlist fn f _ _ p1 [] [] hsig hp
    exact ⟨vars1, by simpa using hv⟩

end wlp4type

namespace wlp4type

/-- C15, as stated, fails: in the program `mutuallyRecursive` (a program of the
grammar) `f` calls `g`, which is declared later in the file, and `g` calls `f`,
each with an `int` argument for an `int` parameter; the analysis throws at the
call of `g`, which is not recorded yet when the body of `f` is analysed. -/
theorem mutual_calls_counterexample :
    conforms "start" mutuallyRecursive = true ∧
    analyse mutuallyRecursive
      = (.error (.runtime_error "ERROR: Function g used without declaration."),
          [("f", (["int"], [("n", "int")]))]) :=
  ⟨by decide, rfl⟩

/-- C15 (amended).  Let the `params` child of a procedure `f` be analysed
without error right after the name `f` was recorded (lines 254-257).  Then
(1) the table from which the body of `f` is analysed records `f` with the
declared types of its parameters, in order; (2) analysing a part of the body (a
`dcls`, `statements` or `expr` tree of the grammar) from a table with that
record gives a table with that record; (3) from a table with that record, a
call of `f` whose arguments are annotated without error with exactly these
types, and a call of `f` without arguments when `f` has no parameter, are
accepted and get type `int`; so a procedure that calls itself with correctly
typed arguments type-checks.  (4) A call of a procedure that is not recorded
(such as one declared later in the file) throws "used without declaration". -/
theorem recursive_calls (f : String) (params params1 : ParseTreeNode)
    (ds : List (ParseTreeNode × ParseTreeNode)) (st st1 : SymbolTable)
    (hparams : IsParams params ds)
    (hann : annotateTypes params f f (assign f ([], []) st) = (.ok params1, st1)) :
    (∃ vars, lookup f st1 = some (declaredTypes ds, vars)) ∧
    (∀ symbol ∈ ["dcls", "statements", "expr"], ∀ tree, conforms symbol tree = true →
      ∀ fn ctx st2, (∃ vars, lookup f st2 = some (declaredTypes ds, vars)) →
        ∃ vars, lookup f (annotateTypes tree fn ctx st2).2 = some (declaredTypes ds, vars)) ∧
    (∀ idNode lp rp args es es1 ty wt fn ctx st2 st3, idNode.token.lexeme = f →
      (∃ vars, lookup f st2 = some (declaredTypes ds, vars)) →
      ((IsArglist args es → (∀ e ∈ es, conforms "expr" e = true) →
        annotateAll es f ctx st2 = (.ok es1, st3) →
        es1.map ParseTreeNode.type = declaredTypes ds →
        ∃ args1,
          annotateTypes (.mk "factor" ["ID", "LPAREN", "arglist", "RPAREN"] ⟨"", ""⟩
              [idNode, lp, args, rp] ty wt) fn ctx st2
            = (.ok (.mk "factor" ["ID", "LPAREN", "arglist", "RPAREN"] ⟨"", ""⟩
                [idNode, lp, args1, rp] "int" wt), st3)) ∧
       (declaredTypes ds = [] →
          annotateTypes (.mk "factor" ["ID", "LPAREN", "RPAREN"] ⟨"", ""⟩ [idNode, lp, rp] ty wt)
              fn ctx st2
            = (.ok (.mk "factor" ["ID", "LPAREN", "RPAREN"] ⟨"", ""⟩ [idNode, lp, rp] "int" wt),
                st2)))) ∧
    (∀ idNode lp rp args ty wt fn ctx st2, lookup idNode.token.lexeme st2 = none →
      annotateTypes (.mk "factor" ["ID", "LPAREN", "arglist", "RPAREN"] ⟨"", ""⟩
          [idNode, lp, args, rp] ty wt) fn ctx st2
        = (.error (.runtime_error ("ERROR: Function " ++ idNode.token.lexeme
            ++ " used without declaration.")), st2) ∧
      annotateTypes (.mk "factor" ["ID", "LPAREN", "RPAREN"] ⟨"", ""⟩ [idNode, lp, rp] ty wt)
          fn ctx st2
        = (.error (.runtime_error ("ERROR: Function " ++ idNode.token.lexeme
            ++ " used without declaration.")), st2)) := by
  refine ⟨params_signature params ds hparams f f st st1 params1 hann, ?_, ?_, ?_⟩
  · intro symbol hsym tree hconf fn ctx st2 hrec
    obtain ⟨vars, hv⟩ := hrec
    have hbody : symbol ∈ bodySymbols := by
      simp only [List.mem_cons, List.mem_singleton, List.not_mem_nil, or_false] at hsym
      rcases hsym with rfl | rfl | rfl <;> decide
    have hfree := conforms_body_free tree symbol (Or.inl hbody) hconf
    exact ((annotateTypes_frames tree hfree).1 fn ctx).keeps st2 f _ vars hv
  · intro idNode lp rp args es es1 ty wt fn ctx st2 st3 hid hrec
    obtain ⟨vars, hl⟩ := hrec
    subst hid
    have htouch : touch ([], []) idNode.token.lexeme st2 = st2 := touch_of_lookup _ _ _ _ hl
    have hval : valueAt ([], []) idNode.token.lexeme st2 = (declaredTypes ds, vars) :=
      valueAt_of_lookup _ _ _ _ hl
    constructor
    · intro hargs hconf hall htypes
      have hframe : SigFrame st2 st3 := by
        have h := (annotateAll_frames idNode.token.lexeme ctx es (fun e he =>
          conforms_declarationFree e "expr" (Or.inl (by decide)) (hconf e he))).keeps st2
        rw [hall] at h
        exact h
      obtain ⟨vars1, hl1⟩ := hframe _ _ _ hl
      obtain ⟨r, hr⟩ := (arglist_check args es hargs idNode.token.lexeme ctx st2 st3 es1
        (declaredTypes ds) vars1 hall hl1).1 htypes
      rw [annotateTypes_internal "factor" ["ID", "LPAREN", "arglist", "RPAREN"] _ _ _ _ _ _
        .call rfl rfl]
      exact ⟨r, by
        simp [handle, handleCall, handleCallArguments, child, bind_apply, findProcedure, hl,
          ParseTreeNode.children, ParseTreeNode.prodRuleRHS, annotateAt, hr,
          ParseTreeNode.setType, ParseTreeNode.setChild, ParseTreeNode.setChildren]⟩
    · intro hnone
      rw [hnone] at hl hval
      rw [annotateTypes_internal "factor" ["ID", "LPAREN", "RPAREN"] _ _ _ _ _ _ .call rfl rfl]
      simp [handle, handleCall, handleCallArguments, child, bind_apply, findProcedure, hl,
        signature, htouch, hval, ParseTreeNode.children, ParseTreeNode.prodRuleRHS,
        ParseTreeNode.setType]
  · intro idNode lp rp args ty wt fn ctx st2 hl
    rw [annotateTypes_internal "factor" ["ID", "LPAREN", "RPAREN"] _ _ _ _ _ _ .call rfl rfl,
      annotateTypes_internal "factor" ["ID", "LPAREN", "arglist", "RPAREN"] _ _ _ _ _ _ .call
        rfl rfl]
    constructor <;>
      simp [handle, handleCall, child, bind_apply, findProcedure, hl, ParseTreeNode.children]

theorem recursive_calls_witness :
    faultOf (analyse selfRecursive) = none ∧
    annotateTypes (paramsOf [dclInt "n"]) "f" "f" (assign "f" ([], []) [])
      = (.ok (.mk "params" ["paramlist"] ⟨"", ""⟩
          [.mk "paramlist" ["dcl"] ⟨"", ""⟩
            [.mk "dcl" ["type", "ID"] ⟨"", ""⟩
              [.internal "type" ["INT"] [.terminal ⟨"INT", "int"⟩],
                .mk "" [] ⟨"ID", "n"⟩ [] "int" false] "" false] "" false] "" false),
          [("f", (["int"], [("n", "int")]))]) ∧
    ∃ args1,
      annotateTypes (callWith "f" (exprOf (factorId "n")) []) "f" "f"
          [("f", (["int"], [("n", "int")]))]
        = (.ok (.mk "factor" ["ID", "LPAREN", "arglist", "RPAREN"] ⟨"", ""⟩
            [.terminal ⟨"ID", "f"⟩, .terminal ⟨"LPAREN", "("⟩, args1,
              .terminal ⟨"RPAREN", ")"⟩] "int" false),
          [("f", (["int"], [("n", "int")]))]) :=
  ⟨rfl, rfl,
    ((recursive_calls "f" (paramsOf [dclInt "n"]) _
      [(.internal "type" ["INT"] [.terminal ⟨"INT", "int"⟩], .terminal ⟨"ID", "n"⟩)] []
      [("f", (["int"], [("n", "int")]))]
      (IsParams.some _ _ _ _ (IsParamlist.one _ _ _ _ _ _)) (by rfl)).2.2.1
      (.terminal ⟨"ID", "f"⟩) (.terminal ⟨"LPAREN", "("⟩) (.terminal ⟨"RPAREN", ")"⟩)
      (arglistOf (exprOf (factorId "n")) []) [exprOf (factorId "n")]
      [typedExpr (.mk "factor" ["ID"] ⟨"", ""⟩ [.mk "" [] ⟨"ID", "n"⟩ [] "int" false] "int"
        false) "int"]
      "" false "f" "f" [("f", (["int"], [("n", "int")]))] [("f", (["int"], [("n", "int")]))]
      rfl ⟨[("n", "int")], rfl⟩).1 (IsArglist.one _ _ _) (by decide) (by rfl) (by rfl)⟩

/-- C16, evaluated on two programs that are analysed without error.  In
`int wain(int a, int b) { return 0; }` the `main` node and its (empty)
`statements` are left with `wellTyped = false`.  In `loopProgram` the
`procedure`, the `main`, every `statements` node and the `while` statement are
left with `wellTyped = false`; only the `test` and the two `println`
statements get `wellTyped = true`. -/
theorem wellTyped_flags_unset :
    conforms "start" minimalProgram = true ∧
    faultOf (analyse minimalProgram) = none ∧
    wellTypedFlags (annotated minimalProgram) = [("main", false), ("statements", false)] ∧
    conforms "start" loopProgram = true ∧
    faultOf (analyse loopProgram) = none ∧
    wellTypedFlags (annotated loopProgram)
      = [("procedure", false), ("statements", false), ("main", false), ("statements", false),
          ("statements", false), ("statements", false), ("statement", false), ("test", true),
          ("statements", false), ("statements", false), ("statement", true),
          ("statement", true)] :=
  ⟨by decide, rfl, by decide, by decide, rfl, by decide⟩

end wlp4type

/-! ## Tree optimizer: lemmas -/

namespace wlp4gen

@[simp] theorem opt_pure_apply {α : Type} (a : α) (st : OptState) :
    (pure a : Opt α) st = .ok (a, st) := rfl

@[simp] theorem opt_fail_apply {α : Type} (e : Fault) (st : OptState) :
    (Opt.fail e : Opt α) st = .error e := rfl

theorem opt_bind_apply {α β : Type} (x : Opt α) (f : α → Opt β) (st : OptState) :
    (x >>= f) st =
      match x st with
      | .ok (a, st1) => f a st1
      | .error e => .error e := rfl

theorem opt_bind_of_ok {α β : Type} {x : Opt α} {f : α → Opt β} {st st1 : OptState} {a : α}
    (h : x st = .ok (a, st1)) : (x >>= f) st = f a st1 := by
  rw [opt_bind_apply, h]

theorem opt_bind_ok_iff {α β : Type} {x : Opt α} {f : α → Opt β} {st st2 : OptState} {b : β} :
    (x >>= f) st = .ok (b, st2) ↔ ∃ a st1, x st = .ok (a, st1) ∧ f a st1 = .ok (b, st2) := by
  rw [opt_bind_apply]
  cases hx : x st with
  | error e => simp
  | ok p =>
    obtain ⟨a, st1⟩ := p
    constructor
    · intro h
      exact ⟨a, st1, rfl, h⟩
    · rintro ⟨a1, s1, h1, h2⟩
      simp only [Except.ok.injEq, Prod.mk.injEq] at h1
      obtain ⟨rfl, rfl⟩ := h1
      exact h2

theorem opt_pure_bind {α β : Type} (a : α) (f : α → Opt β) : (pure a >>= f) = f a := rfl

theorem opt_map_apply {α β : Type} (g : α → β) (x : Opt α) (st : OptState) :
    (g <$> x) st =
      match x st with
      | .ok (a, st1) => .ok (g a, st1)
      | .error e => .error e := rfl

theorem children_mk (lhs : String) (rhs : List String) (tok : Token)
    (cs : List ParseTreeNode) (ty : String) (wt : Bool) :
    (ParseTreeNode.mk lhs rhs tok cs ty wt).children = cs := rfl

theorem prodRuleRHS_mk (lhs : String) (rhs : List String) (tok : Token)
    (cs : List ParseTreeNode) (ty : String) (wt : Bool) :
    (ParseTreeNode.mk lhs rhs tok cs ty wt).prodRuleRHS = rhs := rfl

theorem prodRuleLHS_mk (lhs : String) (rhs : List String) (tok : Token)
    (cs : List ParseTreeNode) (ty : String) (wt : Bool) :
    (ParseTreeNode.mk lhs rhs tok cs ty wt).prodRuleLHS = lhs := rfl

/-! ### Induction on trees -/

theorem gen_tree_induction {P : ParseTreeNode → Prop}
    (step : ∀ (lhs : String) (rhs : List String) (tok : Token) (cs : List ParseTreeNode)
      (ty : String) (wt : Bool), (∀ c ∈ cs, P c) → P (.mk lhs rhs tok cs ty wt))
    (node : ParseTreeNode) : P node :=
  @ParseTreeNode.rec P (fun cs => ∀ c ∈ cs, P c)
    (fun lhs rhs tok cs ty wt ih => step lhs rhs tok cs ty wt ih)
    (fun c hc => by cases hc)
    (fun c cs hc hcs d hd => by
      rcases List.mem_cons.mp hd with rfl | hmem
      · exact hc
      · exact hcs d hmem)
    node

theorem optimizeTree_eq (node : ParseTreeNode) :
    optimizeTree node =
      optimizeBody (fun i => optimizeAt node.children i)
        (optimizeLoop node.prodRuleRHS node.children) node := by
  cases node
  simp [optimizeTree, ParseTreeNode.children, ParseTreeNode.prodRuleRHS]

theorem optimizeAt_eq (cs : List ParseTreeNode) :
    ∀ i : Nat, optimizeAt cs i =
      match cs.get? i with
      | some c => optimizeTree c
      | none => Opt.fail (.undefined "children[i]") := by
  induction cs with
  | nil => intro i; simp [optimizeAt]
  | cons c cs ih =>
    intro i
    cases i with
    | zero => simp [optimizeAt]
    | succ i => simp [optimizeAt, ih]

/-! ### Postconditions -/

theorem post_pure {α : Type} {Q : α → Prop} (a : α) (h : Q a) : Post (pure a : Opt α) Q := by
  constructor
  intro st b st1 hb
  simp only [opt_pure_apply, Except.ok.injEq, Prod.mk.injEq] at hb
  obtain ⟨rfl, -⟩ := hb
  exact h

theorem post_fail {α : Type} {Q : α → Prop} (e : Fault) : Post (Opt.fail e : Opt α) Q := by
  constructor
  intro st b st1 hb
  simp at hb

theorem post_bind {α β : Type} {x : Opt α} {f : α → Opt β} {P : α → Prop} {Q : β → Prop}
    (hx : Post x P) (hf : ∀ a, P a → Post (f a) Q) : Post (x >>= f) Q := by
  constructor
  intro st b st2 hb
  obtain ⟨a, st1, h1, h2⟩ := opt_bind_ok_iff.mp hb
  exact (hf a (hx.holds st a st1 h1)).holds st1 b st2 h2

theorem post_ite {α : Type} {c : Prop} [Decidable c] {x y : Opt α} {Q : α → Prop}
    (hx : c → Post x Q) (hy : ¬ c → Post y Q) : Post (if c then x else y) Q := by
  by_cases h : c
  · rw [if_pos h]; exact hx h
  · rw [if_neg h]; exact hy h

theorem post_true {α : Type} (x : Opt α) : Post x (fun _ => True) :=
  ⟨fun _ _ _ _ => trivial⟩

theorem post_map {α β : Type} {x : Opt α} {g : α → β} {Q : β → Prop}
    (hx : Post x (fun a => Q (g a))) : Post (g <$> x) Q := by
  constructor
  intro st b st1 hb
  rw [opt_map_apply] at hb
  cases hx1 : x st with
  | error e => rw [hx1] at hb; simp at hb
  | ok p =>
    obtain ⟨a, s⟩ := p
    rw [hx1] at hb
    simp only [Except.ok.injEq, Prod.mk.injEq] at hb
    obtain ⟨rfl, rfl⟩ := hb
    exact hx.holds st a _ hx1

theorem post_childAt (node : ParseTreeNode) (i : Nat) :
    Post (childAt node i) (fun c => node.children.get? i = some c) := by
  constructor
  intro st a st1 ha
  unfold childAt at ha
  cases hc : node.children.get? i with
  | none =>
    rw [hc] at ha
    simp at ha
  | some c =>
    rw [hc] at ha
    simp only [opt_pure_apply, Except.ok.injEq, Prod.mk.injEq] at ha
    obtain ⟨rfl, -⟩ := ha
    rfl

theorem post_rhsAt (node : ParseTreeNode) (i : Nat) :
    Post (rhsAt node i) (fun s => node.prodRuleRHS.get? i = some s) := by
  constructor
  intro st a st1 ha
  unfold rhsAt at ha
  cases hc : node.prodRuleRHS.get? i with
  | none =>
    rw [hc] at ha
    simp at ha
  | some c =>
    rw [hc] at ha
    simp only [opt_pure_apply, Except.ok.injEq, Prod.mk.injEq] at ha
    obtain ⟨rfl, -⟩ := ha
    rfl

/-! ### Updates of a node -/

theorem setChildren_eq_iff (node : ParseTreeNode) (cs : List ParseTreeNode) :
    node.setChildren cs = node ↔ cs = node.children := by
  cases node
  simp [ParseTreeNode.setChildren, ParseTreeNode.children]

theorem setRHS_setChildren_rhs (node node1 : ParseTreeNode) (rhs : List String)
    (cs : List ParseTreeNode) (h : (node1.setRHS rhs).setChildren cs = node) :
    node.prodRuleRHS = rhs := by
  cases node1
  subst h
  rfl

theorem setRHS_rhs (node node1 : ParseTreeNode) (rhs : List String)
    (h : node1.setRHS rhs = node) : node.prodRuleRHS = rhs := by
  cases node1
  subst h
  rfl

theorem set_eq_iff {α : Type} (l : List α) (i : Nat) (a c : α) (hi : l.get? i = some c) :
    l.set i a = l ↔ a = c := by
  have hlt : i < l.length := by
    rcases Nat.lt_or_ge i l.length with h | h
    · exact h
    · rw [List.get?_eq_none.mpr h] at hi
      cases hi
  have hi1 : l[i]? = some c := by simpa using hi
  constructor
  · intro h
    have h1 := congrArg (fun m => m[i]?) h
    simp only [List.getElem?_set, hlt, if_true] at h1
    rw [hi1] at h1
    exact Option.some.inj h1
  · rintro rfl
    apply List.ext_getElem?
    intro j
    by_cases hj : i = j
    · subst hj
      simp [List.getElem?_set, hlt, hi1]
    · simp [List.getElem?_set_ne hj]

theorem set_set_eq_iff {α : Type} (l : List α) (i j : Nat) (a b c d : α) (hij : i ≠ j)
    (hi : l.get? i = some c) (hj : l.get? j = some d) :
    (l.set i a).set j b = l ↔ a = c ∧ b = d := by
  have hj1 : (l.set i a).get? j = some d := by
    simpa [List.getElem?_set_ne hij] using hj
  constructor
  · intro h
    have h1 := congrArg (fun m => m.get? i) h
    have hlt : i < l.length := by
      rcases Nat.lt_or_ge i l.length with h2 | h2
      · exact h2
      · rw [List.get?_eq_none.mpr h2] at hi
        cases hi
    simp only [List.get?_eq_getElem?, List.getElem?_set_ne (Ne.symm hij), List.getElem?_set,
      hlt, if_true] at h1
    have hi1 : l[i]? = some c := by simpa using hi
    rw [hi1] at h1
    have hac : a = c := Option.some.inj h1
    subst hac
    rw [(set_eq_iff l i a a hi).mpr rfl] at h
    exact ⟨rfl, (set_eq_iff l j b d hj).mp h⟩
  · rintro ⟨rfl, rfl⟩
    rw [(set_eq_iff l i a a hi).mpr rfl, (set_eq_iff l j b b hj).mpr rfl]

theorem setChild_eq_iff (node : ParseTreeNode) (i : Nat) (a c : ParseTreeNode)
    (hi : node.children.get? i = some c) : node.setChild i a = node ↔ a = c := by
  rw [ParseTreeNode.setChild, setChildren_eq_iff, set_eq_iff _ _ _ _ hi]

theorem setChildren_children (node : ParseTreeNode) (cs : List ParseTreeNode) :
    (node.setChildren cs).children = cs := by
  cases node
  rfl

theorem setChildren_setChildren (node : ParseTreeNode) (cs cs1 : List ParseTreeNode) :
    (node.setChildren cs).setChildren cs1 = node.setChildren cs1 := by
  cases node
  rfl

theorem setChild_setChild_eq_iff (node : ParseTreeNode) (i j : Nat) (a b c d : ParseTreeNode)
    (hij : i ≠ j) (hi : node.children.get? i = some c) (hj : node.children.get? j = some d) :
    (node.setChild i a).setChild j b = node ↔ a = c ∧ b = d := by
  rw [ParseTreeNode.setChild, ParseTreeNode.setChild, setChildren_children,
    setChildren_setChildren, setChildren_eq_iff, set_set_eq_iff _ _ _ _ _ _ _ hij hi hj]

theorem setChild_three_eq_iff (node : ParseTreeNode) (i j k : Nat)
    (a b e c d f : ParseTreeNode) (hij : i ≠ j) (hik : i ≠ k) (hjk : j ≠ k)
    (hi : node.children.get? i = some c) (hj : node.children.get? j = some d)
    (hk : node.children.get? k = some f) :
    ((node.setChild i a).setChild j b).setChild k e = node ↔ a = c ∧ b = d ∧ e = f := by
  simp only [ParseTreeNode.setChild, setChildren_children, setChildren_setChildren,
    setChildren_eq_iff]
  have hi1 : node.children[i]? = some c := by simpa using hi
  have hj1 : node.children[j]? = some d := by simpa using hj
  have hk1 : node.children[k]? = some f := by simpa using hk
  have hk2 : ((node.children.set i a).set j b).get? k = some f := by
    simpa [List.getElem?_set_ne hik, List.getElem?_set_ne hjk] using hk
  have hij2 : (node.children.set i a).set j b = node.children ↔ a = c ∧ b = d :=
    set_set_eq_iff _ _ _ _ _ _ _ hij hi hj
  constructor
  · intro h
    have hlt : i < node.children.length := by
      rcases Nat.lt_or_ge i node.children.length with h2 | h2
      · exact h2
      · rw [List.get?_eq_none.mpr h2] at hi
        cases hi
    have hltj : j < node.children.length := by
      rcases Nat.lt_or_ge j node.children.length with h2 | h2
      · exact h2
      · rw [List.get?_eq_none.mpr h2] at hj
        cases hj
    have h1 := congrArg (fun m => m[i]?) h
    simp only [List.getElem?_set_ne (Ne.symm hik), List.getElem?_set_ne (Ne.symm hij),
      List.getElem?_set, hlt, if_true, hi1] at h1
    have h2 := congrArg (fun m => m[j]?) h
    simp only [List.getElem?_set_ne (Ne.symm hjk), List.getElem?_set, List.length_set, hltj,
      if_true, hj1] at h2
    have hac : a = c := Option.some.inj h1
    have hbd : b = d := Option.some.inj h2
    subst hac hbd
    rw [hij2.mpr ⟨rfl, rfl⟩] at h
    exact ⟨rfl, rfl, (set_eq_iff _ k e f hk).mp h⟩
  · rintro ⟨rfl, rfl, rfl⟩
    rw [hij2.mpr ⟨rfl, rfl⟩, (set_eq_iff _ k e e hk).mpr rfl]

end wlp4gen

namespace wlp4gen

/-! ### The flag tells whether the tree changed -/

theorem foldTerm_flagged (rec : Rec) (node : ParseTreeNode)
    (operation : Int → Int → Except Fault Int) (hrec : RecFlagged rec node.children)
    (hrhs : node.prodRuleRHS.length = 3) : Post (foldTerm rec node operation) (Unchanged node) := by
  unfold foldTerm
  refine post_bind (hrec 0) (fun r0 h0 => ?_)
  obtain ⟨left, term⟩ := r0
  obtain ⟨c0, hc0, hu0⟩ := h0
  refine post_bind (hrec 2) (fun r2 h2 => ?_)
  obtain ⟨right, factor⟩ := r2
  obtain ⟨c2, hc2, hu2⟩ := h2
  simp only []
  refine post_bind (post_true _) (fun termFactor _ => ?_)
  refine post_bind (post_true _) (fun termRule _ => ?_)
  refine post_bind (post_true _) (fun both _ => ?_)
  refine post_ite (fun _ => ?_) (fun _ => post_pure _ ?_)
  · repeat (refine post_bind (post_true _) (fun _ _ => ?_))
    refine post_pure _ ?_
    simp only [Unchanged, Bool.true_eq_false, false_iff]
    intro h
    have h1 := setRHS_setChildren_rhs _ _ _ _ h
    rw [h1] at hrhs
    simp at hrhs
  · simp only [Unchanged] at hu0 hu2 ⊢
    rw [setChild_setChild_eq_iff node 0 2 term factor c0 c2 (by decide) hc0 hc2, ← hu0, ← hu2]
    simp

theorem foldExpr_flagged (rec : Rec) (node : ParseTreeNode)
    (operation : Int → Int → Except Fault Int) (hrec : RecFlagged rec node.children)
    (hrhs : node.prodRuleRHS.length = 3) : Post (foldExpr rec node operation) (Unchanged node) := by
  unfold foldExpr
  refine post_bind (hrec 0) (fun r0 h0 => ?_)
  obtain ⟨left, expr⟩ := r0
  obtain ⟨c0, hc0, hu0⟩ := h0
  refine post_bind (hrec 2) (fun r2 h2 => ?_)
  obtain ⟨right, term⟩ := r2
  obtain ⟨c2, hc2, hu2⟩ := h2
  simp only []
  refine post_bind (post_true _) (fun exprTerm _ => ?_)
  refine post_bind (post_true _) (fun exprFactor _ => ?_)
  refine post_bind (post_true _) (fun exprRule _ => ?_)
  refine post_bind (post_true _) (fun both _ => ?_)
  refine post_ite (fun _ => ?_) (fun _ => post_pure _ ?_)
  · repeat (refine post_bind (post_true _) (fun _ _ => ?_))
    refine post_pure _ ?_
    simp only [Unchanged, Bool.true_eq_false, false_iff]
    intro h
    have h1 := setRHS_setChildren_rhs _ _ _ _ h
    rw [h1] at hrhs
    simp at hrhs
  · simp only [Unchanged] at hu0 hu2 ⊢
    rw [setChild_setChild_eq_iff node 0 2 expr term c0 c2 (by decide) hc0 hc2, ← hu0, ← hu2]
    simp

theorem constantFolding_flagged (rec : Rec) (node : ParseTreeNode)
    (hrec : RecFlagged rec node.children) :
    Post (constantFolding rec node) (fun o => ∀ r, o = some r → Unchanged node r) := by
  have hsome : ∀ x : Opt (Bool × ParseTreeNode), Post x (Unchanged node) →
      Post (some <$> x) (fun o => ∀ r, o = some r → Unchanged node r) := by
    intro x hx
    refine post_map ⟨fun st a st1 ha r hr => ?_⟩
    cases hr
    exact hx.holds st a st1 ha
  have hnone : Post (pure none : Opt (Option (Bool × ParseTreeNode)))
      (fun o => ∀ r, o = some r → Unchanged node r) :=
    post_pure _ (fun r hr => by cases hr)
  unfold constantFolding
  simp only []
  refine post_ite (fun _ => ?_) (fun _ => post_ite (fun _ => ?_) (fun _ => hnone))
  · refine post_ite (fun h => hsome _ (foldTerm_flagged rec node _ hrec h.1)) (fun _ => ?_)
    refine post_ite (fun h => hsome _ (foldTerm_flagged rec node _ hrec h.1)) (fun _ => ?_)
    exact post_ite (fun h => hsome _ (foldTerm_flagged rec node _ hrec h.1)) (fun _ => hnone)
  · refine post_ite (fun h => hsome _ (foldExpr_flagged rec node _ hrec h.1)) (fun _ => ?_)
    exact post_ite (fun h => hsome _ (foldExpr_flagged rec node _ hrec h.1)) (fun _ => hnone)

theorem optimizeMain_flagged (rec : Rec) (node : ParseTreeNode)
    (hrec : RecFlagged rec node.children) : Post (optimizeMain rec node) (Unchanged node) := by
  unfold optimizeMain
  refine post_bind (post_true _) (fun _ _ => ?_)
  refine post_bind (post_true _) (fun _ _ => ?_)
  refine post_bind (hrec 9) (fun r0 h0 => ?_)
  obtain ⟨left, statements⟩ := r0
  obtain ⟨c0, hc0, hu0⟩ := h0
  refine post_bind (hrec 11) (fun r2 h2 => ?_)
  obtain ⟨right, expr⟩ := r2
  obtain ⟨c2, hc2, hu2⟩ := h2
  simp only []
  refine post_bind (post_true _) (fun _ _ => post_pure _ ?_)
  simp only [Unchanged] at hu0 hu2 ⊢
  rw [setChild_setChild_eq_iff node 9 11 statements expr c0 c2 (by decide) hc0 hc2, ← hu0, ← hu2]
  simp

theorem optimizeProcedure_flagged (rec : Rec) (node : ParseTreeNode)
    (hrec : RecFlagged rec node.children) :
    Post (optimizeProcedure rec node) (Unchanged node) := by
  unfold optimizeProcedure
  refine post_bind (post_true _) (fun _ _ => ?_)
  refine post_bind (post_true _) (fun _ _ => ?_)
  refine post_bind (hrec 7) (fun r0 h0 => ?_)
  obtain ⟨left, statements⟩ := r0
  obtain ⟨c0, hc0, hu0⟩ := h0
  refine post_bind (hrec 9) (fun r2 h2 => ?_)
  obtain ⟨right, expr⟩ := r2
  obtain ⟨c2, hc2, hu2⟩ := h2
  simp only []
  refine post_bind (post_true _) (fun _ _ => post_pure _ ?_)
  simp only [Unchanged] at hu0 hu2 ⊢
  rw [setChild_setChild_eq_iff node 7 9 statements expr c0 c2 (by decide) hc0 hc2, ← hu0, ← hu2]
  simp

theorem optimizeAssignment_flagged (rec : Rec) (node : ParseTreeNode)
    (hrec : RecFlagged rec node.children) :
    Post (optimizeAssignment rec node) (Unchanged node) := by
  unfold optimizeAssignment
  refine post_bind (hrec 2) (fun r0 h0 => ?_)
  obtain ⟨didOptimize, expr⟩ := r0
  obtain ⟨c0, hc0, hu0⟩ := h0
  simp only []
  have hq : Unchanged node (didOptimize, node.setChild 2 expr) := by
    simp only [Unchanged] at hu0 ⊢
    rw [setChild_eq_iff node 2 expr c0 hc0, ← hu0]
  refine post_bind (post_true _) (fun _ _ => ?_)
  refine post_bind (post_true _) (fun _ _ => ?_)
  refine post_bind (post_true _) (fun _ _ => ?_)
  refine post_ite (fun _ => ?_) (fun _ => ?_)
  · exact post_bind (post_true _) (fun _ _ => post_bind (post_true _) (fun _ _ => post_pure _ hq))
  · refine post_bind (post_true _) (fun _ _ => ?_)
    refine post_ite (fun _ => ?_) (fun _ => post_pure _ hq)
    refine post_bind (post_true _) (fun _ _ => ?_)
    refine post_bind (post_true _) (fun _ _ => ?_)
    refine post_bind (post_true _) (fun _ _ => ?_)
    refine post_ite (fun _ => ?_) (fun _ => ?_)
    · exact post_bind (post_true _) (fun _ _ =>
        post_bind (post_true _) (fun _ _ => post_pure _ hq))
    · exact post_bind (post_true _) (fun _ _ => post_bind (post_true _) (fun _ _ =>
        post_bind (post_true _) (fun _ _ => post_pure _ hq)))

theorem optimizeWhile_flagged (rec : Rec) (node : ParseTreeNode)
    (hrec : RecFlagged rec node.children) : Post (optimizeWhile rec node) (Unchanged node) := by
  unfold optimizeWhile
  refine post_bind (post_true _) (fun _ _ => ?_)
  refine post_bind (hrec 2) (fun r0 h0 => ?_)
  obtain ⟨first, test⟩ := r0
  obtain ⟨c0, hc0, hu0⟩ := h0
  refine post_bind (hrec 5) (fun r2 h2 => ?_)
  obtain ⟨second, statements⟩ := r2
  obtain ⟨c2, hc2, hu2⟩ := h2
  simp only []
  refine post_bind (post_true _) (fun _ _ => post_pure _ ?_)
  simp only [Unchanged] at hu0 hu2 ⊢
  rw [setChild_setChild_eq_iff node 2 5 test statements c0 c2 (by decide) hc0 hc2, ← hu0, ← hu2]
  simp

theorem optimizeIf_flagged (rec : Rec) (node : ParseTreeNode)
    (hrec : RecFlagged rec node.children) : Post (optimizeIf rec node) (Unchanged node) := by
  unfold optimizeIf
  refine post_bind (post_true _) (fun _ _ => ?_)
  refine post_bind (hrec 2) (fun r0 h0 => ?_)
  obtain ⟨first, test⟩ := r0
  obtain ⟨c0, hc0, hu0⟩ := h0
  refine post_bind (hrec 5) (fun r2 h2 => ?_)
  obtain ⟨second, thenPart⟩ := r2
  obtain ⟨c2, hc2, hu2⟩ := h2
  refine post_bind (hrec 9) (fun r3 h3 => ?_)
  obtain ⟨third, elsePart⟩ := r3
  obtain ⟨c3, hc3, hu3⟩ := h3
  simp only []
  refine post_bind (post_true _) (fun _ _ => post_pure _ ?_)
  simp only [Unchanged] at hu0 hu2 hu3 ⊢
  rw [setChild_three_eq_iff node 2 5 9 test thenPart elsePart c0 c2 c3 (by decide) (by decide)
    (by decide) hc0 hc2 hc3, ← hu0, ← hu2, ← hu3]
  simp [and_assoc]

theorem optimizeUse_flagged (node : ParseTreeNode)
    (hrhs : node.prodRuleRHS.get? 0 = some "ID") : Post (optimizeUse node) (Unchanged node) := by
  have hq : Unchanged node (false, node) := by simp [Unchanged]
  unfold optimizeUse
  refine post_bind (post_true _) (fun idNode _ => ?_)
  refine post_bind (post_true _) (fun level _ => ?_)
  refine post_ite (fun _ => ?_) (fun _ => post_pure _ hq)
  refine post_bind (post_true _) (fun entry _ => ?_)
  split
  · refine post_bind (post_true _) (fun _ _ => post_pure _ ?_)
    simp only [Unchanged, Bool.true_eq_false, false_iff]
    intro h
    have h1 := setRHS_rhs _ _ _ h
    rw [h1] at hrhs
    simp at hrhs
  · exact post_pure _ hq

theorem constantPropagation_flagged (rec : Rec) (loop : Loop) (node : ParseTreeNode)
    (hrec : RecFlagged rec node.children)
    (hloop : Post loop (fun r => r.1 = false ↔ r.2 = node.children)) :
    Post (constantPropagation rec loop node) (Unchanged node) := by
  unfold constantPropagation
  simp only []
  refine post_ite (fun _ => optimizeMain_flagged rec node hrec) (fun _ => ?_)
  refine post_ite (fun _ => optimizeProcedure_flagged rec node hrec) (fun _ => ?_)
  refine post_ite (fun _ => optimizeAssignment_flagged rec node hrec) (fun _ => ?_)
  refine post_bind (post_true _) (fun isWhile _ => ?_)
  refine post_ite (fun _ => optimizeWhile_flagged rec node hrec) (fun _ => ?_)
  refine post_bind (post_true _) (fun isIf _ => ?_)
  refine post_ite (fun _ => optimizeIf_flagged rec node hrec) (fun _ => ?_)
  refine post_ite (fun h => optimizeUse_flagged node h.2.2) (fun _ => ?_)
  refine post_bind hloop (fun r hr => ?_)
  obtain ⟨didOptimize, children⟩ := r
  simp only []
  refine post_pure _ ?_
  simp only [Unchanged] at hr ⊢
  rw [setChildren_eq_iff]
  exact hr

theorem optimizeBody_flagged (rec : Rec) (loop : Loop) (node : ParseTreeNode)
    (hrec : RecFlagged rec node.children)
    (hloop : Post loop (fun r => r.1 = false ↔ r.2 = node.children)) :
    Post (optimizeBody rec loop node) (Unchanged node) := by
  unfold optimizeBody
  refine post_bind (post_true _) (fun _ _ => ?_)
  refine post_bind (constantFolding_flagged rec node hrec) (fun folded hfolded => ?_)
  cases folded with
  | none => exact constantPropagation_flagged rec loop node hrec hloop
  | some r => exact post_pure _ (hfolded r rfl)

theorem optimizeLoop_flagged (cs : List ParseTreeNode)
    (ih : ∀ c ∈ cs, Post (optimizeTree c) (Unchanged c)) :
    ∀ rhs : List String, Post (optimizeLoop rhs cs) (fun r => r.1 = false ↔ r.2 = cs) := by
  induction cs with
  | nil =>
    intro rhs
    have h : optimizeLoop rhs [] = pure (false, []) := by
      cases rhs <;> simp [optimizeLoop]
    rw [h]
    refine post_pure _ ?_
    simp
  | cons c cs ihcs =>
    intro rhs
    cases rhs with
    | nil =>
      unfold optimizeLoop
      exact post_fail _
    | cons symbol symbols =>
      unfold optimizeLoop
      have hfirst : Post (if symbol ≠ ".EMPTY" ∧ startsUpper symbol = false then optimizeTree c
          else pure (false, c)) (Unchanged c) :=
        post_ite (fun _ => ih c (List.mem_cons_self _ _))
          (fun _ => post_pure _ (by simp [Unchanged]))
      refine post_bind hfirst (fun r1 h1 => ?_)
      obtain ⟨first, c1⟩ := r1
      refine post_bind (ihcs (fun d hd => ih d (List.mem_cons_of_mem _ hd)) symbols)
        (fun r2 h2 => ?_)
      obtain ⟨others, cs1⟩ := r2
      simp only []
      refine post_pure _ ?_
      simp only [Unchanged] at h1 h2 ⊢
      simp only [Bool.or_eq_false_iff, List.cons.injEq, h1, h2]

/-- The flag `optimizeTree` returns is `false` exactly when the tree it
returns is the tree it was given. -/
theorem optimizeTree_flagged (node : ParseTreeNode) :
    Post (optimizeTree node) (Unchanged node) := by
  induction node using gen_tree_induction with
  | step lhs rhs tok cs ty wt ih =>
    rw [optimizeTree_eq]
    refine optimizeBody_flagged _ _ _ ?_ ?_
    · intro i
      simp only [ParseTreeNode.children]
      rw [optimizeAt_eq]
      cases hc : cs.get? i with
      | none => exact post_fail _
      | some c =>
        refine ⟨fun st a st1 ha => ⟨c, rfl, ?_⟩⟩
        exact (ih c (List.get?_mem hc)).holds st a st1 ha
    · exact optimizeLoop_flagged cs ih rhs

end wlp4gen

namespace wlp4gen

/-! ### What a pass depends on -/

theorem same_pure {α : Type} (a : α) : Same (pure a : Opt α) := by
  constructor
  intro st st1 b s hagree h
  simp only [opt_pure_apply, Except.ok.injEq, Prod.mk.injEq] at h
  obtain ⟨rfl, rfl⟩ := h
  exact ⟨st1, rfl, hagree⟩

theorem same_fail {α : Type} (e : Fault) : Same (Opt.fail e : Opt α) := by
  constructor
  intro st st1 b s _ h
  simp at h

theorem same_bind {α β : Type} {x : Opt α} {f : α → Opt β} (hx : Same x)
    (hf : ∀ a, Same (f a)) : Same (x >>= f) := by
  constructor
  intro st st1 b s2 hagree h
  obtain ⟨a, s, h1, h2⟩ := opt_bind_ok_iff.mp h
  obtain ⟨s1, h3, hagree1⟩ := hx.same st st1 a s hagree h1
  obtain ⟨s3, h4, hagree2⟩ := (hf a).same s s1 b s2 hagree1 h2
  exact ⟨s3, by rw [opt_bind_of_ok h3, h4], hagree2⟩

theorem same_ite {α : Type} {c : Prop} [Decidable c] {x y : Opt α} (hx : Same x)
    (hy : Same y) : Same (if c then x else y) := by
  by_cases h : c
  · rw [if_pos h]; exact hx
  · rw [if_neg h]; exact hy

theorem same_map {α β : Type} {x : Opt α} (g : α → β) (hx : Same x) : Same (g <$> x) :=
  same_bind hx (fun a => same_pure (g a))

theorem same_lift {α : Type} (r : Except Fault α) : Same (Opt.lift r) := by
  cases r with
  | error e => exact same_fail e
  | ok a => exact same_pure a

theorem same_childAt (node : ParseTreeNode) (i : Nat) : Same (childAt node i) := by
  unfold childAt
  split
  · exact same_pure _
  · exact same_fail _

theorem same_rhsAt (node : ParseTreeNode) (i : Nat) : Same (rhsAt node i) := by
  unfold rhsAt
  split
  · exact same_pure _
  · exact same_fail _

theorem same_update {α : Type} (a : OptState → α) (g : OptState → OptState)
    (ha : ∀ st st1, Agree st st1 → a st = a st1)
    (hg : ∀ st st1, Agree st st1 → Agree (g st) (g st1)) :
    Same (fun st => .ok (a st, g st) : Opt α) := by
  constructor
  intro st st1 b s hagree h
  simp only [Except.ok.injEq, Prod.mk.injEq] at h
  obtain ⟨rfl, rfl⟩ := h
  exact ⟨g st1, by rw [ha st st1 hagree], hg st st1 hagree⟩

theorem same_nestLevel : Same nestLevel :=
  same_update _ _ (fun _ _ h => h.2) (fun _ _ h => h)

theorem same_addNestLevel (d : Int) : Same (addNestLevel d) :=
  same_update _ _ (fun _ _ _ => rfl) (fun st st1 h => ⟨h.1, by simp [h.2]⟩)

theorem same_findVar (name : String) : Same (findVar name) :=
  same_update _ _ (fun st st1 h => by simp [h.1]) (fun _ _ h => h)

theorem same_setVar (name value type : String) (dirty : Bool) :
    Same (setVar name value type dirty) :=
  same_update _ _ (fun _ _ _ => rfl) (fun st st1 h => ⟨by simp [h.1], h.2⟩)

theorem same_markDirty (name : String) : Same (markDirty name) :=
  same_update _ _ (fun _ _ _ => rfl) (fun st st1 h => ⟨by simp [h.1], h.2⟩)

theorem same_clearVarTable : Same clearVarTable :=
  same_update _ _ (fun _ _ _ => rfl) (fun _ _ h => ⟨rfl, h.2⟩)

theorem same_print (line : String) : Same (print line) :=
  same_update _ _ (fun _ _ _ => rfl) (fun _ _ h => h)

theorem same_recordWainParams (node : ParseTreeNode) : Same (recordWainParams node) := by
  unfold recordWainParams
  refine same_bind (same_childAt _ _) (fun _ => same_bind (same_childAt _ _) (fun _ =>
    same_bind (same_childAt _ _) (fun _ => same_bind (same_childAt _ _) (fun _ => ?_))))
  exact same_update _ _ (fun _ _ _ => rfl) (fun _ _ h => h)

theorem same_addDclsToVarTable (node : ParseTreeNode) : Same (addDclsToVarTable node) := by
  induction node using gen_tree_induction with
  | step lhs rhs tok cs ty wt ih =>
    unfold addDclsToVarTable
    refine same_ite (same_pure _) ?_
    refine same_bind (same_rhsAt _ _) (fun _ => same_bind ?_ (fun _ => ?_))
    · refine same_ite ?_ (same_ite ?_ (same_pure _))
      · exact same_bind (same_childAt _ _) (fun _ => same_bind (same_childAt _ _) (fun _ =>
          same_bind (same_childAt _ _) (fun _ => same_setVar _ _ _ _)))
      · exact same_bind (same_childAt _ _) (fun _ => same_bind (same_childAt _ _) (fun _ =>
          same_bind (same_childAt _ _) (fun _ => same_setVar _ _ _ _)))
    · cases cs with
      | nil =>
        unfold addDclsToFirst
        exact same_fail _
      | cons c rest =>
        unfold addDclsToFirst
        exact ih c (List.mem_cons_self _ _)

theorem optimizeBody_same (rec : Rec) (loop : Loop) (node : ParseTreeNode)
    (hrec : ∀ i, Same (rec i)) (hloop : Same loop) : Same (optimizeBody rec loop node) := by
  unfold optimizeBody constantFolding constantPropagation foldTerm foldExpr optimizeMain
    optimizeProcedure optimizeAssignment optimizeWhile optimizeIf optimizeUse
  simp only []
  repeat' first
    | exact same_pure _
    | exact same_fail _
    | exact hrec _
    | exact hloop
    | exact same_childAt _ _
    | exact same_rhsAt _ _
    | exact same_lift _
    | exact same_nestLevel
    | exact same_addNestLevel _
    | exact same_findVar _
    | exact same_setVar _ _ _ _
    | exact same_markDirty _
    | exact same_clearVarTable
    | exact same_print _
    | exact same_recordWainParams _
    | exact same_addDclsToVarTable _
    | refine same_map _ ?_
    | refine same_bind ?_ (fun _ => ?_)
    | refine same_ite ?_ ?_
    | split

theorem optimizeLoop_same (cs : List ParseTreeNode) (ih : ∀ c ∈ cs, Same (optimizeTree c)) :
    ∀ rhs : List String, Same (optimizeLoop rhs cs) := by
  induction cs with
  | nil =>
    intro rhs
    have h : optimizeLoop rhs [] = pure (false, []) := by
      cases rhs <;> simp [optimizeLoop]
    rw [h]
    exact same_pure _
  | cons c cs ihcs =>
    intro rhs
    cases rhs with
    | nil =>
      unfold optimizeLoop
      exact same_fail _
    | cons symbol symbols =>
      unfold optimizeLoop
      refine same_bind (same_ite (ih c (List.mem_cons_self _ _)) (same_pure _)) (fun r1 => ?_)
      refine same_bind (ihcs (fun d hd => ih d (List.mem_cons_of_mem _ hd)) symbols)
        (fun r2 => same_pure _)

/-- The flag and the tree `optimizeTree` returns depend on the `varTable` and
the `ifWhileNestLevel` it is started with, not on the other globals. -/
theorem optimizeTree_same (node : ParseTreeNode) : Same (optimizeTree node) := by
  induction node using gen_tree_induction with
  | step lhs rhs tok cs ty wt ih =>
    rw [optimizeTree_eq]
    refine optimizeBody_same _ _ _ ?_ ?_
    · intro i
      simp only [ParseTreeNode.children]
      rw [optimizeAt_eq]
      cases hc : cs.get? i with
      | none => exact same_fail _
      | some c => exact ih c (List.get?_mem hc)
    · exact optimizeLoop_same cs ih rhs

end wlp4gen

/-! ## Tree optimizer: the claims -/

namespace wlp4gen

theorem checked_of_range (value : Int) (h1 : INT_MIN ≤ value) (h2 : value ≤ INT_MAX) :
    checked value = .ok value := by
  simp [checked, h1, h2]

theorem stoi_range (s : String) (a : Int) (h : stoi s = .ok a) :
    INT_MIN ≤ a ∧ a ≤ INT_MAX := by
  unfold stoi at h
  cases hp : parseInteger s with
  | none =>
    rw [hp] at h
    cases h
  | some value =>
    rw [hp] at h
    by_cases hr : INT_MIN ≤ value ∧ value ≤ INT_MAX
    · simp only [hr, and_self, if_true, Except.ok.injEq] at h
      rw [← h]
      exact hr
    · simp only [hr, if_false] at h
      cases h

theorem tdiv_range (a b : Int) (ha : INT_MIN ≤ a ∧ a ≤ INT_MAX) (hb : b ≠ 0)
    (hx : ¬ (a = INT_MIN ∧ b = -1)) :
    INT_MIN ≤ Int.tdiv a b ∧ Int.tdiv a b ≤ INT_MAX := by
  have habs : (Int.tdiv a b).natAbs ≤ a.natAbs := by
    rw [Int.natAbs_tdiv]
    exact Nat.div_le_self _ _
  simp only [INT_MIN, INT_MAX] at ha hx ⊢
  by_cases hmin : a = -2147483648
  · subst hmin
    have hb1 : b ≠ -1 := fun e => hx ⟨rfl, e⟩
    have hb2 : 2 ≤ b.natAbs ∨ b = 1 := by omega
    rcases hb2 with h2 | h1
    · have h3 : (Int.tdiv (-2147483648) b).natAbs ≤ 2147483648 / 2 := by
        rw [Int.natAbs_tdiv]
        exact Nat.div_le_div_left h2 (by decide)
      omega
    · subst h1
      simp
  · omega

theorem divide_of_range (a b : Int) (ha : INT_MIN ≤ a ∧ a ≤ INT_MAX) (hb : b ≠ 0)
    (hx : ¬ (a = INT_MIN ∧ b = -1)) : divide a b = .ok (Int.tdiv a b) := by
  have h := tdiv_range a b ha hb hx
  simp [divide, hb, checked_of_range _ h.1 h.2]

theorem modulo_of_range (a b : Int) (ha : INT_MIN ≤ a ∧ a ≤ INT_MAX) (hb : b ≠ 0)
    (hx : ¬ (a = INT_MIN ∧ b = -1)) : modulo a b = .ok (Int.tmod a b) := by
  have h := tdiv_range a b ha hb hx
  simp [modulo, hb, checked_of_range _ h.1 h.2, Except.map]

theorem literalFactor_unchanged (node leaf : ParseTreeNode) (h : IsLiteralFactor node leaf)
    (st : OptState) : optimizeTree node st = .ok ((false, node), st) := by
  obtain ⟨lhs, rhs, tok, cs, ty, wt⟩ := node
  obtain ⟨h1, h2, h3⟩ := h
  simp only [ParseTreeNode.prodRuleLHS, ParseTreeNode.prodRuleRHS, ParseTreeNode.children]
    at h1 h2 h3
  subst h1 h2 h3
  have hu : startsUpper "NUM" = true := by decide
  rw [optimizeTree_eq]
  simp [optimizeBody, constantFolding, constantPropagation, optimizeLoop, hu,
    ParseTreeNode.prodRuleLHS, ParseTreeNode.prodRuleRHS, ParseTreeNode.children,
    opt_bind_apply, ParseTreeNode.setChildren]

theorem literalTerm_unchanged (node leaf : ParseTreeNode) (h : IsLiteralTerm node leaf)
    (st : OptState) : optimizeTree node st = .ok ((false, node), st) := by
  obtain ⟨lhs, rhs, tok, cs, ty, wt⟩ := node
  obtain ⟨h1, h2, factor, h3, hf⟩ := h
  simp only [ParseTreeNode.prodRuleLHS, ParseTreeNode.prodRuleRHS, ParseTreeNode.children]
    at h1 h2 h3
  subst h1 h2 h3
  have hu : startsUpper "factor" = false := by decide
  rw [optimizeTree_eq]
  simp [optimizeBody, constantFolding, constantPropagation, optimizeLoop, hu,
    ParseTreeNode.prodRuleLHS, ParseTreeNode.prodRuleRHS, ParseTreeNode.children,
    opt_bind_apply, ParseTreeNode.setChildren, literalFactor_unchanged factor leaf hf]

theorem literalExpr_unchanged (node leaf : ParseTreeNode) (h : IsLiteralExpr node leaf)
    (st : OptState) : optimizeTree node st = .ok ((false, node), st) := by
  obtain ⟨lhs, rhs, tok, cs, ty, wt⟩ := node
  obtain ⟨h1, h2, term, h3, ht⟩ := h
  simp only [ParseTreeNode.prodRuleLHS, ParseTreeNode.prodRuleRHS, ParseTreeNode.children]
    at h1 h2 h3
  subst h1 h2 h3
  have hu : startsUpper "term" = false := by decide
  rw [optimizeTree_eq]
  simp [optimizeBody, constantFolding, constantPropagation, optimizeLoop, hu,
    ParseTreeNode.prodRuleLHS, ParseTreeNode.prodRuleRHS, ParseTreeNode.children,
    opt_bind_apply, ParseTreeNode.setChildren, literalTerm_unchanged term leaf ht]

end wlp4gen

namespace wlp4gen

/-- The folding branch of a `term` whose operands are literals with values
`a` and `b`, when the operation is defined on them. -/
theorem foldTerm_literals (lhs operator : String) (tok : Token) (left sign right : ParseTreeNode)
    (ty : String) (wt : Bool) (leafA leafB : ParseTreeNode) (a b value : Int)
    (operation : Int → Int → Except Fault Int) (st : OptState)
    (hleft : IsLiteralTerm left leafA) (hright : IsLiteralFactor right leafB)
    (ha : stoi leafA.token.lexeme = .ok a) (hb : stoi leafB.token.lexeme = .ok b)
    (hop : operation a b = .ok value) :
    foldTerm (fun i => optimizeAt [left, sign, right] i)
        (.mk lhs ["term", operator, "factor"] tok [left, sign, right] ty wt) operation st
      = .ok ((true, .mk lhs ["factor"] tok [newFactorNum (to_string value)] ty wt), st) := by
  have h0 := literalTerm_unchanged left leafA hleft st
  have h2 := literalFactor_unchanged right leafB hright st
  obtain ⟨-, -, factor, hcs, -, hrule, hleaf⟩ := hleft
  obtain ⟨-, hrule2, hleaf2⟩ := hright
  simp [foldTerm, optimizeAt, opt_bind_of_ok h0, opt_bind_of_ok h2, childAt, rhsAt, hcs, hrule,
    hleaf, hrule2, hleaf2, opt_pure_bind, ha, hb, hop, Opt.lift, ParseTreeNode.setChild,
    ParseTreeNode.setChildren, ParseTreeNode.setRHS, children_mk, opt_bind_apply]

/-- The folding branch of an `expr` whose operands are literals with values
`a` and `b`, when the operation is defined on them. -/
theorem foldExpr_literals (lhs operator : String) (tok : Token) (left sign right : ParseTreeNode)
    (ty : String) (wt : Bool) (leafA leafB : ParseTreeNode) (a b value : Int)
    (operation : Int → Int → Except Fault Int) (st : OptState)
    (hleft : IsLiteralExpr left leafA) (hright : IsLiteralTerm right leafB)
    (ha : stoi leafA.token.lexeme = .ok a) (hb : stoi leafB.token.lexeme = .ok b)
    (hop : operation a b = .ok value) :
    foldExpr (fun i => optimizeAt [left, sign, right] i)
        (.mk lhs ["expr", operator, "term"] tok [left, sign, right] ty wt) operation st
      = .ok ((true, .mk lhs ["term"] tok
          [.internal "term" ["factor"] [newFactorNum (to_string value)] "int"] ty wt), st) := by
  have h0 := literalExpr_unchanged left leafA hleft st
  have h2 := literalTerm_unchanged right leafB hright st
  obtain ⟨-, -, term, hcs, -, -, factor, hcs1, -, hrule, hleaf⟩ := hleft
  obtain ⟨-, -, factor2, hcs2, -, hrule2, hleaf2⟩ := hright
  simp [foldExpr, optimizeAt, opt_bind_of_ok h0, opt_bind_of_ok h2, childAt, rhsAt, hcs, hcs1,
    hcs2, hrule, hleaf, hrule2, hleaf2, opt_pure_bind, ha, hb, hop, Opt.lift,
    ParseTreeNode.setChild, ParseTreeNode.setChildren, ParseTreeNode.setRHS,
    children_mk, opt_bind_apply]

/-- C19, as stated, fails: the operands of `65536 * 65536` are literals with
values 65536 and 65536, and `optimizeTree` does not return `true` with a literal
of lexeme 4294967296, the decimal text of the product: the `int`
multiplication overflows, which is undefined. -/
theorem constant_folding_counterexample :
    stoi "65536" = .ok 65536 ∧
    IsLiteralTerm (literalTerm "65536") (.terminal ⟨"NUM", "65536"⟩ "int") ∧
    IsLiteralFactor (literalFactor "65536") (.terminal ⟨"NUM", "65536"⟩ "int") ∧
    to_string (65536 * 65536) = "4294967296" ∧
    optimizeTree (termOfLiterals "65536" "STAR" "*" "65536") OptState.initial
      = .error (.undefined "signed integer overflow") :=
  ⟨rfl, ⟨rfl, rfl, _, rfl, rfl, rfl, rfl⟩, ⟨rfl, rfl, rfl⟩, by decide, rfl⟩

/-- C19 (amended).  Let the two operands of a node be literal subtrees whose
NUM lexemes `stoi` reads as `a` and `b`.  For a node `term -> term OP factor`
with OP one of STAR, SLASH, PCT, and for a node `expr -> expr OP term` with OP
one of PLUS, MINUS, `optimizeTree` returns `true` and rewrites the node into a
single-literal subtree (`term -> factor`, respectively `expr -> term`, over a
fresh `factor -> NUM`) whose lexeme is the decimal text of `a * b`, of the
quotient and of the remainder of the division truncated toward zero, of
`a + b` and of `a - b`, provided the `int` operation is defined: the product,
sum or difference lies in the range of `int`; for SLASH and PCT, `b` is not 0
and the operands are not the smallest `int` and -1. -/
theorem constant_folding (tok : Token) (left sign right : ParseTreeNode)
    (ty : String) (wt : Bool) (leafA leafB : ParseTreeNode) (a b : Int) (st : OptState)
    (ha : stoi leafA.token.lexeme = .ok a) (hb : stoi leafB.token.lexeme = .ok b) :
    (IsLiteralTerm left leafA → IsLiteralFactor right leafB →
      (INT_MIN ≤ a * b → a * b ≤ INT_MAX →
        optimizeTree (.mk "term" ["term", "STAR", "factor"] tok [left, sign, right] ty wt) st
          = .ok ((true, .mk "term" ["factor"] tok [newFactorNum (to_string (a * b))] ty wt),
              st)) ∧
      (b ≠ 0 → ¬ (a = INT_MIN ∧ b = -1) →
        optimizeTree (.mk "term" ["term", "SLASH", "factor"] tok [left, sign, right] ty wt) st
          = .ok ((true, .mk "term" ["factor"] tok [newFactorNum (to_string (Int.tdiv a b))]
              ty wt), st)) ∧
      (b ≠ 0 → ¬ (a = INT_MIN ∧ b = -1) →
        optimizeTree (.mk "term" ["term", "PCT", "factor"] tok [left, sign, right] ty wt) st
          = .ok ((true, .mk "term" ["factor"] tok [newFactorNum (to_string (Int.tmod a b))]
              ty wt), st))) ∧
    (IsLiteralExpr left leafA → IsLiteralTerm right leafB →
      (INT_MIN ≤ a + b → a + b ≤ INT_MAX →
        optimizeTree (.mk "expr" ["expr", "PLUS", "term"] tok [left, sign, right] ty wt) st
          = .ok ((true, .mk "expr" ["term"] tok
              [.internal "term" ["factor"] [newFactorNum (to_string (a + b))] "int"] ty wt),
              st)) ∧
      (INT_MIN ≤ a - b → a - b ≤ INT_MAX →
        optimizeTree (.mk "expr" ["expr", "MINUS", "term"] tok [left, sign, right] ty wt) st
          = .ok ((true, .mk "expr" ["term"] tok
              [.internal "term" ["factor"] [newFactorNum (to_string (a - b))] "int"] ty wt),
              st))) := by
  have hra := stoi_range _ _ ha
  refine ⟨fun hleft hright => ⟨fun h1 h2 => ?_, fun h1 h2 => ?_, fun h1 h2 => ?_⟩,
    fun hleft hright => ⟨fun h1 h2 => ?_, fun h1 h2 => ?_⟩⟩
  · rw [optimizeTree_eq]
    simp [optimizeBody, constantFolding, prodRuleLHS_mk, prodRuleRHS_mk,
      children_mk, opt_pure_bind, opt_bind_apply, opt_map_apply,
      foldTerm_literals "term" "STAR" tok left sign right ty wt leafA leafB a b (a * b) multiply
        st hleft hright ha hb (checked_of_range _ h1 h2)]
  · rw [optimizeTree_eq]
    simp [optimizeBody, constantFolding, prodRuleLHS_mk, prodRuleRHS_mk,
      children_mk, opt_pure_bind, opt_bind_apply, opt_map_apply,
      foldTerm_literals "term" "SLASH" tok left sign right ty wt leafA leafB a b (Int.tdiv a b)
        divide st hleft hright ha hb (divide_of_range a b hra h1 h2)]
  · rw [optimizeTree_eq]
    simp [optimizeBody, constantFolding, prodRuleLHS_mk, prodRuleRHS_mk,
      children_mk, opt_pure_bind, opt_bind_apply, opt_map_apply,
      foldTerm_literals "term" "PCT" tok left sign right ty wt leafA leafB a b (Int.tmod a b)
        modulo st hleft hright ha hb (modulo_of_range a b hra h1 h2)]
  · rw [optimizeTree_eq]
    simp [optimizeBody, constantFolding, prodRuleLHS_mk, prodRuleRHS_mk,
      children_mk, opt_pure_bind, opt_bind_apply, opt_map_apply,
      foldExpr_literals "expr" "PLUS" tok left sign right ty wt leafA leafB a b (a + b) plus
        st hleft hright ha hb (checked_of_range _ h1 h2)]
  · rw [optimizeTree_eq]
    simp [optimizeBody, constantFolding, prodRuleLHS_mk, prodRuleRHS_mk,
      children_mk, opt_pure_bind, opt_bind_apply, opt_map_apply,
      foldExpr_literals "expr" "MINUS" tok left sign right ty wt leafA leafB a b (a - b) minus
        st hleft hright ha hb (checked_of_range _ h1 h2)]

theorem constant_folding_witness :
    optimizeTree (termOfLiterals "3" "STAR" "*" "4") OptState.initial
      = .ok ((true, foldedTerm "12"), OptState.initial) ∧
    optimizeTree (termOfLiterals "7" "SLASH" "/" "2") OptState.initial
      = .ok ((true, foldedTerm "3"), OptState.initial) :=
  ⟨((constant_folding ⟨"", ""⟩ (literalTerm "3") (.terminal ⟨"STAR", "*"⟩ "")
      (literalFactor "4") "int" false (.terminal ⟨"NUM", "3"⟩ "int")
      (.terminal ⟨"NUM", "4"⟩ "int") 3 4 OptState.initial rfl rfl).1
      ⟨rfl, rfl, _, rfl, rfl, rfl, rfl⟩ ⟨rfl, rfl, rfl⟩).1 (by decide) (by decide),
   ((constant_folding ⟨"", ""⟩ (literalTerm "7") (.terminal ⟨"SLASH", "/"⟩ "")
      (literalFactor "2") "int" false (.terminal ⟨"NUM", "7"⟩ "int")
      (.terminal ⟨"NUM", "2"⟩ "int") 7 2 OptState.initial rfl rfl).1
      ⟨rfl, rfl, _, rfl, rfl, rfl, rfl⟩ ⟨rfl, rfl, rfl⟩).2.1 (by decide) (by decide)⟩

/-- C20. Optimization idempotence.  (1) Whenever `optimizeTree` returns, the
flag it returns is `false` if and only if the tree is as it was before the
call.  (2) Once a pass over a tree, started with an empty `varTable` and
`ifWhileNestLevel` 0, has returned `false`, every further pass over the tree
it left, started with an empty `varTable` and `ifWhileNestLevel` 0, returns
`false` and leaves the tree as it is. -/
theorem optimize_idempotent (root : ParseTreeNode) :
    (∀ st flag root1 st1, optimizeTree root st = .ok ((flag, root1), st1) →
      (flag = false ↔ root1 = root)) ∧
    (∀ st root1 st1, st.varTable = [] → st.ifWhileNestLevel = 0 →
      optimizeTree root st = .ok ((false, root1), st1) →
      root1 = root ∧
      ∀ st2, st2.varTable = [] → st2.ifWhileNestLevel = 0 →
        ∃ st3, optimizeTree root1 st2 = .ok ((false, root1), st3)) := by
  have hflag : ∀ st flag root1 st1, optimizeTree root st = .ok ((flag, root1), st1) →
      (flag = false ↔ root1 = root) :=
    fun st flag root1 st1 h => (optimizeTree_flagged root).holds st (flag, root1) st1 h
  refine ⟨hflag, ?_⟩
  intro st root1 st1 hv hl h
  have heq : root1 = root := (hflag st false root1 st1 h).mp rfl
  subst heq
  refine ⟨rfl, fun st2 hv2 hl2 => ?_⟩
  obtain ⟨s1, h1, -⟩ := (optimizeTree_same root1).same st st2 _ st1
    ⟨by rw [hv, hv2], by rw [hl, hl2]⟩ h
  exact ⟨s1, h1⟩

theorem optimize_idempotent_witness :
    optimizeTree variablePlusThree OptState.initial
      = .ok ((false, variablePlusThree), OptState.initial) ∧
    ∀ st2 : OptState, st2.varTable = [] → st2.ifWhileNestLevel = 0 →
      ∃ st3, optimizeTree variablePlusThree st2 = .ok ((false, variablePlusThree), st3) :=
  ⟨rfl, ((optimize_idempotent variablePlusThree).2 OptState.initial variablePlusThree
    OptState.initial rfl rfl rfl).2⟩

end wlp4gen

/-! ## Tree optimizer: invariants of a pass -/

namespace wlp4gen

theorem twin_alone {α : Type} {P Q : OptState → Prop} {x : Opt α}
    (h : Twin (Alone P) x (Alone Q)) (st : OptState) (a : α) (s : OptState) (hp : P st)
    (hx : x st = .ok (a, s)) : Q s := by
  obtain ⟨s1, -, hq, -⟩ := h.twin st st a s ⟨hp, rfl⟩ hx
  exact hq

theorem twin_pure {α : Type} {R : OptState → OptState → Prop} (a : α) :
    Twin R (pure a : Opt α) R := by
  constructor
  intro st st1 b s hr h
  simp only [opt_pure_apply, Except.ok.injEq, Prod.mk.injEq] at h
  obtain ⟨rfl, rfl⟩ := h
  exact ⟨st1, rfl, hr⟩

theorem twin_fail {α : Type} {R R1 : OptState → OptState → Prop} (e : Fault) :
    Twin R (Opt.fail e : Opt α) R1 := by
  constructor
  intro st st1 b s _ h
  simp at h

theorem twin_bind {α β : Type} {x : Opt α} {f : α → Opt β}
    {R M R2 : OptState → OptState → Prop}
    (hx : Twin R x M) (hf : ∀ a, Twin M (f a) R2) : Twin R (x >>= f) R2 := by
  constructor
  intro st st1 b s2 hr h
  obtain ⟨a, s, h1, h2⟩ := opt_bind_ok_iff.mp h
  obtain ⟨s1, h3, hr1⟩ := hx.twin st st1 a s hr h1
  obtain ⟨s3, h4, hr2⟩ := (hf a).twin s s1 b s2 hr1 h2
  exact ⟨s3, by rw [opt_bind_of_ok h3, h4], hr2⟩

theorem twin_ite {α : Type} {c : Prop} [Decidable c] {x y : Opt α}
    {R R1 : OptState → OptState → Prop}
    (hx : c → Twin R x R1) (hy : ¬ c → Twin R y R1) : Twin R (if c then x else y) R1 := by
  by_cases h : c
  · rw [if_pos h]; exact hx h
  · rw [if_neg h]; exact hy h

theorem twin_map {α β : Type} {x : Opt α} {R R1 : OptState → OptState → Prop} (g : α → β)
    (hx : Twin R x R1) : Twin R (g <$> x) R1 :=
  twin_bind hx (fun a => twin_pure (g a))

theorem twin_lift {α : Type} {R : OptState → OptState → Prop} (r : Except Fault α) :
    Twin R (Opt.lift r) R := by
  cases r with
  | error e => exact twin_fail e
  | ok a => exact twin_pure a

theorem twin_childAt {R : OptState → OptState → Prop} (node : ParseTreeNode) (i : Nat) :
    Twin R (childAt node i) R := by
  unfold childAt
  split
  · exact twin_pure _
  · exact twin_fail _

theorem twin_rhsAt {R : OptState → OptState → Prop} (node : ParseTreeNode) (i : Nat) :
    Twin R (rhsAt node i) R := by
  unfold rhsAt
  split
  · exact twin_pure _
  · exact twin_fail _

theorem twin_update {α : Type} {R R1 : OptState → OptState → Prop} (a : OptState → α)
    (g : OptState → OptState)
    (h : ∀ st st1, R st st1 → a st = a st1 ∧ R1 (g st) (g st1)) :
    Twin R (fun st => .ok (a st, g st) : Opt α) R1 := by
  constructor
  intro st st1 b s hr he
  simp only [Except.ok.injEq, Prod.mk.injEq] at he
  obtain ⟨rfl, rfl⟩ := he
  exact ⟨g st1, by rw [(h st st1 hr).1], (h st st1 hr).2⟩

/-- A computation that fails in every state satisfies every triple. -/
theorem twin_of_error {α : Type} {R R1 : OptState → OptState → Prop} {x : Opt α}
    (h : ∀ st, ∃ e, x st = .error e) : Twin R x R1 := by
  constructor
  intro st st1 a s _ hx
  obtain ⟨e, he⟩ := h st
  rw [he] at hx
  cases hx

/-- The body of `optimizeTree` keeps a relation that each of its branches
keeps. -/
theorem optimizeBody_twin (R : OptState → OptState → Prop) (rec : Rec) (loop : Loop)
    (node : ParseTreeNode)
    (hrecord : Twin R (recordWainParams node) R)
    (hfold : node.prodRuleLHS = "term" ∨ node.prodRuleLHS = "expr" → ∀ i, Twin R (rec i) R)
    (hmain : node.prodRuleLHS = "main" → Twin R (optimizeMain rec node) R)
    (hprocedure : node.prodRuleLHS = "procedure" → Twin R (optimizeProcedure rec node) R)
    (hassign : node.prodRuleLHS = "statement" ∧ node.prodRuleRHS.length = 4 →
      Twin R (optimizeAssignment rec node) R)
    (hwhile : node.prodRuleLHS ≠ "main" → node.prodRuleLHS ≠ "procedure" →
      ¬ (node.prodRuleLHS = "statement" ∧ node.prodRuleRHS.length = 4) →
      node.prodRuleLHS = "statement" → node.prodRuleRHS.get? 0 = some "WHILE" →
      Twin R (optimizeWhile rec node) R)
    (hif : node.prodRuleLHS ≠ "main" → node.prodRuleLHS ≠ "procedure" →
      ¬ (node.prodRuleLHS = "statement" ∧ node.prodRuleRHS.length = 4) →
      node.prodRuleLHS = "statement" → node.prodRuleRHS.get? 0 = some "IF" →
      Twin R (optimizeIf rec node) R)
    (huse : node.prodRuleLHS = "factor" → Twin R (optimizeUse node) R)
    (hloop : node.prodRuleLHS ≠ "main" → node.prodRuleLHS ≠ "procedure" →
      ¬ (node.prodRuleLHS = "statement" ∧ node.prodRuleRHS.length = 4) →
      ¬ (node.prodRuleLHS = "statement" ∧ (node.prodRuleRHS.get? 0 = some "WHILE" ∨
        node.prodRuleRHS.get? 0 = some "IF")) → Twin R loop R) :
    Twin R (optimizeBody rec loop node) R := by
  unfold optimizeBody
  refine twin_bind (M := R) (twin_ite (fun _ => hrecord) (fun _ => twin_pure _)) (fun _ => ?_)
  refine twin_bind (M := R) ?_ (fun folded => ?_)
  · unfold constantFolding foldTerm foldExpr
    simp only []
    refine twin_ite (fun h => ?_) (fun _ => twin_ite (fun h => ?_) (fun _ => twin_pure _))
    · have hrec := hfold (Or.inl h)
      repeat' first
        | exact twin_pure _
        | exact twin_fail _
        | exact hrec _
        | exact twin_childAt _ _
        | exact twin_rhsAt _ _
        | exact twin_lift _
        | refine twin_map _ ?_
        | refine twin_bind (M := R) ?_ (fun _ => ?_)
        | refine twin_ite (fun _ => ?_) (fun _ => ?_)
    · have hrec := hfold (Or.inr h)
      repeat' first
        | exact twin_pure _
        | exact twin_fail _
        | exact hrec _
        | exact twin_childAt _ _
        | exact twin_rhsAt _ _
        | exact twin_lift _
        | refine twin_map _ ?_
        | refine twin_bind (M := R) ?_ (fun _ => ?_)
        | refine twin_ite (fun _ => ?_) (fun _ => ?_)
  · cases folded with
    | some result => exact twin_pure _
    | none =>
      show Twin R (constantPropagation rec loop node) R
      unfold constantPropagation
      simp only []
      refine twin_ite hmain (fun h1 => twin_ite hprocedure (fun h2 => twin_ite hassign
        (fun h3 => ?_)))
      by_cases hs : node.prodRuleLHS = "statement"
      · simp only [hs, if_true]
        cases hr : node.prodRuleRHS.get? 0 with
        | none =>
          have hrhs : rhsAt node 0 = Opt.fail (.undefined "prodRuleRHS[i]") := by
            unfold rhsAt
            rw [hr]
          refine twin_of_error (fun st => ⟨.undefined "prodRuleRHS[i]", ?_⟩)
          simp [hrhs, opt_bind_apply]
        | some first =>
          have hrhs : rhsAt node 0 = pure first := by
            unfold rhsAt
            rw [hr]
          simp only [hrhs, opt_pure_bind]
          by_cases hw : first = "WHILE"
          · simp only [hw, decide_True, if_true]
            exact hwhile h1 h2 h3 hs (by rw [hr, hw])
          · simp only [hw, decide_False]
            by_cases hi : first = "IF"
            · simp only [hi, decide_True, if_true]
              exact hif h1 h2 h3 hs (by rw [hr, hi])
            · simp only [hi, decide_False]
              have hl := hloop h1 h2 h3 (by
                rintro ⟨-, h4 | h4⟩
                · rw [hr] at h4; exact hw (Option.some.inj h4)
                · rw [hr] at h4; exact hi (Option.some.inj h4))
              simp only [Bool.false_eq_true, if_false]
              exact twin_ite (fun h => absurd h.1 (by decide)) (fun _ =>
                twin_bind (M := R) hl (fun _ => twin_pure _))
      · have hl := hloop h1 h2 h3 (fun h => hs h.1)
        simp only [hs, if_false, opt_pure_bind, Bool.false_eq_true]
        exact twin_ite (fun h => huse h.1) (fun _ =>
          twin_bind (M := R) hl (fun _ => twin_pure _))

theorem optimizeLoop_twin (R : OptState → OptState → Prop) (cs : List ParseTreeNode)
    (ih : ∀ c ∈ cs, Twin R (optimizeTree c) R) :
    ∀ rhs : List String, Twin R (optimizeLoop rhs cs) R := by
  induction cs with
  | nil =>
    intro rhs
    have h : optimizeLoop rhs [] = pure (false, []) := by
      cases rhs <;> simp [optimizeLoop]
    rw [h]
    exact twin_pure _
  | cons c cs ihcs =>
    intro rhs
    cases rhs with
    | nil =>
      unfold optimizeLoop
      exact twin_fail _
    | cons symbol symbols =>
      unfold optimizeLoop
      refine twin_bind (M := R)
        (twin_ite (fun _ => ih c (List.mem_cons_self _ _)) (fun _ => twin_pure _)) (fun r1 => ?_)
      exact twin_bind (M := R) (ihcs (fun d hd => ih d (List.mem_cons_of_mem _ hd)) symbols)
        (fun r2 => twin_pure _)

theorem optimizeAt_twin (R : OptState → OptState → Prop) (cs : List ParseTreeNode)
    (ih : ∀ c ∈ cs, Twin R (optimizeTree c) R) (i : Nat) : Twin R (optimizeAt cs i) R := by
  rw [optimizeAt_eq]
  cases hc : cs.get? i with
  | none => exact twin_fail _
  | some c => exact ih c (List.get?_mem hc)

end wlp4gen

namespace wlp4gen

theorem twin_of_alone {α : Type} {P Q : OptState → Prop} {x : Opt α}
    (h : ∀ st a s, P st → x st = .ok (a, s) → Q s) : Twin (Alone P) x (Alone Q) := by
  constructor
  rintro st st1 a s ⟨hp, rfl⟩ hx
  exact ⟨s, hx, h _ a s hp hx, rfl⟩

theorem recordWainParams_twin (R : OptState → OptState → Prop) (node : ParseTreeNode)
    (h : ∀ st st1 a b, R st st1 →
      R { st with wainParam1Name := a, wainParam2Name := b }
        { st1 with wainParam1Name := a, wainParam2Name := b }) :
    Twin R (recordWainParams node) R := by
  unfold recordWainParams
  refine twin_bind (M := R) (twin_childAt _ _) (fun _ => twin_bind (M := R) (twin_childAt _ _)
    (fun _ => twin_bind (M := R) (twin_childAt _ _) (fun _ => twin_bind (M := R)
      (twin_childAt _ _) (fun _ => ?_))))
  exact twin_update _ _ (fun st st1 hr => ⟨rfl, h st st1 _ _ hr⟩)

theorem addDclsToVarTable_twin (R : OptState → OptState → Prop)
    (hset : ∀ name value type, Twin R (setVar name value type false) R)
    (node : ParseTreeNode) : Twin R (addDclsToVarTable node) R := by
  induction node using gen_tree_induction with
  | step lhs rhs tok cs ty wt ih =>
    unfold addDclsToVarTable
    refine twin_ite (fun _ => twin_pure _) (fun _ => ?_)
    refine twin_bind (M := R) (twin_rhsAt _ _) (fun _ => twin_bind (M := R) ?_ (fun _ => ?_))
    · refine twin_ite (fun _ => ?_) (fun _ => twin_ite (fun _ => ?_) (fun _ => twin_pure _))
      · exact twin_bind (M := R) (twin_childAt _ _) (fun _ => twin_bind (M := R)
          (twin_childAt _ _) (fun _ => twin_bind (M := R) (twin_childAt _ _)
            (fun _ => hset _ _ _)))
      · exact twin_bind (M := R) (twin_childAt _ _) (fun _ => twin_bind (M := R)
          (twin_childAt _ _) (fun _ => twin_bind (M := R) (twin_childAt _ _)
            (fun _ => hset _ _ _)))
    · cases cs with
      | nil =>
        unfold addDclsToFirst
        exact twin_fail _
      | cons c rest =>
        unfold addDclsToFirst
        exact ih c (List.mem_cons_self _ _)

theorem optimizeMain_twin (R : OptState → OptState → Prop) (rec : Rec) (node : ParseTreeNode)
    (hset : ∀ name value type, Twin R (setVar name value type false) R)
    (hclear : Twin R clearVarTable R) (hrec : ∀ i, Twin R (rec i) R) :
    Twin R (optimizeMain rec node) R := by
  unfold optimizeMain
  refine twin_bind (M := R) (twin_childAt _ _) (fun _ => twin_bind (M := R)
    (addDclsToVarTable_twin R hset _) (fun _ => twin_bind (M := R) (hrec _) (fun _ =>
      twin_bind (M := R) (hrec _) (fun _ => twin_bind (M := R) hclear
        (fun _ => twin_pure _)))))

theorem optimizeProcedure_twin (R : OptState → OptState → Prop) (rec : Rec)
    (node : ParseTreeNode)
    (hset : ∀ name value type, Twin R (setVar name value type false) R)
    (hclear : Twin R clearVarTable R) (hrec : ∀ i, Twin R (rec i) R) :
    Twin R (optimizeProcedure rec node) R := by
  unfold optimizeProcedure
  refine twin_bind (M := R) (twin_childAt _ _) (fun _ => twin_bind (M := R)
    (addDclsToVarTable_twin R hset _) (fun _ => twin_bind (M := R) (hrec _) (fun _ =>
      twin_bind (M := R) (hrec _) (fun _ => twin_bind (M := R) hclear
        (fun _ => twin_pure _)))))

theorem optimizeAssignment_twin (R : OptState → OptState → Prop) (rec : Rec)
    (node : ParseTreeNode)
    (hlevel : Twin R nestLevel R)
    (hset : ∀ name value type, Twin R (setVar name value type false) R)
    (hmark : ∀ name, Twin R (markDirty name) R) (hrec : ∀ i, Twin R (rec i) R) :
    Twin R (optimizeAssignment rec node) R := by
  unfold optimizeAssignment
  repeat' first
    | exact twin_pure _
    | exact twin_fail _
    | exact hrec _
    | exact hlevel
    | exact hset _ _ _
    | exact hmark _
    | exact twin_childAt _ _
    | exact twin_rhsAt _ _
    | refine twin_bind (M := R) ?_ (fun _ => ?_)
    | refine twin_ite (fun _ => ?_) (fun _ => ?_)

theorem optimizeUse_twin (R : OptState → OptState → Prop) (node : ParseTreeNode)
    (hlevel : Twin R nestLevel R) (hfind : ∀ name, Twin R (findVar name) R)
    (hprint : ∀ line, Twin R (print line) R) : Twin R (optimizeUse node) R := by
  unfold optimizeUse
  repeat' first
    | exact twin_pure _
    | exact twin_fail _
    | exact hlevel
    | exact hfind _
    | exact hprint _
    | exact twin_childAt _ _
    | refine twin_bind (M := R) ?_ (fun _ => ?_)
    | refine twin_ite (fun _ => ?_) (fun _ => ?_)
    | split

theorem optimizeWhile_twin (R R1 : OptState → OptState → Prop) (rec : Rec)
    (node : ParseTreeNode) (hup : Twin R (addNestLevel 1) R1)
    (hdown : Twin R1 (addNestLevel (-1)) R) (hrec : ∀ i, Twin R1 (rec i) R1) :
    Twin R (optimizeWhile rec node) R := by
  unfold optimizeWhile
  exact twin_bind hup (fun _ => twin_bind (hrec _) (fun _ => twin_bind (hrec _) (fun _ =>
    twin_bind hdown (fun _ => twin_pure _))))

theorem optimizeIf_twin (R R1 : OptState → OptState → Prop) (rec : Rec)
    (node : ParseTreeNode) (hup : Twin R (addNestLevel 1) R1)
    (hdown : Twin R1 (addNestLevel (-1)) R) (hrec : ∀ i, Twin R1 (rec i) R1) :
    Twin R (optimizeIf rec node) R := by
  unfold optimizeIf
  exact twin_bind hup (fun _ => twin_bind (hrec _) (fun _ => twin_bind (hrec _) (fun _ =>
    twin_bind (hrec _) (fun _ => twin_bind hdown (fun _ => twin_pure _)))))

end wlp4gen

namespace wlp4gen

theorem alone_update {α : Type} {P Q : OptState → Prop} (a : OptState → α)
    (g : OptState → OptState) (h : ∀ st, P st → Q (g st)) :
    Twin (Alone P) (fun st => .ok (a st, g st) : Opt α) (Alone Q) :=
  twin_update _ _ (fun st st1 hr => ⟨by rw [hr.2], by rw [hr.2]; exact ⟨h st hr.1, rfl⟩⟩)

/-- The nesting level is the same when `optimizeTree` returns as when it was
called. -/
theorem optimizeTree_level (node : ParseTreeNode) :
    ∀ l : Int, Twin (Alone (AtLevel l)) (optimizeTree node) (Alone (AtLevel l)) := by
  induction node using gen_tree_induction with
  | step lhs rhs tok cs ty wt ih =>
    intro l
    have hset : ∀ (k : Int) (name value type : String),
        Twin (Alone (AtLevel k)) (setVar name value type false) (Alone (AtLevel k)) :=
      fun k _ _ _ => alone_update _ _ (fun _ h => h)
    have hclear : ∀ k : Int, Twin (Alone (AtLevel k)) clearVarTable (Alone (AtLevel k)) :=
      fun k => alone_update _ _ (fun _ h => h)
    have hmark : ∀ (k : Int) (name : String),
        Twin (Alone (AtLevel k)) (markDirty name) (Alone (AtLevel k)) :=
      fun k _ => alone_update _ _ (fun _ h => h)
    have hlevel : ∀ k : Int, Twin (Alone (AtLevel k)) nestLevel (Alone (AtLevel k)) :=
      fun k => alone_update _ _ (fun _ h => h)
    have hup : ∀ (k d : Int),
        Twin (Alone (AtLevel k)) (addNestLevel d) (Alone (AtLevel (k + d))) :=
      fun k d => alone_update _ _ (fun st h => by
        show st.ifWhileNestLevel + d = k + d
        rw [show st.ifWhileNestLevel = k from h])
    have hrec : ∀ (k : Int) (i : Nat),
        Twin (Alone (AtLevel k)) (optimizeAt cs i) (Alone (AtLevel k)) :=
      fun k i => optimizeAt_twin _ cs (fun c hc => ih c hc k) i
    rw [optimizeTree_eq]
    refine optimizeBody_twin _ _ _ _ ?_ ?_ ?_ ?_ ?_ ?_ ?_ ?_ ?_
    · exact recordWainParams_twin _ _ (fun st st1 a b hr => ⟨hr.1, by rw [hr.2]⟩)
    · exact fun _ i => hrec l i
    · exact fun _ => optimizeMain_twin _ _ _ (hset l) (hclear l) (hrec l)
    · exact fun _ => optimizeProcedure_twin _ _ _ (hset l) (hclear l) (hrec l)
    · exact fun _ => optimizeAssignment_twin _ _ _ (hlevel l) (hset l) (hmark l) (hrec l)
    · refine fun _ _ _ _ _ => optimizeWhile_twin _ _ _ _ (hup l 1) ?_ (hrec (l + 1))
      have h := hup (l + 1) (-1)
      rwa [show l + 1 + -1 = l by omega] at h
    · refine fun _ _ _ _ _ => optimizeIf_twin _ _ _ _ (hup l 1) ?_ (hrec (l + 1))
      have h := hup (l + 1) (-1)
      rwa [show l + 1 + -1 = l by omega] at h
    · exact fun _ => optimizeUse_twin _ _ (hlevel l) (fun _ => alone_update _ _ (fun _ h => h))
        (fun _ => alone_update _ _ (fun _ h => h))
    · exact fun _ _ _ _ => optimizeLoop_twin _ cs (fun c hc => ih c hc l) rhs

/-- Inside an `if` or `while` statement, that is at a positive nesting level,
the flag and the tree that `optimizeTree` returns do not depend on the
`varTable`, and nothing is written to the output. -/
theorem optimizeTree_gated (node : ParseTreeNode) :
    ∀ (l : Int) (out out1 : List String), 0 < l →
      Twin (Gated l out out1) (optimizeTree node) (Gated l out out1) := by
  induction node using gen_tree_induction with
  | step lhs rhs tok cs ty wt ih =>
    intro l out out1 hl
    have htable : ∀ (k : Int) (g : OptState → VarTable),
        Twin (Gated k out out1) (fun st => .ok ((), { st with varTable := g st }) : Opt Unit)
          (Gated k out out1) :=
      fun k g => twin_update _ _ (fun st st1 hr => ⟨rfl, hr⟩)
    have hlevel : ∀ k : Int, Twin (Gated k out out1) nestLevel (Gated k out out1) :=
      fun k => twin_update _ _ (fun st st1 hr => ⟨by rw [hr.1, hr.2.1], hr⟩)
    have hup : ∀ (k d : Int),
        Twin (Gated k out out1) (addNestLevel d) (Gated (k + d) out out1) :=
      fun k d => twin_update _ _ (fun st st1 hr => ⟨rfl, by
        refine ⟨?_, ?_, hr.2.2.1, hr.2.2.2⟩
        · show st.ifWhileNestLevel + d = k + d
          rw [hr.1]
        · show st1.ifWhileNestLevel + d = k + d
          rw [hr.2.1]⟩)
    have hrec : ∀ (k : Int), 0 < k → ∀ i : Nat,
        Twin (Gated k out out1) (optimizeAt cs i) (Gated k out out1) :=
      fun k hk i => optimizeAt_twin _ cs (fun c hc => ih c hc k out out1 hk) i
    rw [optimizeTree_eq]
    refine optimizeBody_twin _ _ _ _ ?_ ?_ ?_ ?_ ?_ ?_ ?_ ?_ ?_
    · exact recordWainParams_twin _ _ (fun st st1 a b hr => hr)
    · exact fun _ i => hrec l hl i
    · exact fun _ => optimizeMain_twin _ _ _ (fun _ _ _ => htable l _) (htable l _) (hrec l hl)
    · exact fun _ =>
        optimizeProcedure_twin _ _ _ (fun _ _ _ => htable l _) (htable l _) (hrec l hl)
    · exact fun _ => optimizeAssignment_twin _ _ _ (hlevel l) (fun _ _ _ => htable l _)
        (fun _ => htable l _) (hrec l hl)
    · refine fun _ _ _ _ _ =>
        optimizeWhile_twin _ _ _ _ (hup l 1) ?_ (hrec (l + 1) (by omega))
      have h := hup (l + 1) (-1)
      rwa [show l + 1 + -1 = l by omega] at h
    · refine fun _ _ _ _ _ =>
        optimizeIf_twin _ _ _ _ (hup l 1) ?_ (hrec (l + 1) (by omega))
      have h := hup (l + 1) (-1)
      rwa [show l + 1 + -1 = l by omega] at h
    · intro _
      unfold optimizeUse
      refine twin_bind (M := Gated l out out1) (twin_childAt _ _) (fun idNode => ?_)
      constructor
      intro st st1 a s hr h
      have h0 : st.ifWhileNestLevel ≠ 0 := by rw [hr.1]; omega
      have h1 : st1.ifWhileNestLevel ≠ 0 := by rw [hr.2.1]; omega
      simp only [nestLevel, opt_bind_apply, h0, if_false, opt_pure_apply, Except.ok.injEq,
        Prod.mk.injEq] at h
      obtain ⟨rfl, rfl⟩ := h
      exact ⟨st1, by simp [nestLevel, opt_bind_apply, h1], hr⟩
    · exact fun _ _ _ _ => optimizeLoop_twin _ cs (fun c hc => ih c hc l out out1 hl) rhs

end wlp4gen

namespace wlp4gen

theorem find_insert_self {β : Type} (k : String) (v : β) :
    ∀ table : List (String × β), find k (insert k v table) = some v := by
  intro table
  induction table with
  | nil => simp [insert, find]
  | cons p rest ih =>
    obtain ⟨k1, v1⟩ := p
    by_cases h : k1 = k
    · simp [insert, find, h]
    · simp [insert, find, h, ih]

theorem find_insert_ne {β : Type} (k k1 : String) (v : β) (h : k1 ≠ k) :
    ∀ table : List (String × β), find k (insert k1 v table) = find k table := by
  intro table
  induction table with
  | nil => simp [insert, find, h]
  | cons p rest ih =>
    obtain ⟨k2, v2⟩ := p
    by_cases h2 : k2 = k1
    · subst h2
      simp [insert, find, h]
    · by_cases h3 : k2 = k
      · subst h3
        simp [insert, find, h2]
      · simp [insert, find, h2, h3, ih]

theorem markDirty_dirty (x : String) (l : Int) (name : String) :
    Twin (Alone (DirtyAt x l)) (markDirty name) (Alone (DirtyAt x l)) := by
  refine twin_of_alone (fun st a s hp hx => ?_)
  simp only [markDirty, Except.ok.injEq, Prod.mk.injEq] at hx
  obtain ⟨-, rfl⟩ := hx
  refine ⟨hp.1, ?_⟩
  by_cases hn : name = x
  · subst hn
    exact ⟨_, _, find_insert_self _ _ _⟩
  · obtain ⟨value, type, hf⟩ := hp.2
    exact ⟨value, type, by
      show find x (insert name _ st.varTable) = _
      rw [find_insert_ne _ _ _ hn]; exact hf⟩

theorem setVar_dirty (x : String) (l : Int) (name value type : String) (dirty : Bool)
    (hn : name ≠ x) :
    Twin (Alone (DirtyAt x l)) (setVar name value type dirty) (Alone (DirtyAt x l)) := by
  refine twin_of_alone (fun st a s hp hx => ?_)
  simp only [setVar, Except.ok.injEq, Prod.mk.injEq] at hx
  obtain ⟨-, rfl⟩ := hx
  obtain ⟨value1, type1, hf⟩ := hp.2
  exact ⟨hp.1, value1, type1, by
    show find x (insert name _ st.varTable) = _
    rw [find_insert_ne _ _ _ hn]; exact hf⟩

theorem reassigns_eq (x : String) (nested : Bool) (lhs : String) (rhs : List String)
    (tok : Token) (cs : List ParseTreeNode) (ty : String) (wt : Bool) :
    reassigns x nested (.mk lhs rhs tok cs ty wt) =
      (decide (lhs = "main") || decide (lhs = "procedure") ||
        (decide (lhs = "statement") && decide (rhs.length = 4) && !nested && targets x cs) ||
        reassignsAny x
          (nested || (decide (lhs = "statement") && decide (rhs.length ≠ 4) &&
            (decide (rhs.get? 0 = some "WHILE") || decide (rhs.get? 0 = some "IF")))) cs) := by
  simp [reassigns]

theorem reassignsAny_false (x : String) (nested : Bool) :
    ∀ cs : List ParseTreeNode, reassignsAny x nested cs = false →
      ∀ c ∈ cs, reassigns x nested c = false := by
  intro cs
  induction cs with
  | nil => intro _ c hc; cases hc
  | cons d rest ih =>
    intro h c hc
    simp only [reassignsAny, Bool.or_eq_false_iff] at h
    rcases List.mem_cons.mp hc with rfl | hmem
    · exact h.1
    · exact ih h.2 c hmem

/-- A step that reads the nesting level, in a state whose level is known. -/
theorem alone_nestLevel_bind {β : Type} {P : OptState → Prop} {R1 : OptState → OptState → Prop}
    (l : Int) (f : Int → Opt β) (hl : ∀ st, P st → st.ifWhileNestLevel = l)
    (h : Twin (Alone P) (f l) R1) : Twin (Alone P) (nestLevel >>= f) R1 := by
  constructor
  intro st st1 b s hr hx
  have hp := hr.1
  have he : st1 = st := hr.2
  have e : (nestLevel >>= f) st = f l st := by
    simp [nestLevel, opt_bind_apply, hl st hp]
  rw [e] at hx
  obtain ⟨s1, h1, h2⟩ := h.twin st st b s ⟨hp, rfl⟩ hx
  exact ⟨s1, by rw [he, e]; exact h1, h2⟩

/-- The assignment branch keeps a variable dirty unless the statement is an
assignment to it at level 0. -/
theorem optimizeAssignment_dirty (x : String) (l : Int) (rec : Rec) (node : ParseTreeNode)
    (hrec : ∀ i, Twin (Alone (DirtyAt x l)) (rec i) (Alone (DirtyAt x l)))
    (htarget : l = 0 → targets x node.children = false) :
    Twin (Alone (DirtyAt x l)) (optimizeAssignment rec node) (Alone (DirtyAt x l)) := by
  have hmark : ∀ name, Twin (Alone (DirtyAt x l)) (markDirty name) (Alone (DirtyAt x l)) :=
    markDirty_dirty x l
  unfold optimizeAssignment
  refine twin_bind (hrec 2) (fun r => ?_)
  obtain ⟨didOptimize, expr⟩ := r
  simp only []
  refine alone_nestLevel_bind l _ (fun _ h => h.1) ?_
  obtain ⟨lhs, rhs, tok, cs, ty, wt⟩ := node
  simp only [children_mk] at htarget
  cases cs with
  | nil =>
    refine twin_of_error (fun st => ⟨.undefined "children[i]", ?_⟩)
    simp [childAt, ParseTreeNode.setChild, ParseTreeNode.setChildren, children_mk,
      opt_bind_apply]
  | cons lvalue rest =>
    have hchild : childAt ((ParseTreeNode.mk lhs rhs tok (lvalue :: rest) ty wt).setChild 2 expr) 0
        = pure lvalue := by
      simp [childAt, ParseTreeNode.setChild, ParseTreeNode.setChildren, children_mk]
    simp only [hchild, opt_pure_bind]
    cases hr : lvalue.prodRuleRHS.get? 0 with
    | none =>
      have hrhs : rhsAt lvalue 0 = Opt.fail (.undefined "prodRuleRHS[i]") := by
        unfold rhsAt
        rw [hr]
      refine twin_of_error (fun st => ⟨.undefined "prodRuleRHS[i]", ?_⟩)
      by_cases hl : l = 0 <;> simp [hrhs, opt_bind_apply, hl]
    | some rule =>
      have hrhs : rhsAt lvalue 0 = pure rule := by
        unfold rhsAt
        rw [hr]
      simp only [hrhs, opt_pure_bind]
      by_cases hid : rule = "ID"
      · subst hid
        by_cases hl : l = 0
        · simp only [hl, ne_eq, not_true_eq_false, if_false, opt_pure_bind,
            Bool.false_eq_true, if_true]
          refine twin_bind (M := Alone (DirtyAt x l)) (by rw [hl]; exact twin_childAt _ _)
            (fun _ => twin_bind (M := Alone (DirtyAt x l)) (twin_childAt _ _)
              (fun _ => twin_bind (M := Alone (DirtyAt x l)) (twin_rhsAt _ _) (fun _ => ?_)))
          refine twin_ite (fun _ => ?_) (fun _ => ?_)
          · exact twin_bind (M := Alone (DirtyAt x l)) (twin_childAt _ _) (fun _ =>
              twin_bind (M := Alone (DirtyAt x l)) (hmark _) (fun _ => by
                rw [hl]; exact twin_pure _))
          · cases hc : lvalue.children with
            | nil =>
              refine twin_of_error (fun st => ⟨.undefined "children[i]", ?_⟩)
              simp [childAt, hc, opt_bind_apply]
            | cons idNode others =>
              have hchild0 : childAt lvalue 0 = pure idNode := by
                simp [childAt, hc]
              have hne : idNode.token.lexeme ≠ x := by
                have h := htarget hl
                simp only [targets, hr, hc, decide_True, Bool.true_and,
                  decide_eq_false_iff_not] at h
                exact h
              simp only [hchild0, opt_pure_bind]
              exact twin_bind (M := Alone (DirtyAt x l)) (twin_childAt _ _) (fun _ =>
                twin_bind (M := Alone (DirtyAt x l)) (setVar_dirty x l _ _ _ _ hne) (fun _ => by
                  rw [hl]; exact twin_pure _))
        · simp only [hl, ne_eq, not_false_eq_true, if_true, opt_pure_bind, decide_True]
          exact twin_bind (M := Alone (DirtyAt x l)) (twin_childAt _ _) (fun _ =>
            twin_bind (M := Alone (DirtyAt x l)) (hmark _) (fun _ => twin_pure _))
      · by_cases hl : l = 0
        · simp only [hl, ne_eq, not_true_eq_false, if_false, opt_pure_bind,
            Bool.false_eq_true, hid]
          rw [← hl]
          exact twin_pure _
        · simp only [hl, ne_eq, not_false_eq_true, if_true, opt_pure_bind, hid, decide_False,
            Bool.false_eq_true, if_false]
          exact twin_pure _

end wlp4gen

namespace wlp4gen

/-- A variable that is marked dirty stays so while `optimizeTree` works on a
subtree, entered at a level that is not negative, that has no `main` or
`procedure` node and no assignment to the variable outside every `if` and
`while`. -/
theorem optimizeTree_dirty (x : String) (node : ParseTreeNode) :
    ∀ l : Int, 0 ≤ l → reassigns x (decide (l ≠ 0)) node = false →
      Twin (Alone (DirtyAt x l)) (optimizeTree node) (Alone (DirtyAt x l)) := by
  induction node using gen_tree_induction with
  | step lhs rhs tok cs ty wt ih =>
    intro l hl hnode
    rw [reassigns_eq] at hnode
    simp only [Bool.or_eq_false_iff, decide_eq_false_iff_not] at hnode
    obtain ⟨⟨⟨hmain, hprocedure⟩, htarget⟩, hany⟩ := hnode
    have hlevel : ∀ k : Int, Twin (Alone (DirtyAt x k)) nestLevel (Alone (DirtyAt x k)) :=
      fun k => alone_update _ _ (fun _ h => h)
    have hup : ∀ (k d : Int),
        Twin (Alone (DirtyAt x k)) (addNestLevel d) (Alone (DirtyAt x (k + d))) :=
      fun k d => alone_update _ _ (fun st h => ⟨by
        show st.ifWhileNestLevel + d = k + d
        rw [h.1], h.2⟩)
    have hdown : Twin (Alone (DirtyAt x (l + 1))) (addNestLevel (-1)) (Alone (DirtyAt x l)) := by
      have h := hup (l + 1) (-1)
      rwa [show l + 1 + -1 = l by omega] at h
    have hsame : ¬ (lhs = "statement" ∧ rhs.length ≠ 4 ∧
        (rhs.get? 0 = some "WHILE" ∨ rhs.get? 0 = some "IF")) →
        ∀ i : Nat, Twin (Alone (DirtyAt x l)) (optimizeAt cs i) (Alone (DirtyAt x l)) := by
      intro hno i
      have hn : (decide (lhs = "statement") && decide (rhs.length ≠ 4) &&
          (decide (rhs.get? 0 = some "WHILE") || decide (rhs.get? 0 = some "IF"))) = false := by
        rw [Bool.eq_false_iff]
        intro h
        simp only [Bool.and_eq_true, Bool.or_eq_true, decide_eq_true_eq] at h
        exact hno ⟨h.1.1, h.1.2, h.2⟩
      rw [hn, Bool.or_false] at hany
      exact optimizeAt_twin _ cs
        (fun c hc => ih c hc l hl (reassignsAny_false x _ cs hany c hc)) i
    have hinner : lhs = "statement" → rhs.length ≠ 4 →
        rhs.get? 0 = some "WHILE" ∨ rhs.get? 0 = some "IF" →
        ∀ i : Nat,
          Twin (Alone (DirtyAt x (l + 1))) (optimizeAt cs i) (Alone (DirtyAt x (l + 1))) := by
      intro h1 h2 h3 i
      have hn : (decide (lhs = "statement") && decide (rhs.length ≠ 4) &&
          (decide (rhs.get? 0 = some "WHILE") || decide (rhs.get? 0 = some "IF"))) = true := by
        simp only [Bool.and_eq_true, Bool.or_eq_true, decide_eq_true_eq]
        exact ⟨⟨h1, h2⟩, h3⟩
      rw [hn, Bool.or_true] at hany
      have hd : decide (l + 1 ≠ 0) = true := by
        simp only [decide_eq_true_eq]
        omega
      exact optimizeAt_twin _ cs (fun c hc => ih c hc (l + 1) (by omega) (by
        rw [hd]
        exact reassignsAny_false x _ cs hany c hc)) i
    rw [optimizeTree_eq]
    simp only [children_mk, prodRuleRHS_mk]
    refine optimizeBody_twin _ _ _ _ ?_ ?_ ?_ ?_ ?_ ?_ ?_ ?_ ?_
    · exact recordWainParams_twin _ _ (fun st st1 a b hr => ⟨hr.1, by rw [hr.2]⟩)
    · intro h
      simp only [prodRuleLHS_mk] at h
      refine hsame (fun h1 => ?_)
      rw [h1.1] at h
      rcases h with h | h <;> exact absurd h (by decide)
    · exact fun h => absurd h hmain
    · exact fun h => absurd h hprocedure
    · intro h
      simp only [prodRuleLHS_mk, prodRuleRHS_mk] at h
      refine optimizeAssignment_dirty x l _ _ (hsame (fun h1 => h1.2.1 h.2)) (fun h0 => ?_)
      simp only [children_mk]
      have hd : decide (l ≠ 0) = false := by
        simp only [decide_eq_false_iff_not, ne_eq, not_not]
        exact h0
      simpa [h.1, h.2, hd] using htarget
    · intro _ _ h3 h4 h5
      simp only [prodRuleLHS_mk, prodRuleRHS_mk] at h3 h4 h5
      exact optimizeWhile_twin _ _ _ _ (hup l 1) hdown
        (hinner h4 (fun h => h3 ⟨h4, h⟩) (Or.inl h5))
    · intro _ _ h3 h4 h5
      simp only [prodRuleLHS_mk, prodRuleRHS_mk] at h3 h4 h5
      exact optimizeIf_twin _ _ _ _ (hup l 1) hdown
        (hinner h4 (fun h => h3 ⟨h4, h⟩) (Or.inr h5))
    · exact fun _ => optimizeUse_twin _ _ (hlevel l)
        (fun _ => alone_update _ _ (fun _ h => h)) (fun _ => alone_update _ _ (fun _ h => h))
    · intro _ _ _ h4
      simp only [prodRuleLHS_mk, prodRuleRHS_mk] at h4
      have hno : ¬ (lhs = "statement" ∧ rhs.length ≠ 4 ∧
          (rhs.get? 0 = some "WHILE" ∨ rhs.get? 0 = some "IF")) :=
        fun h => h4 ⟨h.1, h.2.2⟩
      have hn : (decide (lhs = "statement") && decide (rhs.length ≠ 4) &&
          (decide (rhs.get? 0 = some "WHILE") || decide (rhs.get? 0 = some "IF"))) = false := by
        rw [Bool.eq_false_iff]
        intro h
        simp only [Bool.and_eq_true, Bool.or_eq_true, decide_eq_true_eq] at h
        exact hno ⟨h.1.1, h.1.2, h.2⟩
      rw [hn, Bool.or_false] at hany
      exact optimizeLoop_twin _ cs
        (fun c hc => ih c hc l hl (reassignsAny_false x _ cs hany c hc)) rhs

end wlp4gen

namespace wlp4gen

/-- A read of a variable at level 0 whose entry is not dirty is replaced by
the literal of the entry, and the replacement is reported (lines 566-580). -/
theorem read_replaced (tok : Token) (idNode : ParseTreeNode) (rest : List ParseTreeNode)
    (ty : String) (wt : Bool) (st : OptState) (value type : String)
    (hl : st.ifWhileNestLevel = 0)
    (hf : find idNode.token.lexeme st.varTable = some (value, type, false)) :
    optimizeTree (.mk "factor" ["ID"] tok (idNode :: rest) ty wt) st =
      .ok ((true, .mk "factor" ["NUM"] tok (.terminal ⟨"kind", value⟩ type :: rest) ty wt),
        { st with output :=
            st.output ++ ["; " ++ idNode.token.lexeme ++ " FOUND AND NOT DIRTY"] }) := by
  rw [optimizeTree_eq]
  simp [optimizeBody, constantFolding, constantPropagation, optimizeUse, childAt, nestLevel,
    findVar, print, prodRuleLHS_mk, prodRuleRHS_mk, children_mk, opt_bind_apply, hl, hf,
    ParseTreeNode.setChild, ParseTreeNode.setChildren, ParseTreeNode.setRHS]

/-- A read of a variable that has no entry or a dirty entry, or at a level
other than 0, is left as it is. -/
theorem read_kept (tok : Token) (idNode : ParseTreeNode) (rest : List ParseTreeNode)
    (ty : String) (wt : Bool) (st : OptState)
    (h : st.ifWhileNestLevel ≠ 0 ∨ find idNode.token.lexeme st.varTable = none ∨
      ∃ value type, find idNode.token.lexeme st.varTable = some (value, type, true)) :
    optimizeTree (.mk "factor" ["ID"] tok (idNode :: rest) ty wt) st =
      .ok ((false, .mk "factor" ["ID"] tok (idNode :: rest) ty wt), st) := by
  rw [optimizeTree_eq]
  by_cases hl : st.ifWhileNestLevel = 0
  · rcases h with h | h | ⟨value, type, h⟩
    · exact absurd hl h
    · simp [optimizeBody, constantFolding, constantPropagation, optimizeUse, childAt, nestLevel,
        findVar, prodRuleLHS_mk, prodRuleRHS_mk, children_mk, opt_bind_apply, hl, h]
    · simp [optimizeBody, constantFolding, constantPropagation, optimizeUse, childAt, nestLevel,
        findVar, prodRuleLHS_mk, prodRuleRHS_mk, children_mk, opt_bind_apply, hl, h]
  · simp [optimizeBody, constantFolding, constantPropagation, optimizeUse, childAt, nestLevel,
      prodRuleLHS_mk, prodRuleRHS_mk, children_mk, opt_bind_apply, hl]

/-- An assignment of a literal to a variable at level 0 writes the entry of the
variable: the literal, not dirty (lines 514-518). -/
theorem literal_assigned (tok : Token) (rhs : List String)
    (lvalue becomes expr leaf idNode : ParseTreeNode) (rest others : List ParseTreeNode)
    (ty : String) (wt : Bool) (st : OptState) (hrhs : rhs.length = 4)
    (hlvalue : lvalue.prodRuleRHS.get? 0 = some "ID") (hid : lvalue.children = idNode :: others)
    (hexpr : IsLiteralExpr expr leaf) (hl : st.ifWhileNestLevel = 0) :
    optimizeTree (.mk "statement" rhs tok (lvalue :: becomes :: expr :: rest) ty wt) st =
      .ok ((false, .mk "statement" rhs tok (lvalue :: becomes :: expr :: rest) ty wt),
        { st with varTable :=
            insert idNode.token.lexeme (leaf.token.lexeme, "int", false) st.varTable }) := by
  have hu := literalExpr_unchanged expr leaf hexpr
  obtain ⟨-, -, term, h1, -, -, factor, h2, -, h3, h4⟩ := hexpr
  have hfirst : lvalue.prodRuleRHS[0]? = some "ID" := by simpa using hlvalue
  rw [optimizeTree_eq]
  simp [optimizeBody, constantFolding, constantPropagation, optimizeAssignment, optimizeAt,
    childAt, rhsAt, nestLevel, setVar, prodRuleLHS_mk, prodRuleRHS_mk, children_mk,
    opt_bind_apply, hl, hrhs, hu, ParseTreeNode.setChild, ParseTreeNode.setChildren, hfirst,
    hid, h1, h2, h3, h4]

end wlp4gen

namespace wlp4gen

theorem declares_eq (name : String) (lhs : String) (rhs : List String) (tok : Token)
    (cs : List ParseTreeNode) (ty : String) (wt : Bool) :
    declares name (.mk lhs rhs tok cs ty wt) =
      (decide (rhs.length = 5) &&
        (((decide (rhs.get? 3 = some "NUM") || decide (rhs.get? 3 = some "NULL")) &&
            (match cs.get? 1 with
             | some dcl =>
               (match dcl.children.get? 1 with
                | some idNode => decide (idNode.token.lexeme = name)
                | none => false)
             | none => false)) ||
          declaresFirst name cs)) := by
  simp [declares]

/-- The entry of a variable is not touched by `addDclsToVarTable` on a list
that does not declare it. -/
theorem addDclsToVarTable_other (name : String) (entry : Option (String × String × Bool))
    (node : ParseTreeNode) (h : declares name node = false) :
    Twin (Alone (fun st => find name st.varTable = entry)) (addDclsToVarTable node)
      (Alone (fun st => find name st.varTable = entry)) := by
  induction node using gen_tree_induction with
  | step lhs rhs tok cs ty wt ih =>
    rw [declares_eq] at h
    unfold addDclsToVarTable
    refine twin_ite (fun _ => twin_pure _) (fun h5 => ?_)
    have h5 : rhs.length = 5 := not_not.mp h5
    simp only [h5, decide_True, Bool.true_and, Bool.or_eq_false_iff] at h
    obtain ⟨hdcl, hfirst⟩ := h
    have hset : ∀ (idNode : ParseTreeNode) (value type : String),
        idNode.token.lexeme ≠ name →
        Twin (Alone (fun st => find name st.varTable = entry))
          (setVar idNode.token.lexeme value type false)
          (Alone (fun st => find name st.varTable = entry)) := by
      intro idNode value type hne
      refine twin_of_alone (fun st a s hp hx => ?_)
      simp only [setVar, Except.ok.injEq, Prod.mk.injEq] at hx
      obtain ⟨-, rfl⟩ := hx
      show find name (insert _ _ st.varTable) = entry
      rw [find_insert_ne _ _ _ hne]
      exact hp
    have hrest : Twin (Alone (fun st => find name st.varTable = entry)) (addDclsToFirst cs)
        (Alone (fun st => find name st.varTable = entry)) := by
      cases cs with
      | nil =>
        unfold addDclsToFirst
        exact twin_fail _
      | cons c rest =>
        unfold addDclsToFirst
        exact ih c (List.mem_cons_self _ _) (by simpa [declaresFirst] using hfirst)
    cases h3 : rhs.get? 3 with
    | none =>
      have hr : rhsAt (ParseTreeNode.mk lhs rhs tok cs ty wt) 3
          = Opt.fail (.undefined "prodRuleRHS[i]") := by
        unfold rhsAt
        rw [prodRuleRHS_mk, h3]
      refine twin_of_error (fun st => ⟨.undefined "prodRuleRHS[i]", ?_⟩)
      simp [hr, opt_bind_apply]
    | some initialiser =>
      have hr : rhsAt (ParseTreeNode.mk lhs rhs tok cs ty wt) 3 = pure initialiser := by
        unfold rhsAt
        rw [prodRuleRHS_mk, h3]
      simp only [hr, opt_pure_bind]
      refine twin_bind (M := Alone (fun st => find name st.varTable = entry)) ?_
        (fun _ => hrest)
      have hkind : initialiser = "NUM" ∨ initialiser = "NULL" →
          ∀ dcl idNode, cs.get? 1 = some dcl → dcl.children.get? 1 = some idNode →
            idNode.token.lexeme ≠ name := by
        intro hk dcl idNode h1 h2
        have hk1 : (decide (rhs.get? 3 = some "NUM") || decide (rhs.get? 3 = some "NULL"))
            = true := by
          rw [h3]
          rcases hk with hk | hk <;> simp [hk]
        rw [hk1, h1] at hdcl
        simp only [h2, Bool.true_and, decide_eq_false_iff_not] at hdcl
        exact hdcl
      have hwrite : ∀ (g : ParseTreeNode → String) (type : String),
          initialiser = "NUM" ∨ initialiser = "NULL" →
          Twin (Alone (fun st => find name st.varTable = entry))
            (do
              let dcl ← childAt (ParseTreeNode.mk lhs rhs tok cs ty wt) 1
              let idNode ← childAt dcl 1
              let literal ← childAt (ParseTreeNode.mk lhs rhs tok cs ty wt) 3
              setVar idNode.token.lexeme (g literal) type false)
            (Alone (fun st => find name st.varTable = entry)) := by
        intro g type hk
        cases h1 : cs.get? 1 with
        | none =>
          have e1 : childAt (ParseTreeNode.mk lhs rhs tok cs ty wt) 1
              = Opt.fail (.undefined "children[i]") := by
            unfold childAt
            rw [children_mk, h1]
          refine twin_of_error (fun st => ⟨.undefined "children[i]", ?_⟩)
          simp only [e1, opt_bind_apply, opt_fail_apply]
        | some dcl =>
          have e1 : childAt (ParseTreeNode.mk lhs rhs tok cs ty wt) 1 = pure dcl := by
            unfold childAt
            rw [children_mk, h1]
          cases h2 : dcl.children.get? 1 with
          | none =>
            have e2 : childAt dcl 1 = Opt.fail (.undefined "children[i]") := by
              unfold childAt
              rw [h2]
            refine twin_of_error (fun st => ⟨.undefined "children[i]", ?_⟩)
            simp only [e1, e2, opt_bind_apply, opt_pure_apply, opt_fail_apply]
          | some idNode =>
            have e2 : childAt dcl 1 = pure idNode := by
              unfold childAt
              rw [h2]
            simp only [e1, e2, opt_pure_bind]
            exact twin_bind (M := Alone (fun st => find name st.varTable = entry))
              (twin_childAt _ _)
              (fun _ => hset idNode _ type (hkind hk dcl idNode h1 h2))
      by_cases hnum : initialiser = "NUM"
      · simp only [hnum, if_true]
        exact hwrite (fun literal => literal.token.lexeme) "int" (Or.inl hnum)
      · by_cases hnull : initialiser = "NULL"
        · simp only [hnull, if_true]
          exact hwrite (fun _ => "1") "int*" (Or.inr hnull)
        · simp only [hnum, hnull, if_false]
          exact twin_pure _

end wlp4gen

namespace wlp4gen

theorem childAt_some {node c : ParseTreeNode} {i : Nat} (h : node.children.get? i = some c) :
    childAt node i = pure c := by
  unfold childAt
  rw [h]

theorem childAt_none {node : ParseTreeNode} {i : Nat} (h : node.children.get? i = none) :
    childAt node i = Opt.fail (.undefined "children[i]") := by
  unfold childAt
  rw [h]

theorem rhsAt_some {node : ParseTreeNode} {s : String} {i : Nat}
    (h : node.prodRuleRHS.get? i = some s) : rhsAt node i = pure s := by
  unfold rhsAt
  rw [h]

theorem rhsAt_none {node : ParseTreeNode} {i : Nat} (h : node.prodRuleRHS.get? i = none) :
    rhsAt node i = Opt.fail (.undefined "prodRuleRHS[i]") := by
  unfold rhsAt
  rw [h]

/-- The entry that `addDclsToVarTable` leaves for the variable of the last
declaration of a list, when no earlier declaration of the list has the same
name: the lexeme of the `NUM`, or 1 of type `int*` for `NULL`. -/
theorem declaration_recorded (lhs : String) (rhs : List String) (tok : Token)
    (cs : List ParseTreeNode) (ty : String) (wt : Bool)
    (rest dcl idNode literal : ParseTreeNode) (hrhs : rhs.length = 5)
    (h0 : cs.get? 0 = some rest) (h1 : cs.get? 1 = some dcl)
    (h2 : dcl.children.get? 1 = some idNode) (h3 : cs.get? 3 = some literal)
    (hrest : declares idNode.token.lexeme rest = false) (st st1 : OptState)
    (h : addDclsToVarTable (.mk lhs rhs tok cs ty wt) st = .ok ((), st1)) :
    (rhs.get? 3 = some "NUM" →
      find idNode.token.lexeme st1.varTable = some (literal.token.lexeme, "int", false)) ∧
    (rhs.get? 3 = some "NULL" →
      find idNode.token.lexeme st1.varTable = some ("1", "int*", false)) := by
  have e1 : childAt (ParseTreeNode.mk lhs rhs tok cs ty wt) 1 = pure dcl := by
    unfold childAt
    rw [children_mk, h1]
  have e2 : childAt dcl 1 = pure idNode := by
    unfold childAt
    rw [h2]
  have e3 : childAt (ParseTreeNode.mk lhs rhs tok cs ty wt) 3 = pure literal := by
    unfold childAt
    rw [children_mk, h3]
  have efirst : addDclsToFirst cs = addDclsToVarTable rest := by
    cases cs with
    | nil => simp at h0
    | cons c others =>
      simp only [List.get?_cons_zero, Option.some.injEq] at h0
      rw [addDclsToFirst, h0]
  have hkeep : ∀ (entry : String × String × Bool) (s : OptState),
      addDclsToVarTable rest
        { s with varTable := insert idNode.token.lexeme entry s.varTable } = .ok ((), st1) →
      find idNode.token.lexeme st1.varTable = some entry := by
    intro entry s hs
    exact twin_alone (addDclsToVarTable_other idNode.token.lexeme (some entry) rest hrest) _ _ _
      (find_insert_self _ _ _) hs
  unfold addDclsToVarTable at h
  simp only [hrhs, ne_eq, not_true_eq_false, if_false] at h
  constructor
  · intro hnum
    have er : rhsAt (ParseTreeNode.mk lhs rhs tok cs ty wt) 3 = pure "NUM" := by
      unfold rhsAt
      rw [prodRuleRHS_mk, hnum]
    simp only [er, e1, e2, e3, efirst, opt_pure_bind, if_true] at h
    exact hkeep _ st h
  · intro hnull
    have er : rhsAt (ParseTreeNode.mk lhs rhs tok cs ty wt) 3 = pure "NULL" := by
      unfold rhsAt
      rw [prodRuleRHS_mk, hnull]
    simp only [er, e1, e2, e3, efirst, opt_pure_bind] at h
    exact hkeep _ st h

theorem optimizeAt_level (cs : List ParseTreeNode) (i : Nat) (st : OptState)
    (r : Bool × ParseTreeNode) (st1 : OptState) (h : optimizeAt cs i st = .ok (r, st1)) :
    st1.ifWhileNestLevel = st.ifWhileNestLevel ∧ ∃ c, cs.get? i = some c :=
  ⟨twin_alone (optimizeAt_twin _ cs (fun c _ => optimizeTree_level c st.ifWhileNestLevel) i)
      st r st1 rfl h, by
    rw [optimizeAt_eq] at h
    cases hc : cs.get? i with
    | none =>
      rw [hc] at h
      simp at h
    | some c => exact ⟨c, rfl⟩⟩

/-- An assignment to a variable inside an `if` or `while` statement, or of a
right-hand side that is not a literal once it is optimized, marks the variable
dirty (lines 498-511). -/
theorem assignment_marks (tok : Token) (rhs : List String) (lvalue idNode : ParseTreeNode)
    (rest others : List ParseTreeNode) (ty : String) (wt : Bool) (hrhs : rhs.length = 4)
    (hlvalue : lvalue.prodRuleRHS.get? 0 = some "ID") (hid : lvalue.children = idNode :: others)
    (st : OptState) (flag : Bool) (node1 : ParseTreeNode) (st1 : OptState)
    (h : optimizeTree (.mk "statement" rhs tok (lvalue :: rest) ty wt) st
      = .ok ((flag, node1), st1))
    (hmark : st.ifWhileNestLevel ≠ 0 ∨
      ∀ expr, node1.children.get? 2 = some expr → literalRule expr ≠ some "NUM") :
    IsDirty idNode.token.lexeme st1 := by
  have hfirst : rhsAt lvalue 0 = pure "ID" := by
    unfold rhsAt
    rw [hlvalue]
  have hchild : childAt lvalue 0 = pure idNode := by
    simp [childAt, hid]
  have hdirty : ∀ (s s1 : OptState) (a : Unit), markDirty idNode.token.lexeme s = .ok (a, s1) →
      IsDirty idNode.token.lexeme s1 := by
    intro s s1 a hm
    simp only [markDirty, Except.ok.injEq, Prod.mk.injEq] at hm
    rw [← hm.2]
    exact ⟨_, _, find_insert_self _ _ _⟩
  rw [optimizeTree_eq] at h
  simp only [optimizeBody, constantFolding, constantPropagation, prodRuleLHS_mk, prodRuleRHS_mk,
    children_mk, hrhs, String.reduceEq, if_false, opt_pure_bind, and_self, if_true] at h
  unfold optimizeAssignment at h
  obtain ⟨r, s, h1, h2⟩ := opt_bind_ok_iff.mp h
  obtain ⟨didOptimize, expr⟩ := r
  obtain ⟨hlevel, -, -⟩ := optimizeAt_level _ _ _ _ _ h1
  have hnode : childAt ((ParseTreeNode.mk "statement" rhs tok (lvalue :: rest) ty wt).setChild
      2 expr) 0 = pure lvalue := by
    simp [childAt, ParseTreeNode.setChild, ParseTreeNode.setChildren, children_mk]
  simp only [nestLevel, opt_bind_apply, hnode, opt_pure_apply, hfirst] at h2
  by_cases hl : st.ifWhileNestLevel = 0
  · have hs : s.ifWhileNestLevel = 0 := by rw [hlevel, hl]
    have hlit : ∀ e, node1.children.get? 2 = some e → literalRule e ≠ some "NUM" := by
      rcases hmark with hm | hm
      · exact absurd hl hm
      · exact hm
    simp only [hs, ne_eq, not_true_eq_false, if_false, opt_pure_apply, Bool.false_eq_true,
      if_true, opt_pure_bind] at h2
    cases ht : expr.children.get? 0 with
    | none =>
      simp [childAt_none ht, opt_bind_apply] at h2
    | some term =>
      have et := childAt_some ht
      cases hf : term.children.get? 0 with
      | none =>
        simp [et, childAt_none hf, opt_bind_apply] at h2
      | some factor =>
        have ef := childAt_some hf
        cases hr : factor.prodRuleRHS.get? 0 with
        | none =>
          simp [et, ef, rhsAt_none hr, opt_bind_apply] at h2
        | some rule =>
          have er := rhsAt_some hr
          simp only [et, ef, er, opt_pure_apply, hchild, opt_pure_bind] at h2
          by_cases hn : rule = "NUM"
          · exfalso
            simp only [hn, ne_eq, not_true_eq_false, if_false] at h2
            cases hc : factor.children.get? 0 with
            | none => simp [childAt_none hc, opt_bind_apply] at h2
            | some literal =>
              have ec := childAt_some hc
              simp only [ec, opt_bind_apply, opt_pure_apply, setVar, Except.ok.injEq,
                Prod.mk.injEq] at h2
              obtain ⟨⟨-, hn1⟩, -⟩ := h2
              have hget : node1.children.get? 2 = some expr := by
                rw [← hn1]
                cases rest with
                | nil => simp [optimizeAt] at h1
                | cons b rest1 =>
                  cases rest1 with
                  | nil => simp [optimizeAt] at h1
                  | cons e rest2 =>
                    simp [ParseTreeNode.setChild, ParseTreeNode.setChildren, children_mk]
              refine hlit expr hget ?_
              simp only [List.get?_eq_getElem?] at ht hf hr
              simp [literalRule, ht, hf, hr, hn]
          · simp only [hn, ne_eq, not_false_eq_true, if_true, opt_bind_apply] at h2
            cases hm : markDirty idNode.token.lexeme s with
            | error e =>
              rw [hm] at h2
              cases h2
            | ok p =>
              rw [hm] at h2
              simp only [opt_pure_apply, Except.ok.injEq, Prod.mk.injEq] at h2
              rw [← h2.2]
              exact hdirty s p.2 p.1 hm
  · have hs : s.ifWhileNestLevel ≠ 0 := by rw [hlevel]; exact hl
    simp only [hs, ne_eq, not_false_eq_true, if_true, opt_pure_apply, decide_True,
      hchild, opt_bind_apply] at h2
    cases hm : markDirty idNode.token.lexeme s with
    | error e =>
      rw [hm] at h2
      cases h2
    | ok p =>
      rw [hm] at h2
      simp only [opt_pure_apply, Except.ok.injEq, Prod.mk.injEq] at h2
      rw [← h2.2]
      exact hdirty s p.2 p.1 hm

end wlp4gen

/-! ## Tree optimizer: division by a literal zero -/

namespace wlp4gen

/-- C21 (the code at the failing input): folding `1 / 0` or `1 % 0` divides by
zero at compile time, which is undefined, so `optimizeTree` does not return a
rewritten node, in whatever state it is called; and `main` does not return for
the programs `int wain(int a, int b) \x7b return 1 / 0; \x7d` and
`int wain(int a, int b) \x7b return 1 % 0; \x7d`. -/
theorem zero_divisor_undefined (st : OptState) :
    optimizeTree (termOfLiterals "1" "SLASH" "/" "0") st
        = .error (.undefined "division by zero") ∧
      optimizeTree (termOfLiterals "1" "PCT" "%" "0") st
        = .error (.undefined "division by zero") ∧
      main 1 divisionByZero = some (.error (.undefined "division by zero"), GenState.initial) ∧
      main 1 remainderByZero = some (.error (.undefined "division by zero"), GenState.initial) :=
  ⟨rfl, rfl, rfl, rfl⟩

end wlp4gen

/-! ## Tree optimizer: constant propagation -/

namespace wlp4gen

/-- C26: a read `factor -> ID` that is visited at nesting level 0 and whose
variable has an entry that is not dirty is rewritten into `factor -> NUM` with
the value (and the type) of the entry, the flag is `true` and the replacement
is reported; a read without entry or with a dirty entry is returned as it is.
The entry holds the initialiser of the declaration (the lexeme of the `NUM`;
1 of type `int*` for `NULL`) or the literal of the last assignment at level
0. -/
theorem propagation_rewrite (tok : Token) (idNode : ParseTreeNode) (rest : List ParseTreeNode)
    (ty : String) (wt : Bool) (st : OptState) :
    (∀ value type, st.ifWhileNestLevel = 0 →
      find idNode.token.lexeme st.varTable = some (value, type, false) →
      optimizeTree (.mk "factor" ["ID"] tok (idNode :: rest) ty wt) st =
        .ok ((true, .mk "factor" ["NUM"] tok (.terminal ⟨"kind", value⟩ type :: rest) ty wt),
          { st with output :=
              st.output ++ ["; " ++ idNode.token.lexeme ++ " FOUND AND NOT DIRTY"] })) ∧
    ((find idNode.token.lexeme st.varTable = none ∨
        ∃ value type, find idNode.token.lexeme st.varTable = some (value, type, true)) →
      optimizeTree (.mk "factor" ["ID"] tok (idNode :: rest) ty wt) st =
        .ok ((false, .mk "factor" ["ID"] tok (idNode :: rest) ty wt), st)) ∧
    (∀ lhs rhs tok1 cs ty1 wt1 earlier dcl literal s s1, rhs.length = 5 →
      cs.get? 0 = some earlier → cs.get? 1 = some dcl → dcl.children.get? 1 = some idNode →
      cs.get? 3 = some literal → declares idNode.token.lexeme earlier = false →
      addDclsToVarTable (.mk lhs rhs tok1 cs ty1 wt1) s = .ok ((), s1) →
        (rhs.get? 3 = some "NUM" →
          find idNode.token.lexeme s1.varTable = some (literal.token.lexeme, "int", false)) ∧
        (rhs.get? 3 = some "NULL" →
          find idNode.token.lexeme s1.varTable = some ("1", "int*", false))) ∧
    (∀ tok1 rhs lvalue becomes expr leaf others statementRest ty1 wt1 s, rhs.length = 4 →
      lvalue.prodRuleRHS.get? 0 = some "ID" → lvalue.children = idNode :: others →
      IsLiteralExpr expr leaf → s.ifWhileNestLevel = 0 →
      ∃ s1, optimizeTree
            (.mk "statement" rhs tok1 (lvalue :: becomes :: expr :: statementRest) ty1 wt1) s =
          .ok ((false,
            .mk "statement" rhs tok1 (lvalue :: becomes :: expr :: statementRest) ty1 wt1), s1) ∧
        s1.ifWhileNestLevel = 0 ∧
        find idNode.token.lexeme s1.varTable = some (leaf.token.lexeme, "int", false)) := by
  refine ⟨?_, ?_, ?_, ?_⟩
  · intro value type hl hf
    exact read_replaced tok idNode rest ty wt st value type hl hf
  · intro h
    exact read_kept tok idNode rest ty wt st (Or.inr h)
  · intro lhs rhs tok1 cs ty1 wt1 earlier dcl literal s s1 hrhs h0 h1 h2 h3 hd h
    exact declaration_recorded lhs rhs tok1 cs ty1 wt1 earlier dcl idNode literal hrhs h0 h1 h2
      h3 hd s s1 h
  · intro tok1 rhs lvalue becomes expr leaf others statementRest ty1 wt1 s hrhs hl hid he h0
    exact ⟨_, literal_assigned tok1 rhs lvalue becomes expr leaf idNode statementRest others
      ty1 wt1 s hrhs hl hid he h0, h0, find_insert_self _ _ _⟩

/-- The read of `x` while `x` is tracked with the value 1 at level 0. -/
theorem propagation_rewrite_witness :
    optimizeTree (variableFactor "x" "int") tracked =
      .ok ((true, .mk "factor" ["NUM"] ⟨"", ""⟩ [.terminal ⟨"kind", "1"⟩ "int"] "int" false),
        { tracked with output := ["; x FOUND AND NOT DIRTY"] }) :=
  (propagation_rewrite ⟨"", ""⟩ (.terminal ⟨"ID", "x"⟩ "int") [] "int" false tracked).1
    "1" "int" rfl rfl

end wlp4gen

/-! ## Tree optimizer: propagation and the nesting level -/

namespace wlp4gen

theorem optimizeAgain_level (fuel : Nat) :
    ∀ (flag : Bool) (root : ParseTreeNode) (n : Nat) (st : OptState)
      (res : Option (Nat × ParseTreeNode)) (st1 : OptState),
      optimizeAgain fuel flag root n st = .ok (res, st1) →
        st1.ifWhileNestLevel = st.ifWhileNestLevel := by
  induction fuel with
  | zero =>
    intro flag root n st res st1 h
    cases flag with
    | false =>
      simp only [optimizeAgain, opt_pure_apply, Except.ok.injEq, Prod.mk.injEq] at h
      rw [← h.2]
    | true =>
      simp only [optimizeAgain, opt_pure_apply, Except.ok.injEq, Prod.mk.injEq] at h
      rw [← h.2]
  | succ fuel ih =>
    intro flag root n st res st1 h
    cases flag with
    | false =>
      simp only [optimizeAgain, opt_pure_apply, Except.ok.injEq, Prod.mk.injEq] at h
      rw [← h.2]
    | true =>
      simp only [optimizeAgain] at h
      obtain ⟨_, s1, h1, h2⟩ := opt_bind_ok_iff.mp h
      obtain ⟨r, s2, h3, h4⟩ := opt_bind_ok_iff.mp h2
      simp only [clearVarTable, Except.ok.injEq, Prod.mk.injEq] at h1
      have h5 := twin_alone (optimizeTree_level root s1.ifWhileNestLevel) s1 r s2 rfl h3
      rw [ih _ _ _ _ _ _ h4, h5, ← h1.2]

/-- C27: the nesting level is the same when `optimizeTree` returns as when it
was called, so it is 0 again after a `main` or `procedure` node entered at 0
and at the end of the passes that `main` runs.  At a positive level, and
throughout an `if` or `while` statement entered at a level that is not
negative (test and bodies are optimized one level up), no read is replaced:
the returned flag and tree are the same whatever the `varTable` holds, and the
line that reports a replacement is never written.  A read that is visited at
a level other than 0 is returned as it is. -/
theorem propagation_gated (node : ParseTreeNode) :
    (∀ st r st1, optimizeTree node st = .ok (r, st1) →
      st1.ifWhileNestLevel = st.ifWhileNestLevel) ∧
    (∀ fuel res st1, optimize fuel node OptState.initial = .ok (res, st1) →
      st1.ifWhileNestLevel = 0) ∧
    (∀ st st2 r st1, 0 < st.ifWhileNestLevel → st2.ifWhileNestLevel = st.ifWhileNestLevel →
      optimizeTree node st = .ok (r, st1) →
        st1.output = st.output ∧
          ∃ st3, optimizeTree node st2 = .ok (r, st3) ∧ st3.output = st2.output) ∧
    (node.prodRuleLHS = "statement" → node.prodRuleRHS.length ≠ 4 →
      node.prodRuleRHS.get? 0 = some "WHILE" ∨ node.prodRuleRHS.get? 0 = some "IF" →
      ∀ st st2 r st1, 0 ≤ st.ifWhileNestLevel → st2.ifWhileNestLevel = st.ifWhileNestLevel →
        optimizeTree node st = .ok (r, st1) →
          st1.output = st.output ∧
            ∃ st3, optimizeTree node st2 = .ok (r, st3) ∧ st3.output = st2.output) ∧
    (node.prodRuleLHS = "factor" → node.prodRuleRHS = ["ID"] →
      ∀ st r st1, st.ifWhileNestLevel ≠ 0 → optimizeTree node st = .ok (r, st1) →
        r = (false, node) ∧ st1 = st) := by
  refine ⟨?_, ?_, ?_, ?_, ?_⟩
  · intro st r st1 h
    exact twin_alone (optimizeTree_level node st.ifWhileNestLevel) st r st1 rfl h
  · intro fuel res st1 h
    unfold optimize at h
    obtain ⟨r, s1, h1, h2⟩ := opt_bind_ok_iff.mp h
    obtain ⟨res1, s2, h3, h4⟩ := opt_bind_ok_iff.mp h2
    have e1 : s1.ifWhileNestLevel = 0 :=
      twin_alone (optimizeTree_level node 0) OptState.initial r s1 rfl h1
    have e2 := optimizeAgain_level fuel _ _ _ _ _ _ h3
    have e3 : st1.ifWhileNestLevel = s2.ifWhileNestLevel := by
      cases res1 with
      | none =>
        simp only [opt_pure_apply, Except.ok.injEq, Prod.mk.injEq] at h4
        rw [← h4.2]
      | some p =>
        simp only [print, opt_bind_apply, opt_pure_apply, Except.ok.injEq,
          Prod.mk.injEq] at h4
        rw [← h4.2]
    rw [e3, e2, e1]
  · intro st st2 r st1 hl h2 h
    obtain ⟨st3, h3, hg⟩ :=
      (optimizeTree_gated node st.ifWhileNestLevel st.output st2.output hl).twin st st2 r st1
        ⟨rfl, h2, rfl, rfl⟩ h
    exact ⟨hg.2.2.1, st3, h3, hg.2.2.2⟩
  · intro hs h4 hw st st2 r st1 hl h2 h
    have hup : ∀ (k d : Int) (out out1 : List String),
        Twin (Gated k out out1) (addNestLevel d) (Gated (k + d) out out1) :=
      fun k d out out1 => twin_update _ _ (fun s s1 hr => ⟨rfl, by
        refine ⟨?_, ?_, hr.2.2.1, hr.2.2.2⟩
        · show s.ifWhileNestLevel + d = k + d
          rw [hr.1]
        · show s1.ifWhileNestLevel + d = k + d
          rw [hr.2.1]⟩)
    have hdown : Twin (Gated (st.ifWhileNestLevel + 1) st.output st2.output)
        (addNestLevel (-1)) (Gated st.ifWhileNestLevel st.output st2.output) := by
      have h5 := hup (st.ifWhileNestLevel + 1) (-1) st.output st2.output
      rwa [show st.ifWhileNestLevel + 1 + -1 = st.ifWhileNestLevel by omega] at h5
    have hrec : ∀ i : Nat, Twin (Gated (st.ifWhileNestLevel + 1) st.output st2.output)
        (optimizeAt node.children i) (Gated (st.ifWhileNestLevel + 1) st.output st2.output) :=
      fun i => optimizeAt_twin _ _
        (fun c _ => optimizeTree_gated c _ _ _ (by omega)) i
    have hbody : Twin (Gated st.ifWhileNestLevel st.output st2.output) (optimizeTree node)
        (Gated st.ifWhileNestLevel st.output st2.output) := by
      rw [optimizeTree_eq]
      refine optimizeBody_twin _ _ _ _ ?_ ?_ ?_ ?_ ?_ ?_ ?_ ?_ ?_
      · exact recordWainParams_twin _ _ (fun s s1 a b hr => hr)
      · intro h6
        rw [hs] at h6
        rcases h6 with h6 | h6 <;> exact absurd h6 (by decide)
      · intro h6
        rw [hs] at h6
        exact absurd h6 (by decide)
      · intro h6
        rw [hs] at h6
        exact absurd h6 (by decide)
      · exact fun h6 => absurd h6.2 h4
      · exact fun _ _ _ _ _ => optimizeWhile_twin _ _ _ _ (hup _ 1 _ _) hdown hrec
      · exact fun _ _ _ _ _ => optimizeIf_twin _ _ _ _ (hup _ 1 _ _) hdown hrec
      · intro h6
        rw [hs] at h6
        exact absurd h6 (by decide)
      · exact fun _ _ _ h6 => absurd ⟨hs, hw⟩ h6
    obtain ⟨st3, h3, hg⟩ := hbody.twin st st2 r st1 ⟨rfl, h2, rfl, rfl⟩ h
    exact ⟨hg.2.2.1, st3, h3, hg.2.2.2⟩
  · intro hf hr st r st1 hl h
    obtain ⟨lhs, rhs, tok, cs, ty, wt⟩ := node
    simp only [ParseTreeNode.prodRuleLHS, ParseTreeNode.prodRuleRHS] at hf hr
    subst hf hr
    rw [optimizeTree_eq] at h
    cases cs with
    | nil =>
      simp [optimizeBody, constantFolding, constantPropagation, optimizeUse, childAt,
        prodRuleLHS_mk, prodRuleRHS_mk, children_mk, opt_bind_apply] at h
    | cons c rest =>
      simp [optimizeBody, constantFolding, constantPropagation, optimizeUse, childAt, nestLevel,
        prodRuleLHS_mk, prodRuleRHS_mk, children_mk, opt_bind_apply, hl] at h
      exact ⟨by rw [← h.1], h.2.symm⟩

/-- The statement `if (x < b) \x7b\x7d else \x7b\x7d` entered at level 0 while
`x` is tracked with the value 1: the read of `x` in the test is not replaced,
and the result is the same without the entry. -/
theorem propagation_gated_witness :
    optimizeTree emptyIf tracked = .ok ((false, emptyIf), tracked) ∧
    ∃ st3, optimizeTree emptyIf OptState.initial = .ok ((false, emptyIf), st3) ∧
      st3.output = OptState.initial.output :=
  ⟨rfl, ((propagation_gated emptyIf).2.2.2.1 rfl (by decide) (Or.inr rfl) tracked
    OptState.initial (false, emptyIf) tracked (by decide) rfl rfl).2⟩

end wlp4gen

/-! ## Tree optimizer: dirty variables -/

namespace wlp4gen

/-- C28 (counterexample): in
`int wain(int a, int b) \x7b int x = 1; x = a; x = 5; return x; \x7d` the
assignment `x = a` marks `x` dirty, and yet the read of `x` after the literal
assignment `x = 5` is rewritten into the literal 5. -/
theorem dirty_reset_counterexample :
    (∃ r st1, optimizeTree (assignment (lvalueOf "x" "int") (variableExpr "a" "int")) tracked
        = .ok (r, st1) ∧ find "x" st1.varTable = some ("1", "int", true)) ∧
    (∃ st1, optimizeTree (assignment (lvalueOf "x" "int") (literalExpr "5")) marked
        = .ok ((false, assignment (lvalueOf "x" "int") (literalExpr "5")), st1) ∧
      find "x" st1.varTable = some ("5", "int", false)) ∧
    ∃ root st1, optimizeTree reassigned OptState.initial = .ok ((true, root), st1) ∧
      returnExpr root = some (foldedExpr "5") :=
  ⟨⟨_, _, rfl, rfl⟩, ⟨_, rfl, rfl⟩, _, _, rfl, rfl⟩

/-- C28 (amended): an assignment to a variable inside an `if` or `while`
statement, or of a right-hand side that is not a literal, marks the variable
dirty.  Once it is dirty it stays dirty, and no read of it is rewritten, while
the pass works on any part of the procedure that has no assignment to it
outside every `if` and `while`.  A literal assignment to it at level 0 writes
the entry anew: the literal, not dirty. -/
theorem dirty_until_reassigned (x : String) (idNode : ParseTreeNode)
    (hx : idNode.token.lexeme = x) :
    (∀ tok rhs lvalue rest others ty wt st flag node1 st1, rhs.length = 4 →
      lvalue.prodRuleRHS.get? 0 = some "ID" → lvalue.children = idNode :: others →
      optimizeTree (.mk "statement" rhs tok (lvalue :: rest) ty wt) st
        = .ok ((flag, node1), st1) →
      (st.ifWhileNestLevel ≠ 0 ∨
        ∀ expr, node1.children.get? 2 = some expr → literalRule expr ≠ some "NUM") →
      IsDirty x st1) ∧
    (∀ node st r st1, 0 ≤ st.ifWhileNestLevel → IsDirty x st →
      reassigns x (decide (st.ifWhileNestLevel ≠ 0)) node = false →
      optimizeTree node st = .ok (r, st1) → IsDirty x st1) ∧
    (∀ tok rest ty wt st, IsDirty x st →
      optimizeTree (.mk "factor" ["ID"] tok (idNode :: rest) ty wt) st =
        .ok ((false, .mk "factor" ["ID"] tok (idNode :: rest) ty wt), st)) ∧
    (∀ tok rhs lvalue becomes expr leaf others rest ty wt st, rhs.length = 4 →
      lvalue.prodRuleRHS.get? 0 = some "ID" → lvalue.children = idNode :: others →
      IsLiteralExpr expr leaf → st.ifWhileNestLevel = 0 →
      ∃ st1, optimizeTree (.mk "statement" rhs tok (lvalue :: becomes :: expr :: rest) ty wt) st =
          .ok ((false, .mk "statement" rhs tok (lvalue :: becomes :: expr :: rest) ty wt), st1) ∧
        st1.ifWhileNestLevel = 0 ∧
        find x st1.varTable = some (leaf.token.lexeme, "int", false)) := by
  subst hx
  refine ⟨?_, ?_, ?_, ?_⟩
  · intro tok rhs lvalue rest others ty wt st flag node1 st1 hrhs hl hid h hmark
    exact assignment_marks tok rhs lvalue idNode rest others ty wt hrhs hl hid st flag node1 st1
      h hmark
  · intro node st r st1 hl hd hnode h
    exact (twin_alone (optimizeTree_dirty idNode.token.lexeme node st.ifWhileNestLevel hl hnode)
      st r st1 ⟨rfl, hd⟩ h).2
  · intro tok rest ty wt st hd
    exact read_kept tok idNode rest ty wt st (Or.inr (Or.inr hd))
  · intro tok rhs lvalue becomes expr leaf others rest ty wt st hrhs hl hid he h0
    exact ⟨_, literal_assigned tok rhs lvalue becomes expr leaf idNode rest others ty wt st hrhs
      hl hid he h0, h0, find_insert_self _ _ _⟩

/-- While `x` is dirty the statement `if (x < b) \x7b\x7d else \x7b\x7d` leaves
it dirty and the read of `x` is not rewritten. -/
theorem dirty_until_reassigned_witness :
    (∃ r st1, optimizeTree emptyIf marked = .ok (r, st1) ∧ IsDirty "x" st1) ∧
    optimizeTree (variableFactor "x" "int") marked
      = .ok ((false, variableFactor "x" "int"), marked) :=
  ⟨⟨_, _, rfl, (dirty_until_reassigned "x" (.terminal ⟨"ID", "x"⟩ "int") rfl).2.1 emptyIf marked
      _ _ (by decide) ⟨"1", "int", rfl⟩ (by decide) rfl⟩,
    (dirty_until_reassigned "x" (.terminal ⟨"ID", "x"⟩ "int") rfl).2.2.1 ⟨"", ""⟩ [] "int" false
      marked ⟨"1", "int", rfl⟩⟩

/-- C29 (the code at the failing input): in
`int wain(int* a, int b) \x7b int x = 1; a = &x; *a = 5; return x; \x7d` the
address of `x` is taken and `x` is changed through the pointer, and
`optimizeTree` rewrites the read of `x` in `return x` into the literal 1 of
its declaration. -/
theorem address_taken_rewritten :
    ∃ root st1, optimizeTree aliased OptState.initial = .ok ((true, root), st1) ∧
      returnExpr root = some (foldedExpr "1") ∧
      st1.output = ["; x FOUND AND NOT DIRTY"] :=
  ⟨_, _, rfl, rfl, rfl⟩

/-- C30 (the code at the failing input): in
`int wain(int a, int b) \x7b int x = 1; (x) = a; return x; \x7d` the
assignment to `(x)` is not seen as an assignment to `x`, and `optimizeTree`
rewrites the read of `x` in `return x` into the literal 1 of its
declaration. -/
theorem parenthesised_target_untracked :
    ∃ root st1, optimizeTree parenthesised OptState.initial = .ok ((true, root), st1) ∧
      returnExpr root = some (foldedExpr "1") ∧
      getVarNameFromLvalue (lvalueParen (lvalueOf "x" "int")) = .ok "x" :=
  ⟨_, _, rfl, rfl, rfl⟩

end wlp4gen

/-! ## Code generator: evaluation at failing inputs -/

namespace wlp4gen

/-- C24 (the code at the failing input): for
`int wain(int a, int b) \x7b return *&*&a; \x7d` the scan stops at the outer
address-of, whose operand `*&a` is not a variable, and never reaches the inner
`&a`: `dereferencedVariables` stays empty, `a` is bound to register `$1`, and
the code emitted for `&a` copies the register instead of taking an address. -/
theorem nested_address_missed :
    (checkForDereferences nestedAddress GenState.initial).2.dereferencedVariables = [] ∧
    (main 1 nestedAddress).map (fun r =>
        (r.1.isOk, r.2.dereferencedVariables, find "a" r.2.regTable,
          decide ("add $3, $0, $1" ∈ r.2.output)))
      = some (true, [], some "$1", true) := by
  decide!

/-- C23 (the code at the failing input): in the program
`int f() \x7b int x = 0; return 0; \x7d int g(int x) \x7b return x; \x7d
int wain(int a, int b) \x7b return g(a); \x7d` the local `x` of `f` is bound
to register `$8`; the binding is still in `regTable` while the code of `g` is
generated, where the parameter `x` is put into the frame table, so that `x` is
a key of both tables, and `return x` of `g` reads the register. -/
theorem stale_register_binding :
    (find "x" (code frameParameter (code registerLocal0 GenState.initial).2).2.regTable
        = some "$8" ∧
      find "x" (code frameParameter (code registerLocal0 GenState.initial).2).2.symbol_table
        = some ("int", "4")) ∧
    (main 1 sameName0).map (fun r =>
        (r.1.isOk, decide ("; Variable x added to symbol table with offset 0" ∈ r.2.output),
          decide ("add $3, $0, $8" ∈ r.2.output)))
      = some (true, true, true) := by
  decide!

end wlp4gen

/-! ## Code generator: lemmas -/

namespace wlp4gen

@[simp] theorem gen_pure_apply {α : Type} (a : α) (st : GenState) :
    (pure a : Gen α) st = (.ok a, st) := rfl

@[simp] theorem gen_fail_apply {α : Type} (e : Fault) (st : GenState) :
    (Gen.fail e : Gen α) st = (.error e, st) := rfl

theorem gen_bind_apply {α β : Type} (x : Gen α) (f : α → Gen β) (st : GenState) :
    (x >>= f) st =
      match x st with
      | (.ok a, st1) => f a st1
      | (.error e, st1) => (.error e, st1) := rfl

theorem gen_pure_bind {α β : Type} (a : α) (f : α → Gen β) : (pure a >>= f) = f a := rfl

theorem codeAt_eq (cs : List ParseTreeNode) :
    ∀ i : Nat, codeAt cs i =
      match cs.get? i with
      | some c => code c
      | none => Gen.fail (.undefined "children[i]") := by
  induction cs with
  | nil => intro i; simp [codeAt]
  | cons c cs ih =>
    intro i
    cases i with
    | zero => simp [codeAt]
    | succ i => simp [codeAt, ih]

theorem assignAt_eq (cs : List ParseTreeNode) (codeExpr : Gen Unit) (expr : ParseTreeNode) :
    ∀ i : Nat, assignAt cs i codeExpr expr =
      match cs.get? i with
      | some c => assign c codeExpr expr
      | none => Gen.fail (.undefined "children[i]") := by
  induction cs with
  | nil => intro i; simp [assignAt]
  | cons c cs ih =>
    intro i
    cases i with
    | zero => simp [assignAt]
    | succ i => simp [assignAt, ih]

theorem addressAt_eq (cs : List ParseTreeNode) :
    ∀ i : Nat, addressAt cs i =
      match cs.get? i with
      | some c => address c
      | none => Gen.fail (.undefined "children[i]") := by
  induction cs with
  | nil => intro i; simp [addressAt]
  | cons c cs ih =>
    intro i
    cases i with
    | zero => simp [addressAt]
    | succ i => simp [addressAt, ih]

theorem pushArgsAt_eq (cs : List ParseTreeNode) :
    ∀ i : Nat, pushArgsAt cs i =
      match cs.get? i with
      | some c => pushArgs c
      | none => Gen.fail (.undefined "children[i]") := by
  induction cs with
  | nil => intro i; simp [pushArgsAt]
  | cons c cs ih =>
    intro i
    cases i with
    | zero => simp [pushArgsAt]
    | succ i => simp [pushArgsAt, ih]

theorem unwrapDereferenceAt_eq (cs : List ParseTreeNode) :
    ∀ i : Nat, unwrapDereferenceAt cs i =
      match cs.get? i with
      | some c => unwrapDereference c
      | none => Gen.fail (.undefined "children[i]") := by
  induction cs with
  | nil => intro i; simp [unwrapDereferenceAt]
  | cons c cs ih =>
    intro i
    cases i with
    | zero => simp [unwrapDereferenceAt]
    | succ i => simp [unwrapDereferenceAt, ih]

/-! ### Invariants of the globals -/

theorem keeps_pure {α : Type} {P : GenState → Prop} (a : α) : Keeps P (pure a : Gen α) :=
  ⟨fun _ h => h⟩

theorem keeps_fail {α : Type} {P : GenState → Prop} (e : Fault) :
    Keeps P (Gen.fail e : Gen α) :=
  ⟨fun _ h => h⟩

theorem keeps_bind {α β : Type} {P : GenState → Prop} {x : Gen α} {f : α → Gen β}
    (hx : Keeps P x) (hf : ∀ a, Keeps P (f a)) : Keeps P (x >>= f) := by
  constructor
  intro st hp
  rw [gen_bind_apply]
  have h1 := hx.keeps st hp
  cases hr : x st with
  | mk r st1 =>
    rw [hr] at h1
    cases r with
    | error e => exact h1
    | ok a => exact (hf a).keeps st1 h1

theorem keeps_ite {α : Type} {P : GenState → Prop} {c : Prop} [Decidable c] {x y : Gen α}
    (hx : c → Keeps P x) (hy : ¬ c → Keeps P y) : Keeps P (if c then x else y) := by
  by_cases h : c
  · rw [if_pos h]; exact hx h
  · rw [if_neg h]; exact hy h

theorem keeps_lift {α : Type} {P : GenState → Prop} (r : Except Fault α) :
    Keeps P (Gen.lift r) :=
  ⟨fun _ h => h⟩

theorem keeps_childOf {P : GenState → Prop} (node : ParseTreeNode) (i : Nat) :
    Keeps P (childOf node i) := by
  unfold childOf
  split
  · exact keeps_pure _
  · exact keeps_fail _

theorem keeps_symbolOf {P : GenState → Prop} (node : ParseTreeNode) (i : Nat) :
    Keeps P (symbolOf node i) := by
  unfold symbolOf
  split
  · exact keeps_pure _
  · exact keeps_fail _

theorem keeps_both {P : GenState → Prop} {x y : Gen Bool} (hx : Keeps P x) (hy : Keeps P y) :
    Keeps P (both x y) := by
  unfold both
  exact keeps_bind hx (fun _ => keeps_ite (fun _ => hy) (fun _ => keeps_pure _))

theorem keeps_typeIs {P : GenState → Prop} (node : ParseTreeNode) (i : Nat) (type : String) :
    Keeps P (typeIs node i type) := by
  unfold typeIs
  exact keeps_bind (keeps_childOf _ _) (fun _ => keeps_pure _)

theorem keeps_symbolIs {P : GenState → Prop} (node : ParseTreeNode) (i : Nat)
    (symbol : String) : Keeps P (symbolIs node i symbol) := by
  unfold symbolIs
  exact keeps_bind (keeps_symbolOf _ _) (fun _ => keeps_pure _)

end wlp4gen

namespace wlp4gen

section

attribute [local irreducible] Gen.bind

/-! ### Steps that leave the register table alone

From here on `Gen.bind` is not unfolded when two computations are compared:
the rules above take a computation apart. -/


theorem keeps_emit {P : GenState → Prop} (hP : OnRegisters P) (line : String) :
    Keeps P (emit line) :=
  ⟨fun st h => hP st _ rfl rfl h⟩

theorem keeps_clearSymbolTable {P : GenState → Prop} (hP : OnRegisters P) :
    Keeps P clearSymbolTable :=
  ⟨fun st h => hP st _ rfl rfl h⟩

theorem keeps_setSymbol {P : GenState → Prop} (hP : OnRegisters P) (name type offset : String) :
    Keeps P (setSymbol name type offset) :=
  ⟨fun st h => hP st _ rfl rfl h⟩

theorem keeps_getLatestOffset {P : GenState → Prop} : Keeps P getLatestOffset :=
  ⟨fun _ h => h⟩

theorem keeps_setLatestOffset {P : GenState → Prop} (hP : OnRegisters P) (value : Int) :
    Keeps P (setLatestOffset value) :=
  ⟨fun st h => hP st _ rfl rfl h⟩

theorem keeps_getNumDeletes {P : GenState → Prop} : Keeps P getNumDeletes :=
  ⟨fun _ h => h⟩

theorem keeps_setNumDeletes {P : GenState → Prop} (hP : OnRegisters P) (value : Int) :
    Keeps P (setNumDeletes value) :=
  ⟨fun st h => hP st _ rfl rfl h⟩

theorem keeps_getFreeRegisters {P : GenState → Prop} : Keeps P getFreeRegisters :=
  ⟨fun _ h => h⟩

theorem keeps_popFreeRegister {P : GenState → Prop} (hP : OnRegisters P) :
    Keeps P popFreeRegister :=
  ⟨fun st h => hP st _ rfl rfl h⟩

theorem keeps_getWainParam1Name {P : GenState → Prop} : Keeps P getWainParam1Name :=
  ⟨fun _ h => h⟩

theorem keeps_getWainParam2Name {P : GenState → Prop} : Keeps P getWainParam2Name :=
  ⟨fun _ h => h⟩

theorem keeps_findRegister {P : GenState → Prop} (name : String) :
    Keeps P (findRegister name) :=
  ⟨fun _ h => h⟩

theorem keeps_inDereferencedVars {P : GenState → Prop} (s : String) :
    Keeps P (inDereferencedVars s) :=
  ⟨fun _ h => h⟩

theorem keeps_offsetOf {P : GenState → Prop} (hP : OnRegisters P) (name : String) :
    Keeps P (offsetOf name) := by
  constructor
  intro st h
  unfold offsetOf
  split
  · exact h
  · exact hP st _ rfl rfl h

theorem keeps_nextLabel {P : GenState → Prop} (hP : OnRegisters P) : Keeps P nextLabel := by
  constructor
  intro st h
  unfold nextLabel
  split
  · exact hP st _ rfl rfl h
  · exact h

theorem keeps_incrementSymbolTable {P : GenState → Prop} (hP : OnRegisters P) (inc : Int) :
    Keeps P (incrementSymbolTable inc) := by
  constructor
  intro st h
  unfold incrementSymbolTable
  split
  · exact hP st _ rfl rfl h
  · exact h

theorem keeps_printSymbolTable {P : GenState → Prop} (hP : OnRegisters P) :
    Keeps P printSymbolTable :=
  ⟨fun st h => hP st _ rfl rfl h⟩

theorem keeps_push {P : GenState → Prop} (hP : OnRegisters P) (registerX : String) :
    Keeps P (push registerX) := by
  unfold push
  exact keeps_bind (keeps_emit hP _) (fun _ => keeps_emit hP _)

theorem keeps_pop {P : GenState → Prop} (hP : OnRegisters P) (registerX : String) :
    Keeps P (pop registerX) := by
  unfold pop
  exact keeps_bind (keeps_emit hP _) (fun _ => keeps_emit hP _)

theorem keeps_popArguments {P : GenState → Prop} (hP : OnRegisters P) :
    ∀ count : Nat, Keeps P (popArguments count) := by
  intro count
  induction count with
  | zero =>
    unfold popArguments
    exact keeps_pure _
  | succ n ih =>
    unfold popArguments
    exact keeps_bind (keeps_pop hP _) (fun _ => ih)

theorem keeps_resolveToID {P : GenState → Prop} (hP : OnRegisters P) (node : ParseTreeNode) :
    Keeps P (resolveToID node) := by
  unfold resolveToID
  repeat' first
    | exact keeps_pure _
    | exact keeps_fail _
    | exact keeps_emit hP _
    | exact keeps_findRegister _
    | exact keeps_inDereferencedVars _
    | exact keeps_getWainParam1Name
    | exact keeps_getWainParam2Name
    | exact keeps_childOf _ _
    | exact keeps_symbolOf _ _
    | refine keeps_bind ?_ (fun _ => ?_)
    | refine keeps_ite (fun _ => ?_) (fun _ => ?_)
    | split

theorem keeps_operands {P : GenState → Prop} (hP : OnRegisters P) (first second : ParseTreeNode)
    (codeFirst codeSecond : Gen Unit) (h1 : Keeps P codeFirst) (h2 : Keeps P codeSecond) :
    Keeps P (operands first second codeFirst codeSecond) := by
  unfold operands
  repeat' first
    | exact keeps_pure _
    | exact h1
    | exact h2
    | exact keeps_resolveToID hP _
    | exact keeps_push hP _
    | exact keeps_pop hP _
    | refine keeps_bind ?_ (fun _ => ?_)
    | refine keeps_ite (fun _ => ?_) (fun _ => ?_)

theorem keeps_generatePrologue {P : GenState → Prop} (hP : OnRegisters P) :
    Keeps P generatePrologue := by
  unfold generatePrologue
  repeat' first
    | exact keeps_pure _
    | exact keeps_emit hP _
    | exact keeps_push hP _
    | exact keeps_findRegister _
    | exact keeps_inDereferencedVars _
    | exact keeps_getWainParam1Name
    | exact keeps_getWainParam2Name
    | refine keeps_bind ?_ (fun _ => ?_)
    | refine keeps_ite (fun _ => ?_) (fun _ => ?_)

theorem keeps_generateEpilogue {P : GenState → Prop} (hP : OnRegisters P) :
    Keeps P generateEpilogue := by
  unfold generateEpilogue
  repeat' first
    | exact keeps_pure _
    | exact keeps_emit hP _
    | exact keeps_pop hP _
    | exact keeps_findRegister _
    | exact keeps_inDereferencedVars _
    | exact keeps_getWainParam1Name
    | exact keeps_getWainParam2Name
    | refine keeps_bind ?_ (fun _ => ?_)
    | refine keeps_ite (fun _ => ?_) (fun _ => ?_)

theorem keeps_initHeap {P : GenState → Prop} (hP : OnRegisters P) (dcl1 : ParseTreeNode) :
    Keeps P (initHeap dcl1) := by
  unfold initHeap
  repeat' first
    | exact keeps_pure _
    | exact keeps_emit hP _
    | exact keeps_push hP _
    | exact keeps_pop hP _
    | exact keeps_childOf _ _
    | refine keeps_bind ?_ (fun _ => ?_)
    | refine keeps_ite (fun _ => ?_) (fun _ => ?_)

theorem keeps_codeDcl {P : GenState → Prop} (hP : OnRegisters P) (node : ParseTreeNode) :
    Keeps P (codeDcl node) := by
  unfold codeDcl
  simp only []
  repeat' first
    | exact keeps_pure _
    | exact keeps_emit hP _
    | exact keeps_lift _
    | exact keeps_childOf _ _
    | exact keeps_getLatestOffset
    | exact keeps_setLatestOffset hP _
    | exact keeps_setSymbol hP _ _ _
    | refine keeps_bind ?_ (fun _ => ?_)

end

end wlp4gen

namespace wlp4gen

section

attribute [local irreducible] Gen.bind emit childOf symbolOf findRegister offsetOf push pop nextLabel resolveToID operands popArguments both typeIs symbolIs clearSymbolTable setSymbol getLatestOffset setLatestOffset getNumDeletes setNumDeletes getFreeRegisters popFreeRegister inDereferencedVars setRegister incrementSymbolTable printSymbolTable initHeap codeDcl

theorem keeps_codeProcedure {P : GenState → Prop} (hP : OnRegisters P) (rec : Code)
    (node : ParseTreeNode) (hrec : ∀ i, Keeps P (rec i)) : Keeps P (codeProcedure rec node) := by
  unfold codeProcedure pushAllRegisters popAllRegisters
  repeat' first
    | exact keeps_pure _
    | exact hrec _
    | exact keeps_emit hP _
    | exact keeps_push hP _
    | exact keeps_pop hP _
    | exact keeps_lift _
    | exact keeps_childOf _ _
    | exact keeps_printSymbolTable hP
    | exact keeps_incrementSymbolTable hP _
    | exact keeps_clearSymbolTable hP
    | exact keeps_getNumDeletes
    | exact keeps_setNumDeletes hP _
    | refine keeps_bind ?_ (fun _ => ?_)

theorem keeps_codeMain {P : GenState → Prop} (hP : OnRegisters P) (rec : Code)
    (node : ParseTreeNode) (hrec : ∀ i, Keeps P (rec i))
    (hparameter : ∀ i reg, Keeps P (codeParameter rec node i reg)) :
    Keeps P (codeMain rec node) := by
  unfold codeMain
  refine keeps_bind (keeps_clearSymbolTable hP) (fun _ => ?_)
  refine keeps_bind (keeps_emit hP _) (fun _ => ?_)
  refine keeps_bind (hparameter _ _) (fun _ => ?_)
  refine keeps_bind (hparameter _ _) (fun _ => ?_)
  refine keeps_bind (keeps_childOf _ _) (fun _ => ?_)
  refine keeps_bind (keeps_initHeap hP _) (fun _ => ?_)
  refine keeps_bind (hrec _) (fun _ => ?_)
  refine keeps_bind (hrec _) (fun _ => ?_)
  exact hrec _

theorem keeps_assignBody {P : GenState → Prop} (hP : OnRegisters P) (rec : Code)
    (codeExpr : Gen Unit) (expr node : ParseTreeNode) (hrec : ∀ i, Keeps P (rec i))
    (hexpr : Keeps P codeExpr) : Keeps P (assignBody rec codeExpr expr node) := by
  unfold assignBody
  repeat' first
    | exact keeps_pure _
    | exact hexpr
    | exact keeps_emit hP _
    | exact keeps_operands hP _ _ _ _ hexpr (hrec _)
    | exact keeps_offsetOf hP _
    | exact keeps_findRegister _
    | exact keeps_childOf _ _
    | exact keeps_symbolOf _ _
    | refine keeps_bind ?_ (fun _ => ?_)
    | refine keeps_ite (fun _ => ?_) (fun _ => ?_)
    | split

theorem keeps_addressBody {P : GenState → Prop} (hP : OnRegisters P) (rec : Code)
    (node : ParseTreeNode) (hrec : ∀ i, Keeps P (rec i)) : Keeps P (addressBody rec node) := by
  unfold addressBody
  repeat' first
    | exact keeps_pure _
    | exact hrec _
    | exact keeps_emit hP _
    | exact keeps_offsetOf hP _
    | exact keeps_findRegister _
    | exact keeps_childOf _ _
    | exact keeps_symbolOf _ _
    | refine keeps_bind ?_ (fun _ => ?_)
    | refine keeps_ite (fun _ => ?_) (fun _ => ?_)
    | split

theorem keeps_codeStatement {P : GenState → Prop} (hP : OnRegisters P) (rec : Code)
    (assign : ParseTreeNode → Gen Unit) (node : ParseTreeNode) (hrec : ∀ i, Keeps P (rec i))
    (hassign : ∀ expr, Keeps P (assign expr)) : Keeps P (codeStatement rec assign node) := by
  unfold codeStatement codeIf codeWhile codePrintln codeDelete
  simp only []
  repeat' first
    | exact keeps_pure _
    | exact hrec _
    | exact hassign _
    | exact keeps_emit hP _
    | exact keeps_push hP _
    | exact keeps_pop hP _
    | exact keeps_nextLabel hP
    | exact keeps_lift _
    | exact keeps_childOf _ _
    | exact keeps_clearSymbolTable hP
    | exact keeps_getNumDeletes
    | exact keeps_setNumDeletes hP _
    | refine keeps_bind ?_ (fun _ => ?_)
    | refine keeps_ite (fun _ => ?_) (fun _ => ?_)

theorem keeps_codeIntSum {P : GenState → Prop} (hP : OnRegisters P) (rec : Code)
    (node : ParseTreeNode) (hrec : ∀ i, Keeps P (rec i)) : Keeps P (codeIntSum rec node) := by
  unfold codeIntSum
  refine keeps_bind (keeps_childOf _ _) (fun _ => ?_)
  refine keeps_bind (keeps_childOf _ _) (fun _ => ?_)
  refine keeps_bind (keeps_operands hP _ _ _ _ (hrec _) (hrec _)) (fun _ => ?_)
  refine keeps_bind (keeps_symbolOf _ _) (fun _ => ?_)
  exact keeps_ite (fun _ => keeps_emit hP _) (fun _ => keeps_emit hP _)

theorem keeps_codePointerInt {P : GenState → Prop} (hP : OnRegisters P) (rec : Code)
    (node : ParseTreeNode) (operation : String) (hrec : ∀ i, Keeps P (rec i)) :
    Keeps P (codePointerInt rec node operation) := by
  unfold codePointerInt
  repeat' first
    | exact keeps_pure _
    | exact hrec _
    | exact keeps_emit hP _
    | exact keeps_push hP _
    | exact keeps_pop hP _
    | exact keeps_resolveToID hP _
    | exact keeps_childOf _ _
    | refine keeps_bind ?_ (fun _ => ?_)
    | refine keeps_ite (fun _ => ?_) (fun _ => ?_)

theorem keeps_codeIntPointer {P : GenState → Prop} (hP : OnRegisters P) (rec : Code)
    (node : ParseTreeNode) (hrec : ∀ i, Keeps P (rec i)) :
    Keeps P (codeIntPointer rec node) := by
  unfold codeIntPointer
  repeat' first
    | exact keeps_pure _
    | exact hrec _
    | exact keeps_emit hP _
    | exact keeps_push hP _
    | exact keeps_pop hP _
    | exact keeps_resolveToID hP _
    | exact keeps_childOf _ _
    | refine keeps_bind ?_ (fun _ => ?_)
    | refine keeps_ite (fun _ => ?_) (fun _ => ?_)

theorem keeps_codePointerDifference {P : GenState → Prop} (hP : OnRegisters P) (rec : Code)
    (node : ParseTreeNode) (hrec : ∀ i, Keeps P (rec i)) :
    Keeps P (codePointerDifference rec node) := by
  unfold codePointerDifference
  repeat' first
    | exact keeps_pure _
    | exact hrec _
    | exact keeps_emit hP _
    | exact keeps_push hP _
    | exact keeps_pop hP _
    | exact keeps_resolveToID hP _
    | exact keeps_childOf _ _
    | refine keeps_bind ?_ (fun _ => ?_)
    | refine keeps_ite (fun _ => ?_) (fun _ => ?_)

theorem keeps_sumTest {P : GenState → Prop} (node : ParseTreeNode) (operator first second : String) :
    Keeps P (both (symbolIs node 1 operator) (both (typeIs node 0 first) (typeIs node 2 second))) :=
  keeps_both (keeps_symbolIs _ _ _) (keeps_both (keeps_typeIs _ _ _) (keeps_typeIs _ _ _))

theorem keeps_codeSum {P : GenState → Prop} (hP : OnRegisters P) (rec : Code)
    (node : ParseTreeNode) (hrec : ∀ i, Keeps P (rec i)) : Keeps P (codeSum rec node) := by
  unfold codeSum
  refine keeps_bind (keeps_both (keeps_typeIs _ _ _) (keeps_typeIs _ _ _)) (fun _ => ?_)
  refine keeps_ite (fun _ => keeps_codeIntSum hP _ _ hrec) (fun _ => ?_)
  refine keeps_bind (keeps_sumTest _ _ _ _) (fun _ => ?_)
  refine keeps_ite (fun _ => keeps_codePointerInt hP _ _ _ hrec) (fun _ => ?_)
  refine keeps_bind (keeps_sumTest _ _ _ _) (fun _ => ?_)
  refine keeps_ite (fun _ => keeps_codeIntPointer hP _ _ hrec) (fun _ => ?_)
  refine keeps_bind (keeps_sumTest _ _ _ _) (fun _ => ?_)
  refine keeps_ite (fun _ => keeps_codePointerInt hP _ _ _ hrec) (fun _ => ?_)
  refine keeps_bind (keeps_sumTest _ _ _ _) (fun _ => ?_)
  refine keeps_ite (fun _ => keeps_codePointerDifference hP _ _ hrec) (fun _ => ?_)
  exact keeps_pure _

theorem keeps_compare {P : GenState → Prop} (hP : OnRegisters P)
    (instruction operator expr1Reg expr2Reg : String) :
    Keeps P (compare instruction operator expr1Reg expr2Reg) := by
  unfold compare
  repeat' first
    | exact keeps_pure _
    | exact keeps_emit hP _
    | refine keeps_bind ?_ (fun _ => ?_)
    | refine keeps_ite (fun _ => ?_) (fun _ => ?_)

theorem keeps_codeFactor {P : GenState → Prop} (hP : OnRegisters P) (rec : Code)
    (address : Gen Unit) (pushArguments : Gen Int) (node : ParseTreeNode)
    (hrec : ∀ i, Keeps P (rec i)) (haddress : Keeps P address)
    (hpush : Keeps P pushArguments) : Keeps P (codeFactor rec address pushArguments node) := by
  unfold codeFactor codeNum codeVariable codeCall codeCallWith codeNew
  simp only []
  repeat' first
    | exact keeps_pure _
    | exact hrec _
    | exact haddress
    | exact hpush
    | exact keeps_emit hP _
    | exact keeps_push hP _
    | exact keeps_pop hP _
    | exact keeps_popArguments hP _
    | exact keeps_offsetOf hP _
    | exact keeps_findRegister _
    | exact keeps_childOf _ _
    | refine keeps_bind ?_ (fun _ => ?_)
    | refine keeps_ite (fun _ => ?_) (fun _ => ?_)
    | split

/-- The body of `code` keeps a property of the register table that the two
places that bind a register keep. -/
theorem keeps_codeBody {P : GenState → Prop} (hP : OnRegisters P) (rec : Code)
    (assign : ParseTreeNode → Gen Unit) (address : Gen Unit) (pushArguments : Gen Int)
    (node : ParseTreeNode) (hrec : ∀ i, Keeps P (rec i))
    (hassign : ∀ expr, Keeps P (assign expr)) (haddress : Keeps P address)
    (hpush : Keeps P pushArguments)
    (hparameter : ∀ i reg, Keeps P (codeParameter rec node i reg))
    (hinitialised : ∀ literal, Keeps P (codeInitialised rec node literal)) :
    Keeps P (codeBody rec assign address pushArguments node) := by
  unfold codeBody codeExprTerm codeProduct codeTest
  simp only []
  repeat' first
    | exact keeps_pure _
    | exact keeps_fail _
    | exact hrec _
    | exact hinitialised _
    | exact keeps_codeProcedure hP _ _ hrec
    | exact keeps_codeMain hP _ _ hrec hparameter
    | exact keeps_codeDcl hP _
    | exact keeps_codeStatement hP _ _ _ hrec hassign
    | exact keeps_codeSum hP _ _ hrec
    | exact keeps_codeFactor hP _ _ _ _ hrec haddress hpush
    | exact keeps_compare hP _ _ _ _
    | exact keeps_operands hP _ _ _ _ (hrec _) (hrec _)
    | exact keeps_emit hP _
    | exact keeps_childOf _ _
    | exact keeps_symbolOf _ _
    | refine keeps_bind ?_ (fun _ => ?_)
    | refine keeps_ite (fun _ => ?_) (fun _ => ?_)

end

end wlp4gen

namespace wlp4gen

section

attribute [local irreducible] Gen.bind emit childOf symbolOf findRegister offsetOf push pop nextLabel resolveToID operands popArguments both typeIs symbolIs clearSymbolTable setSymbol getLatestOffset setLatestOffset getNumDeletes setNumDeletes getFreeRegisters popFreeRegister incrementSymbolTable printSymbolTable initHeap codeDcl

/-! ### Variables whose address is taken stay out of the register table

The two places that bind a register keep a property `P` of the register table
that fixes the content of `dereferencedVariables` as `names` and that binding
a variable outside `names` keeps. -/

theorem keeps_dereferenced_bind {β : Type} {P : GenState → Prop} {names : List String}
    (hD : ∀ st, P st → st.dereferencedVariables = names) (s : String) (f : Bool → Gen β)
    (hf : Keeps P (f (decide (s ∈ names)))) : Keeps P (inDereferencedVars s >>= f) := by
  constructor
  intro st hp
  rw [gen_bind_apply]
  simp only [inDereferencedVars]
  rw [hD st hp]
  exact hf.keeps st hp

theorem keeps_codeParameter {P : GenState → Prop} {names : List String}
    (hP : OnRegisters P) (hD : ∀ st, P st → st.dereferencedVariables = names)
    (hset : ∀ s r, s ∉ names → Keeps P (setRegister s r)) (rec : Code) (node : ParseTreeNode)
    (hrec : ∀ i, Keeps P (rec i)) (i : Nat) (r : String) :
    Keeps P (codeParameter rec node i r) := by
  unfold codeParameter
  refine keeps_bind (keeps_childOf _ _) (fun dcl => ?_)
  refine keeps_bind (keeps_childOf _ _) (fun idNode => ?_)
  refine keeps_dereferenced_bind hD _ _ ?_
  by_cases h : idNode.token.lexeme ∈ names
  · rw [if_neg (by simpa using h)]
    exact hrec i
  · rw [if_pos (by simpa using h)]
    exact keeps_bind (hset _ _ h) (fun _ => keeps_emit hP _)

theorem keeps_codeInitialised {P : GenState → Prop} {names : List String}
    (hP : OnRegisters P) (hD : ∀ st, P st → st.dereferencedVariables = names)
    (hset : ∀ s r, s ∉ names → Keeps P (setRegister s r)) (rec : Code) (node : ParseTreeNode)
    (hrec : ∀ i, Keeps P (rec i)) (literal : Bool) :
    Keeps P (codeInitialised rec node literal) := by
  unfold codeInitialised
  refine keeps_bind (hrec _) (fun _ => ?_)
  refine keeps_bind (keeps_ite (fun _ => keeps_bind (keeps_childOf _ _) (fun _ => keeps_pure _))
    (fun _ => keeps_pure _)) (fun value => ?_)
  refine keeps_bind (keeps_childOf _ _) (fun dcl => ?_)
  refine keeps_bind (keeps_childOf _ _) (fun idNode => ?_)
  refine keeps_dereferenced_bind hD _ _ ?_
  refine keeps_bind keeps_getFreeRegisters (fun free => ?_)
  by_cases h : idNode.token.lexeme ∈ names
  · simp only [h, decide_True, if_true]
    repeat' first
      | exact hrec _
      | exact keeps_emit hP _
      | exact keeps_push hP _
      | exact keeps_offsetOf hP _
      | refine keeps_bind ?_ (fun _ => ?_)
  · simp only [h, decide_False, Bool.false_eq_true, if_false]
    cases free.getLast? with
    | none =>
      simp only []
      repeat' first
        | exact hrec _
        | exact keeps_emit hP _
        | exact keeps_push hP _
        | exact keeps_offsetOf hP _
        | refine keeps_bind ?_ (fun _ => ?_)
    | some r =>
      simp only []
      repeat' first
        | exact hset _ _ h
        | exact keeps_popFreeRegister hP
        | exact keeps_emit hP _
        | refine keeps_bind ?_ (fun _ => ?_)

theorem onRegisters_boundAs (names : List String) (name : String) (reg : Option String) :
    OnRegisters (BoundAs names name reg) := by
  intro st st1 h1 h2 h
  exact ⟨h1.trans h.1, by rw [h2]; exact h.2⟩

theorem boundAs_setRegister {names : List String} {name : String} {reg : Option String}
    (hname : name ∈ names) (s r : String) (h : s ∉ names) :
    Keeps (BoundAs names name reg) (setRegister s r) := by
  constructor
  intro st hp
  simp only [setRegister]
  have hne : s ≠ name := fun he => h (he ▸ hname)
  exact ⟨hp.1, (find_insert_ne name s r hne _).trans hp.2⟩

theorem onRegisters_framedAs (names : List String) : OnRegisters (FramedAs names) := by
  intro st st1 h1 h2 h
  exact ⟨h1.trans h.1, by rw [h2]; exact h.2⟩

theorem framedAs_setRegister {names : List String} (s r : String) (h : s ∉ names) :
    Keeps (FramedAs names) (setRegister s r) := by
  constructor
  intro st hp
  simp only [setRegister]
  refine ⟨hp.1, fun name hname => ?_⟩
  have hne : s ≠ name := fun he => h (he ▸ hname)
  exact (find_insert_ne name s r hne _).trans (hp.2 name hname)

end

end wlp4gen

namespace wlp4gen

section

attribute [local irreducible] Gen.bind emit childOf symbolOf findRegister offsetOf push pop nextLabel resolveToID operands popArguments both typeIs symbolIs clearSymbolTable setSymbol getLatestOffset setLatestOffset getNumDeletes setNumDeletes getFreeRegisters popFreeRegister inDereferencedVars setRegister incrementSymbolTable printSymbolTable initHeap codeDcl

/-! ### Induction over the tree for `code` -/

theorem keeps_codeAt {P : GenState → Prop} (cs : List ParseTreeNode)
    (h : ∀ c ∈ cs, KeptAt P c) (i : Nat) : Keeps P (codeAt cs i) := by
  rw [codeAt_eq]
  cases hc : cs.get? i with
  | none => exact keeps_fail _
  | some c => exact (h c (List.get?_mem hc)).1

theorem keeps_assignAt {P : GenState → Prop} (cs : List ParseTreeNode)
    (h : ∀ c ∈ cs, KeptAt P c) (i : Nat) (codeExpr : Gen Unit) (expr : ParseTreeNode)
    (hexpr : Keeps P codeExpr) : Keeps P (assignAt cs i codeExpr expr) := by
  rw [assignAt_eq]
  cases hc : cs.get? i with
  | none => exact keeps_fail _
  | some c => exact (h c (List.get?_mem hc)).2.1 _ _ hexpr

theorem keeps_addressAt {P : GenState → Prop} (cs : List ParseTreeNode)
    (h : ∀ c ∈ cs, KeptAt P c) (i : Nat) : Keeps P (addressAt cs i) := by
  rw [addressAt_eq]
  cases hc : cs.get? i with
  | none => exact keeps_fail _
  | some c => exact (h c (List.get?_mem hc)).2.2.1

theorem keeps_pushArgsAt {P : GenState → Prop} (cs : List ParseTreeNode)
    (h : ∀ c ∈ cs, KeptAt P c) (i : Nat) : Keeps P (pushArgsAt cs i) := by
  rw [pushArgsAt_eq]
  cases hc : cs.get? i with
  | none => exact keeps_fail _
  | some c => exact (h c (List.get?_mem hc)).2.2.2

/-- The four functions that walk the tree keep a property of the register
table that the two places that bind a register keep. -/
theorem keeps_tree {P : GenState → Prop} (hP : OnRegisters P)
    (hparameter : ∀ rec node, (∀ i, Keeps P (rec i)) →
      ∀ i r, Keeps P (codeParameter rec node i r))
    (hinitialised : ∀ rec node, (∀ i, Keeps P (rec i)) →
      ∀ literal, Keeps P (codeInitialised rec node literal))
    (node : ParseTreeNode) : KeptAt P node := by
  induction node using gen_tree_induction with
  | step lhs rhs tok cs ty wt ih =>
    have hrec : ∀ i, Keeps P (codeAt cs i) := keeps_codeAt cs ih
    refine ⟨?_, ?_, ?_, ?_⟩
    · unfold code
      exact keeps_codeBody hP _ _ _ _ _ hrec
        (fun expr => keeps_assignAt cs ih 0 _ expr (hrec 2))
        (keeps_addressAt cs ih 1) (keeps_pushArgsAt cs ih 2)
        (hparameter _ _ hrec) (hinitialised _ _ hrec)
    · intro codeExpr expr hexpr
      unfold assign
      exact keeps_ite (fun _ => keeps_assignBody hP _ _ _ _ hrec hexpr)
        (fun _ => keeps_assignAt cs ih 1 _ _ hexpr)
    · unfold address
      exact keeps_ite (fun _ => keeps_addressBody hP _ _ hrec)
        (fun _ => keeps_addressAt cs ih 1)
    · unfold pushArgs
      refine keeps_ite (fun _ => ?_) (fun _ => ?_)
      · exact keeps_bind (hrec 0) (fun _ => keeps_bind (keeps_push hP _)
          (fun _ => keeps_pure _))
      · exact keeps_bind (hrec 0) (fun _ => keeps_bind (keeps_push hP _)
          (fun _ => keeps_bind (keeps_pushArgsAt cs ih 2) (fun _ => keeps_lift _)))

/-- Code generation neither changes `dereferencedVariables` nor binds or
unbinds a variable that is in it. -/
theorem keeps_code_bound (names : List String) (name : String) (reg : Option String)
    (hname : name ∈ names) (node : ParseTreeNode) :
    Keeps (BoundAs names name reg) (code node) :=
  (keeps_tree (onRegisters_boundAs names name reg)
    (fun rec node hrec i r => keeps_codeParameter (onRegisters_boundAs names name reg)
      (fun _ h => h.1) (boundAs_setRegister hname) rec node hrec i r)
    (fun rec node hrec literal => keeps_codeInitialised (onRegisters_boundAs names name reg)
      (fun _ h => h.1) (boundAs_setRegister hname) rec node hrec literal) node).1

theorem keeps_code_framed (names : List String) (node : ParseTreeNode) :
    Keeps (FramedAs names) (code node) :=
  (keeps_tree (onRegisters_framedAs names)
    (fun rec node hrec i r => keeps_codeParameter (onRegisters_framedAs names)
      (fun _ h => h.1) framedAs_setRegister rec node hrec i r)
    (fun rec node hrec literal => keeps_codeInitialised (onRegisters_framedAs names)
      (fun _ h => h.1) framedAs_setRegister rec node hrec literal) node).1

end

end wlp4gen

namespace wlp4gen

section

attribute [local irreducible] Gen.bind emit childOf symbolOf

/-! ### The scan for variables whose address is taken -/

theorem keeps_recordDereference (table : List (String × String)) (varName : String) :
    Keeps (fun st => st.regTable = table) (recordDereference varName) :=
  ⟨fun _ h => h⟩

theorem onRegisters_table (table : List (String × String)) :
    OnRegisters (fun st => st.regTable = table) := by
  intro st st1 _ h2 h
  exact h2.trans h

theorem keeps_scan (table : List (String × String)) (node : ParseTreeNode) :
    Keeps (fun st => st.regTable = table) (unwrapDereference node) ∧
      Keeps (fun st => st.regTable = table) (checkForDereferences node) := by
  have hP := onRegisters_table table
  induction node using gen_tree_induction with
  | step lhs rhs tok cs ty wt ih =>
    have hat : ∀ i, Keeps (fun st => st.regTable = table) (unwrapDereferenceAt cs i) := by
      intro i
      rw [unwrapDereferenceAt_eq]
      cases hc : cs.get? i with
      | none => exact keeps_fail _
      | some c => exact (ih c (List.get?_mem hc)).1
    have hloop : ∀ (ds : List ParseTreeNode), (∀ c ∈ ds, c ∈ cs) → ∀ symbols : List String,
        Keeps (fun st => st.regTable = table) (checkLoop symbols ds) := by
      intro ds
      induction ds with
      | nil => intro _ symbols; cases symbols <;> (unfold checkLoop; exact keeps_pure _)
      | cons d ds ihd =>
        intro hds symbols
        cases symbols with
        | nil => unfold checkLoop; exact keeps_fail _
        | cons symbol symbols =>
          unfold checkLoop
          refine keeps_bind (keeps_ite (fun _ => (ih d (hds d (List.mem_cons_self _ _))).2)
            (fun _ => keeps_pure _)) (fun _ => ?_)
          exact ihd (fun c hc => hds c (List.mem_cons_of_mem _ hc)) symbols
    constructor
    · unfold unwrapDereference
      refine keeps_ite (fun _ => ?_) (fun _ => hat 1)
      refine keeps_bind (keeps_symbolOf _ _) (fun _ => ?_)
      refine keeps_ite (fun _ => ?_) (fun _ => keeps_pure _)
      refine keeps_bind (keeps_childOf _ _) (fun _ => ?_)
      exact keeps_bind (keeps_recordDereference _ _) (fun _ => keeps_emit hP _)
    · unfold checkForDereferences
      refine keeps_ite (fun _ => ?_) (fun _ => hloop cs (fun _ h => h) rhs)
      cases rhs with
      | nil => exact keeps_fail _
      | cons first rest =>
        exact keeps_ite (fun _ => hat 1) (fun _ => hloop cs (fun _ h => h) _)

/-- After `generate`, whether it returned or failed, no variable of
`dereferencedVariables` is a key of `regTable`, when the table was empty at
the start. -/
theorem generate_framed (root : ParseTreeNode) (st : GenState) (h : st.regTable = []) :
    Framed (generate root st).2 := by
  unfold generate
  rw [gen_bind_apply]
  have h1 := (keeps_scan [] root).2.keeps st h
  cases hr : checkForDereferences root st with
  | mk r st1 =>
    rw [hr] at h1
    cases r with
    | error e =>
      intro name _
      show find name st1.regTable = none
      rw [h1]
      rfl
    | ok a =>
      have hkeeps : Keeps (FramedAs st1.dereferencedVariables)
          (generatePrologue >>= fun _ => code root >>= fun _ => generateEpilogue) :=
        keeps_bind (keeps_generatePrologue (onRegisters_framedAs _))
          (fun _ => keeps_bind (keeps_code_framed _ root)
            (fun _ => keeps_generateEpilogue (onRegisters_framedAs _)))
      have h2 := hkeeps.keeps st1 ⟨rfl, fun name _ => by rw [h1]; rfl⟩
      intro name hname
      exact h2.2 name (h2.1 ▸ hname)

end

end wlp4gen

namespace wlp4gen

/-- C22: a variable of `dereferencedVariables` is never bound to a register.
`code` leaves `dereferencedVariables` as it is and, for a name in it, leaves
the entry of `regTable` as it is (the insertions for the parameters of `wain`
and for the two initialised declarations are skipped for such a name); and in
the globals at the end of `main`, whether it returned or failed, no name of
`dereferencedVariables` is a key of `regTable`. -/
theorem dereferenced_in_frame :
    (∀ (node : ParseTreeNode) (st : GenState) (name : String),
        name ∈ st.dereferencedVariables →
        (code node st).2.dereferencedVariables = st.dereferencedVariables ∧
          find name (code node st).2.regTable = find name st.regTable) ∧
    (∀ (fuel : Nat) (root : ParseTreeNode) (result : Except Fault Unit) (st : GenState),
        main fuel root = some (result, st) →
        ∀ name ∈ st.dereferencedVariables, find name st.regTable = none) := by
  constructor
  · intro node st name hname
    exact (keeps_code_bound st.dereferencedVariables name (find name st.regTable) hname
      node).keeps st ⟨rfl, rfl⟩
  · intro fuel root result st h
    unfold main at h
    split at h
    · cases h
      intro name hname
      cases hname
    · cases h
    · rename_i root1 st0 _
      have h1 := generate_framed root1 (GenState.after st0) rfl
      have h2 : generate root1 (GenState.after st0) = (result, st) := Option.some.inj h
      rw [h2] at h1
      exact h1

/-- For `int wain(int* a, int b) { int x = 1; a = &x; *a = 5; return x; }`
the variable `x` is the one whose address is taken, the two parameters are
bound to registers and `x` is not. -/
theorem dereferenced_in_frame_witness :
    (main 1 aliased).map (fun r => (r.2.dereferencedVariables, r.2.regTable)) =
        some (["x"], [("a", "$1"), ("b", "$2")]) ∧
      (main 1 aliased).map (fun r => find "x" r.2.regTable) = some none := by
  have h0 : (main 1 aliased).map (fun r => (r.2.dereferencedVariables, r.2.regTable)) =
      some (["x"], [("a", "$1"), ("b", "$2")]) := by decide!
  refine ⟨h0, ?_⟩
  cases h : main 1 aliased with
  | none =>
    rw [h] at h0
    cases h0
  | some r =>
    rw [h] at h0
    have hx : "x" ∈ r.2.dereferencedVariables := by
      have h3 : r.2.dereferencedVariables = ["x"] := congrArg Prod.fst (Option.some.inj h0)
      rw [h3]
      exact List.mem_singleton.mpr rfl
    exact congrArg some (dereferenced_in_frame.2 1 aliased r.1 r.2 h "x" hx)

end wlp4gen

namespace wlp4gen

/-! ### Decimal text of a number -/

theorem digitChar_value (d : Nat) (h : d < 10) : (Nat.digitChar d).toNat - '0'.toNat = d := by
  interval_cases d <;> rfl

theorem digitChar_digit (d : Nat) (h : d < 10) :
    Nat.digitChar d ≠ ' ' ∧ Nat.digitChar d ≠ ':' := by
  interval_cases d <;> decide

theorem toDigitsCore_value : ∀ (fuel n : Nat) (ds : List Char), n < fuel →
    digitsValue (Nat.toDigitsCore 10 fuel n ds) =
      ds.foldl (fun acc c => 10 * acc + (c.toNat - '0'.toNat)) n := by
  intro fuel
  induction fuel with
  | zero => intro n ds h; omega
  | succ fuel ih =>
    intro n ds h
    unfold Nat.toDigitsCore
    simp only []
    by_cases h0 : n / 10 = 0
    · rw [if_pos h0]
      have hn : n % 10 = n := by omega
      simp only [digitsValue, List.foldl_cons, Nat.mul_zero, Nat.zero_add]
      rw [digitChar_value _ (Nat.mod_lt _ (by decide)), hn]
    · rw [if_neg h0]
      rw [ih (n / 10) _ (by omega)]
      simp only [List.foldl_cons]
      rw [digitChar_value _ (Nat.mod_lt _ (by decide))]
      have hn : 10 * (n / 10) + n % 10 = n := Nat.div_add_mod n 10
      rw [hn]

theorem toDigitsCore_chars : ∀ (fuel n : Nat) (ds : List Char),
    ∀ c ∈ Nat.toDigitsCore 10 fuel n ds, c ∈ ds ∨ (c ≠ ' ' ∧ c ≠ ':') := by
  intro fuel
  induction fuel with
  | zero =>
    intro n ds c hc
    unfold Nat.toDigitsCore at hc
    exact Or.inl hc
  | succ fuel ih =>
    intro n ds c hc
    unfold Nat.toDigitsCore at hc
    simp only [] at hc
    by_cases h0 : n / 10 = 0
    · rw [if_pos h0] at hc
      rcases List.mem_cons.mp hc with rfl | hc
      · exact Or.inr (digitChar_digit _ (Nat.mod_lt _ (by decide)))
      · exact Or.inl hc
    · rw [if_neg h0] at hc
      rcases ih _ _ c hc with h1 | h1
      · rcases List.mem_cons.mp h1 with rfl | h2
        · exact Or.inr (digitChar_digit _ (Nat.mod_lt _ (by decide)))
        · exact Or.inl h2
      · exact Or.inr h1

/-- The decimal text of a natural number determines the number. -/
theorem toString_nat_inj (n m : Nat) (h : toString n = toString m) : n = m := by
  have h1 : (Nat.toDigits 10 n) = (Nat.toDigits 10 m) := by
    have h2 := congrArg String.data h
    exact h2
  have hn := toDigitsCore_value (n + 1) n [] (by omega)
  have hm := toDigitsCore_value (m + 1) m [] (by omega)
  simp only [List.foldl_nil] at hn hm
  have h3 : digitsValue (Nat.toDigits 10 n) = digitsValue (Nat.toDigits 10 m) := by rw [h1]
  unfold Nat.toDigits at h3
  omega

/-- The decimal text of a counter that is not negative has neither a blank
nor a colon. -/
theorem toString_int_chars (n : Int) (h : 0 ≤ n) :
    ∀ c ∈ (toString n).data, c ≠ ' ' ∧ c ≠ ':' := by
  cases n with
  | ofNat m =>
    intro c hc
    have hc1 : c ∈ Nat.toDigitsCore 10 (m + 1) m [] := hc
    rcases toDigitsCore_chars _ _ _ c hc1 with h1 | h1
    · cases h1
    · exact h1
  | negSucc m => exact absurd h (by simp)

theorem toString_int_inj (n m : Int) (hn : 0 ≤ n) (hm : 0 ≤ m) (h : toString n = toString m) :
    n = m := by
  cases n with
  | ofNat a =>
    cases m with
    | ofNat b =>
      have h1 : toString a = toString b := h
      rw [toString_nat_inj a b h1]
    | negSucc b => exact absurd hm (by simp)
  | negSucc a => exact absurd hn (by simp)

end wlp4gen

/-! ## Labels of the emitted assembly: lemmas -/

namespace wlp4gen

theorem gen_bind_ok {α β : Type} {x : Gen α} {f : α → Gen β} {st st2 : GenState} {b : β}
    (h : (x >>= f) st = (.ok b, st2)) :
    ∃ a st1, x st = (.ok a, st1) ∧ f a st1 = (.ok b, st2) := by
  rw [gen_bind_apply] at h
  cases hx : x st with
  | mk r st1 =>
    rw [hx] at h
    cases r with
    | error e => cases h
    | ok a => exact ⟨a, st1, rfl, h⟩

theorem checked_ok {value result : Int} (h : checked value = .ok result) : result = value := by
  unfold checked at h
  split at h
  · cases h; rfl
  · cases h

theorem ico_succ (a : Int) : Multiset.Ico a (a + 1) = {a} := by
  have h : Finset.Ico a (a + 1) = {a} := by
    ext x
    simp only [Finset.mem_Ico, Finset.mem_singleton]
    omega
  show (Finset.Ico a (a + 1)).val = {a}
  rw [h]
  rfl

theorem counterLines_add {a b c : Int} (h1 : a ≤ b) (h2 : b ≤ c) :
    counterLines a b + counterLines b c = counterLines a c := by
  unfold counterLines
  rw [← Multiset.add_bind, Multiset.Ico_add_Ico_eq_Ico h1 h2]

theorem deleteLines_add {a b c : Int} (h1 : a ≤ b) (h2 : b ≤ c) :
    deleteLines a b + deleteLines b c = deleteLines a c := by
  unfold deleteLines
  rw [← Multiset.map_add, Multiset.Ico_add_Ico_eq_Ico h1 h2]

theorem counterLines_self (a : Int) : counterLines a a = 0 := by
  unfold counterLines
  rw [Multiset.Ico_self]
  rfl

theorem deleteLines_self (a : Int) : deleteLines a a = 0 := by
  unfold deleteLines
  rw [Multiset.Ico_self]
  rfl

theorem counterLines_succ (a : Int) :
    counterLines a (a + 1) = (counterLinesAt a : Multiset String) := by
  unfold counterLines
  rw [ico_succ, Multiset.singleton_bind]

theorem deleteLines_succ (a : Int) : deleteLines a (a + 1) = {deleteLine a} := by
  unfold deleteLines
  rw [ico_succ, Multiset.map_singleton]

theorem labelLines_append (a b : List String) :
    labelLines (a ++ b) = labelLines a ++ labelLines b := by
  unfold labelLines
  exact List.filter_append _ _

theorem allowance_add (A B : Multiset String) {st s1 st2 : GenState}
    (h1 : st.labelCounter ≤ s1.labelCounter) (h2 : s1.labelCounter ≤ st2.labelCounter)
    (h3 : st.numDeletes ≤ s1.numDeletes) (h4 : s1.numDeletes ≤ st2.numDeletes) :
    allowance A st s1 + allowance B s1 st2 = allowance (A + B) st st2 := by
  unfold allowance
  rw [← counterLines_add h1 h2, ← deleteLines_add h3 h4]
  abel

theorem allowance_mono {A B : Multiset String} (h : A ≤ B) (st st1 : GenState) :
    allowance A st st1 ≤ allowance B st st1 := by
  unfold allowance
  exact add_le_add_right (add_le_add_right h _) _

theorem le_allowance (A : Multiset String) (st st1 : GenState) : A ≤ allowance A st st1 := by
  unfold allowance
  rw [add_assoc]
  exact Multiset.le_add_right _ _

/-! ### Rules -/

theorem emits_mono {α : Type} {A B : Multiset String} {x : Gen α} (hx : Emits A x)
    (h : A ≤ B) : Emits B x := by
  constructor
  intro st a st1 hr
  obtain ⟨h1, h2, new, h3, h4⟩ := hx.emits st a st1 hr
  exact ⟨h1, h2, new, h3, h4.trans (allowance_mono h _ _)⟩

theorem emits_pure {α : Type} (a : α) : Emits 0 (pure a : Gen α) := by
  constructor
  intro st b st1 hr
  simp only [gen_pure_apply, Prod.mk.injEq] at hr
  obtain ⟨-, rfl⟩ := hr
  exact ⟨le_refl _, le_refl _, [], (List.append_nil _).symm, Multiset.zero_le _⟩

theorem emits_fail {α : Type} (e : Fault) : Emits 0 (Gen.fail e : Gen α) := by
  constructor
  intro st b st1 hr
  simp only [gen_fail_apply, Prod.mk.injEq] at hr
  cases hr.1

theorem emits_lift {α : Type} (r : Except Fault α) : Emits 0 (Gen.lift r) := by
  cases r with
  | error e => exact emits_fail e
  | ok a => exact emits_pure a

theorem emits_bind {α β : Type} {A B : Multiset String} {x : Gen α} {f : α → Gen β}
    (hx : Emits A x) (hf : ∀ a, Emits B (f a)) : Emits (A + B) (x >>= f) := by
  constructor
  intro st b st2 hr
  obtain ⟨a, s1, hr1, hr2⟩ := gen_bind_ok hr
  obtain ⟨h1, h2, new1, h3, h4⟩ := hx.emits st a s1 hr1
  obtain ⟨k1, k2, new2, k3, k4⟩ := (hf a).emits s1 b st2 hr2
  refine ⟨h1.trans k1, h2.trans k2, new1 ++ new2, ?_, ?_⟩
  · rw [k3, h3, List.append_assoc]
  · rw [labelLines_append, ← Multiset.coe_add, ← allowance_add A B h1 k1 h2 k2]
    exact add_le_add h4 k4

theorem emits_ite {α : Type} {A B : Multiset String} {c : Prop} [Decidable c] {x y : Gen α}
    (hx : c → Emits A x) (hy : ¬ c → Emits B y) : Emits (A ∪ B) (if c then x else y) := by
  by_cases h : c
  · rw [if_pos h]; exact emits_mono (hx h) (Multiset.le_union_left _ _)
  · rw [if_neg h]; exact emits_mono (hy h) (Multiset.le_union_right _ _)

theorem emits_register {α : Type} {A B : Multiset String} (o : Option String)
    (f : String → Gen α) (g : Gen α) (hf : ∀ s, Emits A (f s)) (hg : Emits B g) :
    Emits (A ∪ B) (match o with
      | some s => f s
      | none => g) := by
  cases o with
  | some s => exact emits_mono (hf s) (Multiset.le_union_left _ _)
  | none => exact emits_mono hg (Multiset.le_union_right _ _)

theorem emits_factor {α : Type} {A B : Multiset String} (o : Option ParseTreeNode)
    (f : ParseTreeNode → Gen α) (g : Gen α) (hg : Emits B g) (hf : ∀ s, Emits A (f s)) :
    Emits (B ∪ A) (match o with
      | none => g
      | some s => f s) := by
  cases o with
  | some s => exact emits_mono (hf s) (Multiset.le_union_right _ _)
  | none => exact emits_mono hg (Multiset.le_union_left _ _)

theorem gen_fail_bind {α β : Type} (e : Fault) (f : α → Gen β) :
    (Gen.fail e >>= f) = Gen.fail e := rfl

theorem counterLinesAt_eq (c : Int) :
    (counterLinesAt c : Multiset String) =
      {"else" ++ toString c ++ ":"} + {"endif" ++ toString c ++ ":"} +
        {"loop" ++ toString c ++ ":"} + {"endWhile" ++ toString c ++ ":"} := rfl

/-- The rule for `labelCounter++`: what follows may write the label lines of
the value that was saved. -/
theorem emits_nextLabel_bind {β : Type} {B : Multiset String} {f : Int → Gen β}
    (hf : ∀ c, Emits (B + (counterLinesAt c : Multiset String)) (f c)) :
    Emits B (nextLabel >>= f) := by
  constructor
  intro st b st2 hr
  obtain ⟨c, s1, hr1, hr2⟩ := gen_bind_ok hr
  unfold nextLabel at hr1
  cases hc : checked (st.labelCounter + 1) with
  | error e =>
    rw [hc] at hr1
    simp only [Prod.mk.injEq] at hr1
    cases hr1.1
  | ok next =>
    rw [hc] at hr1
    simp only [Prod.mk.injEq, Except.ok.injEq] at hr1
    obtain ⟨rfl, rfl⟩ := hr1
    have hnext := checked_ok hc
    subst hnext
    obtain ⟨k1, k2, new, k3, k4⟩ := (hf st.labelCounter).emits _ b st2 hr2
    simp only [] at k1 k2 k3
    refine ⟨by omega, k2, new, k3, k4.trans (le_of_eq ?_)⟩
    unfold allowance
    simp only []
    rw [← counterLines_add (show st.labelCounter ≤ st.labelCounter + 1 by omega) k1,
      counterLines_succ]
    abel

/-- A step that leaves the output and the two counters alone. -/
theorem emits_same {α : Type} {x : Gen α}
    (h : ∀ st, (x st).2.output = st.output ∧ (x st).2.labelCounter = st.labelCounter ∧
      (x st).2.numDeletes = st.numDeletes) : Emits 0 x := by
  constructor
  intro st a st1 hr
  have h1 := h st
  rw [hr] at h1
  refine ⟨le_of_eq h1.2.1.symm, le_of_eq h1.2.2.symm, [], ?_, Multiset.zero_le _⟩
  rw [h1.1, List.append_nil]

end wlp4gen

namespace wlp4gen

/-! ### Lines that define no label -/

theorem labelOf_spaced (line : String) (h : spaced line = true) : labelOf line = none := by
  unfold spaced at h
  simp only [Bool.and_eq_true, decide_eq_true_eq] at h
  unfold labelOf
  rw [if_neg]
  simpa using h.2

theorem firstWord_append (a b : String) (h : (firstWord a).length < a.data.length) :
    firstWord (a ++ b) = firstWord a := by
  unfold firstWord at h ⊢
  rw [String.data_append, List.takeWhile_append]
  rw [if_neg (Nat.ne_of_lt h)]

theorem spaced_append (a b : String) (h : spaced a = true) : spaced (a ++ b) = true := by
  unfold spaced at h ⊢
  simp only [Bool.and_eq_true, decide_eq_true_eq] at h ⊢
  rw [firstWord_append a b h.1]
  refine ⟨?_, h.2⟩
  rw [String.data_append, List.length_append]
  omega

theorem labelLines_plain (lines : List String) (h : ∀ line ∈ lines, spaced line = true) :
    labelLines lines = [] := by
  unfold labelLines
  rw [List.filter_eq_nil_iff]
  intro line hl
  rw [labelOf_spaced line (h line hl)]
  simp

theorem labelLines_le (lines : List String) :
    (labelLines lines : Multiset String) ≤ (lines : Multiset String) := by
  unfold labelLines
  exact Multiset.coe_le.mpr (List.filter_sublist _).subperm

/-- A step that writes lines that define no label and leaves the two counters
alone. -/
theorem emits_lines {α : Type} {x : Gen α}
    (h : ∀ st, ∃ new, (x st).2.output = st.output ++ new ∧
      (∀ line ∈ new, spaced line = true) ∧
      (x st).2.labelCounter = st.labelCounter ∧ (x st).2.numDeletes = st.numDeletes) :
    Emits 0 x := by
  constructor
  intro st a st1 hr
  obtain ⟨new, h1, h2, h3, h4⟩ := h st
  rw [hr] at h1 h3 h4
  refine ⟨le_of_eq h3.symm, le_of_eq h4.symm, new, h1, ?_⟩
  rw [labelLines_plain new h2]
  exact Multiset.zero_le _

theorem emits_plain (line : String) (h : spaced line = true) : Emits 0 (emit line) :=
  emits_lines (fun st => ⟨[line], rfl, fun l hl => by
    rw [List.mem_singleton.mp hl]; exact h, rfl, rfl⟩)

theorem emits_label (line : String) : Emits {line} (emit line) := by
  constructor
  intro st a st1 hr
  simp only [emit, Prod.mk.injEq] at hr
  obtain ⟨-, rfl⟩ := hr
  refine ⟨le_refl _, le_refl _, [line], rfl, ?_⟩
  exact (labelLines_le [line]).trans (le_allowance _ _ _)

theorem emits_childOf (node : ParseTreeNode) (i : Nat) : Emits 0 (childOf node i) := by
  unfold childOf
  split
  · exact emits_pure _
  · exact emits_fail _

theorem emits_symbolOf (node : ParseTreeNode) (i : Nat) : Emits 0 (symbolOf node i) := by
  unfold symbolOf
  split
  · exact emits_pure _
  · exact emits_fail _

theorem emits_clearSymbolTable : Emits 0 clearSymbolTable :=
  emits_same (fun _ => ⟨rfl, rfl, rfl⟩)

theorem emits_setSymbol (name type offset : String) : Emits 0 (setSymbol name type offset) :=
  emits_same (fun _ => ⟨rfl, rfl, rfl⟩)

theorem emits_getLatestOffset : Emits 0 getLatestOffset :=
  emits_same (fun _ => ⟨rfl, rfl, rfl⟩)

theorem emits_setLatestOffset (value : Int) : Emits 0 (setLatestOffset value) :=
  emits_same (fun _ => ⟨rfl, rfl, rfl⟩)

theorem emits_getFreeRegisters : Emits 0 getFreeRegisters :=
  emits_same (fun _ => ⟨rfl, rfl, rfl⟩)

theorem emits_popFreeRegister : Emits 0 popFreeRegister :=
  emits_same (fun _ => ⟨rfl, rfl, rfl⟩)

theorem emits_getWainParam1Name : Emits 0 getWainParam1Name :=
  emits_same (fun _ => ⟨rfl, rfl, rfl⟩)

theorem emits_getWainParam2Name : Emits 0 getWainParam2Name :=
  emits_same (fun _ => ⟨rfl, rfl, rfl⟩)

theorem emits_findRegister (name : String) : Emits 0 (findRegister name) :=
  emits_same (fun _ => ⟨rfl, rfl, rfl⟩)

theorem emits_setRegister (name reg : String) : Emits 0 (setRegister name reg) :=
  emits_same (fun _ => ⟨rfl, rfl, rfl⟩)

theorem emits_inDereferencedVars (s : String) : Emits 0 (inDereferencedVars s) :=
  emits_same (fun _ => ⟨rfl, rfl, rfl⟩)

theorem emits_recordDereference (s : String) : Emits 0 (recordDereference s) :=
  emits_same (fun _ => ⟨rfl, rfl, rfl⟩)

theorem emits_offsetOf (name : String) : Emits 0 (offsetOf name) := by
  refine emits_same (fun st => ?_)
  unfold offsetOf
  split <;> exact ⟨rfl, rfl, rfl⟩

theorem emits_incrementSymbolTable (inc : Int) : Emits 0 (incrementSymbolTable inc) := by
  refine emits_same (fun st => ?_)
  unfold incrementSymbolTable
  split <;> exact ⟨rfl, rfl, rfl⟩

theorem emits_printSymbolTable : Emits 0 printSymbolTable := by
  refine emits_lines (fun st => ⟨_, rfl, ?_, rfl, rfl⟩)
  intro line hl
  rcases List.mem_cons.mp hl with rfl | hl
  · rfl
  · obtain ⟨entry, -, rfl⟩ := List.mem_map.mp hl
    exact spaced_append _ _ (spaced_append _ _ (spaced_append _ _ (spaced_append _ _
      (spaced_append _ _ rfl))))

end wlp4gen

namespace wlp4gen

section

set_option linter.unusedTactic false
set_option linter.unreachableTactic false

attribute [local irreducible] Gen.bind emit childOf symbolOf findRegister offsetOf clearSymbolTable setSymbol getLatestOffset setLatestOffset getFreeRegisters popFreeRegister inDereferencedVars setRegister incrementSymbolTable printSymbolTable nextLabel getNumDeletes setNumDeletes push pop resolveToID operands popArguments both typeIs symbolIs initHeap codeDcl pushAllRegisters popAllRegisters

/-! ### Steps that write no label line of their own -/

theorem emits_push (registerX : String) : Emits 0 (push registerX) := by
  unfold push
  apply emits_mono
  · repeat' first
      | exact emits_pure _
      | exact emits_fail _
      | exact emits_lift _
      | exact emits_childOf _ _
      | exact emits_symbolOf _ _
      | apply emits_plain
      | rfl
      | apply spaced_append
      | intro _
      | apply emits_bind
      | apply emits_ite
      | apply emits_register
      | apply emits_factor
  · refine Multiset.le_iff_count.mpr (fun a => ?_)
    simp only [span, Multiset.count_add, Multiset.count_union, Multiset.count_zero]
    omega

theorem emits_pop (registerX : String) : Emits 0 (pop registerX) := by
  unfold pop
  apply emits_mono
  · repeat' first
      | exact emits_pure _
      | exact emits_fail _
      | exact emits_lift _
      | exact emits_childOf _ _
      | exact emits_symbolOf _ _
      | apply emits_plain
      | rfl
      | apply spaced_append
      | intro _
      | apply emits_bind
      | apply emits_ite
      | apply emits_register
      | apply emits_factor
  · refine Multiset.le_iff_count.mpr (fun a => ?_)
    simp only [span, Multiset.count_add, Multiset.count_union, Multiset.count_zero]
    omega

theorem emits_resolveToID (node : ParseTreeNode) : Emits 0 (resolveToID node) := by
  unfold resolveToID
  apply emits_mono
  · repeat' first
      | exact emits_pure _
      | exact emits_fail _
      | exact emits_lift _
      | exact emits_childOf _ _
      | exact emits_symbolOf _ _
      | exact emits_findRegister _
      | apply emits_plain
      | rfl
      | apply spaced_append
      | intro _
      | apply emits_bind
      | apply emits_ite
      | apply emits_register
      | apply emits_factor
  · refine Multiset.le_iff_count.mpr (fun a => ?_)
    simp only [span, Multiset.count_add, Multiset.count_union, Multiset.count_zero]
    omega

theorem emits_pushAllRegisters : Emits 0 pushAllRegisters := by
  unfold pushAllRegisters
  apply emits_mono
  · repeat' first
      | exact emits_pure _
      | exact emits_fail _
      | exact emits_lift _
      | exact emits_childOf _ _
      | exact emits_symbolOf _ _
      | exact emits_push _
      | exact emits_pop _
      | apply emits_plain
      | rfl
      | apply spaced_append
      | intro _
      | apply emits_bind
      | apply emits_ite
      | apply emits_register
      | apply emits_factor
  · refine Multiset.le_iff_count.mpr (fun a => ?_)
    simp only [span, Multiset.count_add, Multiset.count_union, Multiset.count_zero]
    omega

theorem emits_popAllRegisters : Emits 0 popAllRegisters := by
  unfold popAllRegisters
  apply emits_mono
  · repeat' first
      | exact emits_pure _
      | exact emits_fail _
      | exact emits_lift _
      | exact emits_childOf _ _
      | exact emits_symbolOf _ _
      | exact emits_push _
      | exact emits_pop _
      | apply emits_plain
      | rfl
      | apply spaced_append
      | intro _
      | apply emits_bind
      | apply emits_ite
      | apply emits_register
      | apply emits_factor
  · refine Multiset.le_iff_count.mpr (fun a => ?_)
    simp only [span, Multiset.count_add, Multiset.count_union, Multiset.count_zero]
    omega

theorem emits_generatePrologue : Emits 0 generatePrologue := by
  unfold generatePrologue
  apply emits_mono
  · repeat' first
      | exact emits_pure _
      | exact emits_fail _
      | exact emits_lift _
      | exact emits_childOf _ _
      | exact emits_symbolOf _ _
      | exact emits_push _
      | exact emits_pop _
      | exact emits_getWainParam1Name
      | exact emits_getWainParam2Name
      | exact emits_inDereferencedVars _
      | apply emits_plain
      | rfl
      | apply spaced_append
      | intro _
      | apply emits_bind
      | apply emits_ite
      | apply emits_register
      | apply emits_factor
  · refine Multiset.le_iff_count.mpr (fun a => ?_)
    simp only [span, Multiset.count_add, Multiset.count_union, Multiset.count_zero]
    omega

theorem emits_generateEpilogue : Emits 0 generateEpilogue := by
  unfold generateEpilogue
  apply emits_mono
  · repeat' first
      | exact emits_pure _
      | exact emits_fail _
      | exact emits_lift _
      | exact emits_childOf _ _
      | exact emits_symbolOf _ _
      | exact emits_push _
      | exact emits_pop _
      | exact emits_getWainParam1Name
      | exact emits_getWainParam2Name
      | exact emits_inDereferencedVars _
      | apply emits_plain
      | rfl
      | apply spaced_append
      | intro _
      | apply emits_bind
      | apply emits_ite
      | apply emits_register
      | apply emits_factor
  · refine Multiset.le_iff_count.mpr (fun a => ?_)
    simp only [span, Multiset.count_add, Multiset.count_union, Multiset.count_zero]
    omega

theorem emits_initHeap (dcl1 : ParseTreeNode) : Emits 0 (initHeap dcl1) := by
  unfold initHeap
  apply emits_mono
  · repeat' first
      | exact emits_pure _
      | exact emits_fail _
      | exact emits_lift _
      | exact emits_childOf _ _
      | exact emits_symbolOf _ _
      | exact emits_push _
      | exact emits_pop _
      | apply emits_plain
      | rfl
      | apply spaced_append
      | intro _
      | apply emits_bind
      | apply emits_ite
      | apply emits_register
      | apply emits_factor
  · refine Multiset.le_iff_count.mpr (fun a => ?_)
    simp only [span, Multiset.count_add, Multiset.count_union, Multiset.count_zero]
    omega

theorem emits_codeDcl (node : ParseTreeNode) : Emits 0 (codeDcl node) := by
  unfold codeDcl
  apply emits_mono
  · repeat' first
      | exact emits_pure _
      | exact emits_fail _
      | exact emits_lift _
      | exact emits_childOf _ _
      | exact emits_symbolOf _ _
      | exact emits_getLatestOffset
      | exact emits_setLatestOffset _
      | exact emits_setSymbol _ _ _
      | apply emits_plain
      | rfl
      | apply spaced_append
      | intro _
      | apply emits_bind
      | apply emits_ite
      | apply emits_register
      | apply emits_factor
  · refine Multiset.le_iff_count.mpr (fun a => ?_)
    simp only [span, Multiset.count_add, Multiset.count_union, Multiset.count_zero]
    omega

theorem emits_operands {A B : Multiset String} (first second : ParseTreeNode)
    (codeFirst codeSecond : Gen Unit) (hfirst : Emits A codeFirst)
    (hsecond : Emits B codeSecond) :
    Emits (A + B) (operands first second codeFirst codeSecond) := by
  unfold operands
  apply emits_mono
  · repeat' first
      | exact emits_pure _
      | exact emits_fail _
      | exact emits_lift _
      | exact emits_childOf _ _
      | exact emits_symbolOf _ _
      | exact emits_push _
      | exact emits_pop _
      | exact emits_resolveToID _
      | exact hfirst
      | exact hsecond
      | apply emits_plain
      | rfl
      | apply spaced_append
      | intro _
      | apply emits_bind
      | apply emits_ite
      | apply emits_register
      | apply emits_factor
  · refine Multiset.le_iff_count.mpr (fun a => ?_)
    simp only [span, Multiset.count_add, Multiset.count_union, Multiset.count_zero]
    omega

theorem emits_both {x y : Gen Bool} (hx : Emits 0 x) (hy : Emits 0 y) : Emits 0 (both x y) := by
  unfold both
  apply emits_mono
  · repeat' first
      | exact emits_pure _
      | exact emits_fail _
      | exact emits_lift _
      | exact emits_childOf _ _
      | exact emits_symbolOf _ _
      | exact hx
      | exact hy
      | apply emits_plain
      | rfl
      | apply spaced_append
      | intro _
      | apply emits_bind
      | apply emits_ite
      | apply emits_register
      | apply emits_factor
  · refine Multiset.le_iff_count.mpr (fun a => ?_)
    simp only [span, Multiset.count_add, Multiset.count_union, Multiset.count_zero]
    omega

theorem emits_typeIs (node : ParseTreeNode) (i : Nat) (type : String) :
    Emits 0 (typeIs node i type) := by
  unfold typeIs
  apply emits_mono
  · repeat' first
      | exact emits_pure _
      | exact emits_fail _
      | exact emits_lift _
      | exact emits_childOf _ _
      | exact emits_symbolOf _ _
      | apply emits_plain
      | rfl
      | apply spaced_append
      | intro _
      | apply emits_bind
      | apply emits_ite
      | apply emits_register
      | apply emits_factor
  · refine Multiset.le_iff_count.mpr (fun a => ?_)
    simp only [span, Multiset.count_add, Multiset.count_union, Multiset.count_zero]
    omega

theorem emits_symbolIs (node : ParseTreeNode) (i : Nat) (symbol : String) :
    Emits 0 (symbolIs node i symbol) := by
  unfold symbolIs
  apply emits_mono
  · repeat' first
      | exact emits_pure _
      | exact emits_fail _
      | exact emits_lift _
      | exact emits_childOf _ _
      | exact emits_symbolOf _ _
      | apply emits_plain
      | rfl
      | apply spaced_append
      | intro _
      | apply emits_bind
      | apply emits_ite
      | apply emits_register
      | apply emits_factor
  · refine Multiset.le_iff_count.mpr (fun a => ?_)
    simp only [span, Multiset.count_add, Multiset.count_union, Multiset.count_zero]
    omega

theorem emits_codeParameter {E : Nat → Multiset String} (rec : Code) (node : ParseTreeNode)
    (i : Nat) (reg : String) (hrec : ∀ i, Emits (E i) (rec i)) :
    Emits (E i) (codeParameter rec node i reg) := by
  unfold codeParameter
  apply emits_mono
  · repeat' first
      | exact emits_pure _
      | exact emits_fail _
      | exact emits_lift _
      | exact emits_childOf _ _
      | exact emits_symbolOf _ _
      | exact hrec _
      | exact emits_inDereferencedVars _
      | exact emits_setRegister _ _
      | apply emits_plain
      | rfl
      | apply spaced_append
      | intro _
      | apply emits_bind
      | apply emits_ite
      | apply emits_register
      | apply emits_factor
  · refine Multiset.le_iff_count.mpr (fun a => ?_)
    simp only [span, Multiset.count_add, Multiset.count_union, Multiset.count_zero]
    omega

theorem emits_codeInitialised {E : Nat → Multiset String} (rec : Code) (node : ParseTreeNode)
    (literal : Bool) (hrec : ∀ i, Emits (E i) (rec i)) :
    Emits (span E) (codeInitialised rec node literal) := by
  unfold codeInitialised
  apply emits_mono
  · repeat' first
      | exact emits_pure _
      | exact emits_fail _
      | exact emits_lift _
      | exact emits_childOf _ _
      | exact emits_symbolOf _ _
      | exact hrec _
      | exact emits_push _
      | exact emits_pop _
      | exact emits_inDereferencedVars _
      | exact emits_setRegister _ _
      | exact emits_getFreeRegisters
      | exact emits_popFreeRegister
      | exact emits_offsetOf _
      | apply emits_plain
      | rfl
      | apply spaced_append
      | intro _
      | apply emits_bind
      | apply emits_ite
      | apply emits_register
      | apply emits_factor
  · refine Multiset.le_iff_count.mpr (fun a => ?_)
    simp only [span, Multiset.count_add, Multiset.count_union, Multiset.count_zero]
    omega

theorem emits_assignBody {E : Nat → Multiset String} (rec : Code) {A : Multiset String}
    (codeExpr : Gen Unit) (expr node : ParseTreeNode) (hrec : ∀ i, Emits (E i) (rec i))
    (hexpr : Emits A codeExpr) : Emits (A + span E) (assignBody rec codeExpr expr node) := by
  unfold assignBody
  apply emits_mono
  · repeat' first
      | exact emits_pure _
      | exact emits_fail _
      | exact emits_lift _
      | exact emits_childOf _ _
      | exact emits_symbolOf _ _
      | exact emits_operands _ _ _ _ hexpr (hrec _)
      | exact hexpr
      | exact emits_findRegister _
      | exact emits_offsetOf _
      | apply emits_plain
      | rfl
      | apply spaced_append
      | intro _
      | apply emits_bind
      | apply emits_ite
      | apply emits_register
      | apply emits_factor
  · refine Multiset.le_iff_count.mpr (fun a => ?_)
    simp only [span, Multiset.count_add, Multiset.count_union, Multiset.count_zero]
    omega

theorem emits_addressBody {E : Nat → Multiset String} (rec : Code) (node : ParseTreeNode)
    (hrec : ∀ i, Emits (E i) (rec i)) : Emits (span E) (addressBody rec node) := by
  unfold addressBody
  apply emits_mono
  · repeat' first
      | exact emits_pure _
      | exact emits_fail _
      | exact emits_lift _
      | exact emits_childOf _ _
      | exact emits_symbolOf _ _
      | exact hrec _
      | exact emits_findRegister _
      | exact emits_offsetOf _
      | apply emits_plain
      | rfl
      | apply spaced_append
      | intro _
      | apply emits_bind
      | apply emits_ite
      | apply emits_register
      | apply emits_factor
  · refine Multiset.le_iff_count.mpr (fun a => ?_)
    simp only [span, Multiset.count_add, Multiset.count_union, Multiset.count_zero]
    omega

theorem emits_codePrintln {E : Nat → Multiset String} (rec : Code) (hrec : ∀ i, Emits (E i) (rec i)) :
    Emits (span E) (codePrintln rec) := by
  unfold codePrintln
  apply emits_mono
  · repeat' first
      | exact emits_pure _
      | exact emits_fail _
      | exact emits_lift _
      | exact emits_childOf _ _
      | exact emits_symbolOf _ _
      | exact hrec _
      | exact emits_push _
      | exact emits_pop _
      | apply emits_plain
      | rfl
      | apply spaced_append
      | intro _
      | apply emits_bind
      | apply emits_ite
      | apply emits_register
      | apply emits_factor
  · refine Multiset.le_iff_count.mpr (fun a => ?_)
    simp only [span, Multiset.count_add, Multiset.count_union, Multiset.count_zero]
    omega

theorem emits_codeExprTerm {E : Nat → Multiset String} (rec : Code) (node : ParseTreeNode)
    (hrec : ∀ i, Emits (E i) (rec i)) : Emits (span E) (codeExprTerm rec node) := by
  unfold codeExprTerm
  apply emits_mono
  · repeat' first
      | exact emits_pure _
      | exact emits_fail _
      | exact emits_lift _
      | exact emits_childOf _ _
      | exact emits_symbolOf _ _
      | exact hrec _
      | apply emits_plain
      | rfl
      | apply spaced_append
      | intro _
      | apply emits_bind
      | apply emits_ite
      | apply emits_register
      | apply emits_factor
  · refine Multiset.le_iff_count.mpr (fun a => ?_)
    simp only [span, Multiset.count_add, Multiset.count_union, Multiset.count_zero]
    omega

theorem emits_codeIntSum {E : Nat → Multiset String} (rec : Code) (node : ParseTreeNode)
    (hrec : ∀ i, Emits (E i) (rec i)) : Emits (span E) (codeIntSum rec node) := by
  unfold codeIntSum
  apply emits_mono
  · repeat' first
      | exact emits_pure _
      | exact emits_fail _
      | exact emits_lift _
      | exact emits_childOf _ _
      | exact emits_symbolOf _ _
      | exact emits_operands _ _ _ _ (hrec _) (hrec _)
      | apply emits_plain
      | rfl
      | apply spaced_append
      | intro _
      | apply emits_bind
      | apply emits_ite
      | apply emits_register
      | apply emits_factor
  · refine Multiset.le_iff_count.mpr (fun a => ?_)
    simp only [span, Multiset.count_add, Multiset.count_union, Multiset.count_zero]
    omega

theorem emits_codePointerInt {E : Nat → Multiset String} (rec : Code) (node : ParseTreeNode)
    (operation : String) (hop : operation = "add" ∨ operation = "sub")
    (hrec : ∀ i, Emits (E i) (rec i)) : Emits (span E) (codePointerInt rec node operation) := by
  unfold codePointerInt
  rcases hop with rfl | rfl
  all_goals
    apply emits_mono
    · repeat' first
        | exact emits_pure _
        | exact emits_fail _
        | exact emits_lift _
        | exact emits_childOf _ _
        | exact emits_symbolOf _ _
        | exact hrec _
        | exact emits_push _
        | exact emits_pop _
        | exact emits_resolveToID _
        | apply emits_plain
        | rfl
        | apply spaced_append
        | intro _
        | apply emits_bind
        | apply emits_ite
        | apply emits_register
        | apply emits_factor
    · refine Multiset.le_iff_count.mpr (fun a => ?_)
      simp only [span, Multiset.count_add, Multiset.count_union, Multiset.count_zero]
      omega

theorem emits_codeIntPointer {E : Nat → Multiset String} (rec : Code) (node : ParseTreeNode)
    (hrec : ∀ i, Emits (E i) (rec i)) : Emits (span E) (codeIntPointer rec node) := by
  unfold codeIntPointer
  apply emits_mono
  · repeat' first
      | exact emits_pure _
      | exact emits_fail _
      | exact emits_lift _
      | exact emits_childOf _ _
      | exact emits_symbolOf _ _
      | exact hrec _
      | exact emits_push _
      | exact emits_pop _
      | exact emits_resolveToID _
      | apply emits_plain
      | rfl
      | apply spaced_append
      | intro _
      | apply emits_bind
      | apply emits_ite
      | apply emits_register
      | apply emits_factor
  · refine Multiset.le_iff_count.mpr (fun a => ?_)
    simp only [span, Multiset.count_add, Multiset.count_union, Multiset.count_zero]
    omega

theorem emits_codePointerDifference {E : Nat → Multiset String} (rec : Code) (node : ParseTreeNode)
    (hrec : ∀ i, Emits (E i) (rec i)) : Emits (span E) (codePointerDifference rec node) := by
  unfold codePointerDifference
  apply emits_mono
  · repeat' first
      | exact emits_pure _
      | exact emits_fail _
      | exact emits_lift _
      | exact emits_childOf _ _
      | exact emits_symbolOf _ _
      | exact hrec _
      | exact emits_push _
      | exact emits_pop _
      | exact emits_resolveToID _
      | apply emits_plain
      | rfl
      | apply spaced_append
      | intro _
      | apply emits_bind
      | apply emits_ite
      | apply emits_register
      | apply emits_factor
  · refine Multiset.le_iff_count.mpr (fun a => ?_)
    simp only [span, Multiset.count_add, Multiset.count_union, Multiset.count_zero]
    omega

theorem emits_codeSum {E : Nat → Multiset String} (rec : Code) (node : ParseTreeNode)
    (hrec : ∀ i, Emits (E i) (rec i)) : Emits (span E) (codeSum rec node) := by
  unfold codeSum
  apply emits_mono
  · repeat' first
      | exact emits_pure _
      | exact emits_fail _
      | exact emits_lift _
      | exact emits_childOf _ _
      | exact emits_symbolOf _ _
      | exact emits_both (emits_typeIs _ _ _) (emits_typeIs _ _ _)
      | exact emits_both (emits_symbolIs _ _ _) (emits_both (emits_typeIs _ _ _) (emits_typeIs _ _ _))
      | exact emits_codeIntSum rec node hrec
      | exact emits_codePointerInt rec node _ (Or.inl rfl) hrec
      | exact emits_codePointerInt rec node _ (Or.inr rfl) hrec
      | exact emits_codeIntPointer rec node hrec
      | exact emits_codePointerDifference rec node hrec
      | apply emits_plain
      | rfl
      | apply spaced_append
      | intro _
      | apply emits_bind
      | apply emits_ite
      | apply emits_register
      | apply emits_factor
  · refine Multiset.le_iff_count.mpr (fun a => ?_)
    simp only [span, Multiset.count_add, Multiset.count_union, Multiset.count_zero]
    omega

theorem emits_codeProduct {E : Nat → Multiset String} (rec : Code) (node : ParseTreeNode)
    (hrec : ∀ i, Emits (E i) (rec i)) : Emits (span E) (codeProduct rec node) := by
  unfold codeProduct
  apply emits_mono
  · repeat' first
      | exact emits_pure _
      | exact emits_fail _
      | exact emits_lift _
      | exact emits_childOf _ _
      | exact emits_symbolOf _ _
      | exact emits_operands _ _ _ _ (hrec _) (hrec _)
      | apply emits_plain
      | rfl
      | apply spaced_append
      | intro _
      | apply emits_bind
      | apply emits_ite
      | apply emits_register
      | apply emits_factor
  · refine Multiset.le_iff_count.mpr (fun a => ?_)
    simp only [span, Multiset.count_add, Multiset.count_union, Multiset.count_zero]
    omega

theorem emits_codeNum (node : ParseTreeNode) : Emits 0 (codeNum node) := by
  unfold codeNum
  apply emits_mono
  · repeat' first
      | exact emits_pure _
      | exact emits_fail _
      | exact emits_lift _
      | exact emits_childOf _ _
      | exact emits_symbolOf _ _
      | apply emits_plain
      | rfl
      | apply spaced_append
      | intro _
      | apply emits_bind
      | apply emits_ite
      | apply emits_register
      | apply emits_factor
  · refine Multiset.le_iff_count.mpr (fun a => ?_)
    simp only [span, Multiset.count_add, Multiset.count_union, Multiset.count_zero]
    omega

theorem emits_codeVariable (node : ParseTreeNode) : Emits 0 (codeVariable node) := by
  unfold codeVariable
  apply emits_mono
  · repeat' first
      | exact emits_pure _
      | exact emits_fail _
      | exact emits_lift _
      | exact emits_childOf _ _
      | exact emits_symbolOf _ _
      | exact emits_findRegister _
      | exact emits_offsetOf _
      | apply emits_plain
      | rfl
      | apply spaced_append
      | intro _
      | apply emits_bind
      | apply emits_ite
      | apply emits_register
      | apply emits_factor
  · refine Multiset.le_iff_count.mpr (fun a => ?_)
    simp only [span, Multiset.count_add, Multiset.count_union, Multiset.count_zero]
    omega

theorem emits_codeCall (node : ParseTreeNode) : Emits 0 (codeCall node) := by
  unfold codeCall
  apply emits_mono
  · repeat' first
      | exact emits_pure _
      | exact emits_fail _
      | exact emits_lift _
      | exact emits_childOf _ _
      | exact emits_symbolOf _ _
      | exact emits_push _
      | exact emits_pop _
      | apply emits_plain
      | rfl
      | apply spaced_append
      | intro _
      | apply emits_bind
      | apply emits_ite
      | apply emits_register
      | apply emits_factor
  · refine Multiset.le_iff_count.mpr (fun a => ?_)
    simp only [span, Multiset.count_add, Multiset.count_union, Multiset.count_zero]
    omega

theorem emits_popArguments : ∀ count : Nat, Emits 0 (popArguments count) := by
  intro count
  induction count with
  | zero => unfold popArguments; exact emits_pure _
  | succ count ih =>
    unfold popArguments
    exact emits_mono (emits_bind (emits_pop _) (fun _ => ih)) (le_of_eq (add_zero _))

theorem emits_codeCallWith {A : Multiset String} (pushArguments : Gen Int)
    (node : ParseTreeNode) (hpush : Emits A pushArguments) :
    Emits A (codeCallWith pushArguments node) := by
  unfold codeCallWith
  apply emits_mono
  · repeat' first
      | exact emits_pure _
      | exact emits_fail _
      | exact emits_lift _
      | exact emits_childOf _ _
      | exact emits_symbolOf _ _
      | exact emits_push _
      | exact emits_pop _
      | exact hpush
      | exact emits_popArguments _
      | apply emits_plain
      | rfl
      | apply spaced_append
      | intro _
      | apply emits_bind
      | apply emits_ite
      | apply emits_register
      | apply emits_factor
  · refine Multiset.le_iff_count.mpr (fun a => ?_)
    simp only [span, Multiset.count_add, Multiset.count_union, Multiset.count_zero]
    omega

theorem emits_codeNew {E : Nat → Multiset String} (rec : Code) (hrec : ∀ i, Emits (E i) (rec i)) :
    Emits (span E) (codeNew rec) := by
  unfold codeNew
  apply emits_mono
  · repeat' first
      | exact emits_pure _
      | exact emits_fail _
      | exact emits_lift _
      | exact emits_childOf _ _
      | exact emits_symbolOf _ _
      | exact hrec _
      | exact emits_push _
      | exact emits_pop _
      | apply emits_plain
      | rfl
      | apply spaced_append
      | intro _
      | apply emits_bind
      | apply emits_ite
      | apply emits_register
      | apply emits_factor
  · refine Multiset.le_iff_count.mpr (fun a => ?_)
    simp only [span, Multiset.count_add, Multiset.count_union, Multiset.count_zero]
    omega

theorem emits_compare (instruction operator expr1Reg expr2Reg : String)
    (hop : instruction = "slt" ∨ instruction = "sltu") :
    Emits 0 (compare instruction operator expr1Reg expr2Reg) := by
  unfold compare
  rcases hop with rfl | rfl
  all_goals
    apply emits_mono
    · repeat' first
        | exact emits_pure _
        | exact emits_fail _
        | exact emits_lift _
        | exact emits_childOf _ _
        | exact emits_symbolOf _ _
        | apply emits_plain
        | rfl
        | apply spaced_append
        | intro _
        | apply emits_bind
        | apply emits_ite
        | apply emits_register
        | apply emits_factor
    · refine Multiset.le_iff_count.mpr (fun a => ?_)
      simp only [span, Multiset.count_add, Multiset.count_union, Multiset.count_zero]
      omega

theorem emits_codeTest {E : Nat → Multiset String} (rec : Code) (node : ParseTreeNode)
    (hrec : ∀ i, Emits (E i) (rec i)) : Emits (span E) (codeTest rec node) := by
  unfold codeTest
  apply emits_mono
  · repeat' first
      | exact emits_pure _
      | exact emits_fail _
      | exact emits_lift _
      | exact emits_childOf _ _
      | exact emits_symbolOf _ _
      | exact emits_operands _ _ _ _ (hrec _) (hrec _)
      | exact emits_compare _ _ _ _ (Or.inl rfl)
      | exact emits_compare _ _ _ _ (Or.inr rfl)
      | apply emits_plain
      | rfl
      | apply spaced_append
      | intro _
      | apply emits_bind
      | apply emits_ite
      | apply emits_register
      | apply emits_factor
  · refine Multiset.le_iff_count.mpr (fun a => ?_)
    simp only [span, Multiset.count_add, Multiset.count_union, Multiset.count_zero]
    omega

theorem emits_codeFactor {E : Nat → Multiset String} (rec : Code) (address : Gen Unit)
    (pushArguments : Gen Int) (node : ParseTreeNode) (hrec : ∀ i, Emits (E i) (rec i))
    (haddress : Emits (E 1) address) (hpush : Emits (E 2) pushArguments) :
    Emits (span E) (codeFactor rec address pushArguments node) := by
  unfold codeFactor
  simp only []
  apply emits_mono
  · repeat' first
      | exact emits_pure _
      | exact emits_fail _
      | exact emits_lift _
      | exact emits_childOf _ _
      | exact emits_symbolOf _ _
      | exact hrec _
      | exact haddress
      | exact emits_codeNum _
      | exact emits_codeVariable _
      | exact emits_codeCall _
      | exact emits_codeCallWith _ _ hpush
      | exact emits_codeNew rec hrec
      | apply emits_plain
      | rfl
      | apply spaced_append
      | intro _
      | apply emits_bind
      | apply emits_ite
      | apply emits_register
      | apply emits_factor
  · refine Multiset.le_iff_count.mpr (fun a => ?_)
    simp only [span, Multiset.count_add, Multiset.count_union, Multiset.count_zero]
    omega

end

end wlp4gen

namespace wlp4gen

/-- The lines of branch `statement -> DELETE ...` after the operand is
computed and `$1` is saved: they end with the label of the current value of
`numDeletes`, which is then increased. -/
theorem emits_codeDelete {E : Nat → Multiset String} (rec : Code)
    (hrec : ∀ i, Emits (E i) (rec i)) : Emits (span E) (codeDelete rec) := by
  have htail : ∀ x : Gen Unit, (∀ st, ∃ lines,
      (∀ line ∈ lines, spaced line = true) ∧
      x st = match checked (st.numDeletes + 1) with
        | .ok next => (.ok (), { st with
            output := st.output ++ (lines ++ [deleteLine st.numDeletes]), numDeletes := next })
        | .error e => (.error e, { st with
            output := st.output ++ (lines ++ [deleteLine st.numDeletes]) })) →
      Emits 0 x := by
    intro x hx
    constructor
    intro st a st1 hr
    obtain ⟨lines, hl, hx1⟩ := hx st
    rw [hx1] at hr
    cases hc : checked (st.numDeletes + 1) with
    | error e =>
      rw [hc] at hr
      simp only [Prod.mk.injEq] at hr
      cases hr.1
    | ok next =>
      rw [hc] at hr
      simp only [Prod.mk.injEq] at hr
      obtain ⟨-, rfl⟩ := hr
      have hnext := checked_ok hc
      subst hnext
      refine ⟨le_refl _, by simp only []; omega, _, rfl, ?_⟩
      rw [labelLines_append, labelLines_plain lines hl]
      unfold allowance
      simp only [List.nil_append]
      rw [counterLines_self, deleteLines_succ]
      refine (labelLines_le _).trans ?_
      simp
  unfold codeDelete
  refine emits_mono (emits_bind (hrec 3) (fun _ => htail _ (fun st =>
    ⟨["sw " ++ "$1" ++ ", -4($30) ; push(" ++ "$1" ++ ")", "sub $30, $30, $4",
      "beq $3, $11, skipDelete" ++ toString st.numDeletes, "add $1, $3, $0",
      "sw " ++ "$31" ++ ", -4($30) ; push(" ++ "$31" ++ ")", "sub $30, $30, $4", "lis $5",
      ".word delete", "jalr $5", "add $30, $30, $4 ; pop(" ++ "$31" ++ ")",
      "lw " ++ "$31" ++ ", -4($30)", "add $30, $30, $4 ; pop(" ++ "$1" ++ ")",
      "lw " ++ "$1" ++ ", -4($30)"], ?_, ?_⟩))) ?_
  · intro line hl
    simp only [List.mem_cons, List.mem_singleton, List.not_mem_nil, or_false] at hl
    rcases hl with rfl | rfl | rfl | rfl | rfl | rfl | rfl | rfl | rfl | rfl | rfl | rfl | rfl
    all_goals rfl
  · simp only [gen_bind_apply, push, pop, emit, getNumDeletes, setNumDeletes, Gen.lift]
    cases checked (st.numDeletes + 1) with
    | error e => simp only [deleteLine, List.append_assoc, List.cons_append, List.nil_append]
    | ok next => simp only [deleteLine, List.append_assoc, List.cons_append, List.nil_append]
  · refine Multiset.le_iff_count.mpr (fun a => ?_)
    simp only [span, Multiset.count_add, Multiset.count_zero]
    omega

end wlp4gen

namespace wlp4gen

section

set_option linter.unusedTactic false
set_option linter.unreachableTactic false

attribute [local irreducible] Gen.bind emit childOf symbolOf findRegister offsetOf clearSymbolTable setSymbol getLatestOffset setLatestOffset getFreeRegisters popFreeRegister inDereferencedVars setRegister incrementSymbolTable printSymbolTable nextLabel getNumDeletes setNumDeletes push pop resolveToID operands popArguments both typeIs symbolIs initHeap codeDcl pushAllRegisters popAllRegisters

/-! ### The branches that write label lines -/

theorem emits_codeIf {E : Nat → Multiset String} (rec : Code) (hrec : ∀ i, Emits (E i) (rec i)) :
    Emits (span E) (codeIf rec) := by
  unfold codeIf
  refine emits_nextLabel_bind (fun c => ?_)
  rw [counterLinesAt_eq]
  apply emits_mono
  · repeat' first
      | exact emits_pure _
      | exact emits_fail _
      | exact emits_lift _
      | exact emits_childOf _ _
      | exact emits_symbolOf _ _
      | exact hrec _
      | exact emits_label ("else" ++ toString c ++ ":")
      | exact emits_label ("endif" ++ toString c ++ ":")
      | apply emits_plain
      | rfl
      | apply spaced_append
      | intro _
      | apply emits_bind
      | apply emits_ite
      | apply emits_register
      | apply emits_factor
  · refine Multiset.le_iff_count.mpr (fun a => ?_)
    simp only [span, Multiset.count_add, Multiset.count_union, Multiset.count_zero]
    omega

theorem emits_codeWhile {E : Nat → Multiset String} (rec : Code) (hrec : ∀ i, Emits (E i) (rec i)) :
    Emits (span E) (codeWhile rec) := by
  unfold codeWhile
  refine emits_nextLabel_bind (fun c => ?_)
  rw [counterLinesAt_eq]
  apply emits_mono
  · repeat' first
      | exact emits_pure _
      | exact emits_fail _
      | exact emits_lift _
      | exact emits_childOf _ _
      | exact emits_symbolOf _ _
      | exact hrec _
      | exact emits_label ("loop" ++ toString c ++ ":")
      | exact emits_label ("endWhile" ++ toString c ++ ":")
      | apply emits_plain
      | rfl
      | apply spaced_append
      | intro _
      | apply emits_bind
      | apply emits_ite
      | apply emits_register
      | apply emits_factor
  · refine Multiset.le_iff_count.mpr (fun a => ?_)
    simp only [span, Multiset.count_add, Multiset.count_union, Multiset.count_zero]
    omega

theorem emits_codeProcedure {E : Nat → Multiset String} (rec : Code) (node : ParseTreeNode)
    (hlhs : node.prodRuleLHS = "procedure") (hrec : ∀ i, Emits (E i) (rec i)) :
    Emits (ownLines node + span E) (codeProcedure rec node) := by
  unfold codeProcedure
  cases hc : node.children.get? 1 with
  | none =>
    have h1 : childOf node 1 = Gen.fail (.undefined "children[i]") := by
      unfold childOf
      rw [hc]
    simp only [h1, gen_fail_bind]
    apply emits_mono
    · repeat' first
        | exact emits_pure _
        | exact emits_fail _
        | exact emits_lift _
        | exact emits_childOf _ _
        | exact emits_symbolOf _ _
        | exact emits_clearSymbolTable
        | apply emits_plain
        | rfl
        | apply spaced_append
        | intro _
        | apply emits_bind
        | apply emits_ite
        | apply emits_register
        | apply emits_factor
    · refine Multiset.le_iff_count.mpr (fun a => ?_)
      simp only [span, Multiset.count_add, Multiset.count_union, Multiset.count_zero]
      omega
  | some idNode =>
    have h1 : childOf node 1 = pure idNode := by
      unfold childOf
      rw [hc]
    have h2 : ownLines node = {"F" ++ idNode.token.lexeme ++ ":"} := by
      unfold ownLines ownEntry
      rw [if_pos hlhs, hc]
      rfl
    simp only [h1, gen_pure_bind]
    rw [h2]
    apply emits_mono
    · repeat' first
        | exact emits_pure _
        | exact emits_fail _
        | exact emits_lift _
        | exact emits_childOf _ _
        | exact emits_symbolOf _ _
        | exact hrec _
        | exact emits_label ("F" ++ idNode.token.lexeme ++ ":")
        | exact emits_clearSymbolTable
        | exact emits_pushAllRegisters
        | exact emits_popAllRegisters
        | exact emits_printSymbolTable
        | exact emits_incrementSymbolTable _
        | apply emits_plain
        | rfl
        | apply spaced_append
        | intro _
        | apply emits_bind
        | apply emits_ite
        | apply emits_register
        | apply emits_factor
    · refine Multiset.le_iff_count.mpr (fun a => ?_)
      simp only [span, Multiset.count_add, Multiset.count_union, Multiset.count_zero]
      omega

theorem emits_codeMain {E : Nat → Multiset String} (rec : Code) (node : ParseTreeNode)
    (hlhs : node.prodRuleLHS = "main") (hrec : ∀ i, Emits (E i) (rec i)) :
    Emits (ownLines node + span E) (codeMain rec node) := by
  have h2 : ownLines node = {"wain:"} := by
    unfold ownLines ownEntry
    rw [if_neg (by rw [hlhs]; decide), if_pos hlhs]
    rfl
  rw [h2]
  unfold codeMain
  apply emits_mono
  · repeat' first
      | exact emits_pure _
      | exact emits_fail _
      | exact emits_lift _
      | exact emits_childOf _ _
      | exact emits_symbolOf _ _
      | exact hrec _
      | exact emits_label "wain:"
      | exact emits_clearSymbolTable
      | exact emits_codeParameter rec node _ _ hrec
      | exact emits_initHeap _
      | apply emits_plain
      | rfl
      | apply spaced_append
      | intro _
      | apply emits_bind
      | apply emits_ite
      | apply emits_register
      | apply emits_factor
  · refine Multiset.le_iff_count.mpr (fun a => ?_)
    simp only [span, Multiset.count_add, Multiset.count_union, Multiset.count_zero]
    omega

theorem emits_codeStatement {E : Nat → Multiset String} (rec : Code)
    (assign : ParseTreeNode → Gen Unit) (node : ParseTreeNode) (hrec : ∀ i, Emits (E i) (rec i))
    (hassign : ∀ expr, Emits (E 0 + E 2) (assign expr)) :
    Emits (span E) (codeStatement rec assign node) := by
  unfold codeStatement
  simp only []
  apply emits_mono
  · repeat' first
      | exact emits_pure _
      | exact emits_fail _
      | exact emits_lift _
      | exact emits_childOf _ _
      | exact emits_symbolOf _ _
      | exact hassign _
      | exact emits_codeIf rec hrec
      | exact emits_codeWhile rec hrec
      | exact emits_codePrintln rec hrec
      | exact emits_codeDelete rec hrec
      | apply emits_plain
      | rfl
      | apply spaced_append
      | intro _
      | apply emits_bind
      | apply emits_ite
      | apply emits_register
      | apply emits_factor
  · refine Multiset.le_iff_count.mpr (fun a => ?_)
    simp only [span, Multiset.count_add, Multiset.count_union, Multiset.count_zero]
    omega

/-- The body of `code` writes the label line of the node itself and what its
recursive calls write. -/
theorem emits_codeBody {E : Nat → Multiset String} (rec : Code)
    (assign : ParseTreeNode → Gen Unit) (address : Gen Unit) (pushArguments : Gen Int)
    (node : ParseTreeNode) (hrec : ∀ i, Emits (E i) (rec i))
    (hassign : ∀ expr, Emits (E 0 + E 2) (assign expr)) (haddress : Emits (E 1) address)
    (hpush : Emits (E 2) pushArguments) :
    Emits (ownLines node + span E) (codeBody rec assign address pushArguments node) := by
  unfold codeBody
  simp only []
  apply emits_mono
  · repeat' first
      | exact emits_pure _
      | exact emits_fail _
      | exact emits_lift _
      | exact emits_childOf _ _
      | exact emits_symbolOf _ _
      | exact hrec _
      | exact emits_codeProcedure rec node (by assumption) hrec
      | exact emits_codeMain rec node (by assumption) hrec
      | exact emits_codeInitialised rec node _ hrec
      | exact emits_codeDcl _
      | exact emits_codeStatement rec assign node hrec hassign
      | exact emits_codeExprTerm rec node hrec
      | exact emits_codeSum rec node hrec
      | exact emits_codeProduct rec node hrec
      | exact emits_codeFactor rec address pushArguments node hrec haddress hpush
      | exact emits_codeTest rec node hrec
      | apply emits_plain
      | rfl
      | apply spaced_append
      | intro _
      | apply emits_bind
      | apply emits_ite
      | apply emits_register
      | apply emits_factor
  · refine Multiset.le_iff_count.mpr (fun a => ?_)
    simp only [span, Multiset.count_add, Multiset.count_union, Multiset.count_zero]
    omega

end

end wlp4gen

namespace wlp4gen

/-! ### Induction over the tree for the label lines -/

theorem entries_mk (lhs : String) (rhs : List String) (tok : Token) (cs : List ParseTreeNode)
    (ty : String) (wt : Bool) :
    entries (.mk lhs rhs tok cs ty wt) = ownEntry (.mk lhs rhs tok cs ty wt) ++ entriesOf cs := by
  unfold entries
  rfl

theorem entryLines_mk (lhs : String) (rhs : List String) (tok : Token)
    (cs : List ParseTreeNode) (ty : String) (wt : Bool) :
    (entryLines (.mk lhs rhs tok cs ty wt) : Multiset String) =
      ownLines (.mk lhs rhs tok cs ty wt) + ((entriesOf cs).map entryLine : Multiset String) := by
  unfold entryLines ownLines
  rw [entries_mk, List.map_append]
  rfl

theorem entryLinesAt_nil (i : Nat) : entryLinesAt [] i = 0 := by
  unfold entryLinesAt
  simp

theorem entryLinesAt_zero (c : ParseTreeNode) (cs : List ParseTreeNode) :
    entryLinesAt (c :: cs) 0 = (entryLines c : Multiset String) := by
  unfold entryLinesAt
  simp

theorem entryLinesAt_succ (c : ParseTreeNode) (cs : List ParseTreeNode) (i : Nat) :
    entryLinesAt (c :: cs) (i + 1) = entryLinesAt cs i := by
  unfold entryLinesAt
  simp

theorem entriesOf_cons (c : ParseTreeNode) (cs : List ParseTreeNode) :
    ((entriesOf (c :: cs)).map entryLine : Multiset String) =
      (entryLines c : Multiset String) + ((entriesOf cs).map entryLine : Multiset String) := by
  have h : entriesOf (c :: cs) = entries c ++ entriesOf cs := by
    rw [entriesOf]
  rw [h, List.map_append]
  rfl

/-- The children 0 to `k - 1` have no more procedures than all children. -/
theorem prefix_le (cs : List ParseTreeNode) : ∀ k : Nat,
    ((List.range k).map (entryLinesAt cs)).sum ≤
      ((entriesOf cs).map entryLine : Multiset String) := by
  induction cs with
  | nil =>
    intro k
    have h : (List.range k).map (entryLinesAt []) = (List.range k).map (fun _ => 0) :=
      List.map_congr_left (fun i _ => entryLinesAt_nil i)
    rw [h]
    simp
  | cons c cs ih =>
    intro k
    cases k with
    | zero => simp
    | succ k =>
      rw [List.range_succ_eq_map, List.map_cons, List.sum_cons, List.map_map, entriesOf_cons,
        entryLinesAt_zero]
      have h : (List.range k).map (entryLinesAt (c :: cs) ∘ Nat.succ) =
          (List.range k).map (entryLinesAt cs) :=
        List.map_congr_left (fun i _ => entryLinesAt_succ c cs i)
      rw [h]
      exact add_le_add_left (ih k) _

theorem span_le (cs : List ParseTreeNode) :
    span (entryLinesAt cs) ≤ ((entriesOf cs).map entryLine : Multiset String) := by
  have h := prefix_le cs 12
  have h1 : ((List.range 12).map (entryLinesAt cs)).sum = span (entryLinesAt cs) := by
    simp only [span, List.range_succ, List.range_zero, List.nil_append, List.cons_append,
      List.map_cons, List.map_nil, List.sum_cons, List.sum_nil]
    abel
  rw [h1] at h
  exact h

theorem entryLinesAt_le (cs : List ParseTreeNode) (i : Nat) (hi : i < 12) :
    entryLinesAt cs i ≤ span (entryLinesAt cs) := by
  refine Multiset.le_iff_count.mpr (fun a => ?_)
  simp only [span, Multiset.count_add]
  interval_cases i <;> omega

theorem emits_codeAt (cs : List ParseTreeNode) (h : ∀ c ∈ cs, EmitsAt c) (i : Nat) :
    Emits (entryLinesAt cs i) (codeAt cs i) := by
  rw [codeAt_eq]
  unfold entryLinesAt
  cases hc : cs.get? i with
  | none => exact emits_fail _
  | some c => exact (h c (List.get?_mem hc)).1

theorem emits_assignAt (cs : List ParseTreeNode) (h : ∀ c ∈ cs, EmitsAt c) (i : Nat)
    (codeExpr : Gen Unit) (expr : ParseTreeNode) (budget : Multiset String)
    (hexpr : Emits budget codeExpr) :
    Emits (entryLinesAt cs i + budget) (assignAt cs i codeExpr expr) := by
  rw [assignAt_eq]
  unfold entryLinesAt
  cases hc : cs.get? i with
  | none => exact emits_mono (emits_fail _) (Multiset.zero_le _)
  | some c => exact (h c (List.get?_mem hc)).2.1 _ _ _ hexpr

theorem emits_addressAt (cs : List ParseTreeNode) (h : ∀ c ∈ cs, EmitsAt c) (i : Nat) :
    Emits (entryLinesAt cs i) (addressAt cs i) := by
  rw [addressAt_eq]
  unfold entryLinesAt
  cases hc : cs.get? i with
  | none => exact emits_fail _
  | some c => exact (h c (List.get?_mem hc)).2.2.1

theorem emits_pushArgsAt (cs : List ParseTreeNode) (h : ∀ c ∈ cs, EmitsAt c) (i : Nat) :
    Emits (entryLinesAt cs i) (pushArgsAt cs i) := by
  rw [pushArgsAt_eq]
  unfold entryLinesAt
  cases hc : cs.get? i with
  | none => exact emits_fail _
  | some c => exact (h c (List.get?_mem hc)).2.2.2

/-- The four functions that walk the tree write no label lines but those of
the procedures of the tree, each once, and those of the counter values that
they use. -/
theorem emits_tree (node : ParseTreeNode) : EmitsAt node := by
  induction node using gen_tree_induction with
  | step lhs rhs tok cs ty wt ih =>
    have hrec : ∀ i, Emits (entryLinesAt cs i) (codeAt cs i) := emits_codeAt cs ih
    have hspan := span_le cs
    have hle : ∀ i, i < 12 → entryLinesAt cs i ≤
        (entryLines (.mk lhs rhs tok cs ty wt) : Multiset String) := by
      intro i hi
      rw [entryLines_mk]
      exact ((entryLinesAt_le cs i hi).trans hspan).trans (Multiset.le_add_left _ _)
    refine ⟨?_, ?_, ?_, ?_⟩
    · unfold code
      rw [entryLines_mk]
      exact emits_mono (emits_codeBody _ _ _ _ _ hrec
        (fun expr => emits_assignAt cs ih 0 _ expr _ (hrec 2))
        (emits_addressAt cs ih 1) (emits_pushArgsAt cs ih 2)) (add_le_add_left hspan _)
    · intro codeExpr expr budget hexpr
      unfold assign
      split
      · rw [entryLines_mk]
        refine emits_mono (emits_assignBody _ _ _ _ hrec hexpr) ?_
        rw [add_comm]
        exact add_le_add_right (hspan.trans (Multiset.le_add_left _ _)) _
      · exact emits_mono (emits_assignAt cs ih 1 _ _ _ hexpr)
          (add_le_add_right (hle 1 (by decide)) _)
    · unfold address
      split
      · rw [entryLines_mk]
        exact emits_mono (emits_addressBody _ _ hrec) (hspan.trans (Multiset.le_add_left _ _))
      · exact emits_mono (emits_addressAt cs ih 1) (hle 1 (by decide))
    · unfold pushArgs
      rw [entryLines_mk]
      have h02 : entryLinesAt cs 0 + entryLinesAt cs 2 ≤ span (entryLinesAt cs) := by
        refine Multiset.le_iff_count.mpr (fun a => ?_)
        simp only [span, Multiset.count_add]
        omega
      split
      · refine emits_mono (emits_bind (hrec 0) (fun _ => emits_bind (emits_push _)
          (fun _ => emits_pure _))) ?_
        simp only [add_zero]
        exact ((entryLinesAt_le cs 0 (by decide)).trans hspan).trans (Multiset.le_add_left _ _)
      · refine emits_mono (emits_bind (hrec 0) (fun _ => emits_bind (emits_push _)
          (fun _ => emits_bind (emits_pushArgsAt cs ih 2) (fun _ => emits_lift _)))) ?_
        simp only [add_zero, zero_add]
        exact (h02.trans hspan).trans (Multiset.le_add_left _ _)

end wlp4gen

namespace wlp4gen

/-! ### The whole of code generation -/

theorem emits_scan (node : ParseTreeNode) :
    Emits 0 (unwrapDereference node) ∧ Emits 0 (checkForDereferences node) := by
  induction node using gen_tree_induction with
  | step lhs rhs tok cs ty wt ih =>
    have hat : ∀ i, Emits 0 (unwrapDereferenceAt cs i) := by
      intro i
      rw [unwrapDereferenceAt_eq]
      cases hc : cs.get? i with
      | none => exact emits_fail _
      | some c => exact (ih c (List.get?_mem hc)).1
    have hloop : ∀ (ds : List ParseTreeNode), (∀ c ∈ ds, c ∈ cs) → ∀ symbols : List String,
        Emits 0 (checkLoop symbols ds) := by
      intro ds
      induction ds with
      | nil => intro _ symbols; cases symbols <;> (unfold checkLoop; exact emits_pure _)
      | cons d ds ihd =>
        intro hds symbols
        cases symbols with
        | nil => unfold checkLoop; exact emits_fail _
        | cons symbol symbols =>
          unfold checkLoop
          refine emits_mono (emits_bind (emits_ite
            (fun _ => (ih d (hds d (List.mem_cons_self _ _))).2) (fun _ => emits_pure _))
            (fun _ => ihd (fun c hc => hds c (List.mem_cons_of_mem _ hc)) symbols)) ?_
          simp
    constructor
    · unfold unwrapDereference
      split
      · refine emits_mono (emits_bind (emits_symbolOf _ _) (fun _ => emits_ite (fun _ =>
          emits_bind (emits_childOf _ _) (fun _ => emits_bind (emits_recordDereference _)
            (fun _ => emits_plain _ (spaced_append _ _ (spaced_append _ _ rfl)))))
          (fun _ => emits_pure _))) ?_
        simp
      · exact hat 1
    · unfold checkForDereferences
      split
      · cases rhs with
        | nil => exact emits_fail _
        | cons first rest =>
          simp only []
          split
          · exact hat 1
          · exact hloop cs (fun _ h => h) _
      · exact hloop cs (fun _ h => h) rhs

/-- The lines of code generation that define a label are those of the
procedures of the tree, each at most once, and those of the counter values
that were used. -/
theorem emits_generate (root : ParseTreeNode) :
    Emits (entryLines root : Multiset String) (generate root) := by
  unfold generate
  refine emits_mono (emits_bind (emits_scan root).2 (fun _ => emits_bind emits_generatePrologue
    (fun _ => emits_bind (emits_tree root).1 (fun _ => emits_generateEpilogue)))) ?_
  simp

end wlp4gen

namespace wlp4gen

/-! ### The labels of the bound are pairwise distinct -/

theorem append_left_cancel (p s t : String) (h : p ++ s = p ++ t) : s = t := by
  have h1 := congrArg String.data h
  rw [String.data_append, String.data_append] at h1
  exact String.ext (List.append_cancel_left h1)

theorem labelOf_colon (w : String) (hw : ∀ c ∈ w.data, c ≠ ' ') :
    labelOf (w ++ ":") = some w := by
  have h1 : firstWord (w ++ ":") = w.data ++ [':'] := by
    unfold firstWord
    rw [String.data_append]
    have h2 : ":".data = [':'] := rfl
    rw [h2, List.takeWhile_eq_self_iff]
    intro c hc
    rcases List.mem_append.mp hc with h3 | h3
    · simpa using hw c h3
    · rw [List.mem_singleton.mp h3]
      decide
  unfold labelOf
  rw [h1, if_pos (by simp)]
  simp

theorem filterMap_labelOf (s : Multiset String) (hs : ∀ w ∈ s, ∀ c ∈ w.data, c ≠ ' ') :
    Multiset.filterMap labelOf (s.map (fun w => w ++ ":")) = s := by
  rw [Multiset.filterMap_map]
  induction s using Multiset.induction_on with
  | empty => rfl
  | cons w s ih =>
    have h1 : (labelOf ∘ fun w => w ++ ":") w = some w :=
      labelOf_colon w (hs w (Multiset.mem_cons_self _ _))
    rw [Multiset.filterMap_cons_some _ _ _ h1,
      ih (fun v hv => hs v (Multiset.mem_cons_of_mem hv))]

theorem prefixed_chars (p : String) (n : Int) (hn : 0 ≤ n) (hp : ∀ c ∈ p.data, c ≠ ' ') :
    ∀ c ∈ (p ++ toString n).data, c ≠ ' ' := by
  intro c hc
  rw [String.data_append] at hc
  rcases List.mem_append.mp hc with h | h
  · exact hp c h
  · exact (toString_int_chars n hn c h).1

theorem prefixed_nodup (p : String) (a b : Int) (ha : 0 ≤ a) :
    ((Multiset.Ico a b).map (fun n => p ++ toString n)).Nodup := by
  refine Multiset.Nodup.map_on ?_ Multiset.nodup_Ico
  intro x hx y hy h
  exact toString_int_inj x y (ha.trans (Multiset.mem_Ico.mp hx).1)
    (ha.trans (Multiset.mem_Ico.mp hy).1) (append_left_cancel p _ _ h)

theorem entryLabel_inj (e1 e2 : Option String) (h : entryLabel e1 = entryLabel e2) :
    e1 = e2 := by
  cases e1 with
  | none =>
    cases e2 with
    | none => rfl
    | some b =>
      have h1 := congrArg kindOf h
      have h2 : kindOf (entryLabel (some b)) = 0 := rfl
      have h3 : kindOf (entryLabel none) = 1 := rfl
      rw [h2, h3] at h1
      cases h1
  | some a =>
    cases e2 with
    | none =>
      have h1 := congrArg kindOf h
      have h2 : kindOf (entryLabel (some a)) = 0 := rfl
      have h3 : kindOf (entryLabel none) = 1 := rfl
      rw [h2, h3] at h1
      cases h1
    | some b => rw [append_left_cancel "F" a b h]

theorem entryLabel_kind (e : Option String) : kindOf (entryLabel e) < 2 := by
  cases e with
  | none => exact (by decide : (1 : Nat) < 2)
  | some a => exact (by decide : (0 : Nat) < 2)

theorem entryLabel_chars (e : Option String) (h : ∀ c ∈ (entryName e).data, c ≠ ' ') :
    ∀ c ∈ (entryLabel e).data, c ≠ ' ' := by
  cases e with
  | none => exact h
  | some a =>
    intro c hc
    have h1 : (entryLabel (some a)).data = 'F' :: a.data := rfl
    rw [h1] at hc
    rcases List.mem_cons.mp hc with rfl | h2
    · decide
    · exact h c h2

theorem nodup_add_kind (s t : Multiset String) (k : Nat) (hs : s.Nodup) (ht : t.Nodup)
    (h1 : ∀ l ∈ s, kindOf l < k) (h2 : ∀ l ∈ t, kindOf l = k) :
    (s + t).Nodup ∧ ∀ l ∈ s + t, kindOf l < k + 1 := by
  constructor
  · refine Multiset.nodup_add.mpr ⟨hs, ht, ?_⟩
    rw [Multiset.disjoint_left]
    intro l hl1 hl2
    have := h1 l hl1
    have := h2 l hl2
    omega
  · intro l hl
    rcases Multiset.mem_add.mp hl with h | h
    · have := h1 l h
      omega
    · have := h2 l h
      omega

/-- The labels of the bound are pairwise distinct when the names of the
procedures are. -/
theorem labelBound_nodup (es : List (Option String)) (hnames : (es.map entryName).Nodup)
    (b d : Int) : (labelBound es 0 b 0 d).Nodup := by
  have h0 : ((es.map entryLabel : List String) : Multiset String).Nodup := by
    rw [Multiset.coe_nodup]
    exact (List.Nodup.of_map _ hnames).map_on (fun x _ y _ h => entryLabel_inj x y h)
  have k0 : ∀ l ∈ ((es.map entryLabel : List String) : Multiset String), kindOf l < 2 := by
    intro l hl
    obtain ⟨e, -, rfl⟩ := List.mem_map.mp (Multiset.mem_coe.mp hl)
    exact entryLabel_kind e
  have kind : ∀ (p : String) (k : Nat) (a b : Int), (∀ n : Int, kindOf (p ++ toString n) = k) →
      ∀ l ∈ (Multiset.Ico a b).map (fun n => p ++ toString n), kindOf l = k := by
    intro p k a b hk l hl
    obtain ⟨n, -, rfl⟩ := Multiset.mem_map.mp hl
    exact hk n
  have s1 := nodup_add_kind _ _ 2 h0 (prefixed_nodup "else" 0 b (le_refl _)) k0
    (kind "else" 2 0 b (fun _ => rfl))
  have s2 := nodup_add_kind _ _ 3 s1.1 (prefixed_nodup "endif" 0 b (le_refl _)) s1.2
    (kind "endif" 3 0 b (fun _ => rfl))
  have s3 := nodup_add_kind _ _ 4 s2.1 (prefixed_nodup "loop" 0 b (le_refl _)) s2.2
    (kind "loop" 4 0 b (fun _ => rfl))
  have s4 := nodup_add_kind _ _ 5 s3.1 (prefixed_nodup "endWhile" 0 b (le_refl _)) s3.2
    (kind "endWhile" 5 0 b (fun _ => rfl))
  exact (nodup_add_kind _ _ 6 s4.1 (prefixed_nodup "skipDelete" 0 d (le_refl _)) s4.2
    (kind "skipDelete" 6 0 d (fun _ => rfl))).1

/-- The labels that the lines of an allowance define are the labels of the
bound. -/
theorem labels_of_allowance (es : List (Option String))
    (hwords : ∀ name ∈ es.map entryName, ∀ c ∈ name.data, c ≠ ' ') (b d : Int) :
    Multiset.filterMap labelOf ((es.map entryLine : Multiset String) + counterLines 0 b +
      deleteLines 0 d) = labelBound es 0 b 0 d := by
  have h1 : (es.map entryLine : Multiset String) + counterLines 0 b + deleteLines 0 d =
      (labelBound es 0 b 0 d).map (fun w => w ++ ":") := by
    unfold labelBound counterLines deleteLines
    simp only [Multiset.map_add, Multiset.map_map, counterLinesAt_eq, Multiset.bind_add,
      Multiset.bind_singleton]
    have h2 : (es.map entryLine : Multiset String) =
        Multiset.map (fun w => w ++ ":") (es.map entryLabel : Multiset String) := by
      rw [Multiset.map_coe, List.map_map]
      congr 1
      refine List.map_congr_left (fun e _ => ?_)
      cases e <;> rfl
    rw [h2]
    simp only [Function.comp_def, add_assoc]
    rfl
  rw [h1]
  refine filterMap_labelOf _ (fun w hw => ?_)
  unfold labelBound at hw
  simp only [Multiset.mem_add, Multiset.mem_map, Multiset.mem_coe, List.mem_map,
    Multiset.mem_Ico] at hw
  rcases hw with ((((⟨e, he, rfl⟩ | ⟨n, hn, rfl⟩) | ⟨n, hn, rfl⟩) | ⟨n, hn, rfl⟩) |
    ⟨n, hn, rfl⟩) | ⟨n, hn, rfl⟩
  · exact entryLabel_chars e (hwords _ (List.mem_map.mpr ⟨e, he, rfl⟩))
  · exact prefixed_chars _ n hn.1 (by decide)
  · exact prefixed_chars _ n hn.1 (by decide)
  · exact prefixed_chars _ n hn.1 (by decide)
  · exact prefixed_chars _ n hn.1 (by decide)
  · exact prefixed_chars _ n hn.1 (by decide)

end wlp4gen

namespace wlp4gen

/-! ## The optimizer keeps the procedures of a program -/

theorem entries_eq (node : ParseTreeNode) :
    (entries node : Multiset (Option String)) =
      (ownEntry node : Multiset (Option String)) + (entriesOf node.children : Multiset _) := by
  cases node
  rw [entries_mk]
  rfl

theorem entriesOf_set (c1 : ParseTreeNode) : ∀ (cs : List ParseTreeNode) (i : Nat)
    (c : ParseTreeNode), cs.get? i = some c →
    (entries c1 : Multiset (Option String)) ≤ (entries c : Multiset _) →
    (entriesOf (cs.set i c1) : Multiset (Option String)) ≤ (entriesOf cs : Multiset _) := by
  intro cs
  induction cs with
  | nil => intro i c h; cases h
  | cons d ds ih =>
    intro i c h hle
    cases i with
    | zero =>
      simp only [List.get?_cons_zero, Option.some.injEq] at h
      subst h
      rw [List.set_cons_zero, entriesOf, entriesOf, ← Multiset.coe_add, ← Multiset.coe_add]
      exact add_le_add_right hle _
    | succ i =>
      simp only [List.get?_cons_succ] at h
      rw [List.set_cons_succ, entriesOf, entriesOf, ← Multiset.coe_add, ← Multiset.coe_add]
      exact add_le_add_left (ih i c h hle) _

theorem ownEntry_setChildren (node : ParseTreeNode) (cs : List ParseTreeNode)
    (h : node.prodRuleLHS ≠ "procedure" ∨ cs.get? 1 = node.children.get? 1) :
    ownEntry (node.setChildren cs) = ownEntry node := by
  cases node with
  | mk lhs rhs tok ds ty wt =>
    unfold ownEntry
    simp only [ParseTreeNode.setChildren, ParseTreeNode.prodRuleLHS, ParseTreeNode.children]
    rcases h with h | h
    · have h1 : lhs ≠ "procedure" := h
      rw [if_neg h1, if_neg h1]
    · have h1 : cs.get? 1 = ds.get? 1 := h
      rw [h1]

theorem children_setChildren (node : ParseTreeNode) (cs : List ParseTreeNode) :
    (node.setChildren cs).children = cs := by
  cases node
  rfl

theorem lhs_setChildren (node : ParseTreeNode) (cs : List ParseTreeNode) :
    (node.setChildren cs).prodRuleLHS = node.prodRuleLHS := by
  cases node
  rfl

theorem entries_setRHS (node : ParseTreeNode) (rhs : List String) :
    entries (node.setRHS rhs) = entries node := by
  cases node
  rw [ParseTreeNode.setRHS, entries_mk, entries_mk]
  rfl

/-- Replacing a child other than child 1 by a tree with no more procedures. -/
theorem shrinks_setChild (node c c1 : ParseTreeNode) (i : Nat) (hi : i ≠ 1)
    (hc : node.children.get? i = some c)
    (hle : (entries c1 : Multiset (Option String)) ≤ (entries c : Multiset _)) :
    (entries (node.setChild i c1) : Multiset (Option String)) ≤ (entries node : Multiset _) := by
  rw [entries_eq, entries_eq node]
  unfold ParseTreeNode.setChild
  rw [children_setChildren, ownEntry_setChildren node _ (Or.inr (by
    simp only [List.get?_eq_getElem?]
    exact List.getElem?_set_ne hi))]
  exact add_le_add_left (entriesOf_set c1 _ i c hc hle) _

theorem child_setChild (node c1 : ParseTreeNode) (i j : Nat) (hij : i ≠ j) :
    (node.setChild i c1).children.get? j = node.children.get? j := by
  unfold ParseTreeNode.setChild
  rw [children_setChildren]
  simp only [List.get?_eq_getElem?]
  exact List.getElem?_set_ne hij

/-- Replacing two children other than child 1. -/
theorem shrinks_setChild_two (node c c1 d d1 : ParseTreeNode) (i j : Nat) (hi : i ≠ 1)
    (hj : j ≠ 1) (hij : i ≠ j) (hc : node.children.get? i = some c)
    (hd : node.children.get? j = some d)
    (hle : (entries c1 : Multiset (Option String)) ≤ (entries c : Multiset _))
    (hle1 : (entries d1 : Multiset (Option String)) ≤ (entries d : Multiset _)) :
    (entries ((node.setChild i c1).setChild j d1) : Multiset (Option String)) ≤
      (entries node : Multiset _) :=
  (shrinks_setChild _ d d1 j hj ((child_setChild node c1 i j hij).trans hd) hle1).trans
    (shrinks_setChild node c c1 i hi hc hle)

/-- A node that is neither a procedure nor `main` with new children that have
no procedures. -/
theorem entries_fresh (node : ParseTreeNode) (cs : List ParseTreeNode)
    (h1 : node.prodRuleLHS ≠ "procedure") (h2 : node.prodRuleLHS ≠ "main")
    (hcs : entriesOf cs = []) : entries (node.setChildren cs) = [] := by
  cases node with
  | mk lhs rhs tok ds ty wt =>
    have k1 : lhs ≠ "procedure" := h1
    have k2 : lhs ≠ "main" := h2
    rw [ParseTreeNode.setChildren, entries_mk, hcs]
    unfold ownEntry
    simp only [ParseTreeNode.prodRuleLHS]
    rw [if_neg k1, if_neg k2]
    rfl

theorem lhs_setChild (node c1 : ParseTreeNode) (i : Nat) :
    (node.setChild i c1).prodRuleLHS = node.prodRuleLHS := by
  unfold ParseTreeNode.setChild
  exact lhs_setChildren _ _

theorem lhs_setRHS (node : ParseTreeNode) (rhs : List String) :
    (node.setRHS rhs).prodRuleLHS = node.prodRuleLHS := by
  cases node
  rfl

end wlp4gen

namespace wlp4gen

theorem foldTerm_shrinks (rec : Rec) (node : ParseTreeNode)
    (operation : Int → Int → Except Fault Int) (hrec : RecShrinks rec node.children)
    (h1 : node.prodRuleLHS ≠ "procedure") (h2 : node.prodRuleLHS ≠ "main") :
    Post (foldTerm rec node operation) (Shrinks node) := by
  unfold foldTerm
  refine post_bind (hrec 0) (fun r0 h0 => ?_)
  obtain ⟨left, term⟩ := r0
  obtain ⟨c0, hc0, hu0⟩ := h0
  refine post_bind (hrec 2) (fun r2 h2 => ?_)
  obtain ⟨right, factor⟩ := r2
  obtain ⟨c2, hc2, hu2⟩ := h2
  simp only []
  refine post_bind (post_true _) (fun termFactor _ => ?_)
  refine post_bind (post_true _) (fun termRule _ => ?_)
  refine post_bind (post_true _) (fun both _ => ?_)
  refine post_ite (fun _ => ?_) (fun _ => post_pure _ ?_)
  · repeat (refine post_bind (post_true _) (fun _ _ => ?_))
    refine post_pure _ ?_
    unfold Shrinks
    rw [entries_fresh _ _ (by rw [lhs_setRHS, lhs_setChild, lhs_setChild]; exact h1)
      (by rw [lhs_setRHS, lhs_setChild, lhs_setChild]; assumption) (by rfl)]
    exact Multiset.zero_le _
  · exact shrinks_setChild_two node c0 term c2 factor 0 2 (by decide) (by decide) (by decide)
      hc0 hc2 hu0 hu2

theorem foldExpr_shrinks (rec : Rec) (node : ParseTreeNode)
    (operation : Int → Int → Except Fault Int) (hrec : RecShrinks rec node.children)
    (h1 : node.prodRuleLHS ≠ "procedure") (h2 : node.prodRuleLHS ≠ "main") :
    Post (foldExpr rec node operation) (Shrinks node) := by
  unfold foldExpr
  refine post_bind (hrec 0) (fun r0 h0 => ?_)
  obtain ⟨left, expr⟩ := r0
  obtain ⟨c0, hc0, hu0⟩ := h0
  refine post_bind (hrec 2) (fun r2 h2 => ?_)
  obtain ⟨right, term⟩ := r2
  obtain ⟨c2, hc2, hu2⟩ := h2
  simp only []
  refine post_bind (post_true _) (fun exprTerm _ => ?_)
  refine post_bind (post_true _) (fun exprFactor _ => ?_)
  refine post_bind (post_true _) (fun exprRule _ => ?_)
  refine post_bind (post_true _) (fun both _ => ?_)
  refine post_ite (fun _ => ?_) (fun _ => post_pure _ ?_)
  · repeat (refine post_bind (post_true _) (fun _ _ => ?_))
    refine post_pure _ ?_
    unfold Shrinks
    rw [entries_fresh _ _ (by rw [lhs_setRHS, lhs_setChild, lhs_setChild]; exact h1)
      (by rw [lhs_setRHS, lhs_setChild, lhs_setChild]; assumption) (by rfl)]
    exact Multiset.zero_le _
  · exact shrinks_setChild_two node c0 expr c2 term 0 2 (by decide) (by decide) (by decide)
      hc0 hc2 hu0 hu2

theorem constantFolding_shrinks (rec : Rec) (node : ParseTreeNode)
    (hrec : RecShrinks rec node.children) :
    Post (constantFolding rec node) (fun o => ∀ r, o = some r → Shrinks node r) := by
  have hsome : ∀ x : Opt (Bool × ParseTreeNode), Post x (Shrinks node) →
      Post (some <$> x) (fun o => ∀ r, o = some r → Shrinks node r) := by
    intro x hx
    refine post_map ⟨fun st a st1 ha r hr => ?_⟩
    cases hr
    exact hx.holds st a st1 ha
  have hnone : Post (pure none : Opt (Option (Bool × ParseTreeNode)))
      (fun o => ∀ r, o = some r → Shrinks node r) :=
    post_pure _ (fun r hr => by cases hr)
  unfold constantFolding
  simp only []
  refine post_ite (fun h => ?_) (fun _ => post_ite (fun h => ?_) (fun _ => hnone))
  · have k1 : node.prodRuleLHS ≠ "procedure" := by rw [h]; decide
    have k2 : node.prodRuleLHS ≠ "main" := by rw [h]; decide
    exact post_ite (fun _ => hsome _ (foldTerm_shrinks rec node _ hrec k1 k2))
      (fun _ => post_ite (fun _ => hsome _ (foldTerm_shrinks rec node _ hrec k1 k2))
        (fun _ => post_ite (fun _ => hsome _ (foldTerm_shrinks rec node _ hrec k1 k2))
          (fun _ => hnone)))
  · have k1 : node.prodRuleLHS ≠ "procedure" := by rw [h]; decide
    have k2 : node.prodRuleLHS ≠ "main" := by rw [h]; decide
    exact post_ite (fun _ => hsome _ (foldExpr_shrinks rec node _ hrec k1 k2))
      (fun _ => post_ite (fun _ => hsome _ (foldExpr_shrinks rec node _ hrec k1 k2))
        (fun _ => hnone))

theorem optimizeMain_shrinks (rec : Rec) (node : ParseTreeNode)
    (hrec : RecShrinks rec node.children) : Post (optimizeMain rec node) (Shrinks node) := by
  unfold optimizeMain
  refine post_bind (post_true _) (fun _ _ => ?_)
  refine post_bind (post_true _) (fun _ _ => ?_)
  refine post_bind (hrec 9) (fun r0 h0 => ?_)
  obtain ⟨left, statements⟩ := r0
  obtain ⟨c0, hc0, hu0⟩ := h0
  refine post_bind (hrec 11) (fun r2 h2 => ?_)
  obtain ⟨right, expr⟩ := r2
  obtain ⟨c2, hc2, hu2⟩ := h2
  simp only []
  refine post_bind (post_true _) (fun _ _ => post_pure _ ?_)
  exact shrinks_setChild_two node c0 statements c2 expr 9 11 (by decide) (by decide)
    (by decide) hc0 hc2 hu0 hu2

theorem optimizeProcedure_shrinks (rec : Rec) (node : ParseTreeNode)
    (hrec : RecShrinks rec node.children) :
    Post (optimizeProcedure rec node) (Shrinks node) := by
  unfold optimizeProcedure
  refine post_bind (post_true _) (fun _ _ => ?_)
  refine post_bind (post_true _) (fun _ _ => ?_)
  refine post_bind (hrec 7) (fun r0 h0 => ?_)
  obtain ⟨left, statements⟩ := r0
  obtain ⟨c0, hc0, hu0⟩ := h0
  refine post_bind (hrec 9) (fun r2 h2 => ?_)
  obtain ⟨right, expr⟩ := r2
  obtain ⟨c2, hc2, hu2⟩ := h2
  simp only []
  refine post_bind (post_true _) (fun _ _ => post_pure _ ?_)
  exact shrinks_setChild_two node c0 statements c2 expr 7 9 (by decide) (by decide)
    (by decide) hc0 hc2 hu0 hu2

theorem optimizeAssignment_shrinks (rec : Rec) (node : ParseTreeNode)
    (hrec : RecShrinks rec node.children) :
    Post (optimizeAssignment rec node) (Shrinks node) := by
  unfold optimizeAssignment
  refine post_bind (hrec 2) (fun r0 h0 => ?_)
  obtain ⟨flag, expr⟩ := r0
  obtain ⟨c0, hc0, hu0⟩ := h0
  have h : Shrinks node (flag, node.setChild 2 expr) :=
    shrinks_setChild node c0 expr 2 (by decide) hc0 hu0
  simp only []
  repeat' first
    | exact post_pure _ h
    | refine post_bind (post_true _) (fun _ _ => ?_)
    | refine post_ite (fun _ => ?_) (fun _ => ?_)

theorem optimizeWhile_shrinks (rec : Rec) (node : ParseTreeNode)
    (hrec : RecShrinks rec node.children) : Post (optimizeWhile rec node) (Shrinks node) := by
  unfold optimizeWhile
  refine post_bind (post_true _) (fun _ _ => ?_)
  refine post_bind (hrec 2) (fun r0 h0 => ?_)
  obtain ⟨first, test⟩ := r0
  obtain ⟨c0, hc0, hu0⟩ := h0
  refine post_bind (hrec 5) (fun r2 h2 => ?_)
  obtain ⟨second, statements⟩ := r2
  obtain ⟨c2, hc2, hu2⟩ := h2
  simp only []
  refine post_bind (post_true _) (fun _ _ => post_pure _ ?_)
  exact shrinks_setChild_two node c0 test c2 statements 2 5 (by decide) (by decide)
    (by decide) hc0 hc2 hu0 hu2

theorem optimizeIf_shrinks (rec : Rec) (node : ParseTreeNode)
    (hrec : RecShrinks rec node.children) : Post (optimizeIf rec node) (Shrinks node) := by
  unfold optimizeIf
  refine post_bind (post_true _) (fun _ _ => ?_)
  refine post_bind (hrec 2) (fun r0 h0 => ?_)
  obtain ⟨first, test⟩ := r0
  obtain ⟨c0, hc0, hu0⟩ := h0
  refine post_bind (hrec 5) (fun r2 h2 => ?_)
  obtain ⟨second, thenPart⟩ := r2
  obtain ⟨c2, hc2, hu2⟩ := h2
  refine post_bind (hrec 9) (fun r3 h3 => ?_)
  obtain ⟨third, elsePart⟩ := r3
  obtain ⟨c3, hc3, hu3⟩ := h3
  simp only []
  refine post_bind (post_true _) (fun _ _ => post_pure _ ?_)
  refine (shrinks_setChild _ c3 elsePart 9 (by decide) ?_ hu3).trans
    (shrinks_setChild_two node c0 test c2 thenPart 2 5 (by decide) (by decide)
      (by decide) hc0 hc2 hu0 hu2)
  rw [child_setChild _ _ 5 9 (by decide), child_setChild _ _ 2 9 (by decide)]
  exact hc3

theorem optimizeUse_shrinks (node : ParseTreeNode) :
    Post (optimizeUse node) (Shrinks node) := by
  unfold optimizeUse
  refine post_bind (post_childAt node 0) (fun idNode hid => ?_)
  simp only []
  refine post_bind (post_true _) (fun _ _ => ?_)
  refine post_ite (fun _ => ?_) (fun _ => post_pure _ (le_refl _))
  refine post_bind (post_true _) (fun entry _ => ?_)
  split
  · refine post_bind (post_true _) (fun _ _ => post_pure _ ?_)
    unfold Shrinks
    rw [entries_setRHS]
    exact shrinks_setChild node idNode _ 0 (by decide) hid (Multiset.zero_le _)
  · exact post_pure _ (le_refl _)

theorem constantPropagation_shrinks (rec : Rec) (loop : Loop) (node : ParseTreeNode)
    (hrec : RecShrinks rec node.children)
    (hloop : Post loop (fun r =>
      (entriesOf r.2 : Multiset (Option String)) ≤ (entriesOf node.children : Multiset _))) :
    Post (constantPropagation rec loop node) (Shrinks node) := by
  unfold constantPropagation
  simp only []
  refine post_ite (fun _ => optimizeMain_shrinks rec node hrec) (fun h1 => ?_)
  refine post_ite (fun _ => optimizeProcedure_shrinks rec node hrec) (fun h2 => ?_)
  refine post_ite (fun _ => optimizeAssignment_shrinks rec node hrec) (fun _ => ?_)
  refine post_bind (post_true _) (fun isWhile _ => ?_)
  refine post_ite (fun _ => optimizeWhile_shrinks rec node hrec) (fun _ => ?_)
  refine post_bind (post_true _) (fun isIf _ => ?_)
  refine post_ite (fun _ => optimizeIf_shrinks rec node hrec) (fun _ => ?_)
  refine post_ite (fun _ => optimizeUse_shrinks node) (fun _ => ?_)
  refine post_bind hloop (fun r hr => ?_)
  obtain ⟨flag, children⟩ := r
  refine post_pure _ ?_
  unfold Shrinks
  rw [entries_eq, entries_eq node, children_setChildren,
    ownEntry_setChildren node _ (Or.inl h2)]
  exact add_le_add_left hr _

theorem optimizeBody_shrinks (rec : Rec) (loop : Loop) (node : ParseTreeNode)
    (hrec : RecShrinks rec node.children)
    (hloop : Post loop (fun r =>
      (entriesOf r.2 : Multiset (Option String)) ≤ (entriesOf node.children : Multiset _))) :
    Post (optimizeBody rec loop node) (Shrinks node) := by
  unfold optimizeBody
  refine post_bind (post_true _) (fun _ _ => ?_)
  refine post_bind (constantFolding_shrinks rec node hrec) (fun folded hf => ?_)
  cases folded with
  | none => exact constantPropagation_shrinks rec loop node hrec hloop
  | some r => exact post_pure _ (hf r rfl)

theorem optimizeLoop_shrinks (cs : List ParseTreeNode)
    (ih : ∀ c ∈ cs, Post (optimizeTree c) (Shrinks c)) :
    ∀ rhs : List String, Post (optimizeLoop rhs cs) (fun r =>
      (entriesOf r.2 : Multiset (Option String)) ≤ (entriesOf cs : Multiset _)) := by
  induction cs with
  | nil =>
    intro rhs
    cases rhs <;>
      (unfold optimizeLoop
       exact ⟨fun st r st1 h => by
        simp only [opt_pure_apply, Except.ok.injEq, Prod.mk.injEq] at h
        rw [← h.1]⟩)
  | cons c cs ihc =>
    intro rhs
    cases rhs with
    | nil =>
      unfold optimizeLoop
      exact post_fail _
    | cons symbol symbols =>
      unfold optimizeLoop
      have hfirst : Post (if symbol ≠ ".EMPTY" ∧ startsUpper symbol = false then optimizeTree c
          else pure (false, c)) (Shrinks c) :=
        post_ite (fun _ => ih c (List.mem_cons_self _ _)) (fun _ => post_pure _ (le_refl _))
      refine post_bind hfirst (fun r1 h1 => ?_)
      obtain ⟨first, c1⟩ := r1
      refine post_bind (ihc (fun d hd => ih d (List.mem_cons_of_mem _ hd)) symbols)
        (fun r2 h2 => ?_)
      obtain ⟨others, cs1⟩ := r2
      refine post_pure _ ?_
      show (entriesOf (c1 :: cs1) : Multiset (Option String)) ≤ (entriesOf (c :: cs) : Multiset _)
      rw [entriesOf, entriesOf, ← Multiset.coe_add, ← Multiset.coe_add]
      exact add_le_add h1 h2

/-- The procedures of the tree that `optimizeTree` returns are among those of
the tree it was given, each at most as often. -/
theorem optimizeTree_shrinks (node : ParseTreeNode) :
    Post (optimizeTree node) (Shrinks node) := by
  induction node using gen_tree_induction with
  | step lhs rhs tok cs ty wt ih =>
    rw [optimizeTree_eq]
    refine optimizeBody_shrinks _ _ _ ?_ (optimizeLoop_shrinks cs ih rhs)
    intro i
    show Post (optimizeAt cs i) _
    rw [optimizeAt_eq]
    cases hc : cs.get? i with
    | none => exact post_fail _
    | some c =>
      constructor
      intro st r st1 h
      exact ⟨c, hc, (ih c (List.get?_mem hc)).holds st r st1 h⟩

end wlp4gen

namespace wlp4gen

/-! ### The output of the optimizer defines no label -/

theorem optimizeUse_reports (R : OptState → OptState → Prop) (node : ParseTreeNode)
    (hlevel : Twin R nestLevel R) (hfind : ∀ name, Twin R (findVar name) R)
    (hprint : ∀ name, Twin R (print ("; " ++ name ++ " FOUND AND NOT DIRTY")) R) :
    Twin R (optimizeUse node) R := by
  unfold optimizeUse
  repeat' first
    | exact twin_pure _
    | exact twin_fail _
    | exact hlevel
    | exact hfind _
    | exact hprint _
    | exact twin_childAt _ _
    | refine twin_bind (M := R) ?_ (fun _ => ?_)
    | refine twin_ite (fun _ => ?_) (fun _ => ?_)
    | split

theorem plain_print (line : String) (h : spaced line = true) :
    Twin (Alone PlainOutput) (print line) (Alone PlainOutput) := by
  refine alone_update _ _ (fun st hp l hl => ?_)
  rcases List.mem_append.mp hl with h1 | h1
  · exact hp l h1
  · rw [List.mem_singleton.mp h1]
    exact h

theorem optimizeTree_plain (node : ParseTreeNode) :
    Twin (Alone PlainOutput) (optimizeTree node) (Alone PlainOutput) := by
  induction node using gen_tree_induction with
  | step lhs rhs tok cs ty wt ih =>
    have hset : ∀ (name value type : String),
        Twin (Alone PlainOutput) (setVar name value type false) (Alone PlainOutput) :=
      fun _ _ _ => alone_update _ _ (fun _ h => h)
    have hclear : Twin (Alone PlainOutput) clearVarTable (Alone PlainOutput) :=
      alone_update _ _ (fun _ h => h)
    have hmark : ∀ (name : String),
        Twin (Alone PlainOutput) (markDirty name) (Alone PlainOutput) :=
      fun _ => alone_update _ _ (fun _ h => h)
    have hlevel : Twin (Alone PlainOutput) nestLevel (Alone PlainOutput) :=
      alone_update _ _ (fun _ h => h)
    have hup : ∀ (d : Int), Twin (Alone PlainOutput) (addNestLevel d) (Alone PlainOutput) :=
      fun d => alone_update _ _ (fun _ h => h)
    have hrec : ∀ (i : Nat), Twin (Alone PlainOutput) (optimizeAt cs i) (Alone PlainOutput) :=
      fun i => optimizeAt_twin _ cs (fun c hc => ih c hc) i
    rw [optimizeTree_eq]
    refine optimizeBody_twin _ _ _ _ ?_ ?_ ?_ ?_ ?_ ?_ ?_ ?_ ?_
    · exact recordWainParams_twin _ _ (fun st st1 a b hr => ⟨hr.1, by rw [hr.2]⟩)
    · exact fun _ i => hrec i
    · exact fun _ => optimizeMain_twin _ _ _ hset hclear hrec
    · exact fun _ => optimizeProcedure_twin _ _ _ hset hclear hrec
    · exact fun _ => optimizeAssignment_twin _ _ _ hlevel hset hmark hrec
    · exact fun _ _ _ _ _ => optimizeWhile_twin _ _ _ _ (hup 1) (hup (-1)) hrec
    · exact fun _ _ _ _ _ => optimizeIf_twin _ _ _ _ (hup 1) (hup (-1)) hrec
    · exact fun _ => optimizeUse_reports _ _ hlevel (fun _ => alone_update _ _ (fun _ h => h))
        (fun _ => plain_print _ (spaced_append _ _ (spaced_append _ _ rfl)))
    · exact fun _ _ _ _ => optimizeLoop_twin _ cs (fun c hc => ih c hc) rhs

theorem optimizeAgain_plain (fuel : Nat) :
    ∀ (flag : Bool) (root : ParseTreeNode) (n : Nat) (st : OptState)
      (res : Option (Nat × ParseTreeNode)) (st1 : OptState), PlainOutput st →
      optimizeAgain fuel flag root n st = .ok (res, st1) →
        PlainOutput st1 ∧ ∀ k root1, res = some (k, root1) →
          (entries root1 : Multiset (Option String)) ≤ (entries root : Multiset _) := by
  induction fuel with
  | zero =>
    intro flag root n st res st1 hp h
    cases flag with
    | false =>
      simp only [optimizeAgain, opt_pure_apply, Except.ok.injEq, Prod.mk.injEq] at h
      rw [← h.2, ← h.1]
      refine ⟨hp, fun k root1 hk => ?_⟩
      cases hk
      exact le_refl _
    | true =>
      simp only [optimizeAgain, opt_pure_apply, Except.ok.injEq, Prod.mk.injEq] at h
      rw [← h.2, ← h.1]
      exact ⟨hp, fun k root1 hk => by cases hk⟩
  | succ fuel ih =>
    intro flag root n st res st1 hp h
    cases flag with
    | false =>
      simp only [optimizeAgain, opt_pure_apply, Except.ok.injEq, Prod.mk.injEq] at h
      rw [← h.2, ← h.1]
      refine ⟨hp, fun k root1 hk => ?_⟩
      cases hk
      exact le_refl _
    | true =>
      simp only [optimizeAgain] at h
      obtain ⟨_, s1, h1, h2⟩ := opt_bind_ok_iff.mp h
      obtain ⟨r, s2, h3, h4⟩ := opt_bind_ok_iff.mp h2
      simp only [clearVarTable, Except.ok.injEq, Prod.mk.injEq] at h1
      have hp1 : PlainOutput s1 := by
        rw [← h1.2]
        exact hp
      have hp2 := twin_alone (optimizeTree_plain root) s1 r s2 hp1 h3
      have hle := (optimizeTree_shrinks root).holds s1 r s2 h3
      obtain ⟨hp3, hres⟩ := ih _ _ _ _ _ _ hp2 h4
      exact ⟨hp3, fun k root1 hk => (hres k root1 hk).trans hle⟩

/-- The tree that the passes of the optimizer end with has no procedures but
those of the tree they started with, and the lines that the optimizer writes
define no label. -/
theorem optimize_result (fuel : Nat) (root root1 : ParseTreeNode) (st : OptState)
    (h : optimize fuel root OptState.initial = .ok (some root1, st)) :
    PlainOutput st ∧
      (entries root1 : Multiset (Option String)) ≤ (entries root : Multiset _) := by
  unfold optimize at h
  obtain ⟨r, s1, h1, h2⟩ := opt_bind_ok_iff.mp h
  obtain ⟨res, s2, h3, h4⟩ := opt_bind_ok_iff.mp h2
  have hp0 : PlainOutput OptState.initial := fun l hl => by cases hl
  have hp1 := twin_alone (optimizeTree_plain root) _ r s1 hp0 h1
  have hle := (optimizeTree_shrinks root).holds _ r s1 h1
  obtain ⟨hp2, hres⟩ := optimizeAgain_plain fuel _ _ _ _ _ _ hp1 h3
  cases res with
  | none =>
    simp only [opt_pure_apply, Except.ok.injEq, Prod.mk.injEq] at h4
    cases h4.1
  | some p =>
    obtain ⟨k, root2⟩ := p
    simp only [] at h4
    obtain ⟨_, s3, h5, h6⟩ := opt_bind_ok_iff.mp h4
    simp only [opt_pure_apply, Except.ok.injEq, Prod.mk.injEq, Option.some.injEq] at h6
    obtain ⟨rfl, rfl⟩ := h6
    have hp3 := twin_alone (plain_print ("; Optimizations: " ++ toString k)
      (spaced_append "; Optimizations: " _ (by rfl))) s2 _ s3 hp2 h5
    exact ⟨hp3, (hres k root2 rfl).trans hle⟩

end wlp4gen

namespace wlp4gen

theorem labelsOf_labelLines (lines : List String) :
    labelsOf (labelLines lines) = labelsOf lines := by
  unfold labelsOf labelLines
  induction lines with
  | nil => rfl
  | cons line lines ih =>
    cases h : labelOf line with
    | none => simp [List.filter_cons, List.filterMap_cons, h, ih]
    | some label => simp [List.filter_cons, List.filterMap_cons, h, ih]

/-- C25: the labels that the lines of the emitted assembly define are pairwise
distinct, for every tree whose procedures, `wain` among them, have pairwise
distinct names (each a single word) and every run of `main` that returns: they
are among the labels `F<name>` of the procedures of the tree, `wain`, and
`else<n>`, `endif<n>`, `loop<n>`, `endWhile<n>`, `skipDelete<n>` for the
values `n` that the two counters went through from 0, each at most once. -/
theorem labels_distinct (fuel : Nat) (root : ParseTreeNode) (st : GenState)
    (hnames : (procedureNames root).Nodup)
    (hwords : ∀ name ∈ procedureNames root, ∀ c ∈ name.data, c ≠ ' ')
    (hmain : main fuel root = some (.ok (), st)) :
    (labelsOf st.output).Nodup ∧
      (labelsOf st.output : Multiset String) ≤
        labelBound (entries root) 0 st.labelCounter 0 st.numDeletes := by
  unfold main at hmain
  split at hmain
  · cases hmain
  · cases hmain
  · rename_i root1 ost hopt
    have hgen : generate root1 (GenState.after ost) = (.ok (), st) := Option.some.inj hmain
    obtain ⟨hplain, hle⟩ := optimize_result fuel root root1 ost hopt
    obtain ⟨-, -, new, hout, hnew⟩ := (emits_generate root1).emits _ _ _ hgen
    have h1 : labelLines st.output = labelLines new := by
      rw [hout, labelLines_append]
      have h2 : labelLines (GenState.after ost).output = [] := labelLines_plain _ hplain
      rw [h2, List.nil_append]
    have h3 : (labelsOf st.output : Multiset String) =
        Multiset.filterMap labelOf (labelLines new : Multiset String) := by
      rw [← labelsOf_labelLines, h1]
      rfl
    have h4 : allowance (entryLines root1 : Multiset String) (GenState.after ost) st ≤
        (((entries root).map entryLine : List String) : Multiset String) +
          counterLines 0 st.labelCounter + deleteLines 0 st.numDeletes := by
      unfold allowance entryLines
      refine add_le_add_right (add_le_add_right ?_ _) _
      rw [← Multiset.map_coe, ← Multiset.map_coe]
      exact Multiset.map_le_map hle
    have h5 : (labelsOf st.output : Multiset String) ≤
        labelBound (entries root) 0 st.labelCounter 0 st.numDeletes := by
      rw [h3, ← labels_of_allowance (entries root) hwords]
      exact Multiset.filterMap_le_filterMap _ (hnew.trans h4)
    exact ⟨Multiset.coe_nodup.mp (Multiset.nodup_of_le h5 (labelBound_nodup _ hnames _ _)), h5⟩

/-- For the program `nestedLoops`, with an `if` in an `if` in a `while`, the
labels are `Fg`, `wain` and those of the counter values 0 to 3. -/
theorem labels_distinct_witness :
    (main 1 nestedLoops).map (fun r => (r.1.isOk, labelsOf r.2.output)) =
        some (true, ["Fg", "wain", "loop0", "else2", "endif2", "else1", "endif1", "endWhile0",
          "else3", "endif3"]) ∧
      (main 1 nestedLoops).map (fun r => decide (labelsOf r.2.output).Nodup) = some true := by
  have h0 : (main 1 nestedLoops).map (fun r => (r.1.isOk, labelsOf r.2.output)) =
      some (true, ["Fg", "wain", "loop0", "else2", "endif2", "else1", "endif1", "endWhile0",
        "else3", "endif3"]) := by decide!
  refine ⟨h0, ?_⟩
  cases h : main 1 nestedLoops with
  | none =>
    rw [h] at h0
    cases h0
  | some r =>
    obtain ⟨res, st⟩ := r
    cases res with
    | error e =>
      rw [h] at h0
      cases h0
    | ok u =>
      have h1 := (labels_distinct 1 nestedLoops st (by decide!) (by decide!) h).1
      simp only [Option.map_some', Option.some.injEq, decide_eq_true_eq]
      exact h1

end wlp4gen

/-! ## Tree optimizer: folding a sum with a pointer operand -/

namespace wlp4gen

/-- C31 (the code at the failing input): in
`int wain(int* a, int b) \x7b int* p = NULL; p = p + 1; return p - a; \x7d`
the use of `p` in `p + 1` is replaced by the literal 1 recorded for `NULL`, and
the sum, whose first operand has type `int*`, is folded by integer addition to
the literal 2 (the node keeps its type `int*`); the code generated afterwards
loads 2 into `p`.  The code of the sum that was not folded multiplies the
`int` operand by 4 before it adds it, which gives 1 + 4 = 5. -/
theorem pointer_sum_folded :
    (assignedExpr nullPlusOne).map (fun e => (e.prodRuleRHS, e.type))
      = some (["expr", "PLUS", "term"], "int*") ∧
    ((optimized 5 nullPlusOne).bind assignedExpr).bind literalOf = some ("2", "int*") ∧
    (main 5 nullPlusOne).map (fun r => (r.1.isOk, (r.2.output.drop 32).take 6))
      = some (true, ["; Variable p assigned to register $8", "lis $8", ".word 1",
          "lis $3", ".word 2", "add $8, $0, $3"]) ∧
    (code pointerPlusOne { GenState.initial with regTable := [("p", "$8")] }).2.output
      = ["; expr -> term  : int*", "; term -> factor  : int", "lis $3", ".word 1",
          "mult $3, $4", "mflo $3", "add $3, $8, $3"] :=
  ⟨by decide!, by decide!, by decide!, by decide!⟩

end wlp4gen

/-! ## Tree optimizer: the measure of the fixpoint loop -/

namespace wlp4gen

theorem weight_eq (node : ParseTreeNode) :
    weight node = ownWeight node + weightOf node.children := by
  cases node
  rw [weight]
  rfl

theorem weight_pos (node : ParseTreeNode) : 1 ≤ weight node := by
  rw [weight_eq]
  unfold ownWeight
  omega

theorem weightOf_set (c1 : ParseTreeNode) : ∀ (cs : List ParseTreeNode) (i : Nat)
    (c : ParseTreeNode), cs.get? i = some c →
    weightOf (cs.set i c1) + weight c = weightOf cs + weight c1 := by
  intro cs
  induction cs with
  | nil => intro i c h; cases h
  | cons d ds ih =>
    intro i c h
    cases i with
    | zero =>
      simp only [List.get?_cons_zero, Option.some.injEq] at h
      subst h
      rw [List.set_cons_zero, weightOf, weightOf]
      omega
    | succ i =>
      simp only [List.get?_cons_succ] at h
      have := ih i c h
      rw [List.set_cons_succ, weightOf, weightOf]
      omega

theorem weightOf_get (cs : List ParseTreeNode) : ∀ (i : Nat) (c : ParseTreeNode),
    cs.get? i = some c → weight c ≤ weightOf cs := by
  induction cs with
  | nil => intro i c h; cases h
  | cons d ds ih =>
    intro i c h
    cases i with
    | zero =>
      simp only [List.get?_cons_zero, Option.some.injEq] at h
      subst h
      rw [weightOf]
      omega
    | succ i =>
      simp only [List.get?_cons_succ] at h
      have := ih i c h
      rw [weightOf]
      omega

theorem weightOf_get_two (cs : List ParseTreeNode) : ∀ (i j : Nat) (c d : ParseTreeNode),
    i < j → cs.get? i = some c → cs.get? j = some d → weight c + weight d ≤ weightOf cs := by
  induction cs with
  | nil => intro i j c d _ h; cases h
  | cons e es ih =>
    intro i j c d hij hc hd
    cases j with
    | zero => omega
    | succ j =>
      simp only [List.get?_cons_succ] at hd
      cases i with
      | zero =>
        simp only [List.get?_cons_zero, Option.some.injEq] at hc
        subst hc
        have := weightOf_get es j d hd
        rw [weightOf]
        omega
      | succ i =>
        simp only [List.get?_cons_succ] at hc
        have := ih i j c d (by omega) hc hd
        rw [weightOf]
        omega

theorem rhs_setChildren (node : ParseTreeNode) (cs : List ParseTreeNode) :
    (node.setChildren cs).prodRuleRHS = node.prodRuleRHS := by
  cases node
  rfl

theorem ownWeight_setChildren (node : ParseTreeNode) (cs : List ParseTreeNode) :
    ownWeight (node.setChildren cs) = ownWeight node := by
  unfold ownWeight
  rw [lhs_setChildren, rhs_setChildren]

theorem weight_setChildren (node : ParseTreeNode) (cs : List ParseTreeNode) :
    weight (node.setChildren cs) = ownWeight node + weightOf cs := by
  rw [weight_eq, ownWeight_setChildren, children_setChildren]

theorem weight_setChild (node c c1 : ParseTreeNode) (i : Nat)
    (hc : node.children.get? i = some c) :
    weight (node.setChild i c1) + weight c = weight node + weight c1 := by
  unfold ParseTreeNode.setChild
  rw [weight_setChildren, weight_eq node]
  have := weightOf_set c1 node.children i c hc
  omega

theorem weight_child (node c : ParseTreeNode) (i : Nat) (hc : node.children.get? i = some c) :
    weight c + 1 ≤ weight node := by
  rw [weight_eq node]
  have := weightOf_get node.children i c hc
  unfold ownWeight
  omega

theorem weight_children (node c d : ParseTreeNode) (i j : Nat) (hij : i < j)
    (hc : node.children.get? i = some c) (hd : node.children.get? j = some d) :
    weight c + weight d + 1 ≤ weight node := by
  rw [weight_eq node]
  have := weightOf_get_two node.children i j c d hij hc hd
  unfold ownWeight
  omega

theorem child_setChild_self (node c c1 : ParseTreeNode) (i : Nat)
    (hc : node.children.get? i = some c) :
    (node.setChild i c1).children.get? i = some c1 := by
  unfold ParseTreeNode.setChild
  rw [children_setChildren]
  have hlt : i < node.children.length := by
    rw [List.get?_eq_getElem?] at hc
    exact (List.getElem?_eq_some_iff.mp hc).1
  simp only [List.get?_eq_getElem?]
  rw [List.getElem?_set_self hlt]

/-- Replacing one child. -/
theorem drops_setChild (node c c1 : ParseTreeNode) (i : Nat) (flag : Bool)
    (hc : node.children.get? i = some c) (h : Drops c (flag, c1)) :
    Drops node (flag, node.setChild i c1) := by
  have hw := weight_setChild node c c1 i hc
  obtain ⟨h1, h2⟩ := h
  constructor
  · show weight (node.setChild i c1) ≤ weight node
    have : weight c1 ≤ weight c := h1
    omega
  · intro hf
    show weight (node.setChild i c1) < weight node
    have : weight c1 < weight c := h2 hf
    omega

/-- Replacing two children. -/
theorem drops_setChild_two (node c c1 d d1 : ParseTreeNode) (i j : Nat) (left right : Bool)
    (hij : i ≠ j) (hc : node.children.get? i = some c) (hd : node.children.get? j = some d)
    (h : Drops c (left, c1)) (k : Drops d (right, d1)) :
    Drops node (left || right, (node.setChild i c1).setChild j d1) := by
  have hw := weight_setChild node c c1 i hc
  have hw1 := weight_setChild (node.setChild i c1) d d1 j
    ((child_setChild node c1 i j hij).trans hd)
  obtain ⟨h1, h2⟩ := h
  obtain ⟨k1, k2⟩ := k
  have e1 : weight c1 ≤ weight c := h1
  have e2 : weight d1 ≤ weight d := k1
  constructor
  · show weight ((node.setChild i c1).setChild j d1) ≤ weight node
    omega
  · intro hf
    show weight ((node.setChild i c1).setChild j d1) < weight node
    simp only [Bool.or_eq_true] at hf
    rcases hf with hf | hf
    · have : weight c1 < weight c := h2 hf
      omega
    · have : weight d1 < weight d := k2 hf
      omega

theorem drops_refl (node : ParseTreeNode) : Drops node (false, node) :=
  ⟨le_refl _, fun h => by cases h⟩

end wlp4gen

namespace wlp4gen

theorem weight_literal (lexeme kind type : String) :
    weight (.terminal ⟨kind, lexeme⟩ type) = 1 := by
  rw [weight_eq]
  rfl

theorem weight_newFactorNum (r : String) : weight (newFactorNum r) = 2 := by
  rw [weight_eq]
  rfl

/-- The two children that a folding branch has rewritten are children of the
node it would return without folding. -/
theorem children_rewritten (node c0 c2 first second : ParseTreeNode)
    (hc0 : node.children.get? 0 = some c0) (hc2 : node.children.get? 2 = some c2) :
    ((node.setChild 0 first).setChild 2 second).children.get? 0 = some first ∧
    ((node.setChild 0 first).setChild 2 second).children.get? 2 = some second :=
  ⟨(child_setChild _ second 2 0 (by decide)).trans (child_setChild_self node c0 first 0 hc0),
    child_setChild_self _ c2 second 2 ((child_setChild node first 0 2 (by decide)).trans hc2)⟩

theorem foldTerm_drops (rec : Rec) (node : ParseTreeNode)
    (operation : Int → Int → Except Fault Int) (hrec : RecDrops rec node.children)
    (hl : node.prodRuleLHS ≠ "factor") :
    Post (foldTerm rec node operation) (Drops node) := by
  unfold foldTerm
  refine post_bind (hrec 0) (fun r0 h0 => ?_)
  obtain ⟨left, term⟩ := r0
  obtain ⟨c0, hc0, hu0⟩ := h0
  refine post_bind (hrec 2) (fun r2 h2 => ?_)
  obtain ⟨right, factor⟩ := r2
  obtain ⟨c2, hc2, hu2⟩ := h2
  simp only []
  have hnode := drops_setChild_two node c0 term c2 factor 0 2 left right (by decide) hc0 hc2
    hu0 hu2
  refine post_bind (post_childAt term 0) (fun termFactor htf => ?_)
  refine post_bind (post_true _) (fun termRule _ => ?_)
  refine post_bind (post_true _) (fun both _ => ?_)
  refine post_ite (fun _ => ?_) (fun _ => post_pure _ hnode)
  repeat (refine post_bind (post_true _) (fun _ _ => ?_))
  refine post_pure _ ?_
  have hch := children_rewritten node c0 c2 term factor hc0 hc2
  have h1 := weight_children _ term factor 0 2 (by decide) hch.1 hch.2
  have h2 := weight_child term termFactor 0 htf
  have h3 := weight_pos termFactor
  have h4 := weight_pos factor
  have h5 : weight ((node.setChild 0 term).setChild 2 factor) ≤ weight node := hnode.1
  have hw : weight ((((node.setChild 0 term).setChild 2 factor).setRHS ["factor"]).setChildren
      [newFactorNum (to_string ‹Int›)]) = 3 := by
    rw [weight_setChildren]
    unfold ownWeight
    rw [lhs_setRHS, lhs_setChild, lhs_setChild, if_neg (fun h => hl h.1)]
    rw [weightOf, weightOf, weight_newFactorNum]
  constructor
  · show weight _ ≤ weight node
    rw [hw]
    omega
  · intro _
    show weight _ < weight node
    rw [hw]
    omega

theorem foldExpr_drops (rec : Rec) (node : ParseTreeNode)
    (operation : Int → Int → Except Fault Int) (hrec : RecDrops rec node.children)
    (hl : node.prodRuleLHS ≠ "factor") :
    Post (foldExpr rec node operation) (Drops node) := by
  unfold foldExpr
  refine post_bind (hrec 0) (fun r0 h0 => ?_)
  obtain ⟨left, expr⟩ := r0
  obtain ⟨c0, hc0, hu0⟩ := h0
  refine post_bind (hrec 2) (fun r2 h2 => ?_)
  obtain ⟨right, term⟩ := r2
  obtain ⟨c2, hc2, hu2⟩ := h2
  simp only []
  have hnode := drops_setChild_two node c0 expr c2 term 0 2 left right (by decide) hc0 hc2
    hu0 hu2
  refine post_bind (post_childAt expr 0) (fun exprTerm het => ?_)
  refine post_bind (post_childAt exprTerm 0) (fun exprFactor hef => ?_)
  refine post_bind (post_true _) (fun exprRule _ => ?_)
  refine post_bind (post_true _) (fun both _ => ?_)
  refine post_ite (fun _ => ?_) (fun _ => post_pure _ hnode)
  repeat (refine post_bind (post_true _) (fun _ _ => ?_))
  refine post_pure _ ?_
  have hch := children_rewritten node c0 c2 expr term hc0 hc2
  have h1 := weight_children _ expr term 0 2 (by decide) hch.1 hch.2
  have h2 := weight_child expr exprTerm 0 het
  have h3 := weight_child exprTerm exprFactor 0 hef
  have h4 := weight_pos exprFactor
  have h5 := weight_pos term
  have h6 : weight ((node.setChild 0 expr).setChild 2 term) ≤ weight node := hnode.1
  have hw : weight ((((node.setChild 0 expr).setChild 2 term).setRHS ["term"]).setChildren
      [ParseTreeNode.internal "term" ["factor"] [newFactorNum (to_string ‹Int›)] "int"]) = 4 := by
    rw [weight_setChildren]
    unfold ownWeight
    rw [lhs_setRHS, lhs_setChild, lhs_setChild, if_neg (fun h => hl h.1)]
    rw [weightOf, weightOf, weight_eq]
    show 1 + 0 + (1 + 0 + weightOf [newFactorNum _] + 0) = 4
    rw [weightOf, weightOf, weight_newFactorNum]
  constructor
  · show weight _ ≤ weight node
    rw [hw]
    omega
  · intro _
    show weight _ < weight node
    rw [hw]
    omega

theorem constantFolding_drops (rec : Rec) (node : ParseTreeNode)
    (hrec : RecDrops rec node.children) :
    Post (constantFolding rec node) (fun o => ∀ r, o = some r → Drops node r) := by
  have hsome : ∀ x : Opt (Bool × ParseTreeNode), Post x (Drops node) →
      Post (some <$> x) (fun o => ∀ r, o = some r → Drops node r) := by
    intro x hx
    refine post_map ⟨fun st a st1 ha r hr => ?_⟩
    cases hr
    exact hx.holds st a st1 ha
  have hnone : Post (pure none : Opt (Option (Bool × ParseTreeNode)))
      (fun o => ∀ r, o = some r → Drops node r) :=
    post_pure _ (fun r hr => by cases hr)
  unfold constantFolding
  simp only []
  refine post_ite (fun h => ?_) (fun _ => post_ite (fun h => ?_) (fun _ => hnone))
  · have k1 : node.prodRuleLHS ≠ "factor" := by rw [h]; decide
    exact post_ite (fun _ => hsome _ (foldTerm_drops rec node _ hrec k1))
      (fun _ => post_ite (fun _ => hsome _ (foldTerm_drops rec node _ hrec k1))
        (fun _ => post_ite (fun _ => hsome _ (foldTerm_drops rec node _ hrec k1))
          (fun _ => hnone)))
  · have k1 : node.prodRuleLHS ≠ "factor" := by rw [h]; decide
    exact post_ite (fun _ => hsome _ (foldExpr_drops rec node _ hrec k1))
      (fun _ => post_ite (fun _ => hsome _ (foldExpr_drops rec node _ hrec k1))
        (fun _ => hnone))

end wlp4gen

namespace wlp4gen

theorem optimizeMain_drops (rec : Rec) (node : ParseTreeNode)
    (hrec : RecDrops rec node.children) : Post (optimizeMain rec node) (Drops node) := by
  unfold optimizeMain
  refine post_bind (post_true _) (fun _ _ => ?_)
  refine post_bind (post_true _) (fun _ _ => ?_)
  refine post_bind (hrec 9) (fun r0 h0 => ?_)
  obtain ⟨left, statements⟩ := r0
  obtain ⟨c0, hc0, hu0⟩ := h0
  refine post_bind (hrec 11) (fun r2 h2 => ?_)
  obtain ⟨right, expr⟩ := r2
  obtain ⟨c2, hc2, hu2⟩ := h2
  simp only []
  refine post_bind (post_true _) (fun _ _ => post_pure _ ?_)
  exact drops_setChild_two node c0 statements c2 expr 9 11 left right (by decide) hc0 hc2
    hu0 hu2

theorem optimizeProcedure_drops (rec : Rec) (node : ParseTreeNode)
    (hrec : RecDrops rec node.children) : Post (optimizeProcedure rec node) (Drops node) := by
  unfold optimizeProcedure
  refine post_bind (post_true _) (fun _ _ => ?_)
  refine post_bind (post_true _) (fun _ _ => ?_)
  refine post_bind (hrec 7) (fun r0 h0 => ?_)
  obtain ⟨left, statements⟩ := r0
  obtain ⟨c0, hc0, hu0⟩ := h0
  refine post_bind (hrec 9) (fun r2 h2 => ?_)
  obtain ⟨right, expr⟩ := r2
  obtain ⟨c2, hc2, hu2⟩ := h2
  simp only []
  refine post_bind (post_true _) (fun _ _ => post_pure _ ?_)
  exact drops_setChild_two node c0 statements c2 expr 7 9 left right (by decide) hc0 hc2
    hu0 hu2

theorem optimizeAssignment_drops (rec : Rec) (node : ParseTreeNode)
    (hrec : RecDrops rec node.children) :
    Post (optimizeAssignment rec node) (Drops node) := by
  unfold optimizeAssignment
  refine post_bind (hrec 2) (fun r0 h0 => ?_)
  obtain ⟨flag, expr⟩ := r0
  obtain ⟨c0, hc0, hu0⟩ := h0
  have h : Drops node (flag, node.setChild 2 expr) := drops_setChild node c0 expr 2 flag hc0 hu0
  simp only []
  repeat' first
    | exact post_pure _ h
    | refine post_bind (post_true _) (fun _ _ => ?_)
    | refine post_ite (fun _ => ?_) (fun _ => ?_)

theorem optimizeWhile_drops (rec : Rec) (node : ParseTreeNode)
    (hrec : RecDrops rec node.children) : Post (optimizeWhile rec node) (Drops node) := by
  unfold optimizeWhile
  refine post_bind (post_true _) (fun _ _ => ?_)
  refine post_bind (hrec 2) (fun r0 h0 => ?_)
  obtain ⟨first, test⟩ := r0
  obtain ⟨c0, hc0, hu0⟩ := h0
  refine post_bind (hrec 5) (fun r2 h2 => ?_)
  obtain ⟨second, statements⟩ := r2
  obtain ⟨c2, hc2, hu2⟩ := h2
  simp only []
  refine post_bind (post_true _) (fun _ _ => post_pure _ ?_)
  exact drops_setChild_two node c0 test c2 statements 2 5 first second (by decide) hc0 hc2
    hu0 hu2

theorem optimizeIf_drops (rec : Rec) (node : ParseTreeNode)
    (hrec : RecDrops rec node.children) : Post (optimizeIf rec node) (Drops node) := by
  unfold optimizeIf
  refine post_bind (post_true _) (fun _ _ => ?_)
  refine post_bind (hrec 2) (fun r0 h0 => ?_)
  obtain ⟨first, test⟩ := r0
  obtain ⟨c0, hc0, hu0⟩ := h0
  refine post_bind (hrec 5) (fun r2 h2 => ?_)
  obtain ⟨second, thenPart⟩ := r2
  obtain ⟨c2, hc2, hu2⟩ := h2
  refine post_bind (hrec 9) (fun r3 h3 => ?_)
  obtain ⟨third, elsePart⟩ := r3
  obtain ⟨c3, hc3, hu3⟩ := h3
  simp only []
  refine post_bind (post_true _) (fun _ _ => post_pure _ ?_)
  have h := drops_setChild_two node c0 test c2 thenPart 2 5 first second (by decide) hc0 hc2
    hu0 hu2
  have hw := weight_setChild ((node.setChild 2 test).setChild 5 thenPart) c3 elsePart 9
    (by rw [child_setChild _ _ 5 9 (by decide), child_setChild _ _ 2 9 (by decide)]; exact hc3)
  obtain ⟨h1, h2⟩ := h
  obtain ⟨k1, k2⟩ := hu3
  have e1 : weight ((node.setChild 2 test).setChild 5 thenPart) ≤ weight node := h1
  have e2 : weight elsePart ≤ weight c3 := k1
  constructor
  · show weight (((node.setChild 2 test).setChild 5 thenPart).setChild 9 elsePart) ≤ weight node
    omega
  · intro hf
    show weight (((node.setChild 2 test).setChild 5 thenPart).setChild 9 elsePart) < weight node
    simp only [Bool.or_eq_true] at hf
    rcases hf with hf | hf
    · have : weight ((node.setChild 2 test).setChild 5 thenPart) < weight node :=
        h2 (by simpa only [Bool.or_eq_true] using hf)
      omega
    · have : weight elsePart < weight c3 := k2 hf
      omega

theorem rhs_setRHS (node : ParseTreeNode) (rhs : List String) :
    (node.setRHS rhs).prodRuleRHS = rhs := by
  cases node
  rfl

theorem children_setRHS (node : ParseTreeNode) (rhs : List String) :
    (node.setRHS rhs).children = node.children := by
  cases node
  rfl

/-- A use that is rewritten was a node `factor -> ID` and is one no longer. -/
theorem optimizeUse_drops (node : ParseTreeNode)
    (hguard : node.prodRuleLHS = "factor" ∧ node.prodRuleRHS.length = 1 ∧
      node.prodRuleRHS.get? 0 = some "ID") :
    Post (optimizeUse node) (Drops node) := by
  have hrhs : node.prodRuleRHS = ["ID"] := by
    obtain ⟨-, hlen, hget⟩ := hguard
    cases hr : node.prodRuleRHS with
    | nil => rw [hr] at hlen; cases hlen
    | cons s rest =>
      rw [hr] at hlen hget
      cases rest with
      | nil =>
        simp only [List.get?_cons_zero, Option.some.injEq] at hget
        rw [hget]
      | cons t rest => simp at hlen
  unfold optimizeUse
  refine post_bind (post_childAt node 0) (fun idNode hid => ?_)
  simp only []
  refine post_bind (post_true _) (fun _ _ => ?_)
  refine post_ite (fun _ => ?_) (fun _ => post_pure _ (drops_refl node))
  refine post_bind (post_true _) (fun entry _ => ?_)
  split
  · rename_i value type
    refine post_bind (post_true _) (fun _ _ => post_pure _ ?_)
    have hw : weight ((node.setChild 0 (.terminal ⟨"kind", value⟩ type)).setRHS ["NUM"]) + 1
        ≤ weight node := by
      rw [weight_eq, weight_eq node, children_setRHS]
      unfold ParseTreeNode.setChild
      rw [children_setChildren]
      have h1 := weightOf_set (.terminal ⟨"kind", value⟩ type) node.children 0 idNode hid
      rw [weight_literal] at h1
      have h2 := weight_pos idNode
      have h3 : ownWeight ((node.setChildren
          (node.children.set 0 (.terminal ⟨"kind", value⟩ type))).setRHS ["NUM"]) = 1 := by
        unfold ownWeight
        rw [rhs_setRHS, if_neg (fun h => absurd h.2 (by decide))]
      have h4 : ownWeight node = 2 := by
        unfold ownWeight
        rw [if_pos ⟨hguard.1, hrhs⟩]
      omega
    constructor
    · show weight ((node.setChild 0 (.terminal ⟨"kind", value⟩ type)).setRHS ["NUM"])
        ≤ weight node
      omega
    · intro _
      show weight ((node.setChild 0 (.terminal ⟨"kind", value⟩ type)).setRHS ["NUM"])
        < weight node
      omega
  · exact post_pure _ (drops_refl node)

theorem constantPropagation_drops (rec : Rec) (loop : Loop) (node : ParseTreeNode)
    (hrec : RecDrops rec node.children) (hloop : Post loop (LoopDrops node.children)) :
    Post (constantPropagation rec loop node) (Drops node) := by
  unfold constantPropagation
  simp only []
  refine post_ite (fun _ => optimizeMain_drops rec node hrec) (fun _ => ?_)
  refine post_ite (fun _ => optimizeProcedure_drops rec node hrec) (fun _ => ?_)
  refine post_ite (fun _ => optimizeAssignment_drops rec node hrec) (fun _ => ?_)
  refine post_bind (post_true _) (fun isWhile _ => ?_)
  refine post_ite (fun _ => optimizeWhile_drops rec node hrec) (fun _ => ?_)
  refine post_bind (post_true _) (fun isIf _ => ?_)
  refine post_ite (fun _ => optimizeIf_drops rec node hrec) (fun _ => ?_)
  refine post_ite (fun h => optimizeUse_drops node h) (fun _ => ?_)
  refine post_bind hloop (fun r hr => ?_)
  obtain ⟨flag, children⟩ := r
  refine post_pure _ ?_
  obtain ⟨h1, h2⟩ := hr
  have e1 : weightOf children ≤ weightOf node.children := h1
  constructor
  · show weight (node.setChildren children) ≤ weight node
    rw [weight_setChildren, weight_eq node]
    omega
  · intro hf
    show weight (node.setChildren children) < weight node
    have : weightOf children < weightOf node.children := h2 hf
    rw [weight_setChildren, weight_eq node]
    omega

theorem optimizeBody_drops (rec : Rec) (loop : Loop) (node : ParseTreeNode)
    (hrec : RecDrops rec node.children) (hloop : Post loop (LoopDrops node.children)) :
    Post (optimizeBody rec loop node) (Drops node) := by
  unfold optimizeBody
  refine post_bind (post_true _) (fun _ _ => ?_)
  refine post_bind (constantFolding_drops rec node hrec) (fun folded hf => ?_)
  cases folded with
  | none => exact constantPropagation_drops rec loop node hrec hloop
  | some r => exact post_pure _ (hf r rfl)

theorem optimizeLoop_drops (cs : List ParseTreeNode)
    (ih : ∀ c ∈ cs, Post (optimizeTree c) (Drops c)) :
    ∀ rhs : List String, Post (optimizeLoop rhs cs) (LoopDrops cs) := by
  induction cs with
  | nil =>
    intro rhs
    cases rhs <;>
      (unfold optimizeLoop
       exact post_pure _ ⟨le_refl _, fun h => by cases h⟩)
  | cons c cs ihc =>
    intro rhs
    cases rhs with
    | nil =>
      unfold optimizeLoop
      exact post_fail _
    | cons symbol symbols =>
      unfold optimizeLoop
      have hfirst : Post (if symbol ≠ ".EMPTY" ∧ startsUpper symbol = false then optimizeTree c
          else pure (false, c)) (Drops c) :=
        post_ite (fun _ => ih c (List.mem_cons_self _ _)) (fun _ => post_pure _ (drops_refl c))
      refine post_bind hfirst (fun r1 h1 => ?_)
      obtain ⟨first, c1⟩ := r1
      refine post_bind (ihc (fun d hd => ih d (List.mem_cons_of_mem _ hd)) symbols)
        (fun r2 h2 => ?_)
      obtain ⟨others, cs1⟩ := r2
      refine post_pure _ ?_
      obtain ⟨a1, a2⟩ := h1
      obtain ⟨b1, b2⟩ := h2
      have e1 : weight c1 ≤ weight c := a1
      have e2 : weightOf cs1 ≤ weightOf cs := b1
      constructor
      · show weightOf (c1 :: cs1) ≤ weightOf (c :: cs)
        rw [weightOf, weightOf]
        omega
      · intro hf
        show weightOf (c1 :: cs1) < weightOf (c :: cs)
        rw [weightOf, weightOf]
        simp only [Bool.or_eq_true] at hf
        rcases hf with hf | hf
        · have : weight c1 < weight c := a2 hf
          omega
        · have : weightOf cs1 < weightOf cs := b2 hf
          omega

/-- A pass of the optimizer does not raise the measure, and it lowers the
measure when it returns `true`. -/
theorem optimizeTree_drops (node : ParseTreeNode) :
    Post (optimizeTree node) (Drops node) := by
  induction node using gen_tree_induction with
  | step lhs rhs tok cs ty wt ih =>
    rw [optimizeTree_eq]
    refine optimizeBody_drops _ _ _ ?_ (optimizeLoop_drops cs ih rhs)
    intro i
    show Post (optimizeAt cs i) _
    rw [optimizeAt_eq]
    cases hc : cs.get? i with
    | none => exact post_fail _
    | some c =>
      constructor
      intro st r st1 h
      exact ⟨c, hc, (ih c (List.get?_mem hc)).holds st r st1 h⟩

/-- The loop of `main` stops within the fuel when the measure of the tree is
below it, and makes at most as many passes as the measure. -/
theorem optimizeAgain_stops : ∀ (fuel : Nat) (flag : Bool) (root : ParseTreeNode) (n : Nat)
    (st st1 : OptState) (result : Option (Nat × ParseTreeNode)),
    (flag = true → weight root < fuel) →
    optimizeAgain fuel flag root n st = .ok (result, st1) →
    ∃ passes root1, result = some (passes, root1) ∧ passes ≤ n + weight root := by
  intro fuel
  induction fuel with
  | zero =>
    intro flag root n st st1 result hfuel h
    cases flag with
    | true => exact absurd (hfuel rfl) (Nat.not_lt_zero _)
    | false =>
      rw [optimizeAgain] at h
      simp only [opt_pure_apply, Except.ok.injEq, Prod.mk.injEq] at h
      exact ⟨n, root, h.1.symm, Nat.le_add_right _ _⟩
  | succ fuel ih =>
    intro flag root n st st1 result hfuel h
    cases flag with
    | false =>
      rw [optimizeAgain] at h
      simp only [opt_pure_apply, Except.ok.injEq, Prod.mk.injEq] at h
      exact ⟨n, root, h.1.symm, Nat.le_add_right _ _⟩
    | true =>
      rw [optimizeAgain] at h
      obtain ⟨_, sa, _, h⟩ := opt_bind_ok_iff.mp h
      obtain ⟨r, sb, hr, h⟩ := opt_bind_ok_iff.mp h
      obtain ⟨flag1, root1⟩ := r
      have hd := (optimizeTree_drops root).holds sa (flag1, root1) sb hr
      have hlt := hfuel rfl
      have e1 : weight root1 ≤ weight root := hd.1
      obtain ⟨passes, root2, hres, hle⟩ := ih flag1 root1 (n + 1) sb st1 result
        (fun hf => by
          have : weight root1 < weight root := hd.2 hf
          omega) h
      refine ⟨passes, root2, hres, ?_⟩
      cases flag1 with
      | true =>
        have : weight root1 < weight root := hd.2 rfl
        omega
      | false =>
        have hp := weight_pos root
        have h0 : optimizeAgain fuel false root1 (n + 1) sb = .ok (some (n + 1, root1), sb) := by
          cases fuel <;> rfl
        have h1 : optimizeAgain fuel false root1 (n + 1) sb = .ok (result, st1) := h
        rw [h0] at h1
        simp only [Except.ok.injEq, Prod.mk.injEq] at h1
        have h := h1
        rw [hres] at h
        simp only [Option.some.injEq, Prod.mk.injEq] at h
        omega

end wlp4gen

/-! ## Tree optimizer: termination of the fixpoint loop -/

namespace wlp4gen

/-- C32. The optimization fixpoint terminates.  The measure `weight` of a tree
is the number of its nodes plus the number of its nodes `factor -> ID`.  Every
pass (call of `optimizeTree`) that returns `true` returns a tree of smaller
measure.  Hence the loop of `main`, run with as much fuel as the measure of the
tree it starts from, never runs out of fuel: `optimize` does not return `none`,
and the loop that follows the first pass makes at most as many passes as that
measure. -/
theorem fixpoint_terminates (root : ParseTreeNode) :
    (∀ st flag root1 st1, optimizeTree root st = .ok ((flag, root1), st1) → flag = true →
      weight root1 < weight root) ∧
    (∀ fuel st, weight root ≤ fuel →
      (∀ st1, optimize fuel root st ≠ .ok (none, st1)) ∧
      ∀ flag root1 st1 result st2, optimizeTree root st = .ok ((flag, root1), st1) →
        optimizeAgain fuel flag root1 0 st1 = .ok (result, st2) →
        ∃ passes root2, result = some (passes, root2) ∧ passes ≤ weight root) := by
  have hloop : ∀ fuel st, weight root ≤ fuel →
      ∀ flag root1 st1 result st2, optimizeTree root st = .ok ((flag, root1), st1) →
        optimizeAgain fuel flag root1 0 st1 = .ok (result, st2) →
        ∃ passes root2, result = some (passes, root2) ∧ passes ≤ weight root := by
    intro fuel st hfuel flag root1 st1 result st2 hpass hagain
    have hd := (optimizeTree_drops root).holds st (flag, root1) st1 hpass
    have e1 : weight root1 ≤ weight root := hd.1
    obtain ⟨passes, root2, hres, hle⟩ := optimizeAgain_stops fuel flag root1 0 st1 st2 result
      (fun hf => by
        have : weight root1 < weight root := hd.2 hf
        omega) hagain
    exact ⟨passes, root2, hres, by omega⟩
  refine ⟨fun st flag root1 st1 h hf =>
    ((optimizeTree_drops root).holds st (flag, root1) st1 h).2 hf, fun fuel st hfuel =>
      ⟨fun st1 h => ?_, hloop fuel st hfuel⟩⟩
  unfold optimize at h
  obtain ⟨r, sa, hr, h⟩ := opt_bind_ok_iff.mp h
  obtain ⟨flag, root1⟩ := r
  obtain ⟨result, sb, hagain, h⟩ := opt_bind_ok_iff.mp h
  obtain ⟨passes, root2, hres, -⟩ := hloop fuel st hfuel flag root1 sa result sb hr hagain
  subst hres
  obtain ⟨_, sc, _, h⟩ := opt_bind_ok_iff.mp h
  simp only [opt_pure_apply, Except.ok.injEq, Prod.mk.injEq] at h
  exact absurd h.1 (by simp)

/-- For the sum `1 + 2` the first pass folds, which takes the measure from 9
to 4, and the loop of `main` stops with fuel 9. -/
theorem fixpoint_terminates_witness :
    weight (exprOfLiterals "1" "PLUS" "+" "2") = 9 ∧
    optimizeTree (exprOfLiterals "1" "PLUS" "+" "2") OptState.initial
      = .ok ((true, foldedExpr "3"), OptState.initial) ∧
    weight (foldedExpr "3") < weight (exprOfLiterals "1" "PLUS" "+" "2") ∧
    ∀ st1, optimize 9 (exprOfLiterals "1" "PLUS" "+" "2") OptState.initial ≠ .ok (none, st1) :=
  ⟨by decide, rfl,
    (fixpoint_terminates (exprOfLiterals "1" "PLUS" "+" "2")).1 OptState.initial true
      (foldedExpr "3") OptState.initial rfl rfl,
    ((fixpoint_terminates (exprOfLiterals "1" "PLUS" "+" "2")).2 9 OptState.initial
      (by decide)).1⟩

end wlp4gen

/-! ## Context-sensitive analysis: child indices stay in bounds -/

namespace wlp4type

theorem inb_pure {α : Type} {Q : α → Prop} (a : α) (h : Q a) : InBounds (pure a : TC α) Q := by
  constructor
  intro st
  refine ⟨fun what hw => (by cases hw), fun b st1 hb => ?_⟩
  simp only [pure_apply, Prod.mk.injEq, Except.ok.injEq] at hb
  obtain ⟨rfl, -⟩ := hb
  exact h

theorem inb_raise {α : Type} {Q : α → Prop} (what : String) :
    InBounds (TC.raise what : TC α) Q := by
  constructor
  intro st
  refine ⟨fun w hw => (by cases hw), fun b st1 hb => ?_⟩
  simp at hb

theorem inb_bind {α β : Type} {x : TC α} {f : α → TC β} {P : α → Prop} {Q : β → Prop}
    (hx : InBounds x P) (hf : ∀ a, P a → InBounds (f a) Q) : InBounds (x >>= f) Q := by
  constructor
  intro st
  constructor
  · intro what hw
    rw [bind_apply] at hw
    rcases hx1 : x st with ⟨r, st1⟩
    rw [hx1] at hw
    cases r with
    | error e =>
      have := (hx.holds st).1 what
      rw [hx1] at this
      exact this (by simpa using hw)
    | ok a => exact ((hf a ((hx.holds st).2 a st1 hx1)).holds st1).1 what hw
  · intro b st2 hb
    obtain ⟨a, st1, h1, h2⟩ := bind_ok_iff.mp hb
    exact ((hf a ((hx.holds st).2 a st1 h1)).holds st1).2 b st2 h2

theorem inb_bind_assoc {α β γ : Type} {x : TC α} {f : α → TC β} {g : β → TC γ}
    {Q : γ → Prop} (h : InBounds (x >>= fun a => f a >>= g) Q) :
    InBounds ((x >>= f) >>= g) Q := by
  have heq : ((x >>= f) >>= g) = (x >>= fun a => f a >>= g) := by
    funext st
    rw [bind_apply, bind_apply, bind_apply]
    rcases x st with ⟨r, st1⟩
    cases r <;> rfl
  rw [heq]
  exact h

theorem inb_ite {α : Type} {c : Prop} [Decidable c] {x y : TC α} {Q : α → Prop}
    (hx : c → InBounds x Q) (hy : ¬ c → InBounds y Q) : InBounds (if c then x else y) Q := by
  by_cases h : c
  · rw [if_pos h]; exact hx h
  · rw [if_neg h]; exact hy h

/-- The test of the flag of an annotated `statements` node fails. -/
theorem inb_ite_flag {α : Type} {r : ParseTreeNode} {x y : TC α} {Q : α → Prop}
    (h : Kept "statements" r) (hy : InBounds y Q) :
    InBounds (if r.wellTyped = true then x else y) Q := by
  rw [if_neg (by rw [h.1 rfl]; decide)]
  exact hy

theorem child_cons_zero (c : ParseTreeNode) (cs : List ParseTreeNode) :
    child (c :: cs) 0 = pure c := rfl

theorem child_cons_succ (c : ParseTreeNode) (cs : List ParseTreeNode) (i : Nat) :
    child (c :: cs) (i + 1) = child cs i := rfl

/-- An annotated `dcl` node has children 0 and 1. -/
theorem inb_child_dcl {r : ParseTreeNode} {i : Nat} (h : Kept "dcl" r) (hi : i < 2) :
    InBounds (child r.children i) (fun _ => True) := by
  have hlen := h.2 rfl
  cases hr : r.children with
  | nil => rw [hr] at hlen; cases hlen
  | cons a rest =>
    cases rest with
    | nil => rw [hr] at hlen; cases hlen
    | cons b rest =>
      cases i with
      | zero => exact inb_pure _ trivial
      | succ i =>
        cases i with
        | zero => exact inb_pure _ trivial
        | succ i => omega

theorem inb_findProcedure (name : String) : InBounds (findProcedure name) (fun _ => True) :=
  ⟨fun _ => ⟨fun _ hw => (by cases hw), fun _ _ _ => trivial⟩⟩

theorem inb_declareProcedure (name : String) :
    InBounds (declareProcedure name) (fun _ => True) :=
  ⟨fun _ => ⟨fun _ hw => (by cases hw), fun _ _ _ => trivial⟩⟩

theorem inb_findVariable (ctx name : String) :
    InBounds (findVariable ctx name) (fun _ => True) :=
  ⟨fun _ => ⟨fun _ hw => (by cases hw), fun _ _ _ => trivial⟩⟩

theorem inb_signature (name : String) : InBounds (signature name) (fun _ => True) :=
  ⟨fun _ => ⟨fun _ hw => (by cases hw), fun _ _ _ => trivial⟩⟩

theorem inb_pushParameter (ctx type : String) :
    InBounds (pushParameter ctx type) (fun _ => True) :=
  ⟨fun _ => ⟨fun _ hw => (by cases hw), fun _ _ _ => trivial⟩⟩

theorem inb_setVariable (ctx name type : String) :
    InBounds (setVariable ctx name type) (fun _ => True) :=
  ⟨fun _ => ⟨fun _ hw => (by cases hw), fun _ _ _ => trivial⟩⟩

theorem inb_getVariable (ctx name : String) :
    InBounds (getVariable ctx name) (fun _ => True) :=
  ⟨fun _ => ⟨fun _ hw => (by cases hw), fun _ _ _ => trivial⟩⟩

theorem inb_internal {Q : ParseTreeNode → Prop} (lhs : String) (rhs : List String)
    (tok : Token) (cs : List ParseTreeNode) (ty : String) (wt : Bool) (fn ctx : String)
    (h : Handler) (hk : tok.kind = "") (hd : dispatch lhs rhs = .ok (some h))
    (hs : InBounds (handle h (fun i f c => annotateAt cs i f c)
      (fun i f c => arglistWalkAt cs i f c) (.mk lhs rhs tok cs ty wt) fn ctx) Q) :
    InBounds (annotateTypes (.mk lhs rhs tok cs ty wt) fn ctx) Q := by
  rw [annotateTypes_internal lhs rhs tok cs ty wt fn ctx h hk hd]
  exact hs

theorem inb_unhandled {Q : ParseTreeNode → Prop} (lhs : String) (rhs : List String)
    (tok : Token) (cs : List ParseTreeNode) (ty : String) (wt : Bool) (fn ctx : String)
    (hk : tok.kind = "") (hd : dispatch lhs rhs = .ok none)
    (hq : Q (.mk lhs rhs tok cs ty wt)) :
    InBounds (annotateTypes (.mk lhs rhs tok cs ty wt) fn ctx) Q := by
  rw [annotateTypes_eq]
  simp only [annotateBody, ParseTreeNode.isTerminal, ParseTreeNode.token, hk,
    ParseTreeNode.prodRuleLHS, ParseTreeNode.prodRuleRHS, hd, beq_self_eq_true, Bool.not_true,
    Bool.false_eq_true, ↓reduceIte]
  exact inb_pure _ hq

/-- A leaf is returned as it is, but for its type. -/
theorem inb_leaf (symbol : String) (tok : Token) (ty : String) (fn ctx : String)
    (hk : tok.kind ≠ "") (hs : symbol ≠ "dcl") :
    InBounds (annotateTypes (.mk "" [] tok [] ty false) fn ctx) (Kept symbol) := by
  have hkept : ∀ t : String, Kept symbol (.mk "" [] tok [] t false) :=
    fun t => ⟨fun _ => rfl, fun h => absurd h hs⟩
  rw [annotateTypes_eq]
  simp only [annotateBody]
  refine inb_ite (fun _ => inb_ite (fun _ => inb_pure _ (hkept _))
    (fun _ => inb_ite (fun _ => inb_pure _ (hkept _)) (fun _ => inb_pure _ (hkept _))))
    (fun hnot => ?_)
  exfalso
  apply hnot
  simpa [ParseTreeNode.isTerminal, ParseTreeNode.token] using hk

end wlp4type

namespace wlp4type

theorem tc_children_mk (lhs : String) (rhs : List String) (tok : Token)
    (cs : List ParseTreeNode) (ty : String) (wt : Bool) :
    (ParseTreeNode.mk lhs rhs tok cs ty wt).children = cs := rfl

theorem tc_rhs_mk (lhs : String) (rhs : List String) (tok : Token)
    (cs : List ParseTreeNode) (ty : String) (wt : Bool) :
    (ParseTreeNode.mk lhs rhs tok cs ty wt).prodRuleRHS = rhs := rfl

theorem tc_wellTyped_mk (lhs : String) (rhs : List String) (tok : Token)
    (cs : List ParseTreeNode) (ty : String) (wt : Bool) :
    (ParseTreeNode.mk lhs rhs tok cs ty wt).wellTyped = wt := rfl

theorem tc_setChild_mk (lhs : String) (rhs : List String) (tok : Token)
    (cs : List ParseTreeNode) (ty : String) (wt : Bool) (i : Nat) (c : ParseTreeNode) :
    (ParseTreeNode.mk lhs rhs tok cs ty wt).setChild i c = .mk lhs rhs tok (cs.set i c) ty wt :=
  rfl

theorem tc_setType_mk (lhs : String) (rhs : List String) (tok : Token)
    (cs : List ParseTreeNode) (ty : String) (wt : Bool) (t : String) :
    (ParseTreeNode.mk lhs rhs tok cs ty wt).setType t = .mk lhs rhs tok cs t wt := rfl

theorem tc_setWellTyped_mk (lhs : String) (rhs : List String) (tok : Token)
    (cs : List ParseTreeNode) (ty : String) (wt : Bool) :
    (ParseTreeNode.mk lhs rhs tok cs ty wt).setWellTyped = .mk lhs rhs tok cs ty true := rfl

theorem terminals_not_dcl : ∀ symbol ∈ terminals, symbol ≠ "dcl" ∧ symbol ≠ "" := by
  decide

theorem empty_rules_not_dcl : ∀ p ∈ productions, p.2 = [".EMPTY"] → p.1 ≠ "dcl" := by
  decide

set_option maxHeartbeats 4000000 in
/-- On a tree of the grammar without flags, `annotateTypes` and the loop over
an argument list stay in bounds. -/
theorem annotate_inBounds (node : ParseTreeNode) :
    (∀ symbol fn ctx, conforms symbol node = true → Unflagged node →
      InBounds (annotateTypes node fn ctx) (Kept symbol)) ∧
    (∀ fn ctx, conforms "arglist" node = true → Unflagged node →
      InBounds (arglistWalk node fn ctx) (fun _ => True)) := by
  induction node using tree_induction with
  | step lhs rhs tok cs ty wt ih =>
    have hsub : Unflagged (.mk lhs rhs tok cs ty wt) → ∀ c ∈ cs, Unflagged c :=
      fun h c hc n hn => h n (nodes_child hc hn)
    constructor
    · intro symbol fn ctx hconf hfresh
      have hwt : wt = false := hfresh _ (mem_nodes_self _)
      subst hwt
      have hfc := hsub hfresh
      clear hfresh hsub
      by_cases hterm : symbol ∈ terminals
      · obtain ⟨tok0, ty0, wt0, heq, hk⟩ := conforms_terminal _ _ hterm hconf
        simp only [ParseTreeNode.mk.injEq] at heq
        obtain ⟨rfl, rfl, rfl, rfl, rfl, rfl⟩ := heq
        have hne := terminals_not_dcl symbol hterm
        exact inb_leaf symbol _ _ fn ctx (by rw [hk]; exact hne.2) hne.1
      · rcases conforms_nonterminal symbol lhs rhs tok cs ty false hterm hconf with
          ⟨rfl, rfl, rfl, rfl, hne, hp⟩ | ⟨rfl, rfl, hp, he, hall⟩
        · exact inb_leaf symbol _ _ fn ctx hne (empty_rules_not_dcl _ hp rfl)
        · clear hconf hterm
          unfold productions at hp
          repeat'
            (have hmem := List.mem_cons.mp hp
             clear hp
             rcases hmem with hp | hp)
          all_goals
            first
              | exact absurd hp (List.not_mem_nil _)
              | (simp only [Prod.mk.injEq] at hp
                 obtain ⟨rfl, rfl⟩ := hp)
          all_goals first | exact absurd (List.mem_singleton_self _) he | skip
          all_goals
            clear he
            repeat
              (rw [conformsAll_cons] at hall
               obtain ⟨_, _, rfl, hc, hall⟩ := hall)
            rw [conformsAll_nil] at hall
            subst hall
          all_goals
            first
             | (refine inb_unhandled _ _ _ _ _ _ _ _ (by rfl) (by rfl) ?_)
             | (refine inb_internal _ _ _ _ _ _ _ _ _ (by rfl) (by rfl) ?_
                simp only [handle, handleStart, handleProceduresMain, handleProceduresProcedure,
                  handleMain, handleProcedure, handleParams, handleParamlist, handleDcl,
                  handleDcls, handleUseID,
                  handleExprBinary, handleTermBinary, handleAddressOf, handleDereference,
                  handleNewArray, handleLvalueParen, handleCall, handleCallArguments,
                  handleArglistOne, handleArglistMany, arglistWalkBody, handleExprTerm,
                  handleTermFactor, handleFactorNum, handleFactorNull, handleFactorParen,
                  handleStatementsEmpty, handleStatementsMore, handleAssignment, handleIfElse,
                  handleWhileLoop, handlePrintln, handleDelete, handleTest,
                  annotateAt, arglistWalkAt, tc_children_mk, tc_rhs_mk, tc_setChild_mk,
                  child_cons_zero, child_cons_succ, List.set,
                  List.get?_cons_succ, List.get?_cons_zero,
                  pure_bind_eq, String.reduceEq, ↓reduceIte, List.length_cons, List.length_nil,
                  Nat.reduceAdd, Nat.reduceEqDiff, OfNat.ofNat_ne_zero, ne_eq,
                  not_true_eq_false, not_false_eq_true]
                repeat' first
                  | rw [pure_bind_eq]
                  | refine inb_bind_assoc ?_
                  | exact inb_raise _
                  | refine inb_bind ((ih _ (by simp)).1 _ _ _ (by assumption) (hfc _ (by simp)))
                      (fun _ _ => ?_)
                  | refine inb_bind ((ih _ (by simp)).2 _ _ (by assumption) (hfc _ (by simp)))
                      (fun _ _ => ?_)
                  | refine inb_bind (inb_findProcedure _) (fun _ _ => ?_)
                  | refine inb_bind (inb_declareProcedure _) (fun _ _ => ?_)
                  | refine inb_bind (inb_signature _) (fun _ _ => ?_)
                  | refine inb_bind (inb_pushParameter _ _) (fun _ _ => ?_)
                  | refine inb_bind (inb_findVariable _ _) (fun _ _ => ?_)
                  | refine inb_bind (inb_setVariable _ _ _) (fun _ _ => ?_)
                  | refine inb_bind (inb_getVariable _ _) (fun _ _ => ?_)
                  | refine inb_bind (inb_child_dcl (by assumption) (by decide)) (fun _ _ => ?_)
                  | refine inb_ite_flag (by assumption) ?_
                  | refine inb_ite (fun _ => ?_) (fun _ => ?_)
                  | refine inb_pure _ ?_)
          all_goals clear ih hfc
          all_goals simp_all [Kept, tc_children_mk, tc_wellTyped_mk, tc_setChild_mk,
            tc_setType_mk, tc_setWellTyped_mk]
    · intro fn ctx hconf hfresh
      have hfc := hsub hfresh
      rcases conforms_nonterminal "arglist" lhs rhs tok cs ty wt (by decide) hconf with
        ⟨-, -, -, -, -, hp⟩ | ⟨rfl, rfl, hp, -, hall⟩
      · exact absurd hp (by decide)
      · simp only [productions, List.mem_cons, Prod.mk.injEq, List.not_mem_nil, or_false,
          String.reduceEq, false_and, true_and, false_or] at hp
        rcases hp with rfl | rfl
        · rw [conformsAll_cons] at hall
          obtain ⟨e, _, rfl, he, hall⟩ := hall
          rw [conformsAll_nil] at hall
          subst hall
          rw [arglistWalk_eq]
          simp only [arglistWalkBody, ParseTreeNode.prodRuleRHS, ParseTreeNode.children,
            annotateAt, List.length_cons, List.length_nil, Nat.reduceAdd, Nat.reduceEqDiff,
            ↓reduceIte]
          exact inb_bind ((ih _ (by simp)).1 _ _ _ he (hfc _ (by simp)))
            (fun e1 he1 => inb_pure _ trivial)
        · rw [conformsAll_cons] at hall
          obtain ⟨e, _, rfl, he, hall⟩ := hall
          rw [conformsAll_cons] at hall
          obtain ⟨comma, _, rfl, hcomma, hall⟩ := hall
          rw [conformsAll_cons] at hall
          obtain ⟨rest, _, rfl, hrest, hall⟩ := hall
          rw [conformsAll_nil] at hall
          subst hall
          rw [arglistWalk_eq]
          simp only [arglistWalkBody, ParseTreeNode.prodRuleRHS, ParseTreeNode.children,
            annotateAt, arglistWalkAt, List.length_cons, List.length_nil, Nat.reduceAdd,
            ↓reduceIte]
          exact inb_bind ((ih _ (by simp)).1 _ _ _ he (hfc _ (by simp))) (fun e1 he1 =>
            inb_bind ((ih _ (by simp)).2 _ _ hrest (hfc _ (by simp)))
              (fun p hp => inb_pure _ trivial))

end wlp4type

namespace wlp4type

/-- C33. Child indexing in the type checker is in bounds: for every tree of the
grammar as `buildParseTree` builds it (it conforms to the grammar and no node
is flagged well typed yet), `annotateTypes` never evaluates an index expression
`children[i]` or `prodRuleRHS[i]` beyond the end of the vector, whatever the
symbol table it is started with; in particular, at a node
`statements -> statements statement` the test of `children[0]->wellTyped`
fails, `children[2]` is not evaluated, and the call does what the two
recursive calls on children 0 and 1 do and stores their results. -/
theorem children_in_bounds (symbol : String) (node : ParseTreeNode) (fn ctx : String)
    (st : SymbolTable) (hconf : conforms symbol node = true)
    (hflags : ∀ n ∈ nodes node, n.wellTyped = false) :
    (∀ what, (annotateTypes node fn ctx st).1 ≠ .error (.undefined what)) ∧
    (∀ rest statement, node.prodRuleLHS = "statements" → node.children = [rest, statement] →
      annotateTypes node fn ctx st =
        (annotateTypes rest fn ctx >>= fun rest1 =>
          annotateTypes statement fn ctx >>= fun statement1 =>
            pure ((node.setChild 0 rest1).setChild 1 statement1)) st) := by
  refine ⟨(((annotate_inBounds node).1 symbol fn ctx hconf hflags).holds st).1, ?_⟩
  intro rest statement hlhs hcs
  cases node with
  | mk lhs rhs tok cs ty wt =>
    have hlhs : lhs = "statements" := hlhs
    have hcs : cs = [rest, statement] := hcs
    subst hlhs hcs
    have hterm : symbol ∉ terminals := by
      intro hterm
      obtain ⟨_, _, _, heq, -⟩ := conforms_terminal _ _ hterm hconf
      simp at heq
    rcases conforms_nonterminal symbol _ rhs tok _ ty wt hterm hconf with
      ⟨h, -⟩ | ⟨rfl, rfl, hp, he, hall⟩
    · simp at h
    · have hrhs : rhs = ["statements", "statement"] := by
        simp only [productions, List.mem_cons, Prod.mk.injEq, List.not_mem_nil, or_false,
          String.reduceEq, false_and, true_and, false_or] at hp
        rcases hp with rfl | rfl
        · exact absurd (List.mem_singleton_self _) he
        · rfl
      subst hrhs
      have hrest : conforms "statements" rest = true := by
        rw [conformsAll_cons] at hall
        obtain ⟨c, cs, heq, hc, -⟩ := hall
        simp only [List.cons.injEq] at heq
        rw [heq.1]
        exact hc
      have hkept := (annotate_inBounds rest).1 "statements" fn ctx hrest
        (fun n hn => hflags n (nodes_child (List.mem_cons_self _ _) hn))
      rw [annotateTypes_internal _ _ _ _ _ _ fn ctx .statementsMore rfl (by rfl)]
      simp only [handle, handleStatementsMore, annotateAt, bind_apply]
      rcases h0 : annotateTypes rest fn ctx st with ⟨r0, st0⟩
      cases r0 with
      | error e => rfl
      | ok rest1 =>
        have hflag : rest1.wellTyped = false := ((hkept.holds st).2 rest1 st0 h0).1 rfl
        simp only []
        rcases annotateTypes statement fn ctx st0 with ⟨r1, st1⟩
        cases r1 with
        | error e => rfl
        | ok statement1 =>
          simp only [hflag, Bool.false_eq_true, ↓reduceIte]

/-- The program `int f() \x7b return 0; \x7d int wain(int a, int b) \x7b while (a < b)
\x7b println(a); \x7d println(b); return 0; \x7d`, which has three `statements` nodes of
the rule `statements -> statements statement`, is analysed within the bounds
of its vectors. -/
theorem children_in_bounds_witness :
    conforms "start" loopProgram = true ∧
    (∀ n ∈ nodes loopProgram, n.wellTyped = false) ∧
    ((nodes loopProgram).filter (fun n => n.prodRuleRHS = ["statements", "statement"])).length
      = 3 ∧
    ∀ what, (annotateTypes loopProgram "" "" []).1 ≠ .error (.undefined what) :=
  ⟨by decide, by decide, by decide,
    (children_in_bounds "start" loopProgram "" "" [] (by decide) (by decide)).1⟩

end wlp4type

/-! ## Parser: the lookahead at the end of the input -/

namespace wlp4parse

end wlp4parse

/-! ## Code generator: the scratch register of a pointer sum -/

namespace wlp4gen

/-- C35 (the code at the failing input): in the procedure
`int f(int* q) \x7b int i = 0; i = *q; return *(q + 1 + i); \x7d` the variable `i` is
in register `$8` and `q` is in the frame.  For `(q + 1) + i` the code puts
`4 * i` into `$5` (`mult $8, $4`, `mflo $5`), then emits the code of `q + 1`,
which ends with `pop($5)` (`lw $5, -4($30)`) and so overwrites `$5` with `q`,
and then adds `$5`. -/
theorem scratch_register_overwritten :
    (main 1 indexed).map (fun r =>
        (r.1.isOk, find "i" r.2.regTable, find "q" r.2.regTable,
          (r.2.output.drop 38).take 14))
      = some (true, some "$8", none,
          ["mult $8, $4", "mflo $5", "; expr -> term  : int*", "; term -> factor  : int",
            "lw $3, 4($29)", "sw $3, -4($30) ; push($3)", "sub $30, $30, $4", "lis $3",
            ".word 1", "mult $3, $4", "mflo $3", "add $30, $30, $4 ; pop($5)",
            "lw $5, -4($30)", "add $3, $5, $3"]) ∧
    (main 1 indexed).map (fun r => (r.2.output.drop 52).take 1) = some ["add $3, $5, $3"] := by
  decide!

end wlp4gen

/-! ## Code generator: the registers a procedure saves -/

namespace wlp4gen

/-- C36 (the code at the failing input): in the program
`int f(int n) \x7b int x = 0; x = n; if (0 < n) \x7b n = f(n - 1); \x7d else \x7b\x7d return x; \x7d
int wain(int a, int b) \x7b return f(a); \x7d` the local `x` of the recursive
procedure `f` is bound to register `$8`.  The code of `f`, from its label to
its `jr $31`, saves and restores `$5`, `$6`, `$7` and, around the call, `$29`,
`$31` and the argument in `$3`; it never saves or restores `$8`. -/
theorem bound_register_unsaved :
    (main 1 recursive).map (fun r =>
        (r.1.isOk, find "x" r.2.regTable,
          savedRegisters (procedureLines "Ff:" r.2.output),
          restoredRegisters (procedureLines "Ff:" r.2.output)))
      = some (true, some "$8",
          ["$5", "$6", "$7", "$3", "$29", "$31", "$3", "$3", "$3"],
          ["$5", "$5", "$31", "$31", "$29", "$7", "$6", "$5"]) := by
  decide!

end wlp4gen

/-! ## Code generator: the order of the emitted program -/

namespace wlp4gen

theorem gen_bind_assoc {α β γ : Type} (x : Gen α) (f : α → Gen β) (g : β → Gen γ) :
    ((x >>= f) >>= g) = (x >>= fun a => f a >>= g) := by
  funext st
  simp only [gen_bind_apply]
  rcases x st with ⟨r, st1⟩
  cases r <;> rfl

theorem code_procedures (main : ParseTreeNode) : ∀ procedures : List ParseTreeNode,
    code (procedures.foldr
        (fun p rest => ParseTreeNode.internal "procedures" ["procedure", "procedures"] [p, rest] "")
        (ParseTreeNode.internal "procedures" ["main"] [main] ""))
      = (codeEach procedures >>= fun _ => code main) := by
  intro procedures
  induction procedures with
  | nil => rfl
  | cons p rest ih =>
    have h : code (ParseTreeNode.internal "procedures" ["procedure", "procedures"]
        [p, rest.foldr (fun p rest =>
          ParseTreeNode.internal "procedures" ["procedure", "procedures"] [p, rest] "")
          (ParseTreeNode.internal "procedures" ["main"] [main] "")] "")
        = (code p >>= fun _ => code (rest.foldr (fun p rest =>
          ParseTreeNode.internal "procedures" ["procedure", "procedures"] [p, rest] "")
          (ParseTreeNode.internal "procedures" ["main"] [main] ""))) := rfl
    rw [List.foldr_cons, h, ih]
    exact (gen_bind_assoc (code p) (fun _ => codeEach rest) (fun _ => code main)).symm

/-- C37, as stated, fails: in the output for the program
`int f() \x7b int x = 0; return 0; \x7d int g(int x) \x7b return x; \x7d
int wain(int a, int b) \x7b return g(a); \x7d` the prologue ends at line 13, the code of
`f` starts at line 15, that of `g` at line 42 and that of `wain` only at line
67, after the user procedures; the epilogue starts at line 101. -/
theorem emission_order_counterexample :
    (main 1 sameName0).map (fun r =>
        (r.1.isOk, labelsOf r.2.output,
          ["; END OF PROLOGUE", "Ff:", "Fg:", "wain:", "; START OF EPILOGUE"].map
            (fun line => r.2.output.indexOf line)))
      = some (true, ["Ff", "Fg", "wain"], [13, 15, 42, 67, 101]) := by
  decide!

/-- C37 (amended). Whole-program emission order: for every program, that is a
tree `start -> BOF procedures EOF` over the chain of its user procedures that
ends in `wain`, code generation runs the scan for address-taken variables
(which writes one comment line for each variable it records), then writes the
program prologue, then the code of the user procedures in declaration order,
then the code of `wain`, then the program epilogue. -/
theorem emission_order (procedures : List ParseTreeNode) (main : ParseTreeNode) :
    generate (programOf procedures main) =
      (do checkForDereferences (programOf procedures main)
          generatePrologue
          codeEach procedures
          code main
          generateEpilogue) := by
  have h : code (programOf procedures main) = (codeEach procedures >>= fun _ => code main) :=
    code_procedures main procedures
  unfold generate
  rw [h]
  congr 1
  funext _
  congr 1
  funext _
  exact gen_bind_assoc _ _ _

end wlp4gen

/-! ## Code generator: the text of an offset -/

namespace wlp4gen

theorem digitsValue_append (front : List Char) (c : Char) :
    digitsValue (front ++ [c]) = 10 * digitsValue front + (c.toNat - '0'.toNat) := by
  unfold digitsValue
  rw [List.foldl_append]
  rfl

theorem digitChar_isDigit (d : Nat) (h : d < 10) : (Nat.digitChar d).isDigit = true := by
  interval_cases d <;> rfl

/-- The digits that `Nat.toDigits` writes in front of `ds` are decimal digits
whose value is the number. -/
theorem toDigitsCore_spec : ∀ (fuel n : Nat) (ds : List Char), n < fuel →
    ∃ front, Nat.toDigitsCore 10 fuel n ds = front ++ ds ∧ front ≠ [] ∧
      (∀ c ∈ front, c.isDigit = true) ∧ digitsValue front = n := by
  intro fuel
  induction fuel with
  | zero => intro n ds h; omega
  | succ fuel ih =>
    intro n ds h
    have hd : (Nat.digitChar (n % 10)).isDigit = true ∧
        (Nat.digitChar (n % 10)).toNat - '0'.toNat = n % 10 :=
      ⟨digitChar_isDigit _ (Nat.mod_lt _ (by decide)),
        digitChar_value _ (Nat.mod_lt _ (by decide))⟩
    unfold Nat.toDigitsCore
    simp only []
    by_cases h0 : n / 10 = 0
    · rw [if_pos h0]
      refine ⟨[Nat.digitChar (n % 10)], rfl, by simp, ?_, ?_⟩
      · intro c hc
        simp only [List.mem_singleton] at hc
        rw [hc]
        exact hd.1
      · have : digitsValue [Nat.digitChar (n % 10)]
            = (Nat.digitChar (n % 10)).toNat - '0'.toNat := by
          unfold digitsValue
          simp
        rw [this, hd.2]
        omega
    · rw [if_neg h0]
      obtain ⟨front, hf, -, hall, hv⟩ := ih (n / 10) (Nat.digitChar (n % 10) :: ds) (by omega)
      refine ⟨front ++ [Nat.digitChar (n % 10)], ?_, by simp, ?_, ?_⟩
      · rw [hf]
        simp
      · intro c hc
        rcases List.mem_append.mp hc with hc | hc
        · exact hall c hc
        · simp only [List.mem_singleton] at hc
          rw [hc]
          exact hd.1
      · rw [digitsValue_append, hv, hd.2]
        omega

theorem repr_digits (n : Nat) :
    (toString n).data ≠ [] ∧ (∀ c ∈ (toString n).data, c.isDigit = true) ∧
      digitsValue (toString n).data = n := by
  obtain ⟨front, hf, hne, hall, hv⟩ := toDigitsCore_spec (n + 1) n [] (by omega)
  have hdata : (toString n).data = front := by
    show (Nat.toDigits 10 n).asString.data = front
    unfold Nat.toDigits
    rw [hf]
    simp [List.asString]
  rw [hdata]
  exact ⟨hne, hall, hv⟩

theorem takeWhile_all {α : Type} (p : α → Bool) : ∀ l : List α, (∀ a ∈ l, p a = true) →
    l.takeWhile p = l := by
  intro l
  induction l with
  | nil => intro _; rfl
  | cons a l ih =>
    intro h
    rw [List.takeWhile_cons, h a (List.mem_cons_self _ _)]
    simp only [↓reduceIte, List.cons.injEq, true_and]
    exact ih (fun b hb => h b (List.mem_cons_of_mem _ hb))

theorem digit_plain (c : Char) (h : c.isDigit = true) :
    isspace c = false ∧ c ≠ '-' ∧ c ≠ '+' := by
  refine ⟨?_, ?_, ?_⟩
  · unfold isspace
    simp only [Bool.or_eq_false_iff, decide_eq_false_iff_not]
    refine ⟨⟨⟨⟨⟨?_, ?_⟩, ?_⟩, ?_⟩, ?_⟩, ?_⟩ <;>
      (rintro rfl
       exact absurd h (by decide))
  · rintro rfl
    exact absurd h (by decide)
  · rintro rfl
    exact absurd h (by decide)

/-- Reading the decimal text of a natural number. -/
theorem parseInteger_nat (n : Nat) : parseInteger (toString n) = some (n : Int) := by
  obtain ⟨hne, hall, hv⟩ := repr_digits n
  unfold parseInteger
  cases hdata : (toString n).data with
  | nil => exact absurd hdata hne
  | cons c rest =>
    rw [hdata] at hall hv
    have hc := digit_plain c (hall c (List.mem_cons_self _ _))
    have hdrop : (c :: rest).dropWhile isspace = c :: rest := by
      rw [List.dropWhile_cons, hc.1]
      rfl
    simp only [hdrop]
    have htake := takeWhile_all Char.isDigit rest
      (fun d hd => hall d (List.mem_cons_of_mem _ hd))
    have hfirst := hall c (List.mem_cons_self _ _)
    split <;> simp_all [List.takeWhile_cons]
    rw [takeWhile_all Char.isDigit rest hall]
    exact hv

/-- Reading the decimal text of a negative number. -/
theorem parseInteger_neg (n : Nat) :
    parseInteger ("-" ++ toString (n + 1)) = some (-((n + 1 : Nat) : Int)) := by
  obtain ⟨hne, hall, hv⟩ := repr_digits (n + 1)
  unfold parseInteger
  have hdata : ("-" ++ toString (n + 1)).data = '-' :: (toString (n + 1)).data := by
    rw [String.data_append]
    rfl
  have hdrop : ('-' :: (toString (n + 1)).data).dropWhile isspace
      = '-' :: (toString (n + 1)).data := by
    rw [List.dropWhile_cons]
    rfl
  have htake := takeWhile_all Char.isDigit _ hall
  simp only [hdata, hdrop, htake, hv]
  cases hd : (toString (n + 1)).data with
  | nil => exact absurd hd hne
  | cons c rest => simp

theorem parseInteger_to_string (z : Int) : parseInteger (to_string z) = some z := by
  unfold to_string
  cases z with
  | ofNat n => exact parseInteger_nat n
  | negSucc n =>
    have h : toString (Int.negSucc n) = "-" ++ toString (n + 1) := rfl
    rw [h, parseInteger_neg]
    rfl

/-- The function `std::stoi` reads back what `std::to_string` wrote for an
`int`. -/
theorem stoi_to_string (z : Int) (h : INT_MIN ≤ z ∧ z ≤ INT_MAX) :
    stoi (to_string z) = .ok z := by
  unfold stoi
  rw [parseInteger_to_string]
  simp only [h, and_self, ↓reduceIte]

end wlp4gen

namespace wlp4gen

/-! ## Code generator: the frame table -/

theorem place_append (ws : List (String × String)) : ∀ (vs : List (String × String))
    (table : List (String × (String × String))) (first : Int),
    place table first (vs ++ ws) = place (place table first vs) (first - 4 * vs.length) ws := by
  intro vs
  induction vs with
  | nil => intro table first; simp [place]
  | cons v vs ih =>
    intro table first
    obtain ⟨name, type⟩ := v
    show place (insert name (type, to_string first) table) (first - 4) (vs ++ ws) = _
    rw [ih]
    simp only [place, List.length_cons]
    congr 1
    push_cast
    ring

theorem find_append_none {β : Type} (k : String) : ∀ (m m1 : List (String × β)),
    find k m = none → find k (m ++ m1) = find k m1 := by
  intro m
  induction m with
  | nil => intro m1 _; rfl
  | cons e m ih =>
    intro m1 h
    obtain ⟨k1, v1⟩ := e
    simp only [find, List.cons_append] at h ⊢
    by_cases hk : k1 = k
    · rw [if_pos hk] at h; cases h
    · rw [if_neg hk] at h ⊢
      exact ih m1 h

theorem insert_fresh {β : Type} (k : String) (v : β) : ∀ m : List (String × β),
    find k m = none → insert k v m = m ++ [(k, v)] := by
  intro m
  induction m with
  | nil => intro _; rfl
  | cons e m ih =>
    intro h
    obtain ⟨k1, v1⟩ := e
    simp only [find] at h
    by_cases hk : k1 = k
    · rw [if_pos hk] at h; cases h
    · rw [if_neg hk] at h
      simp only [insert, if_neg hk, List.cons_append, ih h]

/-- Variables with names that differ from each other and from the keys of the
table are added at the end of the table, with the offsets the specification
describes. -/
theorem place_eq_spec : ∀ (vs : List (String × String))
    (table : List (String × (String × String))) (first : Int),
    (vs.map Prod.fst).Nodup → (∀ v ∈ vs, find v.1 table = none) →
    place table first vs = table ++ specOffsets first vs := by
  intro vs
  induction vs with
  | nil => intro table first _ _; simp [place, specOffsets]
  | cons v vs ih =>
    intro table first hnd hfresh
    obtain ⟨name, type⟩ := v
    simp only [List.map_cons, List.nodup_cons] at hnd
    have h0 : find name table = none := hfresh (name, type) (List.mem_cons_self _ _)
    simp only [place, specOffsets]
    rw [insert_fresh name _ table h0, ih _ _ hnd.2, List.append_assoc]
    · rfl
    · intro w hw
      rw [find_append_none _ _ _ (hfresh w (List.mem_cons_of_mem _ hw))]
      simp only [find]
      rw [if_neg]
      intro heq
      exact hnd.1 (heq ▸ List.mem_map_of_mem Prod.fst hw)

end wlp4gen

namespace wlp4gen

/-- The code of a declaration `dcl -> type ID`: the variable is put into the
frame table at `latestOffset`, which goes down by 4. -/
theorem code_declaration (v : String × Bool) (st : GenState)
    (hlow : INT_MIN ≤ st.latestOffset - 4) (hhigh : st.latestOffset ≤ 0) :
    code (declaration v) st = (.ok (), { st with
      output := st.output ++ ["; Variable " ++ v.1 ++ " added to symbol table with offset " ++
        toString st.latestOffset],
      symbol_table := insert v.1 (typeName v.2, to_string st.latestOffset) st.symbol_table,
      latestOffset := st.latestOffset - 4 }) := by
  have hc : checked (st.latestOffset - 4) = .ok (st.latestOffset - 4) :=
    checked_of_range _ hlow (by unfold INT_MAX; omega)
  obtain ⟨name, pointer⟩ := v
  cases pointer with
  | false =>
    have h : code (declaration (name, false)) = codeDcl (intDcl name) := rfl
    rw [h]
    simp only [codeDcl, childOf, intDcl, intType, ParseTreeNode.internal, ParseTreeNode.terminal,
      ParseTreeNode.children, List.get?_cons_succ, List.get?_cons_zero, gen_pure_bind,
      ParseTreeNode.token, ParseTreeNode.prodRuleRHS, gen_bind_apply, getLatestOffset, emit,
      setSymbol, Gen.lift, hc, setLatestOffset, gen_pure_apply, typeName]
    simp
  | true =>
    have h : code (declaration (name, true)) = codeDcl (pointerDcl name) := rfl
    rw [h]
    simp only [codeDcl, childOf, pointerDcl, pointerType, ParseTreeNode.internal,
      ParseTreeNode.terminal,
      ParseTreeNode.children, List.get?_cons_succ, List.get?_cons_zero, gen_pure_bind,
      ParseTreeNode.token, ParseTreeNode.prodRuleRHS, gen_bind_apply, getLatestOffset, emit,
      setSymbol, Gen.lift, hc, setLatestOffset, gen_pure_apply, typeName]
    simp

end wlp4gen

namespace wlp4gen

theorem gen_bind_eval {α β : Type} {x : Gen α} {f : α → Gen β} {st st1 : GenState} {a : α}
    (h : x st = (.ok a, st1)) : (x >>= f) st = f a st1 := by
  rw [gen_bind_apply, h]

theorem places_nil (st : GenState) : Places [] st st :=
  ⟨rfl, by simp, rfl⟩

theorem places_trans {vs ws : List (String × String)} {st st1 st2 : GenState}
    (h : Places vs st st1) (k : Places ws st1 st2) : Places (vs ++ ws) st st2 := by
  refine ⟨?_, ?_, k.dereferenced.trans h.dereferenced⟩
  · rw [k.table, h.table, h.offset, place_append]
  · rw [k.offset, h.offset, List.length_append]
    push_cast
    ring

/-- The code of a declaration, as a step of the frame table. -/
theorem declaration_places (v : String × Bool) (st : GenState)
    (hlow : INT_MIN ≤ st.latestOffset - 4) (hhigh : st.latestOffset ≤ 0) :
    ∃ st1, code (declaration v) st = (.ok (), st1) ∧
      Places [(v.1, typeName v.2)] st st1 ∧ st1.freeRegisters = st.freeRegisters ∧
      st1.regTable = st.regTable :=
  ⟨_, code_declaration v st hlow hhigh, ⟨rfl, by simp, rfl⟩, rfl, rfl⟩

/-- The code of a chain `paramlist`: every parameter is put into the frame
table, in order. -/
theorem code_paramlist : ∀ (rest : List (String × Bool)) (d : String × Bool) (st : GenState),
    st.latestOffset ≤ 0 → INT_MIN ≤ st.latestOffset - 4 * ((rest.length : Int) + 1) →
    ∃ st1, code (paramlistOf (declaration d) (rest.map declaration)) st = (.ok (), st1) ∧
      Places ((d :: rest).map (fun v => (v.1, typeName v.2))) st st1 ∧
      st1.freeRegisters = st.freeRegisters := by
  intro rest
  induction rest with
  | nil =>
    intro d st hhigh hlow
    have h : code (paramlistOf (declaration d) ([].map declaration))
        = (code (declaration d) >>= fun _ => pure ()) := rfl
    obtain ⟨s1, hd, hp, hf, -⟩ := declaration_places d st (by simpa using hlow) hhigh
    exact ⟨s1, by rw [h, gen_bind_eval hd]; rfl, hp, hf⟩
  | cons next rest ih =>
    intro d st hhigh hlow
    have h : code (paramlistOf (declaration d) ((next :: rest).map declaration))
        = (code (declaration d) >>= fun _ =>
            code (paramlistOf (declaration next) (rest.map declaration))) := rfl
    have hlen : ((next :: rest).length : Int) = rest.length + 1 := by simp
    rw [hlen] at hlow
    obtain ⟨s1, hd, hp, hf, -⟩ := declaration_places d st (by omega) hhigh
    have ho : s1.latestOffset = st.latestOffset - 4 := by
      have := hp.offset
      simpa using this
    obtain ⟨st1, hrun, hplaces, hfree⟩ := ih next s1 (by omega) (by omega)
    exact ⟨st1, by rw [h, gen_bind_eval hd]; exact hrun, places_trans hp hplaces,
      hfree.trans hf⟩

/-- The code of the `params` node of a procedure. -/
theorem code_params (ds : List (String × Bool)) (st : GenState) (hhigh : st.latestOffset ≤ 0)
    (hlow : INT_MIN ≤ st.latestOffset - 4 * (ds.length : Int)) :
    ∃ st1, code (paramsOf (ds.map declaration)) st = (.ok (), st1) ∧
      Places (ds.map (fun v => (v.1, typeName v.2))) st st1 ∧
      st1.freeRegisters = st.freeRegisters := by
  cases ds with
  | nil => exact ⟨st, rfl, places_nil st, rfl⟩
  | cons d rest =>
    obtain ⟨st1, hrun, hplaces, hfree⟩ := code_paramlist rest d st hhigh (by simpa using hlow)
    exact ⟨st1, hrun, hplaces, hfree⟩

end wlp4gen

namespace wlp4gen

theorem quiet_pure : Quiet (pure ()) := ⟨fun st => ⟨st, rfl, rfl⟩⟩

theorem quiet_emit (line : String) : Quiet (emit line) := ⟨fun _ => ⟨_, rfl, rfl⟩⟩

theorem quiet_setRegister (name reg : String) : Quiet (setRegister name reg) :=
  ⟨fun _ => ⟨_, rfl, rfl⟩⟩

theorem quiet_printSymbolTable : Quiet printSymbolTable := ⟨fun _ => ⟨_, rfl, rfl⟩⟩

theorem quiet_seq {x y : Gen Unit} (hx : Quiet x) (hy : Quiet y) :
    Quiet (x >>= fun _ => y) := by
  constructor
  intro st
  obtain ⟨s1, h1, f1⟩ := hx.run st
  obtain ⟨s2, h2, f2⟩ := hy.run s1
  exact ⟨s2, by rw [gen_bind_eval h1]; exact h2, f2.trans f1⟩

theorem quiet_ite {c : Prop} [Decidable c] {x y : Gen Unit} (hx : Quiet x) (hy : Quiet y) :
    Quiet (if c then x else y) := by
  by_cases h : c
  · rw [if_pos h]; exact hx
  · rw [if_neg h]; exact hy

theorem quiet_push (reg : String) : Quiet (push reg) :=
  quiet_seq (quiet_emit _) (quiet_emit _)

theorem quiet_pop (reg : String) : Quiet (pop reg) :=
  quiet_seq (quiet_emit _) (quiet_emit _)

theorem quiet_pushAllRegisters : Quiet pushAllRegisters :=
  quiet_seq (quiet_push _) (quiet_seq (quiet_push _) (quiet_push _))

theorem places_of_frame {vs : List (String × String)} {st st1 st2 : GenState}
    (h : Places vs st st1) (hf : frameOf st2 = frameOf st1) : Places vs st st2 := by
  simp only [frameOf, Prod.mk.injEq] at hf
  exact ⟨hf.1.trans h.table, hf.2.1.trans h.offset, hf.2.2.1.trans h.dereferenced⟩

theorem places_of_frame_left {vs : List (String × String)} {st st1 st2 : GenState}
    (hf : frameOf st1 = frameOf st) (h : Places vs st1 st2) : Places vs st st2 := by
  simp only [frameOf, Prod.mk.injEq] at hf
  refine ⟨?_, ?_, ?_⟩
  · rw [h.table, hf.1, hf.2.1]
  · rw [h.offset, hf.2.1]
  · rw [h.dereferenced, hf.2.2.1]

end wlp4gen

namespace wlp4gen

theorem getLast_none_iff (l : List String) : l.getLast? = none ↔ l.length = 0 := by
  cases l with
  | nil => simp
  | cons a l => simp [List.getLast?_cons_cons, List.getLast?]

theorem length_dropLast_of_ne (l : List String) : l.dropLast.length = l.length - 1 := by
  simp

/-- The tail of `codeInitialised` for a local that goes to a register. -/
theorem register_tail (name reg value : String) :
    Quiet (do
      setRegister name reg
      emit ("; Variable " ++ name ++ " assigned to register " ++ reg)
      emit ("lis " ++ reg)
      emit (".word " ++ value)) :=
  quiet_seq (quiet_setRegister _ _) (quiet_seq (quiet_emit _)
    (quiet_seq (quiet_emit _) (quiet_emit _)))

theorem initialised_num (restNode : ParseTreeNode) (name value : String) (st sa : GenState)
    (hrest : code restNode st = (.ok (), sa)) :
    code (dclsNum restNode name value) st =
      (match (if name ∈ sa.dereferencedVariables then none else sa.freeRegisters.getLast?) with
        | some reg => do
          setRegister name reg
          popFreeRegister
          emit ("; Variable " ++ name ++ " assigned to register " ++ reg)
          emit ("lis " ++ reg)
          emit (".word " ++ value)
        | none => do
          code (declaration (name, false))
          let _ ← offsetOf name
          emit "lis $3"
          emit (".word " ++ value)
          push "$3") sa := by
  have h : code (dclsNum restNode name value) =
      codeInitialised (fun i => codeAt (dclsNum restNode name value).children i)
        (dclsNum restNode name value) true := rfl
  rw [h]
  unfold codeInitialised
  rw [gen_bind_eval (show codeAt (dclsNum restNode name value).children 0 st = (.ok (), sa)
    from hrest)]
  simp only [dclsNum, intDcl, ParseTreeNode.internal, ParseTreeNode.terminal, childOf,
    children_mk, List.get?_cons_succ, List.get?_cons_zero, gen_pure_bind, ↓reduceIte,
    ParseTreeNode.token, gen_bind_apply, inDereferencedVars, getFreeRegisters,
    decide_eq_true_eq]
  rfl

end wlp4gen

namespace wlp4gen

theorem initialised_null (restNode : ParseTreeNode) (name : String) (st sa : GenState)
    (hrest : code restNode st = (.ok (), sa)) :
    code (dclsNull restNode name) st =
      (match (if name ∈ sa.dereferencedVariables then none else sa.freeRegisters.getLast?) with
        | some reg => do
          setRegister name reg
          popFreeRegister
          emit ("; Variable " ++ name ++ " assigned to register " ++ reg)
          emit ("lis " ++ reg)
          emit (".word " ++ "1")
        | none => do
          code (declaration (name, true))
          let _ ← offsetOf name
          emit "lis $3"
          emit (".word " ++ "1")
          push "$3") sa := by
  have h : code (dclsNull restNode name) =
      codeInitialised (fun i => codeAt (dclsNull restNode name).children i)
        (dclsNull restNode name) false := rfl
  rw [h]
  unfold codeInitialised
  rw [gen_bind_eval (show codeAt (dclsNull restNode name).children 0 st = (.ok (), sa)
    from hrest)]
  simp only [dclsNull, pointerDcl, ParseTreeNode.internal, ParseTreeNode.terminal, childOf,
    children_mk, List.get?_cons_succ, List.get?_cons_zero, gen_pure_bind, ↓reduceIte,
    ParseTreeNode.token, gen_bind_apply, inDereferencedVars, getFreeRegisters,
    decide_eq_true_eq, Bool.false_eq_true]
  rfl

/-- The two branches of an initialised declaration, as steps of the frame
table: with a register the table stays and a register is used up; without,
the variable is placed in the frame. -/
theorem initialised_branches (name value : String) (pointer : Bool) (sa : GenState)
    (hhigh : sa.latestOffset ≤ 0) (hlow : INT_MIN ≤ sa.latestOffset - 4) :
    ∃ st1,
      (match (if name ∈ sa.dereferencedVariables then none else sa.freeRegisters.getLast?) with
        | some reg => do
          setRegister name reg
          popFreeRegister
          emit ("; Variable " ++ name ++ " assigned to register " ++ reg)
          emit ("lis " ++ reg)
          emit (".word " ++ value)
        | none => do
          code (declaration (name, pointer))
          let _ ← offsetOf name
          emit "lis $3"
          emit (".word " ++ value)
          push "$3") sa = (.ok (), st1) ∧
      if name ∈ sa.dereferencedVariables ∨ sa.freeRegisters.length = 0 then
        Places [(name, typeName pointer)] sa st1 ∧
          st1.freeRegisters.length = sa.freeRegisters.length
      else Places [] sa st1 ∧ st1.freeRegisters.length = sa.freeRegisters.length - 1 := by
  have hframe : ∃ st1, (do
        code (declaration (name, pointer))
        let _ ← offsetOf name
        emit "lis $3"
        emit (".word " ++ value)
        push "$3") sa = (.ok (), st1) ∧
      Places [(name, typeName pointer)] sa st1 ∧
        st1.freeRegisters.length = sa.freeRegisters.length := by
    obtain ⟨s1, hd, hp, hf, -⟩ := declaration_places (name, pointer) sa hlow hhigh
    have hfind : find name s1.symbol_table
        = some (typeName pointer, to_string sa.latestOffset) := by
      rw [hp.table]
      exact find_insert_self _ _ _
    have hoff : offsetOf name s1 = (.ok (to_string sa.latestOffset), s1) := by
      unfold offsetOf
      rw [hfind]
    obtain ⟨s2, h2, f2⟩ := (quiet_seq (quiet_emit "lis $3")
      (quiet_seq (quiet_emit (".word " ++ value)) (quiet_push "$3"))).run s1
    refine ⟨s2, ?_, places_of_frame hp f2, ?_⟩
    · rw [gen_bind_eval hd, gen_bind_eval hoff]
      exact h2
    · simp only [frameOf, Prod.mk.injEq] at f2
      rw [f2.2.2.2, hf]
  by_cases hd : name ∈ sa.dereferencedVariables
  · obtain ⟨s, hs, hp⟩ := hframe
    refine ⟨s, by rw [if_pos hd]; exact hs, ?_⟩
    rw [if_pos (Or.inl hd)]
    exact hp
  · cases hfree : sa.freeRegisters.getLast? with
    | none =>
      obtain ⟨s, hs, hp⟩ := hframe
      refine ⟨s, by rw [if_neg hd]; exact hs, ?_⟩
      rw [if_pos (Or.inr ((getLast_none_iff _).mp hfree))]
      exact hp
    | some reg =>
      have hlen : sa.freeRegisters.length ≠ 0 := by
        intro h0
        rw [(getLast_none_iff _).mpr h0] at hfree
        cases hfree
      refine ⟨_, by rw [if_neg hd]; rfl, ?_⟩
      rw [if_neg (by
        rintro (h | h)
        · exact hd h
        · exact hlen h)]
      refine ⟨⟨rfl, by simp, rfl⟩, ?_⟩
      show sa.freeRegisters.dropLast.length = sa.freeRegisters.length - 1
      simp

end wlp4gen

namespace wlp4gen

theorem allocate_snoc (dereferenced : List String) (free : Nat)
    (init : List (String × Option String)) (l : String × Option String) :
    allocate dereferenced free (init ++ [l])
      = allocateStep dereferenced (allocate dereferenced free init) l := by
  unfold allocate
  rw [List.foldl_append]
  rfl

theorem localsOf_snoc (init : List (String × Option String)) (l : String × Option String) :
    localsOf (init ++ [l]) = initialised (localsOf init) l := by
  unfold localsOf
  rw [List.foldl_append]
  rfl

theorem allocate_length (dereferenced : List String) (free : Nat) :
    ∀ ls : List (String × Option String),
      (allocate dereferenced free ls).1.length ≤ ls.length := by
  intro ls
  induction ls using List.reverseRecOn with
  | nil => simp [allocate]
  | append_singleton init l ih =>
    rw [allocate_snoc]
    unfold allocateStep
    split
    · simp only [List.length_append, List.length_singleton]
      omega
    · simp only [List.length_append, List.length_singleton]
      omega

/-- The code of the declarations of a procedure: the locals that `allocate`
selects are put into the frame table, in order. -/
theorem code_locals : ∀ (ls : List (String × Option String)) (st : GenState),
    st.latestOffset ≤ 0 → INT_MIN ≤ st.latestOffset - 4 * (ls.length : Int) →
    ∃ st1, code (localsOf ls) st = (.ok (), st1) ∧
      Places (allocate st.dereferencedVariables st.freeRegisters.length ls).1 st st1 ∧
      st1.freeRegisters.length
        = (allocate st.dereferencedVariables st.freeRegisters.length ls).2 := by
  intro ls
  induction ls using List.reverseRecOn with
  | nil =>
    intro st _ _
    exact ⟨st, rfl, places_nil st, rfl⟩
  | append_singleton init l ih =>
    intro st hhigh hlow
    have hlen : ((init ++ [l]).length : Int) = init.length + 1 := by simp
    rw [hlen] at hlow
    obtain ⟨sa, hrest, hp, hfree⟩ := ih st hhigh (by omega)
    have hk := allocate_length st.dereferencedVariables st.freeRegisters.length init
    have hoff := hp.offset
    have hk1 : ((allocate st.dereferencedVariables st.freeRegisters.length init).1.length : Int)
        ≤ init.length := by exact_mod_cast hk
    have hstep : ∀ (name value : String) (pointer : Bool),
        ∃ st1, (match (if name ∈ sa.dereferencedVariables then none
            else sa.freeRegisters.getLast?) with
          | some reg => do
            setRegister name reg
            popFreeRegister
            emit ("; Variable " ++ name ++ " assigned to register " ++ reg)
            emit ("lis " ++ reg)
            emit (".word " ++ value)
          | none => do
            code (declaration (name, pointer))
            let _ ← offsetOf name
            emit "lis $3"
            emit (".word " ++ value)
            push "$3") sa = (.ok (), st1) ∧
          Places (allocateStep st.dereferencedVariables
            (allocate st.dereferencedVariables st.freeRegisters.length init)
            (name, if pointer then none else some value)).1 st st1 ∧
          st1.freeRegisters.length = (allocateStep st.dereferencedVariables
            (allocate st.dereferencedVariables st.freeRegisters.length init)
            (name, if pointer then none else some value)).2 := by
      intro name value pointer
      obtain ⟨st1, hrun, hif⟩ := initialised_branches name value pointer sa (by omega) (by omega)
      refine ⟨st1, hrun, ?_⟩
      rw [hp.dereferenced, hfree] at hif
      unfold allocateStep
      by_cases hc : name ∈ st.dereferencedVariables ∨
          (allocate st.dereferencedVariables st.freeRegisters.length init).2 = 0
      · rw [if_pos hc] at hif
        rw [if_pos hc]
        refine ⟨?_, hif.2⟩
        have hv : localVariable (name, if pointer then none else some value)
            = (name, typeName pointer) := by
          cases pointer <;> rfl
        rw [hv]
        exact places_trans hp hif.1
      · rw [if_neg hc] at hif
        rw [if_neg hc]
        refine ⟨?_, hif.2⟩
        have := places_trans hp hif.1
        rwa [List.append_nil] at this
    rw [localsOf_snoc, allocate_snoc]
    obtain ⟨name, value⟩ := l
    cases value with
    | some value =>
      obtain ⟨st1, hrun, hplaces⟩ := hstep name value false
      exact ⟨st1, by
        rw [show initialised (localsOf init) (name, some value)
          = dclsNum (localsOf init) name value from rfl, initialised_num _ _ _ _ _ hrest]
        exact hrun, hplaces⟩
    | none =>
      obtain ⟨st1, hrun, hplaces⟩ := hstep name "1" true
      exact ⟨st1, by
        rw [show initialised (localsOf init) (name, none)
          = dclsNull (localsOf init) name from rfl, initialised_null _ _ _ _ hrest]
        exact hrun, hplaces⟩

end wlp4gen

namespace wlp4gen

theorem int_min_nonpos : INT_MIN ≤ 0 := by
  simp only [INT_MIN]
  omega

theorem int_max_nonneg : 0 ≤ INT_MAX := by
  simp only [INT_MAX]
  omega

theorem except_ok_bind {α β : Type} (a : α) (f : α → Except Fault β) :
    ((Except.ok a : Except Fault α) >>= f) = f a := rfl

theorem getNumParamsRec_cons (rest : List ParseTreeNode) (next d : ParseTreeNode) :
    getNumParamsRec (paramlistOf d (next :: rest))
      = (getNumParamsRec (paramlistOf next rest) >>= fun r => checked (1 + r)) := rfl

theorem checked_succ (n : Nat) (h : (n : Int) + 1 + 1 ≤ INT_MAX) :
    checked (1 + ((n : Int) + 1)) = .ok ((n : Int) + 1 + 1) := by
  have h0 := int_min_nonpos
  rw [checked_of_range _ (by omega) (by omega)]
  congr 1
  ring

theorem getNumParamsRec_paramlist : ∀ (rest : List ParseTreeNode) (d : ParseTreeNode),
    (rest.length : Int) + 1 ≤ INT_MAX →
    getNumParamsRec (paramlistOf d rest) = .ok ((rest.length : Int) + 1) := by
  intro rest
  induction rest with
  | nil => intro d _; rfl
  | cons next rest ih =>
    intro d h
    have hlen : ((next :: rest).length : Int) = rest.length + 1 := by simp
    rw [hlen] at h ⊢
    rw [getNumParamsRec_cons, ih next (by omega), except_ok_bind, checked_succ _ h]

/-- The function `getNumParams` counts the parameters. -/
theorem getNumParams_params (ds : List ParseTreeNode) (h : (ds.length : Int) ≤ INT_MAX) :
    getNumParams (paramsOf ds) = .ok (ds.length : Int) := by
  cases ds with
  | nil => rfl
  | cons d rest =>
    have hlen : ((d :: rest).length : Int) = rest.length + 1 := by simp
    rw [hlen] at h ⊢
    have h1 : getNumParams (paramsOf (d :: rest)) = getNumParamsRec (paramlistOf d rest) := rfl
    rw [h1, getNumParamsRec_paramlist rest d h]

theorem incrementEntry_eq (inc : Int) (name type offset : String) :
    incrementEntry inc (name, (type, offset))
      = (stoi offset >>= fun value => checked (value + inc) >>= fun offset1 =>
          pure (name, (type, to_string offset1))) := rfl

theorem incrementEntry_spec (inc first : Int) (name type : String)
    (h1 : INT_MIN ≤ first) (h2 : first ≤ INT_MAX)
    (h3 : INT_MIN ≤ first + inc) (h4 : first + inc ≤ INT_MAX) :
    incrementEntry inc (name, (type, to_string first))
      = .ok (name, (type, to_string (first + inc))) := by
  rw [incrementEntry_eq, stoi_to_string first ⟨h1, h2⟩, except_ok_bind,
    checked_of_range _ h3 h4, except_ok_bind]
  rfl

/-- The loop of `incrementSymbolTable` on a table with the offsets of the
specification: every offset goes up by `inc`. -/
theorem increment_spec (inc : Int) : ∀ (vars : List (String × String)) (first : Int),
    first ≤ INT_MAX → INT_MIN ≤ first - 4 * (vars.length : Int) →
    first + inc ≤ INT_MAX → INT_MIN ≤ first + inc - 4 * (vars.length : Int) →
    (specOffsets first vars).mapM (incrementEntry inc) = .ok (specOffsets (first + inc) vars) := by
  intro vars
  induction vars with
  | nil => intro first _ _ _ _; rfl
  | cons v vars ih =>
    intro first h1 h2 h3 h4
    obtain ⟨name, type⟩ := v
    have hlen : (((name, type) :: vars).length : Int) = vars.length + 1 := by simp
    rw [hlen] at h2 h4
    have hentry := incrementEntry_spec inc first name type (by omega) h1 (by omega) h3
    have hrest := ih (first - 4) (by omega) (by omega) (by omega) (by omega)
    have : first - 4 + inc = first + inc - 4 := by ring
    rw [this] at hrest
    have hcons : (specOffsets first ((name, type) :: vars)).mapM (incrementEntry inc)
        = (incrementEntry inc (name, (type, to_string first)) >>= fun entry =>
            (specOffsets (first - 4) vars).mapM (incrementEntry inc) >>= fun rest =>
              pure (entry :: rest)) := by
      simp only [specOffsets, List.mapM_cons]
    rw [hcons, hentry, except_ok_bind, hrest, except_ok_bind]
    rfl

end wlp4gen

namespace wlp4gen

theorem int_min_eq : INT_MIN = -INT_MAX - 1 := by
  simp only [INT_MIN, INT_MAX]
  omega

theorem codeProcedure_split (rec : Code) (node : ParseTreeNode) :
    codeProcedure rec node = (procedureEntry rec node >>= fun _ => procedureExit rec) := by
  unfold codeProcedure procedureEntry procedureExit
  simp only [gen_bind_assoc]

theorem codeMain_split (rec : Code) (node : ParseTreeNode) :
    codeMain rec node = (mainEntry rec node >>= fun _ => mainExit rec) := by
  unfold codeMain mainEntry mainExit
  simp only [gen_bind_assoc]

/-- Sequencing of a step that returns with a step that returns. -/
theorem run_bind_of {x : Gen Unit} {f : Unit → Gen Unit} {st : GenState}
    {P Q : GenState → Prop} (hx : ∃ s1, x st = (.ok (), s1) ∧ P s1)
    (hf : ∀ s1, P s1 → ∃ s2, f () s1 = (.ok (), s2) ∧ Q s2) :
    ∃ s2, (x >>= f) st = (.ok (), s2) ∧ Q s2 := by
  obtain ⟨s1, h1, hp⟩ := hx
  obtain ⟨s2, h2, hq⟩ := hf s1 hp
  exact ⟨s2, by rw [gen_bind_eval h1]; exact h2, hq⟩

theorem allocateStep_sublist (dereferenced : List String) (acc : List (String × String) × Nat)
    (l : String × Option String) (done : List (String × String))
    (h : acc.1.Sublist done) :
    (allocateStep dereferenced acc l).1.Sublist (done ++ [localVariable l]) := by
  unfold allocateStep
  split
  · exact List.Sublist.append h (List.Sublist.refl _)
  · exact h.trans (List.sublist_append_left _ _)

/-- The locals in the frame are some of the locals, in their order. -/
theorem allocate_sublist (dereferenced : List String) (free : Nat) :
    ∀ ls : List (String × Option String),
      (allocate dereferenced free ls).1.Sublist (ls.map localVariable) := by
  intro ls
  induction ls using List.reverseRecOn with
  | nil => exact List.Sublist.refl _
  | append_singleton init l ih =>
    rw [allocate_snoc, List.map_append]
    exact allocateStep_sublist dereferenced _ l _ ih

end wlp4gen

namespace wlp4gen

theorem frameVariables_names (st : GenState) (ps : List (String × Bool))
    (ls : List (String × Option String))
    (hnames : (ps.map Prod.fst ++ ls.map Prod.fst).Nodup) :
    ((frameVariables st ps ls).map Prod.fst).Nodup := by
  unfold frameVariables
  rw [List.map_append, List.map_map]
  have hsub := (allocate_sublist st.dereferencedVariables st.freeRegisters.length ls).map Prod.fst
  rw [List.map_map] at hsub
  have he : (Prod.fst ∘ localVariable : String × Option String → String) = Prod.fst := rfl
  rw [he] at hsub
  have hp : (Prod.fst ∘ fun v : String × Bool => (v.1, typeName v.2)) = Prod.fst := rfl
  rw [hp]
  exact List.Nodup.sublist (List.Sublist.append (List.Sublist.refl _) hsub) hnames

theorem frameVariables_length (st : GenState) (ps : List (String × Bool))
    (ls : List (String × Option String)) :
    (frameVariables st ps ls).length ≤ ps.length + ls.length := by
  unfold frameVariables
  rw [List.length_append, List.length_map]
  have := (allocate_sublist st.dereferencedVariables st.freeRegisters.length ls).length_le
  rw [List.length_map] at this
  omega

/-- The code of a procedure up to the call of `incrementSymbolTable` returns,
and the frame table then has the offsets of the specification: the first
parameter is at 4 times the number of parameters and each next variable 4
lower. -/
theorem procedureEntry_table (name : String) (ps : List (String × Bool))
    (ls : List (String × Option String)) (statements expr : ParseTreeNode) (st : GenState)
    (hnames : (ps.map Prod.fst ++ ls.map Prod.fst).Nodup)
    (hsize : 4 * ((ps.length : Int) + ls.length) ≤ INT_MAX) :
    ∃ st1, procedureEntry
        (fun i => codeAt (procedureOf name (paramsOf (ps.map declaration)) (localsOf ls)
          statements expr).children i)
        (procedureOf name (paramsOf (ps.map declaration)) (localsOf ls) statements expr) st
        = (.ok (), st1) ∧
      st1.symbol_table = specOffsets (4 * (ps.length : Int)) (frameVariables st ps ls) := by
  have hmin := int_min_eq
  have hlen := frameVariables_length st ps ls
  have hlen1 : ((frameVariables st ps ls).length : Int) ≤ (ps.length : Int) + ls.length := by
    exact_mod_cast hlen
  have hps : (0 : Int) ≤ ps.length := Int.ofNat_nonneg _
  have hls : (0 : Int) ≤ ls.length := Int.ofNat_nonneg _
  have hvs : (0 : Int) ≤ (frameVariables st ps ls).length := Int.ofNat_nonneg _
  obtain ⟨s1, r1, f1⟩ := (quiet_emit "; Symbol table cleared").run st
  simp only [frameOf, Prod.mk.injEq] at f1
  obtain ⟨s2, r2, t2, o2, d2, g2⟩ : ∃ s2, clearSymbolTable s1 = (.ok (), s2) ∧
      s2.symbol_table = [] ∧ s2.latestOffset = 0 ∧
      s2.dereferencedVariables = st.dereferencedVariables ∧
      s2.freeRegisters = st.freeRegisters := ⟨_, rfl, rfl, rfl, f1.2.2.1, f1.2.2.2⟩
  obtain ⟨s3, r3, f3⟩ := (quiet_emit ("F" ++ (leaf "ID" name).token.lexeme ++ ":")).run s2
  simp only [frameOf, Prod.mk.injEq] at f3
  obtain ⟨s4, r4, f4⟩ := (quiet_emit "sub $29, $30, $4").run s3
  simp only [frameOf, Prod.mk.injEq] at f4
  have o4 : s4.latestOffset = 0 := by rw [f4.2.1, f3.2.1, o2]
  obtain ⟨s5, r5, p5, g5⟩ := code_params ps s4 (by omega) (by omega)
  have o5 : s5.latestOffset = -4 * (ps.length : Int) := by
    rw [p5.offset, o4, List.length_map]
    ring
  obtain ⟨s6, r6, p6, -⟩ := code_locals ls s5 (by omega) (by omega)
  have hd5 : s5.dereferencedVariables = st.dereferencedVariables := by
    rw [p5.dereferenced, f4.2.2.1, f3.2.2.1, d2]
  have hg5 : s5.freeRegisters = st.freeRegisters := by
    rw [g5, f4.2.2.2, f3.2.2.2, g2]
  rw [hd5, hg5] at p6
  have p46 := places_trans p5 p6
  have t6 : s6.symbol_table = specOffsets 0 (frameVariables st ps ls) := by
    rw [p46.table, f4.1, f3.1, t2, o4]
    exact (place_eq_spec _ [] 0 (frameVariables_names st ps ls hnames)
      (fun _ _ => rfl)).trans (List.nil_append _)
  obtain ⟨s7, r7, f7⟩ := (quiet_emit "; Push All Registers").run s6
  simp only [frameOf, Prod.mk.injEq] at f7
  obtain ⟨s8, r8, f8⟩ := quiet_pushAllRegisters.run s7
  simp only [frameOf, Prod.mk.injEq] at f8
  obtain ⟨s9, r9, f9⟩ := quiet_printSymbolTable.run s8
  simp only [frameOf, Prod.mk.injEq] at f9
  have t9 : s9.symbol_table = specOffsets 0 (frameVariables st ps ls) := by
    rw [f9.1, f8.1, f7.1, t6]
  have hnum : getNumParams (paramsOf (ps.map declaration)) = .ok (ps.length : Int) := by
    have := getNumParams_params (ps.map declaration) (by rw [List.length_map]; omega)
    rwa [List.length_map] at this
  have hinc : checked (4 * (ps.length : Int)) = .ok (4 * (ps.length : Int)) :=
    checked_of_range _ (by omega) (by omega)
  have hmap := increment_spec (4 * (ps.length : Int)) (frameVariables st ps ls) 0
    (by omega) (by omega) (by omega) (by omega)
  rw [zero_add] at hmap
  have r10 : incrementSymbolTable (4 * (ps.length : Int)) s9
      = (.ok (), { s9 with
          symbol_table := specOffsets (4 * (ps.length : Int)) (frameVariables st ps ls) }) := by
    unfold incrementSymbolTable
    rw [t9, hmap]
  refine ⟨{ s9 with
    symbol_table := specOffsets (4 * (ps.length : Int)) (frameVariables st ps ls) }, ?_, rfl⟩
  unfold procedureEntry
  rw [gen_bind_eval r1, gen_bind_eval r2]
  rw [show childOf (procedureOf name (paramsOf (ps.map declaration)) (localsOf ls)
    statements expr) 1 = pure (leaf "ID" name) from rfl, gen_pure_bind]
  rw [gen_bind_eval r3, gen_bind_eval r4]
  beta_reduce
  rw [show codeAt (procedureOf name (paramsOf (ps.map declaration)) (localsOf ls)
    statements expr).children 3 = code (paramsOf (ps.map declaration)) from rfl,
    gen_bind_eval r5]
  rw [show codeAt (procedureOf name (paramsOf (ps.map declaration)) (localsOf ls)
    statements expr).children 6 = code (localsOf ls) from rfl, gen_bind_eval r6]
  rw [gen_bind_eval r7, gen_bind_eval r8, gen_bind_eval r9]
  rw [show childOf (procedureOf name (paramsOf (ps.map declaration)) (localsOf ls)
    statements expr) 3 = pure (paramsOf (ps.map declaration)) from rfl, gen_pure_bind]
  rw [hnum, show (Gen.lift (Except.ok (ps.length : Int)) : Gen Int) = pure (ps.length : Int)
    from rfl, gen_pure_bind]
  rw [hinc, show (Gen.lift (Except.ok (4 * (ps.length : Int))) : Gen Int)
    = pure (4 * (ps.length : Int)) from rfl, gen_pure_bind]
  exact r10

end wlp4gen

namespace wlp4gen

theorem child_declaration (v : String × Bool) :
    childOf (declaration v) 1 = pure (.terminal ⟨"ID", v.1⟩ (typeName v.2)) := by
  obtain ⟨name, pointer⟩ := v
  cases pointer <;> rfl

theorem frameParameters_one (dereferenced : List String) (a : String × Bool) :
    frameParameters dereferenced [a]
      = if a.1 ∈ dereferenced then [(a.1, typeName a.2)] else [] := by
  unfold frameParameters
  by_cases h : a.1 ∈ dereferenced
  · simp [h]
  · simp [h]

theorem frameParameters_two (dereferenced : List String) (a b : String × Bool) :
    frameParameters dereferenced [a, b]
      = frameParameters dereferenced [a] ++ frameParameters dereferenced [b] := by
  unfold frameParameters
  rw [← List.map_append, ← List.filter_append]
  rfl

theorem frameParameters_sublist (dereferenced : List String) (ps : List (String × Bool)) :
    (frameParameters dereferenced ps).Sublist (ps.map (fun v => (v.1, typeName v.2))) :=
  (List.filter_sublist _).map _

/-- Lines 885-905 for one parameter of `wain`: it gets a place in the frame
exactly when its address is taken. -/
theorem codeParameter_places (rec : Code) (node : ParseTreeNode) (i : Nat) (reg : String)
    (a : String × Bool) (st : GenState) (hchild : node.children.get? i = some (declaration a))
    (hrec : rec i = code (declaration a))
    (hlow : INT_MIN ≤ st.latestOffset - 4) (hhigh : st.latestOffset ≤ 0) :
    ∃ st1, codeParameter rec node i reg st = (.ok (), st1) ∧
      Places (frameParameters st.dereferencedVariables [a]) st st1 ∧
      st1.freeRegisters = st.freeRegisters := by
  have hc : childOf node i = pure (declaration a) := by
    unfold childOf
    rw [hchild]
  unfold codeParameter
  rw [hc, gen_pure_bind, child_declaration, gen_pure_bind, frameParameters_one]
  have hlex : (ParseTreeNode.terminal ⟨"ID", a.1⟩ (typeName a.2)).token.lexeme = a.1 := rfl
  rw [hlex]
  have hin : inDereferencedVars a.1 st = (.ok (decide (a.1 ∈ st.dereferencedVariables)), st) :=
    rfl
  rw [gen_bind_eval hin]
  by_cases h : a.1 ∈ st.dereferencedVariables
  · obtain ⟨st1, hrun, hp, hf, -⟩ := declaration_places a st hlow hhigh
    refine ⟨st1, ?_, by rw [if_pos h]; exact hp, hf⟩
    simp only [ParseTreeNode.terminal, ParseTreeNode.token, h, decide_True, Bool.not_true,
      Bool.false_eq_true, not_true_eq_false, ↓reduceIte, not_false_eq_true]
    rw [hrec]
    exact hrun
  · obtain ⟨st1, hrun, hf⟩ := (quiet_seq (quiet_setRegister a.1 reg)
      (quiet_emit ("; Variable " ++ a.1 ++ " assigned to register " ++ reg))).run st
    refine ⟨st1, ?_, by rw [if_neg h]; exact places_of_frame (places_nil st) hf, ?_⟩
    · simp only [ParseTreeNode.terminal, ParseTreeNode.token, h, decide_False,
        Bool.false_eq_true, not_false_eq_true, ↓reduceIte]
      exact hrun
    · simp only [frameOf, Prod.mk.injEq] at hf
      exact hf.2.2.2

theorem quiet_initHeap (a : String × Bool) : Quiet (initHeap (declaration a)) := by
  unfold initHeap
  rw [child_declaration]
  refine quiet_seq (quiet_emit _) (quiet_seq (quiet_push _) (quiet_seq (quiet_push _) ?_))
  rw [gen_pure_bind]
  exact quiet_seq (quiet_ite (quiet_emit _) quiet_pure) (quiet_seq (quiet_emit _)
    (quiet_seq (quiet_emit _) (quiet_seq (quiet_emit _) (quiet_seq (quiet_pop _)
      (quiet_seq (quiet_pop _) (quiet_emit _))))))

end wlp4gen

namespace wlp4gen

theorem wainVariables_names (st : GenState) (a b : String × Bool)
    (ls : List (String × Option String))
    (hnames : ([a.1, b.1] ++ ls.map Prod.fst).Nodup) :
    ((wainVariables st a b ls).map Prod.fst).Nodup := by
  unfold wainVariables
  have h1 := (frameParameters_sublist st.dereferencedVariables [a, b]).map Prod.fst
  have h2 := (allocate_sublist st.dereferencedVariables st.freeRegisters.length ls).map Prod.fst
  rw [List.map_map] at h1 h2
  have he : (Prod.fst ∘ localVariable : String × Option String → String) = Prod.fst := rfl
  have hp : (Prod.fst ∘ fun v : String × Bool => (v.1, typeName v.2)) = Prod.fst := rfl
  rw [he] at h2
  rw [hp] at h1
  rw [List.map_append]
  exact List.Nodup.sublist (List.Sublist.append h1 h2) hnames

theorem wainVariables_length (st : GenState) (a b : String × Bool)
    (ls : List (String × Option String)) :
    (wainVariables st a b ls).length ≤ 2 + ls.length := by
  unfold wainVariables
  rw [List.length_append]
  have h1 := (frameParameters_sublist st.dereferencedVariables [a, b]).length_le
  have h2 := (allocate_sublist st.dereferencedVariables st.freeRegisters.length ls).length_le
  rw [List.length_map] at h1 h2
  simp only [List.length_cons, List.length_nil] at h1
  omega

/-- The code of `wain` up to the end of its declarations returns, and the frame
table then has the offsets of the specification, from 0 down. -/
theorem mainEntry_table (a b : String × Bool) (ls : List (String × Option String))
    (statements expr : ParseTreeNode) (st : GenState)
    (hnames : ([a.1, b.1] ++ ls.map Prod.fst).Nodup)
    (hsize : 4 * (2 + (ls.length : Int)) ≤ INT_MAX) :
    ∃ st1, mainEntry
        (fun i => codeAt (wainOf (declaration a) (declaration b) (localsOf ls)
          statements expr).children i)
        (wainOf (declaration a) (declaration b) (localsOf ls) statements expr) st
        = (.ok (), st1) ∧
      st1.symbol_table = specOffsets 0 (wainVariables st a b ls) := by
  have hmin := int_min_eq
  have hls : (0 : Int) ≤ ls.length := Int.ofNat_nonneg _
  obtain ⟨s1, r1, t1, o1, d1, g1⟩ : ∃ s1, clearSymbolTable st = (.ok (), s1) ∧
      s1.symbol_table = [] ∧ s1.latestOffset = 0 ∧
      s1.dereferencedVariables = st.dereferencedVariables ∧
      s1.freeRegisters = st.freeRegisters := ⟨_, rfl, rfl, rfl, rfl, rfl⟩
  obtain ⟨s2, r2, f2⟩ := (quiet_emit "wain:").run s1
  simp only [frameOf, Prod.mk.injEq] at f2
  have o2 : s2.latestOffset = 0 := f2.2.1.trans o1
  obtain ⟨s3, r3, p3, g3⟩ := codeParameter_places
    (fun i => codeAt (wainOf (declaration a) (declaration b) (localsOf ls)
      statements expr).children i)
    (wainOf (declaration a) (declaration b) (localsOf ls) statements expr) 3 "$1" a s2
    rfl rfl (by omega) (by omega)
  have hl3 := (frameParameters_sublist s2.dereferencedVariables [a]).length_le
  rw [List.length_map] at hl3
  simp only [List.length_cons, List.length_nil] at hl3
  have o3 := p3.offset
  obtain ⟨s4, r4, p4, g4⟩ := codeParameter_places
    (fun i => codeAt (wainOf (declaration a) (declaration b) (localsOf ls)
      statements expr).children i)
    (wainOf (declaration a) (declaration b) (localsOf ls) statements expr) 5 "$2" b s3
    rfl rfl (by omega) (by omega)
  have hl4 := (frameParameters_sublist s3.dereferencedVariables [b]).length_le
  rw [List.length_map] at hl4
  simp only [List.length_cons, List.length_nil] at hl4
  have o4 := p4.offset
  obtain ⟨s5, r5, f5⟩ := (quiet_initHeap a).run s4
  simp only [frameOf, Prod.mk.injEq] at f5
  obtain ⟨s6, r6, p6, -⟩ := code_locals ls s5 (by omega) (by omega)
  have hd2 : s2.dereferencedVariables = st.dereferencedVariables := f2.2.2.1.trans d1
  have hd3 : s3.dereferencedVariables = st.dereferencedVariables := p3.dereferenced.trans hd2
  have hd5 : s5.dereferencedVariables = st.dereferencedVariables :=
    f5.2.2.1.trans (p4.dereferenced.trans hd3)
  have hg5 : s5.freeRegisters = st.freeRegisters := by
    rw [f5.2.2.2, g4, g3, f2.2.2.2, g1]
  rw [hd5, hg5] at p6
  rw [hd2] at p3
  rw [hd3] at p4
  have p26 := places_trans (places_trans p3 p4) (places_of_frame_left
    (show frameOf s5 = frameOf s4 by simp only [frameOf, Prod.mk.injEq]; exact f5) p6)
  rw [← frameParameters_two] at p26
  refine ⟨s6, ?_, ?_⟩
  · unfold mainEntry
    rw [gen_bind_eval r1, gen_bind_eval r2, gen_bind_eval r3, gen_bind_eval r4]
    rw [show childOf (wainOf (declaration a) (declaration b) (localsOf ls)
      statements expr) 3 = pure (declaration a) from rfl, gen_pure_bind, gen_bind_eval r5]
    exact r6
  · rw [p26.table, f2.1, t1, o2]
    exact (place_eq_spec _ [] 0 (wainVariables_names st a b ls hnames)
      (fun _ _ => rfl)).trans (List.nil_append _)

end wlp4gen

namespace wlp4gen

/-- The table of the specification has the property `Descends`. -/
theorem specOffsets_descends : ∀ (vars : List (String × String)) (first : Int),
    first ≤ INT_MAX → INT_MIN ≤ first - 4 * (vars.length : Int) →
    Descends first vars (specOffsets first vars) := by
  intro vars
  induction vars with
  | nil =>
    intro first _ _
    refine ⟨rfl, ?_, List.nodup_nil⟩
    intro i entry h
    cases h
  | cons v vars ih =>
    intro first h1 h2
    obtain ⟨name, type⟩ := v
    have hlen : (((name, type) :: vars).length : Int) = vars.length + 1 := by simp
    rw [hlen] at h2
    have hvs : (0 : Int) ≤ vars.length := Int.ofNat_nonneg _
    obtain ⟨hnames, hvalues, hdistinct⟩ := ih (first - 4) (by omega) (by omega)
    have hfirst : stoi (to_string first) = .ok first := stoi_to_string first ⟨by omega, h1⟩
    refine ⟨?_, ?_, ?_⟩
    · show (name, type) :: (specOffsets (first - 4) vars).map _ = _
      rw [hnames]
    · intro i entry h
      cases i with
      | zero =>
        cases h
        simpa using hfirst
      | succ i =>
        have := hvalues i entry h
        rw [this]
        congr 1
        push_cast
        ring
    · show (to_string first :: (specOffsets (first - 4) vars).map _).Nodup
      refine List.nodup_cons.mpr ⟨?_, hdistinct⟩
      intro hmem
      obtain ⟨entry, hentry, htext⟩ := List.mem_map.mp hmem
      obtain ⟨i, hi⟩ := List.get?_of_mem hentry
      have := hvalues i entry hi
      rw [htext, hfirst] at this
      have hvalue : first = first - 4 - 4 * (i : Int) := Except.ok.inj this
      have hi0 : (0 : Int) ≤ i := Int.ofNat_nonneg _
      omega

theorem specOffsets_length (first : Int) (vars : List (String × String)) :
    (specOffsets first vars).length = vars.length := by
  induction vars generalizing first with
  | nil => rfl
  | cons v vars ih =>
    obtain ⟨name, type⟩ := v
    show (specOffsets (first - 4) vars).length + 1 = vars.length + 1
    rw [ih]

end wlp4gen

namespace wlp4gen

theorem specOffsets_get : ∀ (vars : List (String × String)) (first : Int) (i : Nat)
    (v : String × String), vars.get? i = some v →
    (specOffsets first vars).get? i = some (v.1, (v.2, to_string (first - 4 * (i : Int)))) := by
  intro vars
  induction vars with
  | nil => intro first i v h; cases h
  | cons w vars ih =>
    intro first i v h
    obtain ⟨name, type⟩ := w
    cases i with
    | zero =>
      cases h
      show some (name, (type, to_string first)) = _
      simp
    | succ i =>
      have := ih (first - 4) i v h
      show (specOffsets (first - 4) vars).get? i = _
      rw [this]
      congr 4
      push_cast
      ring

/-- C38: the variables that get a place in the frame table get their offsets in
declaration order, each 4 less than the one before and no two the same
(`Descends`).  For `wain` the code up to the end of the declarations returns
and the first offset is 0.  For a procedure with `n` parameters the code up to
the end of `incrementSymbolTable` returns, and in the table it leaves the k-th
parameter (counted from 1) has the offset `4 * (n - k + 1)` and the j-th local
in the frame (counted from 1) the offset `-4 * (j - 1)`.  The names of one
procedure are distinct and 4 times the number of its variables is an `int`. -/
theorem frame_offsets (name : String) (a b : String × Bool) (ps : List (String × Bool))
    (ls : List (String × Option String)) (statements expr : ParseTreeNode) (st : GenState)
    (hsize : 4 * ((ps.length : Int) + ls.length + 2) ≤ INT_MAX) :
    (([a.1, b.1] ++ ls.map Prod.fst).Nodup →
      code (wainWith a b ls statements expr)
        = (mainEntry (codeAt (wainWith a b ls statements expr).children)
            (wainWith a b ls statements expr) >>= fun _ =>
              mainExit (codeAt (wainWith a b ls statements expr).children)) ∧
      ∃ st1, mainEntry (codeAt (wainWith a b ls statements expr).children)
          (wainWith a b ls statements expr) st = (.ok (), st1) ∧
        Descends 0 (wainVariables st a b ls) st1.symbol_table) ∧
    ((ps.map Prod.fst ++ ls.map Prod.fst).Nodup →
      code (procedureWith name ps ls statements expr)
        = (procedureEntry (codeAt (procedureWith name ps ls statements expr).children)
            (procedureWith name ps ls statements expr) >>= fun _ =>
              procedureExit (codeAt (procedureWith name ps ls statements expr).children)) ∧
      ∃ st1, procedureEntry (codeAt (procedureWith name ps ls statements expr).children)
          (procedureWith name ps ls statements expr) st = (.ok (), st1) ∧
        Descends (4 * (ps.length : Int)) (frameVariables st ps ls) st1.symbol_table ∧
        (∀ (k : Nat) p, 1 ≤ k → ps.get? (k - 1) = some p →
          ∃ offset, st1.symbol_table.get? (k - 1) = some (p.1, (typeName p.2, offset)) ∧
            stoi offset = .ok (4 * ((ps.length : Int) - k + 1))) ∧
        ∀ (j : Nat) v, 1 ≤ j →
          (allocate st.dereferencedVariables st.freeRegisters.length ls).1.get? (j - 1) = some v →
          ∃ offset, st1.symbol_table.get? (ps.length + (j - 1)) = some (v.1, (v.2, offset)) ∧
            stoi offset = .ok (-4 * ((j : Int) - 1))) := by
  have hmin := int_min_eq
  have hps : (0 : Int) ≤ ps.length := Int.ofNat_nonneg _
  have hls : (0 : Int) ≤ ls.length := Int.ofNat_nonneg _
  constructor
  · intro hnames
    refine ⟨codeMain_split _ _, ?_⟩
    obtain ⟨st1, hrun, htable⟩ := mainEntry_table a b ls statements expr st hnames (by omega)
    refine ⟨st1, hrun, ?_⟩
    rw [htable]
    have hlen : ((wainVariables st a b ls).length : Int) ≤ 2 + ls.length := by
      exact_mod_cast wainVariables_length st a b ls
    exact specOffsets_descends _ 0 (by omega) (by omega)
  · intro hnames
    refine ⟨codeProcedure_split _ _, ?_⟩
    obtain ⟨st1, hrun, htable⟩ :=
      procedureEntry_table name ps ls statements expr st hnames (by omega)
    have hlen : ((frameVariables st ps ls).length : Int) ≤ (ps.length : Int) + ls.length := by
      exact_mod_cast frameVariables_length st ps ls
    refine ⟨st1, hrun, ?_, ?_, ?_⟩
    · rw [htable]
      exact specOffsets_descends _ _ (by omega) (by omega)
    · intro k p hk hp
      have hlt : k - 1 < ps.length := List.get?_eq_some.mp hp |>.1
      have hv : (frameVariables st ps ls).get? (k - 1) = some (p.1, typeName p.2) := by
        unfold frameVariables
        rw [List.get?_eq_getElem?, List.getElem?_append_left
          (by rw [List.length_map]; exact hlt), List.getElem?_map, ← List.get?_eq_getElem?, hp]
        rfl
      refine ⟨_, by rw [htable]; exact specOffsets_get _ _ _ _ hv, ?_⟩
      have hcast : ((k - 1 : Nat) : Int) = (k : Int) - 1 := by omega
      rw [hcast, stoi_to_string _ ⟨by omega, by omega⟩]
      congr 1
      ring
    · intro j v hj hv
      have hlt : j - 1 < (allocate st.dereferencedVariables st.freeRegisters.length ls).1.length :=
        List.get?_eq_some.mp hv |>.1
      have hl := (allocate_sublist st.dereferencedVariables st.freeRegisters.length ls).length_le
      rw [List.length_map] at hl
      have hw : (frameVariables st ps ls).get? (ps.length + (j - 1)) = some v := by
        unfold frameVariables
        rw [List.get?_eq_getElem?, List.getElem?_append_right
          (by rw [List.length_map]; omega), List.length_map, Nat.add_sub_cancel_left,
          ← List.get?_eq_getElem?]
        exact hv
      refine ⟨_, by rw [htable]; exact specOffsets_get _ _ _ _ hw, ?_⟩
      have hcast : ((ps.length + (j - 1) : Nat) : Int) = (ps.length : Int) + ((j : Int) - 1) := by
        omega
      rw [hcast, stoi_to_string _ ⟨by omega, by omega⟩]
      congr 1
      ring

end wlp4gen

namespace wlp4gen

/-- For `int f(int* p, int n) { int x = 1; int* q = NULL; int y = 2; ... }` and
for `wain` with the parameters `int* a, int b` and the same locals, where the
address of `y`, `q` and `a` is taken: `x` gets a register, the frame of `f` has
`p`, `n`, `q`, `y` from 8 down and the frame of `wain` has `a`, `q`, `y` from 0
down. -/
theorem frame_offsets_witness :
    4 * (((2 : Nat) : Int) + ((3 : Nat) : Int) + 2) ≤ INT_MAX ∧
    (["a", "b"] ++ ["x", "q", "y"]).Nodup ∧ (["p", "n"] ++ ["x", "q", "y"]).Nodup ∧
    wainVariables addressesTaken ("a", true) ("b", false)
        [("x", some "1"), ("q", none), ("y", some "2")]
      = [("a", "int*"), ("q", "int*"), ("y", "int")] ∧
    frameVariables addressesTaken [("p", true), ("n", false)]
        [("x", some "1"), ("q", none), ("y", some "2")]
      = [("p", "int*"), ("n", "int"), ("q", "int*"), ("y", "int")] ∧
    (∃ st1, mainEntry
        (codeAt (wainWith ("a", true) ("b", false) [("x", some "1"), ("q", none), ("y", some "2")]
          (emptyRule "statements") (literalExpr "0")).children)
        (wainWith ("a", true) ("b", false) [("x", some "1"), ("q", none), ("y", some "2")]
          (emptyRule "statements") (literalExpr "0")) addressesTaken = (.ok (), st1) ∧
      Descends 0 (wainVariables addressesTaken ("a", true) ("b", false)
        [("x", some "1"), ("q", none), ("y", some "2")]) st1.symbol_table) ∧
    ∃ st1, procedureEntry
        (codeAt (procedureWith "f" [("p", true), ("n", false)]
          [("x", some "1"), ("q", none), ("y", some "2")]
          (emptyRule "statements") (literalExpr "0")).children)
        (procedureWith "f" [("p", true), ("n", false)]
          [("x", some "1"), ("q", none), ("y", some "2")]
          (emptyRule "statements") (literalExpr "0")) addressesTaken = (.ok (), st1) ∧
      Descends (4 * ((2 : Nat) : Int)) (frameVariables addressesTaken [("p", true), ("n", false)]
        [("x", some "1"), ("q", none), ("y", some "2")]) st1.symbol_table := by
  have hsize : 4 * (((2 : Nat) : Int) + ((3 : Nat) : Int) + 2) ≤ INT_MAX := by decide
  have h := frame_offsets "f" ("a", true) ("b", false) [("p", true), ("n", false)]
    [("x", some "1"), ("q", none), ("y", some "2")] (emptyRule "statements") (literalExpr "0")
    addressesTaken hsize
  obtain ⟨-, st1, hrun1, htable1⟩ := h.1 (by decide)
  obtain ⟨-, st2, hrun2, htable2, -, -⟩ := h.2 (by decide)
  exact ⟨hsize, by decide, by decide, by decide, by decide, ⟨st1, hrun1, htable1⟩,
    ⟨st2, hrun2, htable2⟩⟩

end wlp4gen

/-! ## Code generator: the comparison of a test -/

namespace wlp4gen

end wlp4gen

namespace wlp4gen

end wlp4gen

/-! ## Scanner: reserved words inside a chunk -/

namespace wlp4scan

/-- C40 (the code at the failing input): in the chunk `(int*` the reserved
word `int` starts at position 1 and is followed by `*`; the scanner compares
`s.substr(1, 4)`, which is `int*`, with `int`, finds no keyword and prints the
run as `ID int`.  In the same way `else` in `\x7delse\x7b` is printed as
`ID else`.  A reserved word is recognised at position 0 (`int*`) and at the end
of a chunk (`x=int`). -/
theorem keyword_inside_chunk :
    scanChunk "(int*" = (["LPAREN (", "ID int", "STAR *"], none, false) ∧
    scanChunk "\x7delse\x7b" = (["RBRACE \x7d", "ID else", "LBRACE \x7b"], none, false) ∧
    scanChunk "int*" = (["INT int", "STAR *"], none, false) ∧
    scanChunk "x=int" = (["ID x", "BECOMES =", "INT int"], none, false) := by
  decide

end wlp4scan
